import Mathlib

/-! MQ2Main/ArrayClass.h: dynamic arrays.

A shallow embedding of the container templates of `src/MQ2Main/ArrayClass.h`.

* `int` is a 32-bit two's complement integer: values are `Int`s and every
  `+`, `-`, `<<`, `++`, `--` of the source is followed by `wrapInt`.
* A block obtained from `new T[n]` is a `List T` of `n` default-constructed
  elements; a null pointer is `none`.  Reading or writing outside a block is
  undefined behaviour and is reported as `undefined`.
* `new` is the one the code is written for (null on failure); whether a request
  is granted is an argument of the operation that makes it, and a request for a
  negative number of elements is never granted.  Where the new-expression itself
  rejects a negative count (`std::bad_array_new_length`) the null test of the caller
  is not reached, and what the model says of a failed allocation applies to a
  refused request for a count that is not negative.
* The cells of a fresh block hold `default`, the value of a default-constructed
  element: this is `new T[n]` for an element type with a default constructor.  For
  a trivially constructible `T` (`int`, a pointer) the cells of a fresh block are
  uninitialised, and what a theorem says about the content of a cell that was never
  written holds under the premise of a default-constructed element type only.
* A thrown exception leaves the object behind: `throw e s` carries the exception
  and the state of the object at the throw.
* An array owns its storage, so an array is modelled with the cells of its block
  inside it (`ArrayClass`, `ArrayClass2`).  Where two arrays are in play at once,
  the contiguous array is also modelled as an object holding an address into a
  shared heap (`ArrayClassObject`), and `Sound` ties the two models together.
* The constructor `ArrayClass(int reserve)` refers to an undeclared `size` and is
  left out.
* The hash table `HashTable` is taken at its default `Key = int`; a chain is the
  list of its entries and `Table` is null or the list of the chains.
* Of the hash-linked map `HashListMap` only `NodeGet` is modelled: a pointer is a
  byte address below `2^32`, and the offset of `Value` inside `Node` is a parameter.
-/

namespace MQ2

/-! ## Machine integers -/

/-- The least value of `int`. -/
def INT_MIN : Int := -2147483648

/-- The greatest value of `int`. -/
def INT_MAX : Int := 2147483647

/-- Reduction of a mathematical integer to the 32-bit two's complement `int`. -/
def wrapInt (x : Int) : Int := (x + 2147483648) % 4294967296 - 2147483648

/-! ## Exceptions and outcomes -/

/-- The exceptions thrown by the arrays: `CDynamicArrayException` carries the
container (`obj`), `CExceptionMemoryAllocation` the requested size. -/
inductive ArrayException (σ : Type) where
  | CDynamicArrayException (obj : σ)
  | CExceptionMemoryAllocation (size : Int)
  deriving DecidableEq, Repr

/-- Outcome of a member function that returns `void` (or `*this`) on an object
whose state has type `σ`. -/
inductive Outcome (σ : Type) where
  | ok (s : σ)
  | throw (e : ArrayException σ) (s : σ)
  | undefined
  deriving DecidableEq, Repr

/-- Outcome of a read access (`Get`) on an object whose state has type `σ`. -/
inductive Access (σ T : Type) where
  | value (x : T)
  | throw (e : ArrayException σ)
  | undefined
  deriving DecidableEq, Repr

/-- Sequencing of two steps on the same object: the second runs only when the
first returned normally. -/
def Outcome.andThen {σ : Type} (o : Outcome σ) (f : σ → Outcome σ) : Outcome σ :=
  match o with
  | .ok s => f s
  | .throw e s => .throw e s
  | .undefined => .undefined

/-- Whether the call returned normally. -/
def Outcome.isOk {σ : Type} : Outcome σ → Bool
  | .ok _ => true
  | _ => false

/-! ## Blocks of memory -/

/-- The expression `new T[n]`: a block of `n` default-constructed elements, or null
when the request is not granted or the size is negative.  Two premises are built in:
the element type has a default constructor, whose value is `default` (for a trivially
constructible `T` the cells of a fresh block are uninitialised), and a negative size
is answered like a refused request, with null (a new-expression that rejects it with
`std::bad_array_new_length` never reaches the caller's null test). -/
def newBlock (T : Type) [Inhabited T] (granted : Bool) (n : Int) : Option (List T) :=
  if granted = true ∧ 0 ≤ n then some (List.replicate n.toNat default) else none

/-- The read `blk[i]`; `none` outside the block. -/
def load {T : Type} (blk : List T) (i : Int) : Option T :=
  if i < 0 then none else blk[i.toNat]?

/-- The write `blk[i] = x`; `none` outside the block. -/
def store {T : Type} (blk : List T) (i : Int) (x : T) : Option (List T) :=
  if 0 ≤ i ∧ i < blk.length then some (blk.set i.toNat x) else none

/-- The loop `for (i = i0; ...; ++i) dst[i] = src[i]`, for `n` more rounds. -/
def copyElements {T : Type} (src : List T) : Nat → Int → List T → Option (List T)
  | 0, _, dst => some dst
  | n + 1, i, dst =>
    match load src i with
    | none => none
    | some x =>
      match store dst i x with
      | none => none
      | some dst1 => copyElements src n (wrapInt (i + 1)) dst1

/-- The loop `for (idx = ...; idx > index; --idx) blk[idx] = blk[idx - 1]`, for `n`
more rounds. -/
def shiftUp {T : Type} : Nat → Int → List T → Option (List T)
  | 0, _, blk => some blk
  | n + 1, idx, blk =>
    match load blk (wrapInt (idx - 1)) with
    | none => none
    | some x =>
      match store blk idx x with
      | none => none
      | some blk1 => shiftUp n (wrapInt (idx - 1)) blk1

/-- The loop `for (; index < m_length - 1; ++index) blk[index] = blk[index + 1]`,
for `n` more rounds. -/
def shiftDown {T : Type} : Nat → Int → List T → Option (List T)
  | 0, _, blk => some blk
  | n + 1, index, blk =>
    match load blk (wrapInt (index + 1)) with
    | none => none
    | some x =>
      match store blk index x with
      | none => none
      | some blk1 => shiftDown n (wrapInt (index + 1)) blk1

/-! ## The contiguous array: `ArrayClass_RO` and `ArrayClass` -/

/-- The data members of `ArrayClass_RO<T>` (with `m_length` of `CDynamicArrayBase`);
`ArrayClass<T>` adds none. -/
structure ArrayClass_RO (T : Type) where
  m_length : Int
  m_array : Option (List T)
  m_alloc : Int
  m_isValid : Bool
  deriving DecidableEq, Repr

/-- The class `ArrayClass<T>`: same members as its base. -/
abbrev ArrayClass (T : Type) : Type := ArrayClass_RO T

/-- The member `CDynamicArrayBase::GetLength`. -/
def ArrayClass_RO.GetLength {T : Type} (s : ArrayClass_RO T) : Int := s.m_length

/-- The member `ArrayClass_RO::Get` (both overloads, and `operator[]`). -/
def ArrayClass_RO.Get {T : Type} (s : ArrayClass_RO T) (index : Int) :
    Access (ArrayClass_RO T) T :=
  if index ≥ s.m_length ∨ index < 0 ∨ s.m_array.isNone = true then
    .throw (.CDynamicArrayException s)
  else
    match s.m_array with
    | none => .undefined
    | some blk =>
      match load blk index with
      | some x => .value x
      | none => .undefined

namespace ArrayClass

variable {T : Type}

/-- The constructor `ArrayClass()`. -/
def ctor : ArrayClass T :=
  { m_length := 0, m_array := none, m_alloc := 0, m_isValid := true }

/-- The member `ArrayClass::Reset`. -/
def Reset (s : ArrayClass T) : ArrayClass T :=
  { s with m_array := none, m_alloc := 0, m_length := 0 }

/-- The common body of `Assure` and `AssureExact` once the size to allocate is
known: the allocation, the failure path, the copy of the live elements. -/
def grow [Inhabited T] (granted : Bool) (s : ArrayClass T) (allocatedSize : Int) :
    Outcome (ArrayClass T) :=
  match newBlock T granted allocatedSize with
  | none =>
    .throw (.CExceptionMemoryAllocation allocatedSize)
      { s with m_array := none, m_alloc := 0, m_isValid := false }
  | some newArray =>
    match s.m_array with
    | some old =>
      match copyElements old s.m_length.toNat 0 newArray with
      | none => .undefined
      | some filled => .ok { s with m_array := some filled, m_alloc := allocatedSize }
    | none => .ok { s with m_array := some newArray, m_alloc := allocatedSize }

/-- The member `ArrayClass::Assure`. -/
def Assure [Inhabited T] (granted : Bool) (s : ArrayClass T) (requestedSize : Int) :
    Outcome (ArrayClass T) :=
  if requestedSize ≠ 0 ∧ (requestedSize > s.m_alloc ∨ s.m_array.isNone = true) then
    grow granted s (wrapInt (wrapInt (requestedSize + 4) * 2))
  else .ok s

/-- The member `ArrayClass::AssureExact`. -/
def AssureExact [Inhabited T] (granted : Bool) (s : ArrayClass T) (requestedSize : Int) :
    Outcome (ArrayClass T) :=
  if requestedSize ≠ 0 ∧ (requestedSize > s.m_alloc ∨ s.m_array.isNone = true) then
    grow granted s requestedSize
  else .ok s

/-- The statement `if (m_array) m_array[index] = element;`. -/
def storeIfArray (s : ArrayClass T) (index : Int) (element : T) : Outcome (ArrayClass T) :=
  match s.m_array with
  | none => .ok s
  | some blk =>
    match store blk index element with
    | none => .undefined
    | some blk1 => .ok { s with m_array := some blk1 }

/-- The member `ArrayClass::SetElementIdx`. -/
def SetElementIdx [Inhabited T] (granted : Bool) (s : ArrayClass T) (index : Int)
    (element : T) : Outcome (ArrayClass T) :=
  if index ≥ 0 then
    if index ≥ s.m_length then
      ((Assure granted s (wrapInt (index + 1))).andThen fun s1 =>
        .ok (if s1.m_array.isSome = true then { s1 with m_length := wrapInt (index + 1) }
          else s1)).andThen
        fun s2 => storeIfArray s2 index element
    else storeIfArray s index element
  else .ok s

/-- The member `ArrayClass::Add`. -/
def Add [Inhabited T] (granted : Bool) (s : ArrayClass T) (element : T) :
    Outcome (ArrayClass T) :=
  SetElementIdx granted s s.m_length element

/-- The member `ArrayClass::InsertElement`. -/
def InsertElement [Inhabited T] (granted : Bool) (s : ArrayClass T) (index : Int)
    (element : T) : Outcome (ArrayClass T) :=
  if index ≥ 0 then
    if index < s.m_length then
      (Assure granted s (wrapInt (s.m_length + 1))).andThen fun s1 =>
        match s1.m_array with
        | none => .ok s1
        | some blk =>
          match shiftUp (s1.m_length - index).toNat s1.m_length blk with
          | none => .undefined
          | some blk1 =>
            match store blk1 index element with
            | none => .undefined
            | some blk2 =>
              .ok { s1 with m_array := some blk2, m_length := wrapInt (s1.m_length + 1) }
    else SetElementIdx granted s index element
  else .ok s

/-- The member `ArrayClass::DeleteElement`. -/
def DeleteElement (s : ArrayClass T) (index : Int) : Outcome (ArrayClass T) :=
  match s.m_array with
  | none => .ok s
  | some blk =>
    if index ≥ 0 ∧ index < s.m_length then
      match shiftDown (wrapInt (s.m_length - 1) - index).toNat index blk with
      | none => .undefined
      | some blk1 => .ok { s with m_array := some blk1, m_length := wrapInt (s.m_length - 1) }
    else .ok s

/-- The statements shared by the copy constructor and `operator=` after the target
has been emptied: `if (rhs.m_length) { AssureExact(...); copy; m_length = ... }`. -/
def copyFrom [Inhabited T] (granted : Bool) (s rhs : ArrayClass T) : Outcome (ArrayClass T) :=
  if rhs.m_length ≠ 0 then
    (AssureExact granted s rhs.m_length).andThen fun s1 =>
      match s1.m_array with
      | none => .ok { s1 with m_length := rhs.m_length }
      | some blk =>
        match rhs.m_array with
        | none => if rhs.m_length ≤ 0 then .ok { s1 with m_length := rhs.m_length } else .undefined
        | some src =>
          match copyElements src rhs.m_length.toNat 0 blk with
          | none => .undefined
          | some blk1 => .ok { s1 with m_array := some blk1, m_length := rhs.m_length }
  else .ok s

/-- The copy constructor `ArrayClass(const ArrayClass& rhs)`. -/
def copyCtor [Inhabited T] (granted : Bool) (rhs : ArrayClass T) : Outcome (ArrayClass T) :=
  copyFrom granted ctor rhs

/-- The member `ArrayClass::operator=` for `this != &rhs` (on `this == &rhs` it
returns at once). -/
def assign [Inhabited T] (granted : Bool) (s rhs : ArrayClass T) : Outcome (ArrayClass T) :=
  copyFrom granted (Reset s) rhs

/-- The calls `Add(v_0); ...; Add(v_{n-1})` in that order; a call that throws ends
the sequence. -/
def addAll [Inhabited T] (granted : Bool) : List T → ArrayClass T → Outcome (ArrayClass T)
  | [], s => .ok s
  | v :: vs, s => (Add granted s v).andThen (addAll granted vs)

/-- The arrays reachable from the empty array by the public operations, every
allocation request being granted and no call ending in an exception or in
undefined behaviour; an index argument is an `int`. -/
inductive Reachable [Inhabited T] : ArrayClass T → Prop
  | ctor : Reachable ctor
  | Add (s s1 : ArrayClass T) (element : T) :
      Reachable s → Add true s element = .ok s1 → Reachable s1
  | SetElementIdx (s s1 : ArrayClass T) (index : Int) (element : T) :
      Reachable s → INT_MIN ≤ index → index ≤ INT_MAX →
      SetElementIdx true s index element = .ok s1 → Reachable s1
  | InsertElement (s s1 : ArrayClass T) (index : Int) (element : T) :
      Reachable s → INT_MIN ≤ index → index ≤ INT_MAX →
      InsertElement true s index element = .ok s1 → Reachable s1
  | DeleteElement (s s1 : ArrayClass T) (index : Int) :
      Reachable s → INT_MIN ≤ index → index ≤ INT_MAX →
      DeleteElement s index = .ok s1 → Reachable s1
  | Reset (s : ArrayClass T) : Reachable s → Reachable (Reset s)
  | copyCtor (rhs s1 : ArrayClass T) :
      Reachable rhs → copyCtor true rhs = .ok s1 → Reachable s1
  | assign (s rhs s1 : ArrayClass T) :
      Reachable s → Reachable rhs → assign true s rhs = .ok s1 → Reachable s1

/-- The cells of the block `m_array` points to (none when it is null). -/
def block (s : ArrayClass T) : List T := s.m_array.getD []

/-- Representation invariant of the contiguous array: the block has `m_alloc` cells
(none when `m_array` is null), of which the first `m_length` are live. -/
def WellFormed (s : ArrayClass T) : Prop :=
  ((block s).length : Int) = s.m_alloc ∧ 0 ≤ s.m_length ∧ s.m_length ≤ s.m_alloc ∧
    s.m_alloc ≤ INT_MAX

/-- What a successful `SetElementIdx(index, element)` with `index >= 0` leaves
behind, `s` being the array before the call and `s1` the array after it. -/
def SetElementIdxPost [Inhabited T] (s s1 : ArrayClass T) (index : Int) (element : T) : Prop :=
  WellFormed s1 ∧ s1.m_length = max s.m_length (index + 1) ∧
    load (block s1) index = some element ∧
    (∀ j : Int, 0 ≤ j → j < s.m_length → j ≠ index → load (block s1) j = load (block s) j) ∧
    s1.m_isValid = s.m_isValid ∧ (∃ blk, s1.m_array = some blk) ∧
    (index < s.m_alloc → s1.m_alloc = s.m_alloc ∧
      ∀ j : Int, j ≠ index → load (block s1) j = load (block s) j) ∧
    (s.m_alloc ≤ index → s1.m_alloc = (index + 5) * 2 ∧
      ∀ j : Int, s.m_length ≤ j → j < s1.m_alloc → j ≠ index →
        load (block s1) j = some default)

/-- What a successful `InsertElement(index, element)` with `0 <= index < m_length`
leaves behind, `s` being the array before the call and `s1` the array after it. -/
def InsertElementPost [Inhabited T] (s s1 : ArrayClass T) (index : Int) (element : T) : Prop :=
  WellFormed s1 ∧ s1.m_length = s.m_length + 1 ∧
    (∀ j : Int, 0 ≤ j → j < index → load (block s1) j = load (block s) j) ∧
    load (block s1) index = some element ∧
    (∀ j : Int, index ≤ j → j < s.m_length → load (block s1) (j + 1) = load (block s) j) ∧
    s1.m_isValid = s.m_isValid ∧ (∃ blk, s1.m_array = some blk) ∧ s.m_alloc ≤ s1.m_alloc ∧
    (∀ j : Int, s.m_length < j → j < s1.m_alloc →
      load (block s1) j = if j < s.m_alloc then load (block s) j else some default)

/-- What a successful `DeleteElement(index)` with `0 <= index < m_length` leaves
behind, `s` being the array before the call and `s1` the array after it. -/
def DeleteElementPost (s s1 : ArrayClass T) (index : Int) : Prop :=
  WellFormed s1 ∧ s1.m_length = s.m_length - 1 ∧
    (∀ j : Int, 0 ≤ j → j < index → load (block s1) j = load (block s) j) ∧
    (∀ j : Int, index < j → j < s.m_length → load (block s1) (j - 1) = load (block s) j) ∧
    s1.m_isValid = s.m_isValid ∧ s1.m_alloc = s.m_alloc ∧ (∃ blk, s1.m_array = some blk)

/-- The array after `Add(5)` on the freshly constructed array: one live element in
a block of ten. -/
def sampleOne : ArrayClass Int :=
  { m_length := 1, m_array := some (5 :: List.replicate 9 0), m_alloc := 10, m_isValid := true }

/-- The array after `Add(5); Add(6); Add(7)` on the freshly constructed array: three
live elements in a block of ten. -/
def sampleThree : ArrayClass Int :=
  { m_length := 3, m_array := some (5 :: 6 :: 7 :: List.replicate 7 0), m_alloc := 10,
    m_isValid := true }

/-- The exception a failed `new` ends in: `CExceptionMemoryAllocation`. -/
def AllocationFailed (o : Outcome (ArrayClass T)) : Prop :=
  ∃ size s, o = .throw (.CExceptionMemoryAllocation size) s

end ArrayClass

/-! ## The binned array: `ArrayClass2_RO` and `ArrayClass2` -/

/-- The expression `x >> count` on `int` (arithmetic shift); a count outside
`[0, 32)` is undefined behaviour. -/
def shiftRightInt (x count : Int) : Option Int :=
  if 0 ≤ count ∧ count < 32 then some (x >>> count.toNat) else none

/-- The expression `a & b` on `int`: the bitwise and of the two 32-bit two's
complement representations. -/
def andInt (a b : Int) : Int :=
  wrapInt (Int.ofNat (Nat.land (a % 4294967296).toNat (b % 4294967296).toNat))

/-- The read `dir[bin][slot]` through the directory of bins. -/
def readCell {T : Type} (dir : List (List T)) (bin slot : Int) : Option T :=
  match load dir bin with
  | none => none
  | some b => load b slot

/-- The write `dir[bin][slot] = x` through the directory of bins. -/
def writeCell {T : Type} (dir : List (List T)) (bin slot : Int) (x : T) :
    Option (List (List T)) :=
  match load dir bin with
  | none => none
  | some b =>
    match store b slot x with
    | none => none
    | some b1 => store dir bin b1

/-- The data members of `ArrayClass2_RO<T>` (with `m_length` of `CDynamicArrayBase`);
`ArrayClass2<T>` adds none.  `m_array` is the directory: the list of the bins. -/
structure ArrayClass2_RO (T : Type) where
  m_length : Int
  m_maxPerBin : Int
  m_slotMask : Int
  m_binShift : Int
  m_array : Option (List (List T))
  m_binCount : Int
  m_valid : Bool
  deriving DecidableEq, Repr

/-- The class `ArrayClass2<T>`: same members as its base. -/
abbrev ArrayClass2 (T : Type) : Type := ArrayClass2_RO T

namespace ArrayClass2_RO

variable {T : Type}

/-- The member `CDynamicArrayBase::GetLength`. -/
def GetLength (s : ArrayClass2_RO T) : Int := s.m_length

/-- The macro `GET_BIN_INDEX(x)`: `x >> static_cast<uint8_t>(m_binShift)`. -/
def GET_BIN_INDEX (s : ArrayClass2_RO T) (x : Int) : Option Int :=
  shiftRightInt x (s.m_binShift % 256)

/-- The macro `GET_SLOT_INDEX(x)`: `m_slotMask & index` (every use passes `index`). -/
def GET_SLOT_INDEX (s : ArrayClass2_RO T) (index : Int) : Int :=
  andInt s.m_slotMask index

/-- The lvalue `m_array[GET_BIN_INDEX(index)][GET_SLOT_INDEX(index)]` read. -/
def read (s : ArrayClass2_RO T) (index : Int) : Option T :=
  match s.m_array, s.GET_BIN_INDEX index with
  | some dir, some bin => readCell dir bin (s.GET_SLOT_INDEX index)
  | _, _ => none

/-- The lvalue `m_array[GET_BIN_INDEX(index)][GET_SLOT_INDEX(index)]` assigned. -/
def write (s : ArrayClass2_RO T) (index : Int) (x : T) : Option (ArrayClass2_RO T) :=
  match s.m_array, s.GET_BIN_INDEX index with
  | some dir, some bin =>
    match writeCell dir bin (s.GET_SLOT_INDEX index) x with
    | none => none
    | some dir1 => some { s with m_array := some dir1 }
  | _, _ => none

/-- The member `ArrayClass2_RO::Get` (both overloads, and `operator[]`): unchecked. -/
def Get (s : ArrayClass2_RO T) (index : Int) : Access (ArrayClass2_RO T) T :=
  match s.read index with
  | some x => .value x
  | none => .undefined

/-- The member `ArrayClass2_RO::SafeGet`.  The pointer `&m_array[bin][slot]` is given
as the pair of the bin and the slot of the cell it points to, `none` being the null
pointer; forming it reads `m_array[bin]`. -/
def SafeGet (s : ArrayClass2_RO T) (index : Int) :
    Access (ArrayClass2_RO T) (Option (Int × Int)) :=
  if index < s.m_length then
    match s.GET_BIN_INDEX index with
    | none => .undefined
    | some bin =>
      if bin < s.m_binCount then
        if s.GET_SLOT_INDEX index < s.m_maxPerBin then
          match s.m_array with
          | none => .undefined
          | some dir =>
            match load dir bin with
            | none => .undefined
            | some b =>
              if 0 ≤ s.GET_SLOT_INDEX index ∧ s.GET_SLOT_INDEX index ≤ b.length then
                .value (some (bin, s.GET_SLOT_INDEX index))
              else .undefined
        else .value none
      else .value none
  else .value none

/-- The loop `for (i = ...; i < m_length; ++i) if (Get(i) == element) return true;`
of `IsMember`, for `n` more rounds, followed by `return false`; `none` when a
`Get(i)` is outside the storage. -/
def isMemberLoop [DecidableEq T] (s : ArrayClass2_RO T) (element : T) : Nat → Int → Option Bool
  | 0, _ => some false
  | n + 1, i =>
    match s.read i with
    | none => none
    | some x => if x = element then some true else isMemberLoop s element n (wrapInt (i + 1))

/-- The member `ArrayClass2_RO::IsMember`; `operator==` of `T` is equality. -/
def IsMember [DecidableEq T] (s : ArrayClass2_RO T) (element : T) :
    Access (ArrayClass2_RO T) Bool :=
  if s.m_length ≤ 0 then .value false
  else
    match isMemberLoop s element s.m_length.toNat 0 with
    | some b => .value b
    | none => .undefined

end ArrayClass2_RO

namespace ArrayClass2

variable {T : Type}

/-- The loop `do { m_maxPerBin <<= 1; m_binShift++; } while (m_maxPerBin < 32)` of
the constructor, with a bound on the number of rounds. -/
def ctorLoop : Nat → Int → Int → Option (Int × Int)
  | 0, _, _ => none
  | fuel + 1, maxPerBin, binShift =>
    if wrapInt (maxPerBin * 2) < 32 then
      ctorLoop fuel (wrapInt (maxPerBin * 2)) (wrapInt (binShift + 1))
    else some (wrapInt (maxPerBin * 2), wrapInt (binShift + 1))

/-- The constructor `ArrayClass2()`; 32 rounds are more than the loop needs. -/
def ctor : ArrayClass2 T :=
  match ctorLoop 32 1 0 with
  | some (maxPerBin, binShift) =>
    { m_maxPerBin := maxPerBin, m_binShift := binShift, m_slotMask := wrapInt (maxPerBin - 1),
      m_array := none, m_length := 0, m_binCount := 0, m_valid := true }
  | none =>
    { m_maxPerBin := 0, m_binShift := 0, m_slotMask := 0,
      m_array := none, m_length := 0, m_binCount := 0, m_valid := true }

/-- The member `ArrayClass2::Reset`. -/
def Reset (s : ArrayClass2 T) : ArrayClass2 T :=
  { s with m_array := none, m_binCount := 0, m_length := 0 }

/-- The loop `for (curBin = m_binCount; curBin < newBinCount; ++curBin)` of `Assure`,
for `n` more rounds: the new bins, or `none` when a `new T[m_maxPerBin]` fails
(`m_valid = false; break`).  Request number `k` is granted when `grants k`. -/
def newBins (T : Type) [Inhabited T] (grants : Nat → Bool) (maxPerBin : Int) :
    Nat → Nat → Option (List (List T))
  | 0, _ => some []
  | n + 1, k =>
    match newBlock T (grants k) maxPerBin with
    | none => none
    | some newBin =>
      match newBins T grants maxPerBin n (k + 1) with
      | none => none
      | some rest => some (newBin :: rest)

/-- The loop `for (i = 0; i < m_binCount; ++i) newArray[i] = m_array[i]` of `Assure`:
the bins carried over, or `none` when it reads outside the old directory.  (The
next loop writes `newArray[curBin]` from `curBin = m_binCount` on, which is outside
the new directory when `m_binCount < 0`.) -/
def oldBins (s : ArrayClass2 T) : Option (List (List T)) :=
  if s.m_binCount ≤ 0 then some []
  else
    match s.m_array with
    | none => none
    | some dir => if s.m_binCount ≤ dir.length then some (dir.take s.m_binCount.toNat) else none

/-- The member `ArrayClass2::Assure`.  `grants 0` answers the request for the new
directory, `grants (k + 1)` the request for the `k`-th new bin. -/
def Assure [Inhabited T] (grants : Nat → Bool) (s : ArrayClass2 T) (requestedSize : Int) :
    Outcome (ArrayClass2 T) :=
  if s.m_valid = true ∧ requestedSize > 0 then
    match shiftRightInt (wrapInt (requestedSize - 1)) ((s.m_binShift + 128) % 256 - 128) with
    | none => .undefined
    | some q =>
      if wrapInt (q + 1) > s.m_binCount then
        if grants 0 = true ∧ 0 ≤ wrapInt (q + 1) then
          match oldBins s with
          | none => .undefined
          | some old =>
            if s.m_binCount < 0 then .undefined
            else
              match newBins T (fun k => grants (k + 1)) s.m_maxPerBin
                  (wrapInt (q + 1) - s.m_binCount).toNat 0 with
              | some fresh =>
                .ok { s with m_array := some (old ++ fresh), m_binCount := wrapInt (q + 1) }
              | none =>
                .throw (.CDynamicArrayException (Reset { s with m_valid := false }))
                  (Reset { s with m_valid := false })
        else
          .throw (.CDynamicArrayException (Reset { s with m_valid := false }))
            (Reset { s with m_valid := false })
      else .ok s
  else .ok s

/-- The statement `if (m_valid) Get(index) = value;`. -/
def writeIfValid (s : ArrayClass2 T) (index : Int) (value : T) : Outcome (ArrayClass2 T) :=
  if s.m_valid = true then
    match s.write index value with
    | none => .undefined
    | some s1 => .ok s1
  else .ok s

/-- The member `ArrayClass2::SetElementIdx`. -/
def SetElementIdx [Inhabited T] (grants : Nat → Bool) (s : ArrayClass2 T) (index : Int)
    (value : T) : Outcome (ArrayClass2 T) :=
  if index ≥ 0 then
    if index ≥ s.m_length then
      ((Assure grants s (wrapInt (index + 1))).andThen fun s1 =>
        .ok (if s1.m_valid = true then { s1 with m_length := wrapInt (index + 1) } else s1)).andThen
        fun s2 => writeIfValid s2 index value
    else writeIfValid s index value
  else .ok s

/-- The member `ArrayClass2::Add`. -/
def Add [Inhabited T] (grants : Nat → Bool) (s : ArrayClass2 T) (value : T) :
    Outcome (ArrayClass2 T) :=
  SetElementIdx grants s s.m_length value

/-- The loop `for (idx = ...; idx > index; --idx) Get(idx) = Get(idx - 1)`, for `n`
more rounds. -/
def shiftUp : Nat → Int → ArrayClass2 T → Option (ArrayClass2 T)
  | 0, _, s => some s
  | n + 1, idx, s =>
    match s.read (wrapInt (idx - 1)) with
    | none => none
    | some x =>
      match s.write idx x with
      | none => none
      | some s1 => shiftUp n (wrapInt (idx - 1)) s1

/-- The loop `for (; index < m_length - 1; ++index) Get(index) = Get(index + 1)`, for
`n` more rounds. -/
def shiftDown : Nat → Int → ArrayClass2 T → Option (ArrayClass2 T)
  | 0, _, s => some s
  | n + 1, index, s =>
    match s.read (wrapInt (index + 1)) with
    | none => none
    | some x =>
      match s.write index x with
      | none => none
      | some s1 => shiftDown n (wrapInt (index + 1)) s1

/-- The loop `for (i = ...; i < rhs.m_length; ++i) Get(i) = rhs.Get(i)`, for `n` more
rounds. -/
def copyElements (rhs : ArrayClass2 T) : Nat → Int → ArrayClass2 T → Option (ArrayClass2 T)
  | 0, _, s => some s
  | n + 1, i, s =>
    match rhs.read i with
    | none => none
    | some x =>
      match s.write i x with
      | none => none
      | some s1 => copyElements rhs n (wrapInt (i + 1)) s1

/-- The member `ArrayClass2::InsertElement`. -/
def InsertElement [Inhabited T] (grants : Nat → Bool) (s : ArrayClass2 T) (index : Int)
    (value : T) : Outcome (ArrayClass2 T) :=
  if index ≥ 0 then
    if index < s.m_length then
      (Assure grants s (wrapInt (s.m_length + 1))).andThen fun s1 =>
        match shiftUp (s1.m_length - index).toNat s1.m_length s1 with
        | none => .undefined
        | some s2 =>
          match s2.write index value with
          | none => .undefined
          | some s3 => .ok { s3 with m_length := wrapInt (s3.m_length + 1) }
    else SetElementIdx grants s index value
  else .ok s

/-- The member `ArrayClass2::DeleteElement`. -/
def DeleteElement (s : ArrayClass2 T) (index : Int) : Outcome (ArrayClass2 T) :=
  if index ≥ 0 ∧ index < s.m_length ∧ s.m_array.isSome = true then
    match shiftDown (wrapInt (s.m_length - 1) - index).toNat index s with
    | none => .undefined
    | some s1 => .ok { s1 with m_length := wrapInt (s1.m_length - 1) }
  else .ok s

/-- The member `ArrayClass2::operator=` for `this != &rhs` (on `this == &rhs` it
returns at once). -/
def assign [Inhabited T] (grants : Nat → Bool) (s rhs : ArrayClass2 T) :
    Outcome (ArrayClass2 T) :=
  let s0 := if s.m_array.isSome = true then { s with m_length := 0 } else s
  if rhs.m_length ≠ 0 then
    (Assure grants s0 rhs.m_length).andThen fun s1 =>
      if s1.m_valid = true then
        match copyElements rhs rhs.m_length.toNat 0 s1 with
        | none => .undefined
        | some s2 => .ok { s2 with m_length := rhs.m_length }
      else .ok { s1 with m_length := rhs.m_length }
  else .ok s0

/-- The copy constructor `ArrayClass2(const ArrayClass2& rhs)`. -/
def copyCtor [Inhabited T] (grants : Nat → Bool) (rhs : ArrayClass2 T) :
    Outcome (ArrayClass2 T) :=
  assign grants ctor rhs

/-- The calls `Add(v_0); ...; Add(v_{n-1})` in that order; a call that throws ends
the sequence. -/
def addAll [Inhabited T] (grants : Nat → Bool) : List T → ArrayClass2 T → Outcome (ArrayClass2 T)
  | [], s => .ok s
  | v :: vs, s => (Add grants s v).andThen (addAll grants vs)

/-- Every allocation request is granted. -/
def granted : Nat → Bool := fun _ => true

/-- The arrays reachable from the empty array by the public operations, every
allocation request being granted and no call ending in an exception or in
undefined behaviour; an index argument is an `int`. -/
inductive Reachable [Inhabited T] : ArrayClass2 T → Prop
  | ctor : Reachable ctor
  | Add (s s1 : ArrayClass2 T) (value : T) :
      Reachable s → Add granted s value = .ok s1 → Reachable s1
  | SetElementIdx (s s1 : ArrayClass2 T) (index : Int) (value : T) :
      Reachable s → INT_MIN ≤ index → index ≤ INT_MAX →
      SetElementIdx granted s index value = .ok s1 → Reachable s1
  | InsertElement (s s1 : ArrayClass2 T) (index : Int) (value : T) :
      Reachable s → INT_MIN ≤ index → index ≤ INT_MAX →
      InsertElement granted s index value = .ok s1 → Reachable s1
  | DeleteElement (s s1 : ArrayClass2 T) (index : Int) :
      Reachable s → INT_MIN ≤ index → index ≤ INT_MAX →
      DeleteElement s index = .ok s1 → Reachable s1
  | Reset (s : ArrayClass2 T) : Reachable s → Reachable (Reset s)
  | copyCtor (rhs s1 : ArrayClass2 T) :
      Reachable rhs → copyCtor granted rhs = .ok s1 → Reachable s1
  | assign (s rhs s1 : ArrayClass2 T) :
      Reachable s → Reachable rhs → assign granted s rhs = .ok s1 → Reachable s1

/-- The bins of the directory `m_array` points to (none when it is null). -/
def bins (s : ArrayClass2 T) : List (List T) := s.m_array.getD []

/-- Representation invariant of the valid binned array: the geometry set by the
constructor, a directory of `m_binCount` bins of 32 cells each, and a length that
is an `int` within the capacity. -/
def WellFormed (s : ArrayClass2 T) : Prop :=
  s.m_maxPerBin = 32 ∧ s.m_slotMask = 31 ∧ s.m_binShift = 5 ∧ s.m_valid = true ∧
    ((bins s).length : Int) = s.m_binCount ∧ (∀ b ∈ bins s, b.length = 32) ∧
    s.m_length ≤ 32 * s.m_binCount ∧ s.m_binCount ≤ 67108864 ∧
    INT_MIN ≤ s.m_length ∧ s.m_length ≤ INT_MAX

/-- The values `0..31`. -/
def values32 : List Int :=
  [0, 1, 2, 3, 4, 5, 6, 7, 8, 9, 10, 11, 12, 13, 14, 15, 16, 17, 18, 19, 20, 21, 22, 23, 24, 25,
    26, 27, 28, 29, 30, 31]

/-- The values `0..32`: one more than a bin holds. -/
def values33 : List Int := values32 ++ [32]

/-- The binned array after `Add(0); ...; Add(31)`: one full bin. -/
def sample32 : ArrayClass2 Int :=
  { m_length := 32, m_maxPerBin := 32, m_slotMask := 31, m_binShift := 5,
    m_array := some [values32], m_binCount := 1, m_valid := true }

/-- The binned array after `Add(0); ...; Add(32)`: a full bin and a second bin
holding one element. -/
def sample33 : ArrayClass2 Int :=
  { m_length := 33, m_maxPerBin := 32, m_slotMask := 31, m_binShift := 5,
    m_array := some [values32, 32 :: List.replicate 31 0], m_binCount := 2, m_valid := true }

/-- The cell of element `i` in the constructor's geometry: bin `i / 32`, slot
`i % 32`, read. -/
def cellRead (dir : List (List T)) (i : Int) : Option T := readCell dir (i / 32) (i % 32)

/-- The cell of element `i` in the constructor's geometry: bin `i / 32`, slot
`i % 32`, written. -/
def cellWrite (dir : List (List T)) (i : Int) (x : T) : Option (List (List T)) :=
  writeCell dir (i / 32) (i % 32) x

end ArrayClass2

/-! ## The contiguous array on a heap

The same member functions of `ArrayClass`, with `m_array` an address into a heap
that several arrays share: for the claims about two arrays at once. -/

/-- The heap: the blocks handed out by `new T[n]`, by address; `none` for a block
that has been deleted. -/
structure Heap (T : Type) where
  blocks : List (Option (List T))
  deriving DecidableEq, Repr

namespace Heap

variable {T : Type}

/-- The block at address `a`, when there is one. -/
def get (h : Heap T) (a : Nat) : Option (List T) :=
  match h.blocks[a]? with
  | some (some blk) => some blk
  | _ => none

/-- The block at address `a` replaced by `blk`. -/
def set (h : Heap T) (a : Nat) (blk : List T) : Heap T :=
  { blocks := h.blocks.set a (some blk) }

/-- The statement `delete[] p`; deleting null does nothing. -/
def delete (h : Heap T) (p : Option Nat) : Heap T :=
  match p with
  | none => h
  | some a => { blocks := h.blocks.set a none }

/-- The expression `new T[n]`: the heap with the new block at a fresh address, and
that address; or null. -/
def new [Inhabited T] (h : Heap T) (granted : Bool) (n : Int) : Heap T × Option Nat :=
  match newBlock T granted n with
  | none => (h, none)
  | some blk => ({ blocks := h.blocks ++ [some blk] }, some h.blocks.length)

end Heap

/-- The data members of `ArrayClass<T>`, with `m_array` an address into the heap. -/
structure ArrayClassObject where
  m_length : Int
  m_array : Option Nat
  m_alloc : Int
  m_isValid : Bool
  deriving DecidableEq, Repr

namespace ArrayClassObject

variable {T : Type}

/-- The constructor `ArrayClass()`. -/
def ctor : ArrayClassObject :=
  { m_length := 0, m_array := none, m_alloc := 0, m_isValid := true }

/-- The member `ArrayClass::Reset`. -/
def Reset (m : Heap T × ArrayClassObject) : Heap T × ArrayClassObject :=
  (m.1.delete m.2.m_array, { m.2 with m_array := none, m_alloc := 0, m_length := 0 })

/-- The common body of `Assure` and `AssureExact` once the size to allocate is
known. -/
def grow [Inhabited T] (granted : Bool) (m : Heap T × ArrayClassObject) (allocatedSize : Int) :
    Outcome (Heap T × ArrayClassObject) :=
  match m.1.new granted allocatedSize with
  | (_, none) =>
    .throw (.CExceptionMemoryAllocation allocatedSize)
      (m.1.delete m.2.m_array, { m.2 with m_array := none, m_alloc := 0, m_isValid := false })
  | (h1, some newArray) =>
    match m.2.m_array with
    | some old =>
      match h1.get old, h1.get newArray with
      | some src, some dst =>
        match copyElements src m.2.m_length.toNat 0 dst with
        | none => .undefined
        | some filled =>
          .ok ((h1.set newArray filled).delete (some old),
            { m.2 with m_array := some newArray, m_alloc := allocatedSize })
      | _, _ => .undefined
    | none => .ok (h1, { m.2 with m_array := some newArray, m_alloc := allocatedSize })

/-- The member `ArrayClass::Assure`. -/
def Assure [Inhabited T] (granted : Bool) (m : Heap T × ArrayClassObject) (requestedSize : Int) :
    Outcome (Heap T × ArrayClassObject) :=
  if requestedSize ≠ 0 ∧ (requestedSize > m.2.m_alloc ∨ m.2.m_array.isNone = true) then
    grow granted m (wrapInt (wrapInt (requestedSize + 4) * 2))
  else .ok m

/-- The member `ArrayClass::AssureExact`. -/
def AssureExact [Inhabited T] (granted : Bool) (m : Heap T × ArrayClassObject)
    (requestedSize : Int) : Outcome (Heap T × ArrayClassObject) :=
  if requestedSize ≠ 0 ∧ (requestedSize > m.2.m_alloc ∨ m.2.m_array.isNone = true) then
    grow granted m requestedSize
  else .ok m

/-- A change `f` of the cells of the block `m_array` points to, made in place;
nothing when `m_array` is null. -/
def inPlace (m : Heap T × ArrayClassObject) (f : List T → Option (List T)) :
    Option (Heap T) :=
  match m.2.m_array with
  | none => some m.1
  | some a =>
    match m.1.get a with
    | none => none
    | some blk =>
      match f blk with
      | none => none
      | some blk1 => some (m.1.set a blk1)

/-- The statement `if (m_array) m_array[index] = element;`. -/
def storeIfArray (m : Heap T × ArrayClassObject) (index : Int) (element : T) :
    Outcome (Heap T × ArrayClassObject) :=
  match inPlace m fun blk => store blk index element with
  | none => .undefined
  | some h1 => .ok (h1, m.2)

/-- The member `ArrayClass::SetElementIdx`. -/
def SetElementIdx [Inhabited T] (granted : Bool) (m : Heap T × ArrayClassObject) (index : Int)
    (element : T) : Outcome (Heap T × ArrayClassObject) :=
  if index ≥ 0 then
    if index ≥ m.2.m_length then
      ((Assure granted m (wrapInt (index + 1))).andThen fun m1 =>
        .ok (if m1.2.m_array.isSome = true then
            (m1.1, { m1.2 with m_length := wrapInt (index + 1) })
          else m1)).andThen
        fun m2 => storeIfArray m2 index element
    else storeIfArray m index element
  else .ok m

/-- The member `ArrayClass::InsertElement`. -/
def InsertElement [Inhabited T] (granted : Bool) (m : Heap T × ArrayClassObject) (index : Int)
    (element : T) : Outcome (Heap T × ArrayClassObject) :=
  if index ≥ 0 then
    if index < m.2.m_length then
      (Assure granted m (wrapInt (m.2.m_length + 1))).andThen fun m1 =>
        match m1.2.m_array with
        | none => .ok m1
        | some _ =>
          match inPlace m1 fun blk =>
              match shiftUp (m1.2.m_length - index).toNat m1.2.m_length blk with
              | none => none
              | some blk1 => store blk1 index element with
          | none => .undefined
          | some h2 => .ok (h2, { m1.2 with m_length := wrapInt (m1.2.m_length + 1) })
    else SetElementIdx granted m index element
  else .ok m

/-- The member `ArrayClass::DeleteElement`. -/
def DeleteElement (m : Heap T × ArrayClassObject) (index : Int) :
    Outcome (Heap T × ArrayClassObject) :=
  match m.2.m_array with
  | none => .ok m
  | some _ =>
    if index ≥ 0 ∧ index < m.2.m_length then
      match inPlace m fun blk =>
          shiftDown (wrapInt (m.2.m_length - 1) - index).toNat index blk with
      | none => .undefined
      | some h1 => .ok (h1, { m.2 with m_length := wrapInt (m.2.m_length - 1) })
    else .ok m

/-- The statements shared by the copy constructor and `operator=` after the target
has been emptied; `rhs` is read through the same heap. -/
def copyFrom [Inhabited T] (granted : Bool) (m : Heap T × ArrayClassObject)
    (rhs : ArrayClassObject) : Outcome (Heap T × ArrayClassObject) :=
  if rhs.m_length ≠ 0 then
    (AssureExact granted m rhs.m_length).andThen fun m1 =>
      match m1.2.m_array with
      | none => .ok (m1.1, { m1.2 with m_length := rhs.m_length })
      | some _ =>
        match rhs.m_array with
        | none =>
          if rhs.m_length ≤ 0 then .ok (m1.1, { m1.2 with m_length := rhs.m_length })
          else .undefined
        | some b =>
          match m1.1.get b with
          | none => .undefined
          | some src =>
            match inPlace m1 fun blk => copyElements src rhs.m_length.toNat 0 blk with
            | none => .undefined
            | some h2 => .ok (h2, { m1.2 with m_length := rhs.m_length })
  else .ok m

/-- The copy constructor `ArrayClass(const ArrayClass& rhs)`: a new object on the
heap `h`. -/
def copyCtor [Inhabited T] (granted : Bool) (h : Heap T) (rhs : ArrayClassObject) :
    Outcome (Heap T × ArrayClassObject) :=
  copyFrom granted (h, ctor) rhs

/-- The member `ArrayClass::operator=` for `this != &rhs`. -/
def assign [Inhabited T] (granted : Bool) (m : Heap T × ArrayClassObject)
    (rhs : ArrayClassObject) : Outcome (Heap T × ArrayClassObject) :=
  copyFrom granted (Reset m) rhs

/-- The array an object stands for: its members, with the cells of the block
`m_array` points to. -/
def view (h : Heap T) (o : ArrayClassObject) : ArrayClass T :=
  { m_length := o.m_length, m_array := o.m_array.bind h.get, m_alloc := o.m_alloc,
    m_isValid := o.m_isValid }

/-- The object's `m_array` is null or the address of a block of the heap. -/
def Live (h : Heap T) (o : ArrayClassObject) : Prop :=
  ∀ a, o.m_array = some a → ∃ blk, h.get a = some blk

/-- The exception as the array sees it. -/
def viewException (e : ArrayException (Heap T × ArrayClassObject)) :
    ArrayException (ArrayClass T) :=
  match e with
  | .CDynamicArrayException obj => .CDynamicArrayException (view obj.1 obj.2)
  | .CExceptionMemoryAllocation size => .CExceptionMemoryAllocation size

/-- The outcome as the array sees it. -/
def viewOutcome (r : Outcome (Heap T × ArrayClassObject)) : Outcome (ArrayClass T) :=
  match r with
  | .ok m => .ok (view m.1 m.2)
  | .throw e m => .throw (viewException e) (view m.1 m.2)
  | .undefined => .undefined

/-- The call that took `m` to `m1` touched no block but the object's own: blocks
at other addresses are as they were, and the object's block is the old one or a
new one. -/
def Frame (m m1 : Heap T × ArrayClassObject) : Prop :=
  m.1.blocks.length ≤ m1.1.blocks.length ∧
    (∀ a, a < m.1.blocks.length → m.2.m_array ≠ some a → m1.1.get a = m.1.get a) ∧
    (∀ a, m1.2.m_array = some a → m.2.m_array = some a ∨ m.1.blocks.length ≤ a)

/-- The call on the heap, started from `m` with outcome `r`, does to the array what
the call `v` on the array alone does, keeps the object live and touches no block
but its own. -/
def Sound (m : Heap T × ArrayClassObject) (r : Outcome (Heap T × ArrayClassObject))
    (v : Outcome (ArrayClass T)) : Prop :=
  viewOutcome r = v ∧
    ∀ m1, (r = .ok m1 ∨ ∃ e, r = .throw e m1) → Live m1.1 m1.2 ∧ Frame m m1

/-- A heap with two blocks: at address 0 the elements 5, 6, 7 in a block of ten, at
address 1 the element 5 in a block of ten. -/
def sampleHeap : Heap Int :=
  { blocks := [some (5 :: 6 :: 7 :: List.replicate 7 0), some (5 :: List.replicate 9 0)] }

/-- The array of length 3 whose block is at address 0. -/
def sampleSrc : ArrayClassObject :=
  { m_length := 3, m_array := some 0, m_alloc := 10, m_isValid := true }

/-- The array of length 1 whose block is at address 1. -/
def sampleTgt : ArrayClassObject :=
  { m_length := 1, m_array := some 1, m_alloc := 10, m_isValid := true }

/-- A call of one of the mutators, with its arguments. -/
inductive Mutation (T : Type) where
  | SetElementIdx (index : Int) (element : T)
  | InsertElement (index : Int) (element : T)
  | DeleteElement (index : Int)

/-- The call `mu` made on the object `m.2`. -/
def Mutation.run [Inhabited T] (granted : Bool) (mu : Mutation T)
    (m : Heap T × ArrayClassObject) : Outcome (Heap T × ArrayClassObject) :=
  match mu with
  | .SetElementIdx index element => ArrayClassObject.SetElementIdx granted m index element
  | .InsertElement index element => ArrayClassObject.InsertElement granted m index element
  | .DeleteElement index => ArrayClassObject.DeleteElement m index

/-- The object `c` on the heap `h1` is a copy of `src` as it was on the heap `h`:
same length and elements; `src` is as it was; and a later mutator call on `c`
that returns or throws leaves `src` as it was. -/
def IsIndependentCopy [Inhabited T] (h : Heap T) (src : ArrayClassObject) (h1 : Heap T)
    (c : ArrayClassObject) : Prop :=
  (view h1 c).GetLength = (view h src).GetLength ∧
    (∀ i : Int, 0 ≤ i → i < (view h src).GetLength → (view h1 c).Get i = (view h src).Get i) ∧
    view h1 src = view h src ∧
    ∀ (granted : Bool) (mu : Mutation T) (m2 : Heap T × ArrayClassObject),
      (mu.run granted (h1, c) = .ok m2 ∨ ∃ e, mu.run granted (h1, c) = .throw e m2) →
        view m2.1 src = view h src

end ArrayClassObject

/-! ## Call sequences on both families -/

/-- A call of one of the mutators the two families share, with its arguments. -/
inductive Call (T : Type) where
  | Add (value : T)
  | SetElementIdx (index : Int) (value : T)
  | InsertElement (index : Int) (value : T)
  | DeleteElement (index : Int)
  | Reset
  deriving DecidableEq, Repr

/-- What the calls made so far have left, as far as the next call is concerned: the
length, and whether no `DeleteElement` has removed an element since the array was
constructed or last reset. -/
structure Shape where
  length : Int
  pristine : Bool
  deriving DecidableEq, Repr

namespace Call

variable {T : Type}

/-- The call `c` made on a contiguous array. -/
def onArrayClass [Inhabited T] (granted : Bool) (c : Call T) (s : ArrayClass T) :
    Outcome (ArrayClass T) :=
  match c with
  | .Add value => ArrayClass.Add granted s value
  | .SetElementIdx index value => ArrayClass.SetElementIdx granted s index value
  | .InsertElement index value => ArrayClass.InsertElement granted s index value
  | .DeleteElement index => ArrayClass.DeleteElement s index
  | .Reset => .ok (ArrayClass.Reset s)

/-- The call `c` made on a binned array. -/
def onArrayClass2 [Inhabited T] (grants : Nat → Bool) (c : Call T) (s : ArrayClass2 T) :
    Outcome (ArrayClass2 T) :=
  match c with
  | .Add value => ArrayClass2.Add grants s value
  | .SetElementIdx index value => ArrayClass2.SetElementIdx grants s index value
  | .InsertElement index value => ArrayClass2.InsertElement grants s index value
  | .DeleteElement index => ArrayClass2.DeleteElement s index
  | .Reset => .ok (ArrayClass2.Reset s)

/-- The calls made one after the other on a contiguous array; a call that throws
ends the sequence. -/
def runArrayClass [Inhabited T] (granted : Bool) :
    List (Call T) → ArrayClass T → Outcome (ArrayClass T)
  | [], s => .ok s
  | c :: cs, s => (onArrayClass granted c s).andThen (runArrayClass granted cs)

/-- The calls made one after the other on a binned array; a call that throws ends
the sequence. -/
def runArrayClass2 [Inhabited T] (grants : Nat → Bool) :
    List (Call T) → ArrayClass2 T → Outcome (ArrayClass2 T)
  | [], s => .ok s
  | c :: cs, s => (onArrayClass2 grants c s).andThen (runArrayClass2 grants cs)

/-- The greatest length considered: up to it the size `(length + 4) * 2` that the
contiguous array asks for fits an `int`. -/
def maxLength : Int := 1073741819

/-- The shape after a write at `index >= length`: refused (`none`) when the write
leaves a gap (`index > length`) in an array that is not pristine, or takes the
length beyond `maxLength`. -/
def extend (sh : Shape) (index : Int) : Option Shape :=
  if (index = sh.length ∨ sh.pristine = true) ∧ index < maxLength then
    some { sh with length := index + 1 }
  else none

/-- The shape after the call `c`, or `none` when the call is refused. -/
def shape (c : Call T) (sh : Shape) : Option Shape :=
  match c with
  | .Add _ => extend sh sh.length
  | .SetElementIdx index _ =>
    if index < sh.length then some sh else extend sh index
  | .InsertElement index _ =>
    if index < 0 then some sh
    else if index < sh.length then
      if sh.length < maxLength then some { sh with length := sh.length + 1 } else none
    else extend sh index
  | .DeleteElement index =>
    if 0 ≤ index ∧ index < sh.length then some { length := sh.length - 1, pristine := false }
    else some sh
  | .Reset => some { length := 0, pristine := true }

/-- The shape after the calls `cs` made one after the other, or `none` when one of
them is refused. -/
def shapes : List (Call T) → Shape → Option Shape
  | [], sh => some sh
  | c :: cs, sh =>
    match shape c sh with
    | none => none
    | some sh1 => shapes cs sh1

/-- The calls `Add(1); DeleteElement(0); SetElementIdx(10, 7)`: the last one writes
beyond the end after an element has been removed. -/
def staleCalls : List (Call Int) := [.Add 1, .DeleteElement 0, .SetElementIdx 10 7]

/-- A sequence with a write beyond the end of a pristine array, an insertion, a
removal, a reset and writes at the end. -/
def sampleCalls : List (Call Int) :=
  [.Add 1, .SetElementIdx 40 2, .InsertElement 0 3, .InsertElement 50 4, .DeleteElement 1,
    .Add 5, .SetElementIdx (-1) 6, .Reset, .Add 7, .InsertElement 1 8]

/-- The contiguous array `a` and the binned array `b` hold the same sequence; when
`pristine`, every cell of their storage beyond the length holds a default element. -/
def Agree [Inhabited T] (a : ArrayClass T) (b : ArrayClass2 T) (pristine : Bool) : Prop :=
  ArrayClass.WellFormed a ∧ ArrayClass2.WellFormed b ∧ a.m_length = b.m_length ∧
    a.m_length ≤ 1073741819 ∧
    (∀ j : Int, 0 ≤ j → j < a.m_length →
      load (ArrayClass.block a) j = ArrayClass2.cellRead (ArrayClass2.bins b) j) ∧
    (pristine = true →
      (∀ j : Int, a.m_length ≤ j → j < a.m_alloc →
        load (ArrayClass.block a) j = some default) ∧
      (∀ j : Int, b.m_length ≤ j → j < 32 * b.m_binCount →
        ArrayClass2.cellRead (ArrayClass2.bins b) j = some default))

end Call

/-! ## The binned array on a heap

The same member functions of `ArrayClass2`, with `m_array` the address of a
directory of bin addresses on a heap that several arrays share: for the claims about
where the elements live and about two arrays at once. -/

/-- The heap of the binned arrays: the bins handed out by `new T[n]` and the
directories handed out by `new T*[n]`, each kind by its own addresses.  A cell of a
directory holds the address of a bin, or the null pointer. -/
structure Heap2 (T : Type) where
  bins : Heap T
  dirs : Heap (Option Nat)
  deriving DecidableEq, Repr

/-- The data members of `ArrayClass2<T>`, with `m_array` an address into the heap. -/
structure ArrayClass2Object where
  m_length : Int
  m_maxPerBin : Int
  m_slotMask : Int
  m_binShift : Int
  m_array : Option Nat
  m_binCount : Int
  m_valid : Bool
  deriving DecidableEq, Repr

namespace ArrayClass2Object

variable {T : Type}

/-- The macro `GET_BIN_INDEX(x)`: `x >> static_cast<uint8_t>(m_binShift)`. -/
def GET_BIN_INDEX (o : ArrayClass2Object) (x : Int) : Option Int :=
  shiftRightInt x (o.m_binShift % 256)

/-- The macro `GET_SLOT_INDEX(x)`: `m_slotMask & index`. -/
def GET_SLOT_INDEX (o : ArrayClass2Object) (index : Int) : Int :=
  andInt o.m_slotMask index

/-- The cells of the directory `m_array` points to. -/
def directory (h : Heap2 T) (o : ArrayClass2Object) : Option (List (Option Nat)) :=
  match o.m_array with
  | none => none
  | some a => h.dirs.get a

/-- The bin pointer `m_array[bin]`: `none` when the read is outside the directory
or the pointer is null. -/
def binAt (h : Heap2 T) (o : ArrayClass2Object) (bin : Int) : Option Nat :=
  match directory h o with
  | none => none
  | some ptrs =>
    match load ptrs bin with
    | some (some q) => some q
    | _ => none

/-- The lvalue `m_array[bin][slot]` read. -/
def readAt (h : Heap2 T) (o : ArrayClass2Object) (bin slot : Int) : Option T :=
  match binAt h o bin with
  | none => none
  | some q =>
    match h.bins.get q with
    | none => none
    | some blk => load blk slot

/-- The lvalue `m_array[bin][slot]` assigned. -/
def writeAt (h : Heap2 T) (o : ArrayClass2Object) (bin slot : Int) (x : T) : Option (Heap2 T) :=
  match binAt h o bin with
  | none => none
  | some q =>
    match h.bins.get q with
    | none => none
    | some blk =>
      match store blk slot x with
      | none => none
      | some blk1 => some { bins := h.bins.set q blk1, dirs := h.dirs }

/-- The lvalue `m_array[GET_BIN_INDEX(index)][GET_SLOT_INDEX(index)]` read. -/
def read (m : Heap2 T × ArrayClass2Object) (index : Int) : Option T :=
  match m.2.GET_BIN_INDEX index with
  | none => none
  | some bin => readAt m.1 m.2 bin (m.2.GET_SLOT_INDEX index)

/-- The lvalue `m_array[GET_BIN_INDEX(index)][GET_SLOT_INDEX(index)]` assigned. -/
def write (m : Heap2 T × ArrayClass2Object) (index : Int) (x : T) : Option (Heap2 T) :=
  match m.2.GET_BIN_INDEX index with
  | none => none
  | some bin => writeAt m.1 m.2 bin (m.2.GET_SLOT_INDEX index) x

/-- The member `ArrayClass2_RO::Get` (both overloads, and `operator[]`): unchecked. -/
def Get (m : Heap2 T × ArrayClass2Object) (index : Int) :
    Access (Heap2 T × ArrayClass2Object) T :=
  match read m index with
  | some x => .value x
  | none => .undefined

/-- The member `ArrayClass2_RO::SafeGet`.  The pointer `&m_array[bin][slot]` is given
as the address of the bin and the slot in it, `none` being the null pointer. -/
def SafeGet (m : Heap2 T × ArrayClass2Object) (index : Int) :
    Access (Heap2 T × ArrayClass2Object) (Option (Nat × Int)) :=
  if index < m.2.m_length then
    match m.2.GET_BIN_INDEX index with
    | none => .undefined
    | some bin =>
      if bin < m.2.m_binCount then
        if m.2.GET_SLOT_INDEX index < m.2.m_maxPerBin then
          match binAt m.1 m.2 bin with
          | none => .undefined
          | some q =>
            match m.1.bins.get q with
            | none => .undefined
            | some blk =>
              if 0 ≤ m.2.GET_SLOT_INDEX index ∧ m.2.GET_SLOT_INDEX index ≤ blk.length then
                .value (some (q, m.2.GET_SLOT_INDEX index))
              else .undefined
        else .value none
      else .value none
  else .value none

/-- The constructor `ArrayClass2()`; 32 rounds are more than the loop needs. -/
def ctor : ArrayClass2Object :=
  match ArrayClass2.ctorLoop 32 1 0 with
  | some (maxPerBin, binShift) =>
    { m_maxPerBin := maxPerBin, m_binShift := binShift, m_slotMask := wrapInt (maxPerBin - 1),
      m_array := none, m_length := 0, m_binCount := 0, m_valid := true }
  | none =>
    { m_maxPerBin := 0, m_binShift := 0, m_slotMask := 0,
      m_array := none, m_length := 0, m_binCount := 0, m_valid := true }

/-- The bin pointers `m_array[0]`, ..., `m_array[m_binCount - 1]`, or `none` when a
read is outside the directory. -/
def oldPtrs (h : Heap2 T) (o : ArrayClass2Object) : Option (List (Option Nat)) :=
  if o.m_binCount ≤ 0 then some []
  else
    match directory h o with
    | none => none
    | some ptrs => if o.m_binCount ≤ ptrs.length then some (ptrs.take o.m_binCount.toNat) else none

/-- The statements `delete[] p` for the pointers `p` of a list, in that order. -/
def deleteBins (bins : Heap T) : List (Option Nat) → Heap T
  | [] => bins
  | p :: ps => deleteBins (bins.delete p) ps

/-- The member `ArrayClass2::Reset`; `none` when the loop
`for (i = 0; i < m_binCount; ++i) delete[] m_array[i]` reads outside the directory. -/
def Reset (m : Heap2 T × ArrayClass2Object) : Option (Heap2 T × ArrayClass2Object) :=
  match oldPtrs m.1 m.2 with
  | none => none
  | some ptrs =>
    some ({ bins := deleteBins m.1.bins ptrs, dirs := m.1.dirs.delete m.2.m_array },
      { m.2 with m_array := none, m_binCount := 0, m_length := 0 })

/-- The loop `for (curBin = m_binCount; curBin < newBinCount; ++curBin)` of `Assure`,
for `n` more rounds: the heap with the new bins and their addresses, or `none` for
the addresses when a `new T[m_maxPerBin]` fails (`m_valid = false; break`). -/
def newBins [Inhabited T] (grants : Nat → Bool) (maxPerBin : Int) :
    Nat → Nat → Heap T → Heap T × Option (List (Option Nat))
  | 0, _, h => (h, some [])
  | n + 1, k, h =>
    match h.new (grants k) maxPerBin with
    | (h1, none) => (h1, none)
    | (h1, some q) =>
      match newBins grants maxPerBin n (k + 1) h1 with
      | (h2, none) => (h2, none)
      | (h2, some rest) => (h2, some (some q :: rest))

/-- The statements `Reset(); ThrowArrayClassException();` that end a failed
`Assure`, `m_valid` having been set to false. -/
def fail (m : Heap2 T × ArrayClass2Object) : Outcome (Heap2 T × ArrayClass2Object) :=
  match Reset (m.1, { m.2 with m_valid := false }) with
  | none => .undefined
  | some m1 => .throw (.CDynamicArrayException m1) m1

/-- The body of `if (newBinCount > m_binCount)` in `Assure`, with the failure path
that follows it: the new directory, filled by the two loops with the old bin
pointers followed by the new ones.  `grants 0` answers the request for the new
directory, `grants (k + 1)` the request for the `k`-th new bin. -/
def grow [Inhabited T] (grants : Nat → Bool) (m : Heap2 T × ArrayClass2Object)
    (newBinCount : Int) : Outcome (Heap2 T × ArrayClass2Object) :=
  match m.1.dirs.new (grants 0) newBinCount with
  | (_, none) => fail m
  | (dirs1, some newArray) =>
    match oldPtrs m.1 m.2 with
    | none => .undefined
    | some old =>
      if m.2.m_binCount < 0 then .undefined
      else
        match newBins (fun k => grants (k + 1)) m.2.m_maxPerBin
            (newBinCount - m.2.m_binCount).toNat 0 m.1.bins with
        | (bins1, some fresh) =>
          .ok ({ bins := bins1,
                 dirs := (dirs1.set newArray (old ++ fresh)).delete m.2.m_array },
            { m.2 with m_array := some newArray, m_binCount := newBinCount })
        | (bins1, none) => fail ({ bins := bins1, dirs := dirs1 }, m.2)

/-- The member `ArrayClass2::Assure`. -/
def Assure [Inhabited T] (grants : Nat → Bool) (m : Heap2 T × ArrayClass2Object)
    (requestedSize : Int) : Outcome (Heap2 T × ArrayClass2Object) :=
  if m.2.m_valid = true ∧ requestedSize > 0 then
    match shiftRightInt (wrapInt (requestedSize - 1)) ((m.2.m_binShift + 128) % 256 - 128) with
    | none => .undefined
    | some q =>
      if wrapInt (q + 1) > m.2.m_binCount then grow grants m (wrapInt (q + 1))
      else .ok m
  else .ok m

/-- The statement `if (m_valid) Get(index) = value;`. -/
def writeIfValid (m : Heap2 T × ArrayClass2Object) (index : Int) (value : T) :
    Outcome (Heap2 T × ArrayClass2Object) :=
  if m.2.m_valid = true then
    match write m index value with
    | none => .undefined
    | some h1 => .ok (h1, m.2)
  else .ok m

/-- The member `ArrayClass2::SetElementIdx`. -/
def SetElementIdx [Inhabited T] (grants : Nat → Bool) (m : Heap2 T × ArrayClass2Object)
    (index : Int) (value : T) : Outcome (Heap2 T × ArrayClass2Object) :=
  if index ≥ 0 then
    if index ≥ m.2.m_length then
      ((Assure grants m (wrapInt (index + 1))).andThen fun m1 =>
        .ok (if m1.2.m_valid = true then (m1.1, { m1.2 with m_length := wrapInt (index + 1) })
          else m1)).andThen
        fun m2 => writeIfValid m2 index value
    else writeIfValid m index value
  else .ok m

/-- The member `ArrayClass2::Add`. -/
def Add [Inhabited T] (grants : Nat → Bool) (m : Heap2 T × ArrayClass2Object) (value : T) :
    Outcome (Heap2 T × ArrayClass2Object) :=
  SetElementIdx grants m m.2.m_length value

/-- The loop `for (idx = ...; idx > index; --idx) Get(idx) = Get(idx - 1)`, for `n`
more rounds. -/
def shiftUp (o : ArrayClass2Object) : Nat → Int → Heap2 T → Option (Heap2 T)
  | 0, _, h => some h
  | n + 1, idx, h =>
    match read (h, o) (wrapInt (idx - 1)) with
    | none => none
    | some x =>
      match write (h, o) idx x with
      | none => none
      | some h1 => shiftUp o n (wrapInt (idx - 1)) h1

/-- The loop `for (; index < m_length - 1; ++index) Get(index) = Get(index + 1)`, for
`n` more rounds. -/
def shiftDown (o : ArrayClass2Object) : Nat → Int → Heap2 T → Option (Heap2 T)
  | 0, _, h => some h
  | n + 1, index, h =>
    match read (h, o) (wrapInt (index + 1)) with
    | none => none
    | some x =>
      match write (h, o) index x with
      | none => none
      | some h1 => shiftDown o n (wrapInt (index + 1)) h1

/-- The loop `for (i = ...; i < rhs.m_length; ++i) Get(i) = rhs.Get(i)`, for `n` more
rounds; `rhs` is read through the same heap. -/
def copyElements (o rhs : ArrayClass2Object) : Nat → Int → Heap2 T → Option (Heap2 T)
  | 0, _, h => some h
  | n + 1, i, h =>
    match read (h, rhs) i with
    | none => none
    | some x =>
      match write (h, o) i x with
      | none => none
      | some h1 => copyElements o rhs n (wrapInt (i + 1)) h1

/-- The member `ArrayClass2::InsertElement`. -/
def InsertElement [Inhabited T] (grants : Nat → Bool) (m : Heap2 T × ArrayClass2Object)
    (index : Int) (value : T) : Outcome (Heap2 T × ArrayClass2Object) :=
  if index ≥ 0 then
    if index < m.2.m_length then
      (Assure grants m (wrapInt (m.2.m_length + 1))).andThen fun m1 =>
        match shiftUp m1.2 (m1.2.m_length - index).toNat m1.2.m_length m1.1 with
        | none => .undefined
        | some h2 =>
          match write (h2, m1.2) index value with
          | none => .undefined
          | some h3 => .ok (h3, { m1.2 with m_length := wrapInt (m1.2.m_length + 1) })
    else SetElementIdx grants m index value
  else .ok m

/-- The member `ArrayClass2::DeleteElement`. -/
def DeleteElement (m : Heap2 T × ArrayClass2Object) (index : Int) :
    Outcome (Heap2 T × ArrayClass2Object) :=
  if index ≥ 0 ∧ index < m.2.m_length ∧ m.2.m_array.isSome = true then
    match shiftDown m.2 (wrapInt (m.2.m_length - 1) - index).toNat index m.1 with
    | none => .undefined
    | some h1 => .ok (h1, { m.2 with m_length := wrapInt (m.2.m_length - 1) })
  else .ok m

/-- The member `ArrayClass2::operator=` for `this != &rhs` (on `this == &rhs` it
returns at once). -/
def assign [Inhabited T] (grants : Nat → Bool) (m : Heap2 T × ArrayClass2Object)
    (rhs : ArrayClass2Object) : Outcome (Heap2 T × ArrayClass2Object) :=
  let m0 := if m.2.m_array.isSome = true then (m.1, { m.2 with m_length := 0 }) else m
  if rhs.m_length ≠ 0 then
    (Assure grants m0 rhs.m_length).andThen fun m1 =>
      if m1.2.m_valid = true then
        match copyElements m1.2 rhs rhs.m_length.toNat 0 m1.1 with
        | none => .undefined
        | some h2 => .ok (h2, { m1.2 with m_length := rhs.m_length })
      else .ok (m1.1, { m1.2 with m_length := rhs.m_length })
  else .ok m0

/-- The copy constructor `ArrayClass2(const ArrayClass2& rhs)`: a new object on the
heap `h`. -/
def copyCtor [Inhabited T] (grants : Nat → Bool) (h : Heap2 T) (rhs : ArrayClass2Object) :
    Outcome (Heap2 T × ArrayClass2Object) :=
  assign grants (h, ctor) rhs

/-- The call `c` made on the object `m.2`. -/
def call [Inhabited T] (grants : Nat → Bool) (c : Call T) (m : Heap2 T × ArrayClass2Object) :
    Outcome (Heap2 T × ArrayClass2Object) :=
  match c with
  | .Add value => Add grants m value
  | .SetElementIdx index value => SetElementIdx grants m index value
  | .InsertElement index value => InsertElement grants m index value
  | .DeleteElement index => DeleteElement m index
  | .Reset =>
    match Reset m with
    | none => .undefined
    | some m1 => .ok m1

/-- The cells of the bin a directory cell points to; none when the pointer is null
or dangling. -/
def binCells (bins : Heap T) (p : Option Nat) : List T :=
  match p with
  | none => []
  | some q => (bins.get q).getD []

/-- The array an object stands for: its members, with the cells of the bins of the
directory `m_array` points to. -/
def view (h : Heap2 T) (o : ArrayClass2Object) : ArrayClass2 T :=
  { m_length := o.m_length, m_maxPerBin := o.m_maxPerBin, m_slotMask := o.m_slotMask,
    m_binShift := o.m_binShift,
    m_array := (directory h o).map fun ptrs => ptrs.map (binCells h.bins),
    m_binCount := o.m_binCount, m_valid := o.m_valid }

/-- The bin at address `q` is one of the object's: a cell of its directory points to
it. -/
def OwnsBin (h : Heap2 T) (o : ArrayClass2Object) (q : Nat) : Prop :=
  ∃ ptrs, directory h o = some ptrs ∧ some q ∈ ptrs

/-- The object's `m_array` is null, with no bin counted, or the address of a
directory of `m_binCount` cells that point to different bins of the heap. -/
def Live (h : Heap2 T) (o : ArrayClass2Object) : Prop :=
  (o.m_array = none → o.m_binCount ≤ 0) ∧
    ∀ a, o.m_array = some a →
      ∃ ptrs, h.dirs.get a = some ptrs ∧ (ptrs.length : Int) = o.m_binCount ∧ ptrs.Nodup ∧
        ∀ p ∈ ptrs, ∃ q blk, p = some q ∧ h.bins.get q = some blk

/-- The exception as the array sees it. -/
def viewException (e : ArrayException (Heap2 T × ArrayClass2Object)) :
    ArrayException (ArrayClass2 T) :=
  match e with
  | .CDynamicArrayException obj => .CDynamicArrayException (view obj.1 obj.2)
  | .CExceptionMemoryAllocation size => .CExceptionMemoryAllocation size

/-- The outcome as the array sees it. -/
def viewOutcome (r : Outcome (Heap2 T × ArrayClass2Object)) : Outcome (ArrayClass2 T) :=
  match r with
  | .ok m => .ok (view m.1 m.2)
  | .throw e m => .throw (viewException e) (view m.1 m.2)
  | .undefined => .undefined

/-- The call that took `m` to `m1` touched no block but the object's own: the
directories and bins of others are as they were, and the object's directory and
bins are old ones of its own or new ones. -/
def Frame (m m1 : Heap2 T × ArrayClass2Object) : Prop :=
  m.1.bins.blocks.length ≤ m1.1.bins.blocks.length ∧
    m.1.dirs.blocks.length ≤ m1.1.dirs.blocks.length ∧
    (∀ a, a < m.1.dirs.blocks.length → m.2.m_array ≠ some a →
      m1.1.dirs.get a = m.1.dirs.get a) ∧
    (∀ q, q < m.1.bins.blocks.length → ¬ OwnsBin m.1 m.2 q →
      m1.1.bins.get q = m.1.bins.get q) ∧
    (∀ a, m1.2.m_array = some a → m.2.m_array = some a ∨ m.1.dirs.blocks.length ≤ a) ∧
    (∀ q, OwnsBin m1.1 m1.2 q → OwnsBin m.1 m.2 q ∨ m.1.bins.blocks.length ≤ q)

/-- The directory of `m1` starts with the cells of the directory of `m`: the bins
are where they were. -/
def Keeps (m m1 : Heap2 T × ArrayClass2Object) : Prop :=
  ∀ ptrs, directory m.1 m.2 = some ptrs →
    ∃ ptrs1, directory m1.1 m1.2 = some ptrs1 ∧ ptrs <+: ptrs1

/-- The call on the heap, started from `m` with outcome `r`, does to the array what
the call `v` on the array alone does, keeps the object live and touches no block
but its own; when it returns its bins are where they were. -/
def Sound (m : Heap2 T × ArrayClass2Object) (r : Outcome (Heap2 T × ArrayClass2Object))
    (v : Outcome (ArrayClass2 T)) : Prop :=
  viewOutcome r = v ∧
    (∀ m1, (r = .ok m1 ∨ ∃ e, r = .throw e m1) → Live m1.1 m1.2 ∧ Frame m m1) ∧
    ∀ m1, r = .ok m1 → Keeps m m1

/-- The object `o` has no block in common with `rhs`. -/
def Apart (h : Heap2 T) (o rhs : ArrayClass2Object) : Prop :=
  (∀ a, o.m_array = some a → rhs.m_array ≠ some a) ∧
    ∀ q, OwnsBin h o q → ¬ OwnsBin h rhs q

/-- The object `c` on the heap `h1` is a copy of `src` as it was on the heap `h`:
same length and elements; `src` is as it was; and a later call of a mutator on `c`
that returns or throws, whatever the allocator answers, leaves `src` as it was. -/
def IsIndependentCopy [Inhabited T] (h : Heap2 T) (src : ArrayClass2Object) (h1 : Heap2 T)
    (c : ArrayClass2Object) : Prop :=
  (view h1 c).GetLength = (view h src).GetLength ∧
    (∀ i : Int, 0 ≤ i → i < (view h src).GetLength →
      Get (h1, c) i = Get (h1, src) i ∧ (view h1 c).Get i = (view h src).Get i) ∧
    view h1 src = view h src ∧
    ∀ (grants : Nat → Bool) (mu : Call T) (m2 : Heap2 T × ArrayClass2Object),
      (call grants mu (h1, c) = .ok m2 ∨ ∃ e, call grants mu (h1, c) = .throw e m2) →
        view m2.1 src = view h src

/-- Every element of `m` is, in `m1`, in the bin and at the slot where it was: the
directory of `m1` starts with the cells of the directory of `m`, and for every
`0 <= i < length` (the length of `m`) `SafeGet(i)` returns the same non-null
pointer on both. -/
def Stays (m m1 : Heap2 T × ArrayClass2Object) : Prop :=
  Keeps m m1 ∧ ∀ i : Int, 0 ≤ i → i < m.2.m_length →
    ∃ p, SafeGet m i = .value (some p) ∧ SafeGet m1 i = .value (some p)

end ArrayClass2Object

namespace ArrayClass2

/-- An array without storage whose length is `INT_MIN`: what copy-construction
gives from an array of length `INT_MIN`. -/
def sampleNegative : ArrayClass2 Int :=
  { m_length := -2147483648, m_maxPerBin := 32, m_slotMask := 31, m_binShift := 5,
    m_array := none, m_binCount := 0, m_valid := true }

end ArrayClass2

namespace ArrayClass2Object

/-- A heap with two binned arrays: the bin at address 0 holds 5, 6, 7 and the bin at
address 1 holds 9; the directory at address 0 points to the first bin and the
directory at address 1 to the second. -/
def sampleHeap : Heap2 Int :=
  { bins := { blocks := [some (5 :: 6 :: 7 :: List.replicate 29 0),
                         some (9 :: List.replicate 31 0)] },
    dirs := { blocks := [some [some 0], some [some 1]] } }

/-- The array of length 3 whose directory is at address 0. -/
def sampleSrc : ArrayClass2Object :=
  { m_length := 3, m_maxPerBin := 32, m_slotMask := 31, m_binShift := 5, m_array := some 0,
    m_binCount := 1, m_valid := true }

/-- The array of length 1 whose directory is at address 1. -/
def sampleTgt : ArrayClass2Object :=
  { m_length := 1, m_maxPerBin := 32, m_slotMask := 31, m_binShift := 5, m_array := some 1,
    m_binCount := 1, m_valid := true }

/-- A heap with one binned array: the bin at address 0 holds `0..31`, and the
directory at address 0 points to it. -/
def sampleHeap32 : Heap2 Int :=
  { bins := { blocks := [some ArrayClass2.values32] },
    dirs := { blocks := [some [some 0]] } }

/-- The array of length 32 whose directory is at address 0: one full bin. -/
def sampleObj32 : ArrayClass2Object :=
  { m_length := 32, m_maxPerBin := 32, m_slotMask := 31, m_binShift := 5, m_array := some 0,
    m_binCount := 1, m_valid := true }

end ArrayClass2Object

namespace ArrayClass

end ArrayClass

namespace ArrayClass2

end ArrayClass2

/-! ## The hash table: `HashTable`

The template `HashTable<T, Key, ResizePolicy>` at its default `Key = int`.  The
member functions only read.  A chain of entries linked by `NextEntry` is the list of
its entries in chain order, the null pointer ending it; `Table` is null or the array
of the chains; a pointer `T*` to the `Obj` of an entry is the bucket of the entry and
its place in the chain of that bucket. -/

/-- The struct `HashTable::HashEntry`; `NextEntry` is the rest of the chain the entry
is in. -/
structure HashEntry (T : Type) where
  Obj : T
  Key : Int
  deriving DecidableEq, Repr

/-- The data members of `HashTable<T>`. -/
structure HashTable (T : Type) where
  Table : Option (List (List (HashEntry T)))
  TableSize : Int
  EntryCount : Int
  StatUsedSlots : Int
  deriving DecidableEq, Repr

namespace HashTable

variable {T : Type}

/-- The static member `HashValue<Key>`: the key converted to `unsigned`. -/
def HashValue (key : Int) : Int := key % 4294967296

/-- The expression `HashValue<Key>(key) % TableSize`, computed in `unsigned`
(`TableSize` is converted to `unsigned`); `none` when the divisor is 0. -/
def bucketOf (t : HashTable T) (key : Int) : Option Int :=
  if t.TableSize % 4294967296 = 0 then none
  else some (HashValue key % (t.TableSize % 4294967296))

/-- The entry a pointer points to: the one at place `p.2` of the chain of bucket
`p.1`; `none` when there is none. -/
def entryAt (t : HashTable T) (p : Int × Nat) : Option (HashEntry T) :=
  match t.Table with
  | none => none
  | some tbl =>
    match load tbl p.1 with
    | none => none
    | some chain => chain[p.2]?

/-- The loop `for (; i < TableSize; i++) { entry = Table[i]; if (entry != NULL)
return &entry->Obj; }` followed by `return NULL`, for `n` more rounds. -/
def scan (t : HashTable T) : Nat → Int → Access (HashTable T) (Option (Int × Nat))
  | 0, _ => .value none
  | n + 1, i =>
    match t.Table with
    | none => .undefined
    | some tbl =>
      match load tbl i with
      | none => .undefined
      | some [] => scan t n (wrapInt (i + 1))
      | some (_ :: _) => .value (some (i, 0))

/-- The member `HashTable::WalkFirst`. -/
def WalkFirst (t : HashTable T) : Access (HashTable T) (Option (Int × Nat)) :=
  scan t t.TableSize.toNat 0

/-- The member `HashTable::WalkNext`: `entry->Key` is read and the bucket computed
before `entry->NextEntry` is looked at. -/
def WalkNext (t : HashTable T) (prevRes : Int × Nat) :
    Access (HashTable T) (Option (Int × Nat)) :=
  match entryAt t prevRes with
  | none => .undefined
  | some entry =>
    match bucketOf t entry.Key with
    | none => .undefined
    | some u =>
      match entryAt t (prevRes.1, prevRes.2 + 1) with
      | some _ => .value (some (prevRes.1, prevRes.2 + 1))
      | none =>
        scan t (t.TableSize - wrapInt (wrapInt u + 1)).toNat (wrapInt (wrapInt u + 1))

/-- The member `HashTable::GetTotalEntries`. -/
def GetTotalEntries (t : HashTable T) : Int := t.EntryCount

/-- The loop `while (entry != NULL) { if (entry->Key == key) return &entry->Obj;
entry = entry->NextEntry; }` of `FindFirst`, `entry` being at place `k` of its chain
and heading the list: the place of the entry returned, or `none` when the end of the
chain is reached. -/
def findInChain (key : Int) : List (HashEntry T) → Nat → Option Nat
  | [], _ => none
  | entry :: rest, k => if entry.Key = key then some k else findInChain key rest (k + 1)

/-- The member `HashTable::FindFirst`; the index of `Table` is an `unsigned`. -/
def FindFirst (t : HashTable T) (key : Int) : Access (HashTable T) (Option (Int × Nat)) :=
  match t.Table with
  | none => .value none
  | some tbl =>
    match bucketOf t key with
    | none => .undefined
    | some u =>
      match load tbl u with
      | none => .undefined
      | some chain =>
        match findInChain key chain 0 with
        | none => .value none
        | some k => .value (some (u, k))

/-- The results of `WalkFirst()`, `WalkNext(.)`, `WalkNext(.)`, ... up to the first
absent one, `r` being the result of the call just made and `n` the number of further
calls allowed; `none` when a call is undefined or more calls are needed. -/
def walkFrom (t : HashTable T) :
    Nat → Access (HashTable T) (Option (Int × Nat)) → Option (List (Int × Nat))
  | 0, r =>
    match r with
    | .value none => some []
    | _ => none
  | n + 1, r =>
    match r with
    | .value none => some []
    | .value (some p) =>
      match walkFrom t n (WalkNext t p) with
      | none => none
      | some rest => some (p :: rest)
    | _ => none

/-- The walk of the whole table with at most `n` calls of `WalkNext`. -/
def walk (t : HashTable T) (n : Nat) : Option (List (Int × Nat)) :=
  walkFrom t n (WalkFirst t)

/-- The table is null or an array of `TableSize` chains, and `TableSize` is an
`int`. -/
def WellFormed (t : HashTable T) : Prop :=
  INT_MIN ≤ t.TableSize ∧ t.TableSize ≤ INT_MAX ∧
    ∀ tbl, t.Table = some tbl → (tbl.length : Int) = t.TableSize

/-- Each entry lies in the bucket `HashValue(key) mod TableSize`. -/
def Placed (t : HashTable T) : Prop :=
  ∀ (p : Int × Nat) (entry : HashEntry T), entryAt t p = some entry →
    bucketOf t entry.Key = some p.1

/-- The pointers to the entries of a chain of bucket `b` from place `k` on, in chain
order. -/
def chainPtrs (b : Int) : List (HashEntry T) → Nat → List (Int × Nat)
  | [], _ => []
  | _ :: rest, k => (b, k) :: chainPtrs b rest (k + 1)

/-- The pointers to the entries of the chains of the buckets `b`, `b + 1`, ..., in
ascending bucket index, each chain in chain order. -/
def tablePtrs : List (List (HashEntry T)) → Int → List (Int × Nat)
  | [], _ => []
  | chain :: rest, b => chainPtrs b chain 0 ++ tablePtrs rest (b + 1)

/-- The table with the entries `a` (key 0) and `b` (key 3) in bucket 0 and `c`
(key 2) in bucket 2, of 3 buckets. -/
def sampleTable : HashTable Char :=
  { Table := some [[{ Obj := 'a', Key := 0 }, { Obj := 'b', Key := 3 }], [],
      [{ Obj := 'c', Key := 2 }]],
    TableSize := 3, EntryCount := 3, StatUsedSlots := 2 }

/-- A table of 3 buckets that has no backing storage. -/
def sampleNoStorage : HashTable Char :=
  { Table := none, TableSize := 3, EntryCount := 0, StatUsedSlots := 0 }

end HashTable

namespace ArrayClass2

variable {T : Type}

/-- The array `s1` has the bin geometry of the array `s`: the same `m_maxPerBin`,
`m_binShift` and `m_slotMask`. -/
def SameGeometry (s s1 : ArrayClass2 T) : Prop :=
  s1.m_maxPerBin = s.m_maxPerBin ∧ s1.m_binShift = s.m_binShift ∧ s1.m_slotMask = s.m_slotMask

end ArrayClass2

namespace ArrayClass

/-- The array after `Add(5); Add(6); DeleteElement(1)` on the freshly constructed
array: one live element in a block of ten whose second cell still holds 6. -/
def sampleStale : ArrayClass Int :=
  { m_length := 1, m_array := some (5 :: 6 :: List.replicate 8 0), m_alloc := 10,
    m_isValid := true }

end ArrayClass

namespace HashTable

variable {T : Type}

/-- The result of call number `n` of the walk: `WalkFirst()` is call 0, and each later
call is `WalkNext` on the entry the call before returned; once a call has returned
absent (or is undefined) there is no further call and the result stays. -/
def walkResult (t : HashTable T) : Nat → Access (HashTable T) (Option (Int × Nat))
  | 0 => WalkFirst t
  | n + 1 =>
    match walkResult t n with
    | .value (some p) => WalkNext t p
    | r => r

/-- A table of 2 buckets whose only entry `x` (key 0, so `HashValue(key) mod TableSize`
is 0) is stored in bucket 1. -/
def sampleMisplaced : HashTable Char :=
  { Table := some [[], [{ Obj := 'x', Key := 0 }]], TableSize := 2, EntryCount := 1,
    StatUsedSlots := 1 }

end HashTable

/-! ## The hash-linked map: `HashListMap::Node` and `NodeGet`

A pointer is the byte address it holds, a natural number below `2^32` (the 32-bit
build the offsets in the header's comments are those of); pointer and `size_t`
arithmetic is modulo `2^32`.  The layout of `Node` enters through the offset of its
member `Value` only. -/

namespace HashListMap

/-- The offset of the member `Value` inside `Node`: `Value` is the first data member
and `Node` has no base class and no virtual function, so it is 0. -/
def offsetOfValue : Nat := 0

/-- The expression `&((Node *)node)->Value` when `Value` lies `off` bytes into
`Node`. -/
def addressOfValue (off node : Nat) : Nat := (node + off) % 4294967296

/-- The member `NodeGet` when `Value` lies `off` bytes into `Node`: the address `cur`
less `(size_t)((byte *)(&((Node *)1)->Value) - (byte *)1)`. -/
def NodeGet (off cur : Nat) : Nat :=
  (cur + 4294967296 - (addressOfValue off 1 + 4294967296 - 1) % 4294967296) % 4294967296

end HashListMap

/-! ## Theorems -/

/-! ### Machine integers and blocks -/

theorem wrapInt_eq (x : Int) (h1 : -2147483648 ≤ x) (h2 : x ≤ 2147483647) : wrapInt x = x := by
  unfold wrapInt
  omega

theorem wrapInt_range (x : Int) : -2147483648 ≤ wrapInt x ∧ wrapInt x ≤ 2147483647 := by
  unfold wrapInt
  omega

theorem load_eq_getElem? {T : Type} (blk : List T) (i : Int) (h : 0 ≤ i) :
    load blk i = blk[i.toNat]? := by
  unfold load
  rw [if_neg (by omega)]

theorem load_isSome {T : Type} (blk : List T) (i : Int) (h0 : 0 ≤ i) (h1 : i < blk.length) :
    ∃ x, load blk i = some x := by
  rw [load_eq_getElem? blk i h0]
  have h : i.toNat < blk.length := by omega
  exact ⟨blk[i.toNat], List.getElem?_eq_getElem h⟩

theorem load_none_of_neg {T : Type} (blk : List T) (i : Int) (h : i < 0) : load blk i = none := by
  unfold load
  rw [if_pos h]

theorem load_none_of_ge {T : Type} (blk : List T) (i : Int) (h : (blk.length : Int) ≤ i) :
    load blk i = none := by
  unfold load
  split
  · rfl
  · exact List.getElem?_eq_none (by omega)

theorem store_some {T : Type} (blk : List T) (i : Int) (x : T) (h0 : 0 ≤ i)
    (h1 : i < blk.length) : store blk i x = some (blk.set i.toNat x) := by
  unfold store
  rw [if_pos ⟨h0, h1⟩]

theorem store_none {T : Type} (blk : List T) (i : Int) (x : T)
    (h : i < 0 ∨ (blk.length : Int) ≤ i) : store blk i x = none := by
  unfold store
  rw [if_neg (by omega)]

theorem store_inv {T : Type} {blk r : List T} {i : Int} {x : T} (h : store blk i x = some r) :
    0 ≤ i ∧ i < blk.length ∧ r = blk.set i.toNat x := by
  unfold store at h
  split at h
  · rename_i hc
    exact ⟨hc.1, hc.2, (Option.some.inj h).symm⟩
  · cases h

theorem load_set {T : Type} (blk : List T) (i : Int) (x : T) (h0 : 0 ≤ i)
    (h1 : i < blk.length) (j : Int) :
    load (blk.set i.toNat x) j = if j = i then some x else load blk j := by
  by_cases hj : j < 0
  · rw [load_none_of_neg _ _ hj, load_none_of_neg _ _ hj, if_neg (by omega)]
  · rw [load_eq_getElem? _ _ (by omega), load_eq_getElem? _ _ (by omega)]
    by_cases hji : j = i
    · subst hji
      rw [if_pos rfl, List.getElem?_set_self]
      omega
    · rw [if_neg hji, List.getElem?_set_ne]
      omega

/-! ### The three element loops -/

theorem copyElements_spec {T : Type} (src : List T) :
    ∀ (n : Nat) (i : Int) (dst : List T), 0 ≤ i → i + n ≤ src.length → i + n ≤ dst.length →
      i + n ≤ 2147483647 →
      ∃ r, copyElements src n i dst = some r ∧ r.length = dst.length ∧
        ∀ j : Int, load r j = if i ≤ j ∧ j < i + n then load src j else load dst j := by
  intro n
  induction n with
  | zero =>
    intro i dst _ _ _ _
    refine ⟨dst, rfl, rfl, fun j => ?_⟩
    rw [if_neg]
    push_cast
    omega
  | succ n ih =>
    intro i dst h0 h1 h2 h3
    push_cast at h1 h2 h3
    obtain ⟨x, hx⟩ := load_isSome src i h0 (by omega)
    have hst := store_some dst i x h0 (by omega)
    have hw : wrapInt (i + 1) = i + 1 := by
      apply wrapInt_eq <;> omega
    obtain ⟨r, hr, hlen, hget⟩ := ih (i + 1) (dst.set i.toNat x) (by omega) (by omega)
      (by rw [List.length_set]; omega) (by omega)
    refine ⟨r, ?_, ?_, fun j => ?_⟩
    · simp only [copyElements, hx, hst, hw, hr]
    · rw [hlen, List.length_set]
    · rw [hget j, load_set dst i x h0 (by omega) j]
      push_cast
      by_cases hj : j = i
      · subst hj
        rw [if_neg (by omega), if_pos rfl, if_pos (by omega), hx]
      · rw [if_neg hj]
        by_cases hr2 : i + 1 ≤ j ∧ j < i + 1 + n
        · rw [if_pos hr2, if_pos (by omega)]
        · rw [if_neg hr2, if_neg (by omega)]

theorem copyElements_none {T : Type} (src : List T) :
    ∀ (n : Nat) (i : Int) (dst : List T), 0 ≤ i → i ≤ dst.length → (dst.length : Int) < i + n →
      (dst.length : Int) ≤ 2147483647 → copyElements src n i dst = none := by
  intro n
  induction n with
  | zero =>
    intro i dst _ h1 h2 _
    push_cast at h2
    omega
  | succ n ih =>
    intro i dst h0 h1 h2 h3
    push_cast at h2
    unfold copyElements
    cases hx : load src i with
    | none => rfl
    | some x =>
      cases hst : store dst i x with
      | none => simp only [hst]
      | some dst1 =>
        obtain ⟨_, hlt, hd⟩ := store_inv hst
        have hw : wrapInt (i + 1) = i + 1 := by
          apply wrapInt_eq <;> omega
        have hl : dst1.length = dst.length := by rw [hd, List.length_set]
        simp only [hst, hw]
        exact ih (i + 1) dst1 (by omega) (by rw [hl]; omega) (by rw [hl]; omega) (by rw [hl]; exact h3)

theorem shiftUp_spec {T : Type} :
    ∀ (n : Nat) (idx : Int) (blk : List T), 0 ≤ idx - n → idx < blk.length → idx ≤ 2147483647 →
      ∃ r, shiftUp n idx blk = some r ∧ r.length = blk.length ∧
        ∀ j : Int, load r j = if idx - n < j ∧ j ≤ idx then load blk (j - 1) else load blk j := by
  intro n
  induction n with
  | zero =>
    intro idx blk _ _ _
    refine ⟨blk, rfl, rfl, fun j => ?_⟩
    rw [if_neg]
    push_cast
    omega
  | succ n ih =>
    intro idx blk h0 h1 h2
    push_cast at h0
    have hw : wrapInt (idx - 1) = idx - 1 := by
      apply wrapInt_eq <;> omega
    obtain ⟨x, hx⟩ := load_isSome blk (idx - 1) (by omega) (by omega)
    have hst := store_some blk idx x (by omega) h1
    obtain ⟨r, hr, hlen, hget⟩ := ih (idx - 1) (blk.set idx.toNat x) (by omega)
      (by rw [List.length_set]; omega) (by omega)
    refine ⟨r, ?_, ?_, fun j => ?_⟩
    · simp only [shiftUp, hw, hx, hst, hr]
    · rw [hlen, List.length_set]
    · rw [hget j, load_set blk idx x (by omega) h1, load_set blk idx x (by omega) h1]
      push_cast
      by_cases hj : j = idx
      · subst hj
        rw [if_neg (by omega), if_pos rfl, if_pos (by omega), hx]
      · rw [if_neg hj]
        by_cases hr2 : idx - 1 - n < j ∧ j ≤ idx - 1
        · rw [if_pos hr2, if_neg (by omega), if_pos (by omega)]
        · rw [if_neg hr2, if_neg (by omega)]

theorem shiftDown_spec {T : Type} :
    ∀ (n : Nat) (index : Int) (blk : List T), 0 ≤ index → index + n < blk.length →
      index + n ≤ 2147483647 →
      ∃ r, shiftDown n index blk = some r ∧ r.length = blk.length ∧
        ∀ j : Int, load r j =
          if index ≤ j ∧ j < index + n then load blk (j + 1) else load blk j := by
  intro n
  induction n with
  | zero =>
    intro index blk _ _ _
    refine ⟨blk, rfl, rfl, fun j => ?_⟩
    rw [if_neg]
    push_cast
    omega
  | succ n ih =>
    intro index blk h0 h1 h2
    push_cast at h1 h2
    have hw : wrapInt (index + 1) = index + 1 := by
      apply wrapInt_eq <;> omega
    obtain ⟨x, hx⟩ := load_isSome blk (index + 1) (by omega) (by omega)
    have hst := store_some blk index x h0 (by omega)
    obtain ⟨r, hr, hlen, hget⟩ := ih (index + 1) (blk.set index.toNat x) (by omega)
      (by rw [List.length_set]; omega) (by omega)
    refine ⟨r, ?_, ?_, fun j => ?_⟩
    · simp only [shiftDown, hw, hx, hst, hr]
    · rw [hlen, List.length_set]
    · rw [hget j, load_set blk index x h0 (by omega), load_set blk index x h0 (by omega)]
      push_cast
      by_cases hj : j = index
      · subst hj
        rw [if_neg (by omega), if_pos rfl, if_pos (by omega), hx]
      · rw [if_neg hj]
        by_cases hr2 : index + 1 ≤ j ∧ j < index + 1 + n
        · rw [if_pos hr2, if_neg (by omega), if_pos (by omega)]
        · rw [if_neg hr2, if_neg (by omega)]

/-! ### The contiguous array: growth -/

namespace ArrayClass

variable {T : Type}

theorem block_of_some {s : ArrayClass T} {blk : List T} (h : s.m_array = some blk) :
    block s = blk := by
  unfold block
  rw [h]
  rfl

theorem block_of_none {s : ArrayClass T} (h : s.m_array = none) : block s = [] := by
  unfold block
  rw [h]
  rfl

theorem isSome_of_pos {s : ArrayClass T} (hwf : WellFormed s) (h : 0 < s.m_alloc) :
    ∃ blk, s.m_array = some blk := by
  cases hs : s.m_array with
  | some blk => exact ⟨blk, rfl⟩
  | none =>
    have h1 := hwf.1
    rw [block_of_none hs] at h1
    simp only [List.length_nil, Nat.cast_zero] at h1
    omega

theorem load_replicate [Inhabited T] (n : Nat) (j : Int) (h0 : 0 ≤ j) (h1 : j < n) :
    load (List.replicate n (default : T)) j = some default := by
  rw [load_eq_getElem? _ _ h0, List.getElem?_replicate]
  rw [if_pos (by omega)]

/-- What `grow` does on a well-formed array, by the sign of the size and whether
the live elements fit. -/
theorem grow_cases [Inhabited T] (s : ArrayClass T) (size : Int) (hwf : WellFormed s)
    (hsize : size ≤ 2147483647) :
    (size < 0 ∧ grow true s size = .throw (.CExceptionMemoryAllocation size)
        { s with m_array := none, m_alloc := 0, m_isValid := false }) ∨
    (0 ≤ size ∧ size < s.m_length ∧ grow true s size = .undefined) ∨
    (0 ≤ size ∧ s.m_length ≤ size ∧ ∃ r : List T, (r.length : Int) = size ∧
        grow true s size = .ok { s with m_array := some r, m_alloc := size } ∧
        (∀ j : Int, 0 ≤ j → j < s.m_length → load r j = load (block s) j) ∧
        (∀ j : Int, s.m_length ≤ j → j < size → load r j = some default)) := by
  obtain ⟨hlen, hl0, hl1, hmax⟩ := hwf
  unfold INT_MAX at hmax
  by_cases hneg : size < 0
  · left
    refine ⟨hneg, ?_⟩
    unfold grow newBlock
    rw [if_neg (by omega)]
  · right
    have hnb : newBlock T true size = some (List.replicate size.toNat default) := by
      unfold newBlock
      rw [if_pos ⟨rfl, by omega⟩]
    have hrl : ((List.replicate size.toNat (default : T)).length : Int) = size := by
      rw [List.length_replicate]
      omega
    cases hs : s.m_array with
    | none =>
      right
      have hb := block_of_none hs
      rw [hb] at hlen
      simp only [List.length_nil, Nat.cast_zero] at hlen
      refine ⟨by omega, by omega, List.replicate size.toNat default, hrl, ?_, ?_, ?_⟩
      · unfold grow
        rw [hnb]
        simp only [hs]
      · intro j h0 h1
        omega
      · intro j h0 h1
        exact load_replicate _ _ (by omega) (by omega)
    | some old =>
      have hb := block_of_some hs
      rw [hb] at hlen
      by_cases hfit : size < s.m_length
      · left
        refine ⟨by omega, hfit, ?_⟩
        have hnone := copyElements_none old s.m_length.toNat 0 (List.replicate size.toNat default)
          (le_refl 0) (by omega) (by omega) (by omega)
        unfold grow
        rw [hnb]
        simp only [hs, hnone]
      · right
        obtain ⟨r, hr, hrlen, hget⟩ := copyElements_spec old s.m_length.toNat 0
          (List.replicate size.toNat default) (le_refl 0) (by omega) (by omega) (by omega)
        refine ⟨by omega, by omega, r, by rw [hrlen]; exact hrl, ?_, ?_, ?_⟩
        · unfold grow
          rw [hnb]
          simp only [hs, hr]
        · intro j h0 h1
          rw [hget j, if_pos (by omega), hb]
        · intro j h0 h1
          rw [hget j, if_neg (by omega)]
          exact load_replicate _ _ (by omega) (by omega)

theorem not_allocationFailed_of_isOk {o : Outcome (ArrayClass T)} (h : o.isOk = true) :
    ¬ AllocationFailed o := by
  rintro ⟨n, t, rfl⟩
  cases h

/-! ### The contiguous array: `SetElementIdx` -/

theorem storeIfArray_some (s : ArrayClass T) (blk : List T) (index : Int) (x : T)
    (hs : s.m_array = some blk) (h0 : 0 ≤ index) (h1 : index < blk.length) :
    storeIfArray s index x = .ok { s with m_array := some (blk.set index.toNat x) } := by
  unfold storeIfArray
  simp only [hs, store_some blk index x h0 h1]

theorem storeIfArray_undefined (s : ArrayClass T) (blk : List T) (index : Int) (x : T)
    (hs : s.m_array = some blk) (h : index < 0 ∨ (blk.length : Int) ≤ index) :
    storeIfArray s index x = .undefined := by
  unfold storeIfArray
  simp only [hs, store_none blk index x h]

theorem Assure_skip [Inhabited T] (s : ArrayClass T) (req : Int) (blk : List T)
    (hs : s.m_array = some blk) (h : req ≤ s.m_alloc) : Assure true s req = .ok s := by
  unfold Assure
  rw [if_neg]
  rw [hs]
  simp only [Option.isNone_some, Bool.false_eq_true, or_false, not_and, not_lt]
  intro _
  omega

theorem Assure_grow [Inhabited T] (s : ArrayClass T) (req : Int) (h0 : req ≠ 0)
    (h : s.m_alloc < req ∨ s.m_array = none) :
    Assure true s req = grow true s (wrapInt (wrapInt (req + 4) * 2)) := by
  unfold Assure
  rw [if_pos]
  refine ⟨h0, ?_⟩
  rcases h with h | h
  · exact Or.inl h
  · right
    rw [h]
    rfl

theorem SetElementIdx_below [Inhabited T] (s : ArrayClass T) (index : Int) (x : T)
    (hwf : WellFormed s) (h0 : 0 ≤ index) (hA : index < s.m_alloc) :
    ∃ s1, SetElementIdx true s index x = .ok s1 ∧ SetElementIdxPost s s1 index x := by
  obtain ⟨blk, hs⟩ := isSome_of_pos hwf (by omega)
  obtain ⟨hlen, hl0, hl1, hamax⟩ := hwf
  have hb := block_of_some hs
  rw [hb] at hlen
  unfold INT_MAX at hamax
  have hpost : ∀ len : Int, len = max s.m_length (index + 1) →
      SetElementIdxPost s { s with m_array := some (blk.set index.toNat x), m_length := len }
        index x := by
    intro len hlen2
    have hb1 : block { s with m_array := some (blk.set index.toNat x), m_length := len } =
        blk.set index.toNat x := rfl
    refine ⟨⟨?_, ?_, ?_, ?_⟩, hlen2, ?_, ?_, rfl, ⟨_, rfl⟩, ?_, ?_⟩
    · rw [hb1, List.length_set]
      exact hlen
    · show 0 ≤ len
      omega
    · show len ≤ s.m_alloc
      omega
    · unfold INT_MAX
      exact hamax
    · rw [hb1, load_set blk index x h0 (by omega), if_pos rfl]
    · intro j _ _ hj
      rw [hb1, load_set blk index x h0 (by omega), if_neg hj, hb]
    · intro _
      refine ⟨rfl, fun j hj => ?_⟩
      rw [hb1, load_set blk index x h0 (by omega), if_neg hj, hb]
    · intro h
      omega
  by_cases hL : index < s.m_length
  · refine ⟨{ s with m_array := some (blk.set index.toNat x), m_length := s.m_length }, ?_,
      hpost _ (by omega)⟩
    unfold SetElementIdx
    rw [if_pos h0, if_neg (by omega)]
    exact storeIfArray_some s blk index x hs h0 (by omega)
  · refine ⟨{ s with m_array := some (blk.set index.toNat x), m_length := index + 1 }, ?_,
      hpost _ (by omega)⟩
    have hw : wrapInt (index + 1) = index + 1 := by
      apply wrapInt_eq <;> omega
    unfold SetElementIdx
    rw [if_pos h0, if_pos (by omega), hw, Assure_skip s (index + 1) blk hs (by omega)]
    simp only [Outcome.andThen, hs, Option.isSome_some, if_true]
    exact storeIfArray_some _ blk index x rfl h0 (by omega)

theorem SetElementIdx_unfold_grow [Inhabited T] (s : ArrayClass T) (index : Int) (x : T)
    (hwf : WellFormed s) (h0 : 0 ≤ index) (hA : s.m_alloc ≤ index) (hmax : index < 2147483647) :
    SetElementIdx true s index x =
      ((grow true s (wrapInt (wrapInt (index + 1 + 4) * 2))).andThen fun s1 =>
        .ok (if s1.m_array.isSome = true then { s1 with m_length := index + 1 }
          else s1)).andThen
        fun s2 => storeIfArray s2 index x := by
  obtain ⟨hlen, hl0, hl1, hamax⟩ := hwf
  have hw : wrapInt (index + 1) = index + 1 := by
    apply wrapInt_eq <;> omega
  unfold SetElementIdx
  rw [if_pos h0, if_pos (by omega), hw, Assure_grow s (index + 1) (by omega) (Or.inl (by omega))]

theorem SetElementIdx_grows [Inhabited T] (s : ArrayClass T) (index : Int) (x : T)
    (hwf : WellFormed s) (h0 : 0 ≤ index) (hA : s.m_alloc ≤ index)
    (hfit : (index + 5) * 2 ≤ 2147483647) :
    ∃ s1, SetElementIdx true s index x = .ok s1 ∧ SetElementIdxPost s s1 index x := by
  have hsz : wrapInt (wrapInt (index + 1 + 4) * 2) = (index + 5) * 2 := by
    unfold wrapInt
    omega
  have hwf2 := hwf
  obtain ⟨hlen, hl0, hl1, hamax⟩ := hwf2
  rcases grow_cases s ((index + 5) * 2) hwf hfit with ⟨h, _⟩ | ⟨_, h, _⟩ | ⟨_, _, r, hr, hg, hold, hnew⟩
  · omega
  · omega
  · have hset : SetElementIdx true s index x =
        .ok { s with m_array := some (r.set index.toNat x), m_alloc := (index + 5) * 2,
                     m_length := index + 1 } := by
      rw [SetElementIdx_unfold_grow s index x hwf h0 hA (by omega), hsz, hg]
      simp only [Outcome.andThen, Option.isSome_some, if_true]
      exact storeIfArray_some _ r index x rfl h0 (by omega)
    refine ⟨_, hset, ⟨?_, ?_, ?_, ?_⟩, ?_, ?_, ?_, rfl, ⟨_, rfl⟩, ?_, ?_⟩
    · show (((r.set index.toNat x).length : Nat) : Int) = (index + 5) * 2
      rw [List.length_set]
      exact hr
    · show 0 ≤ index + 1
      omega
    · show index + 1 ≤ (index + 5) * 2
      omega
    · show (index + 5) * 2 ≤ INT_MAX
      unfold INT_MAX
      exact hfit
    · show index + 1 = max s.m_length (index + 1)
      omega
    · show load (r.set index.toNat x) index = some x
      rw [load_set r index x h0 (by omega), if_pos rfl]
    · intro j hj0 hj1 hj
      show load (r.set index.toNat x) j = load (block s) j
      rw [load_set r index x h0 (by omega), if_neg hj]
      exact hold j hj0 hj1
    · intro h
      omega
    · intro _
      refine ⟨rfl, fun j hj0 hj1 hj => ?_⟩
      show load (r.set index.toNat x) j = some default
      rw [load_set r index x h0 (by omega), if_neg hj]
      exact hnew j hj0 hj1

theorem SetElementIdx_failed [Inhabited T] (s : ArrayClass T) (index : Int) (x : T)
    (hwf : WellFormed s) (h0 : 0 ≤ index) (hA : s.m_alloc ≤ index)
    (hfit : 2147483647 < (index + 5) * 2) (hmax : index ≤ 2147483642) :
    AllocationFailed (SetElementIdx true s index x) := by
  have hsz : wrapInt (wrapInt (index + 1 + 4) * 2) = (index + 5) * 2 - 4294967296 := by
    unfold wrapInt
    omega
  rcases grow_cases s ((index + 5) * 2 - 4294967296) hwf (by omega) with
    ⟨_, hg⟩ | ⟨h, _, _⟩ | ⟨h, _, _⟩
  · rw [SetElementIdx_unfold_grow s index x hwf h0 hA (by omega), hsz, hg]
    exact ⟨_, _, rfl⟩
  · omega
  · omega

theorem SetElementIdx_undefined [Inhabited T] (s : ArrayClass T) (index : Int) (x : T)
    (hwf : WellFormed s) (hA : s.m_alloc ≤ index)
    (hbig : 2147483642 < index) (hmax : index ≤ 2147483647) :
    SetElementIdx true s index x = .undefined := by
  have hwf2 := hwf
  obtain ⟨hlen, hl0, hl1, hamax⟩ := hwf2
  by_cases htop : index = 2147483647
  · subst htop
    have hw : wrapInt (2147483647 + 1) = -2147483648 := by decide
    unfold SetElementIdx
    rw [if_pos (by omega), if_pos (by omega), hw]
    cases hs : s.m_array with
    | some blk =>
      have hb := block_of_some hs
      rw [hb] at hlen
      rw [Assure_skip s _ blk hs (by omega)]
      simp only [Outcome.andThen, hs, Option.isSome_some, if_true]
      exact storeIfArray_undefined _ blk _ x rfl (Or.inr (by omega))
    | none =>
      rw [Assure_grow s _ (by omega) (Or.inr hs)]
      have hsz : wrapInt (wrapInt (-2147483648 + 4) * 2) = 8 := by decide
      rw [hsz]
      rcases grow_cases s 8 hwf (by omega) with ⟨h, _⟩ | ⟨_, h, _⟩ | ⟨_, _, r, hr, hg, _⟩
      · omega
      · have h1 := block_of_none hs
        rw [h1] at hlen
        simp only [List.length_nil, Nat.cast_zero] at hlen
        omega
      · rw [hg]
        simp only [Outcome.andThen, Option.isSome_some, if_true]
        exact storeIfArray_undefined _ r _ x rfl (Or.inr (by omega))
  · have hsz : wrapInt (wrapInt (index + 1 + 4) * 2) = (index + 5) * 2 - 4294967296 := by
      unfold wrapInt
      omega
    rw [SetElementIdx_unfold_grow s index x hwf (by omega) hA (by omega), hsz]
    rcases grow_cases s ((index + 5) * 2 - 4294967296) hwf (by omega) with
      ⟨h, _⟩ | ⟨_, _, hg⟩ | ⟨_, _, r, hr, hg, _⟩
    · omega
    · rw [hg]
      rfl
    · rw [hg]
      simp only [Outcome.andThen, Option.isSome_some, if_true]
      exact storeIfArray_undefined _ r _ x rfl (Or.inr (by omega))

theorem SetElementIdx_neg [Inhabited T] (s : ArrayClass T) (index : Int) (x : T)
    (h : index < 0) : SetElementIdx true s index x = .ok s := by
  unfold SetElementIdx
  rw [if_neg (by omega)]

/-- A call of `SetElementIdx` that returns leaves the array as `SetElementIdxPost`
says. -/
theorem SetElementIdx_inv [Inhabited T] (s s1 : ArrayClass T) (index : Int) (x : T)
    (hwf : WellFormed s) (hmax : index ≤ 2147483647)
    (h : SetElementIdx true s index x = .ok s1) :
    (index < 0 ∧ s1 = s) ∨ (0 ≤ index ∧ SetElementIdxPost s s1 index x) := by
  by_cases h0 : index < 0
  · left
    rw [SetElementIdx_neg s index x h0] at h
    exact ⟨h0, (Outcome.ok.inj h).symm⟩
  · right
    refine ⟨by omega, ?_⟩
    by_cases hA : index < s.m_alloc
    · obtain ⟨s2, h2, hp⟩ := SetElementIdx_below s index x hwf (by omega) hA
      rw [h2] at h
      rw [← Outcome.ok.inj h]
      exact hp
    · by_cases hfit : (index + 5) * 2 ≤ 2147483647
      · obtain ⟨s2, h2, hp⟩ := SetElementIdx_grows s index x hwf (by omega) (by omega) hfit
        rw [h2] at h
        rw [← Outcome.ok.inj h]
        exact hp
      · by_cases hbig : index ≤ 2147483642
        · obtain ⟨n, s2, h2⟩ := SetElementIdx_failed s index x hwf (by omega) (by omega)
            (by omega) hbig
          rw [h2] at h
          cases h
        · rw [SetElementIdx_undefined s index x hwf (by omega) (by omega) hmax] at h
          cases h

/-! ### The contiguous array: `Get` -/

theorem Get_value (s : ArrayClass T) (j : Int) (x : T) (h0 : 0 ≤ j) (h1 : j < s.m_length)
    (hs : ∃ blk, s.m_array = some blk) (hx : load (block s) j = some x) :
    ArrayClass_RO.Get s j = .value x := by
  obtain ⟨blk, hs⟩ := hs
  rw [block_of_some hs] at hx
  unfold ArrayClass_RO.Get
  rw [if_neg]
  · simp only [hs, hx]
  · rw [hs]
    simp only [Option.isNone_some, Bool.false_eq_true, or_false]
    omega

theorem Get_congr (s s1 : ArrayClass T) (j : Int) (hwf : WellFormed s) (hwf1 : WellFormed s1)
    (h0 : 0 ≤ j) (h1 : j < s.m_length) (h2 : j < s1.m_length)
    (hx : load (block s1) j = load (block s) j) :
    ArrayClass_RO.Get s1 j = ArrayClass_RO.Get s j := by
  obtain ⟨x, hl⟩ := load_isSome (block s) j h0 (by have := hwf.1; have := hwf.2.2.1; omega)
  rw [Get_value s j x h0 h1 (isSome_of_pos hwf (by have := hwf.2.2.1; omega)) hl]
  rw [hl] at hx
  exact Get_value s1 j x h0 h2 (isSome_of_pos hwf1 (by have := hwf1.2.2.1; omega)) hx

theorem load_live (s : ArrayClass T) (j : Int) (hwf : WellFormed s) (h0 : 0 ≤ j)
    (h1 : j < s.m_length) : ∃ x, load (block s) j = some x ∧ ArrayClass_RO.Get s j = .value x := by
  obtain ⟨x, hl⟩ := load_isSome (block s) j h0 (by have := hwf.1; have := hwf.2.2.1; omega)
  exact ⟨x, hl, Get_value s j x h0 h1 (isSome_of_pos hwf (by have := hwf.2.2.1; omega)) hl⟩

/-! ### The contiguous array: `InsertElement` -/

theorem insertBlock_spec (blk : List T) (L index : Int) (x : T) (h0 : 0 ≤ index)
    (h1 : index < L) (h2 : L < blk.length) (h3 : L ≤ 2147483647) :
    ∃ r r2, shiftUp (L - index).toNat L blk = some r ∧ store r index x = some r2 ∧
      r2.length = blk.length ∧
      ∀ j : Int, load r2 j =
        if j = index then some x else if index < j ∧ j ≤ L then load blk (j - 1) else load blk j := by
  obtain ⟨r, hr, hrlen, hget⟩ := shiftUp_spec (L - index).toNat L blk (by omega) h2 h3
  refine ⟨r, r.set index.toNat x, hr, store_some r index x h0 (by omega), ?_, fun j => ?_⟩
  · rw [List.length_set, hrlen]
  · rw [load_set r index x h0 (by omega), hget j]
    by_cases hj : j = index
    · rw [if_pos hj, if_pos hj]
    · rw [if_neg hj, if_neg hj]
      by_cases hr2 : index < j ∧ j ≤ L
      · rw [if_pos hr2, if_pos (by omega)]
      · rw [if_neg hr2, if_neg (by omega)]

theorem InsertElement_unfold [Inhabited T] (s : ArrayClass T) (index : Int) (x : T)
    (h0 : 0 ≤ index) (h1 : index < s.m_length) :
    InsertElement true s index x =
      (Assure true s (wrapInt (s.m_length + 1))).andThen fun s1 =>
        match s1.m_array with
        | none => .ok s1
        | some blk =>
          match shiftUp (s1.m_length - index).toNat s1.m_length blk with
          | none => .undefined
          | some blk1 =>
            match store blk1 index x with
            | none => .undefined
            | some blk2 =>
              .ok { s1 with m_array := some blk2, m_length := wrapInt (s1.m_length + 1) } := by
  unfold InsertElement
  rw [if_pos h0, if_pos h1]

theorem InsertElement_below [Inhabited T] (s : ArrayClass T) (index : Int) (x : T)
    (hwf : WellFormed s) (h0 : 0 ≤ index) (h1 : index < s.m_length)
    (hA : s.m_length < s.m_alloc) :
    ∃ s1, InsertElement true s index x = .ok s1 ∧ InsertElementPost s s1 index x := by
  obtain ⟨blk, hs⟩ := isSome_of_pos hwf (by omega)
  obtain ⟨hlen, hl0, hl1, hamax⟩ := hwf
  have hb := block_of_some hs
  rw [hb] at hlen
  unfold INT_MAX at hamax
  obtain ⟨r, r2, hr, hst, hrlen, hget⟩ := insertBlock_spec blk s.m_length index x h0 h1
    (by omega) (by omega)
  have hw : wrapInt (s.m_length + 1) = s.m_length + 1 := by
    apply wrapInt_eq <;> omega
  refine ⟨{ s with m_array := some r2, m_length := s.m_length + 1 }, ?_,
    ⟨?_, ?_, ?_, ?_⟩, rfl, ?_, ?_, ?_, rfl, ⟨_, rfl⟩, le_refl _, ?_⟩
  · rw [InsertElement_unfold s index x h0 h1, hw, Assure_skip s _ blk hs (by omega)]
    simp only [Outcome.andThen, hs, hr, hst, hw]
  · show ((r2.length : Nat) : Int) = s.m_alloc
    rw [hrlen]
    exact hlen
  · show 0 ≤ s.m_length + 1
    omega
  · show s.m_length + 1 ≤ s.m_alloc
    omega
  · unfold INT_MAX
    exact hamax
  · intro j hj0 hj1
    show load r2 j = load (block s) j
    rw [hget j, if_neg (by omega), if_neg (by omega), hb]
  · show load r2 index = some x
    rw [hget index, if_pos rfl]
  · intro j hj0 hj1
    show load r2 (j + 1) = load (block s) j
    rw [hget (j + 1), if_neg (by omega), if_pos (by omega), hb]
    congr 1
    omega
  · intro j hj0 hj1
    have hj2 : j < s.m_alloc := hj1
    show load r2 j = if j < s.m_alloc then load (block s) j else some default
    rw [hget j, if_neg (by omega), if_neg (by omega), if_pos hj2, hb]

theorem InsertElement_grows [Inhabited T] (s : ArrayClass T) (index : Int) (x : T)
    (hwf : WellFormed s) (h0 : 0 ≤ index) (h1 : index < s.m_length)
    (hA : s.m_length = s.m_alloc) (hfit : (s.m_length + 5) * 2 ≤ 2147483647) :
    ∃ s1, InsertElement true s index x = .ok s1 ∧ InsertElementPost s s1 index x := by
  have hwf2 := hwf
  obtain ⟨hlen, hl0, hl1, hamax⟩ := hwf2
  have hw : wrapInt (s.m_length + 1) = s.m_length + 1 := by
    apply wrapInt_eq <;> omega
  have hsz : wrapInt (wrapInt (s.m_length + 1 + 4) * 2) = (s.m_length + 5) * 2 := by
    unfold wrapInt
    omega
  rcases grow_cases s ((s.m_length + 5) * 2) hwf hfit with
    ⟨h, _⟩ | ⟨_, h, _⟩ | ⟨_, _, r0, hr0, hg, hold, hnew⟩
  · omega
  · omega
  · obtain ⟨r, r2, hr, hst, hrlen, hget⟩ := insertBlock_spec r0 s.m_length index x h0 h1
      (by omega) (by omega)
    refine ⟨{ s with m_array := some r2, m_alloc := (s.m_length + 5) * 2,
                     m_length := s.m_length + 1 }, ?_,
      ⟨?_, ?_, ?_, ?_⟩, rfl, ?_, ?_, ?_, rfl, ⟨_, rfl⟩, ?_, ?_⟩
    · rw [InsertElement_unfold s index x h0 h1, hw,
        Assure_grow s _ (by omega) (Or.inl (by omega)), hsz, hg]
      simp only [Outcome.andThen, hr, hst, hw]
    · show ((r2.length : Nat) : Int) = (s.m_length + 5) * 2
      rw [hrlen]
      exact hr0
    · show 0 ≤ s.m_length + 1
      omega
    · show s.m_length + 1 ≤ (s.m_length + 5) * 2
      omega
    · unfold INT_MAX
      exact hfit
    · intro j hj0 hj1
      show load r2 j = load (block s) j
      rw [hget j, if_neg (by omega), if_neg (by omega)]
      exact hold j hj0 (by omega)
    · show load r2 index = some x
      rw [hget index, if_pos rfl]
    · intro j hj0 hj1
      show load r2 (j + 1) = load (block s) j
      rw [hget (j + 1), if_neg (by omega), if_pos (by omega)]
      have he : j + 1 - 1 = j := by omega
      rw [he]
      exact hold j (by omega) hj1
    · show s.m_alloc ≤ (s.m_length + 5) * 2
      omega
    · intro j hj0 hj1
      have hj2 : j < (s.m_length + 5) * 2 := hj1
      show load r2 j = if j < s.m_alloc then load (block s) j else some default
      rw [hget j, if_neg (by omega), if_neg (by omega), if_neg (by omega)]
      exact hnew j (by omega) hj2

theorem InsertElement_failed [Inhabited T] (s : ArrayClass T) (index : Int) (x : T)
    (hwf : WellFormed s) (h0 : 0 ≤ index) (h1 : index < s.m_length)
    (hA : s.m_length = s.m_alloc) (hfit : 2147483647 < (s.m_length + 5) * 2)
    (hmax : s.m_length ≤ 2147483642) :
    AllocationFailed (InsertElement true s index x) := by
  have hw : wrapInt (s.m_length + 1) = s.m_length + 1 := by
    apply wrapInt_eq <;> omega
  have hsz : wrapInt (wrapInt (s.m_length + 1 + 4) * 2) = (s.m_length + 5) * 2 - 4294967296 := by
    unfold wrapInt
    omega
  rcases grow_cases s ((s.m_length + 5) * 2 - 4294967296) hwf (by omega) with
    ⟨_, hg⟩ | ⟨h, _, _⟩ | ⟨h, _, _⟩
  · rw [InsertElement_unfold s index x h0 h1, hw,
      Assure_grow s _ (by omega) (Or.inl (by omega)), hsz, hg]
    exact ⟨_, _, rfl⟩
  · omega
  · omega

theorem InsertElement_undefined [Inhabited T] (s : ArrayClass T) (index : Int) (x : T)
    (hwf : WellFormed s) (h0 : 0 ≤ index) (h1 : index < s.m_length)
    (hA : s.m_length = s.m_alloc) (hbig : 2147483642 < s.m_length) :
    InsertElement true s index x = .undefined := by
  have hwf2 := hwf
  obtain ⟨hlen, hl0, hl1, hamax⟩ := hwf2
  unfold INT_MAX at hamax
  obtain ⟨blk, hs⟩ := isSome_of_pos hwf (by omega)
  have hb := block_of_some hs
  rw [hb] at hlen
  by_cases htop : s.m_length = 2147483647
  · have hw : wrapInt (s.m_length + 1) = -2147483648 := by
      rw [htop]
      decide
    rw [InsertElement_unfold s index x h0 h1, hw, Assure_skip s _ blk hs (by omega)]
    have hn : (s.m_length - index).toNat = (s.m_length - index - 1).toNat + 1 := by omega
    simp only [Outcome.andThen, hs]
    rw [hn]
    unfold shiftUp
    cases hx : load blk (wrapInt (s.m_length - 1)) with
    | none => rfl
    | some y =>
      simp only [store_none blk s.m_length y (Or.inr (by omega))]
  · have hw : wrapInt (s.m_length + 1) = s.m_length + 1 := by
      apply wrapInt_eq <;> omega
    have hsz : wrapInt (wrapInt (s.m_length + 1 + 4) * 2) =
        (s.m_length + 5) * 2 - 4294967296 := by
      unfold wrapInt
      omega
    rw [InsertElement_unfold s index x h0 h1, hw,
      Assure_grow s _ (by omega) (Or.inl (by omega)), hsz]
    rcases grow_cases s ((s.m_length + 5) * 2 - 4294967296) hwf (by omega) with
      ⟨h, _⟩ | ⟨_, _, hg⟩ | ⟨_, h, _⟩
    · omega
    · rw [hg]
      rfl
    · omega

/-- A call of `InsertElement` inside the live range that returns leaves the array
as `InsertElementPost` says. -/
theorem InsertElement_inv [Inhabited T] (s s1 : ArrayClass T) (index : Int) (x : T)
    (hwf : WellFormed s) (h0 : 0 ≤ index) (h1 : index < s.m_length)
    (h : InsertElement true s index x = .ok s1) : InsertElementPost s s1 index x := by
  have hl1 := hwf.2.2.1
  by_cases hA : s.m_length < s.m_alloc
  · obtain ⟨s2, h2, hp⟩ := InsertElement_below s index x hwf h0 h1 hA
    rw [h2] at h
    rw [← Outcome.ok.inj h]
    exact hp
  · have hA2 : s.m_length = s.m_alloc := by omega
    by_cases hfit : (s.m_length + 5) * 2 ≤ 2147483647
    · obtain ⟨s2, h2, hp⟩ := InsertElement_grows s index x hwf h0 h1 hA2 hfit
      rw [h2] at h
      rw [← Outcome.ok.inj h]
      exact hp
    · by_cases hbig : s.m_length ≤ 2147483642
      · obtain ⟨n, s2, h2⟩ := InsertElement_failed s index x hwf h0 h1 hA2 (by omega) hbig
        rw [h2] at h
        cases h
      · rw [InsertElement_undefined s index x hwf h0 h1 hA2 (by omega)] at h
        cases h

/-! ### The contiguous array: `DeleteElement`, copies, reachable arrays -/

theorem DeleteElement_spec (s : ArrayClass T) (index : Int) (hwf : WellFormed s)
    (h0 : 0 ≤ index) (h1 : index < s.m_length) :
    ∃ s1, DeleteElement s index = .ok s1 ∧ DeleteElementPost s s1 index := by
  obtain ⟨blk, hs⟩ := isSome_of_pos hwf (by have := hwf.2.2.1; omega)
  obtain ⟨hlen, hl0, hl1, hamax⟩ := hwf
  have hb := block_of_some hs
  rw [hb] at hlen
  unfold INT_MAX at hamax
  have hw : wrapInt (s.m_length - 1) = s.m_length - 1 := by
    apply wrapInt_eq <;> omega
  obtain ⟨r, hr, hrlen, hget⟩ := shiftDown_spec (s.m_length - 1 - index).toNat index blk h0
    (by omega) (by omega)
  refine ⟨{ s with m_array := some r, m_length := s.m_length - 1 }, ?_,
    ⟨?_, ?_, ?_, ?_⟩, rfl, ?_, ?_, rfl, rfl, ⟨_, rfl⟩⟩
  · unfold DeleteElement
    simp only [hs, hw, hr]
    rw [if_pos ⟨h0, h1⟩]
  · show ((r.length : Nat) : Int) = s.m_alloc
    rw [hrlen]
    exact hlen
  · show 0 ≤ s.m_length - 1
    omega
  · show s.m_length - 1 ≤ s.m_alloc
    omega
  · unfold INT_MAX
    exact hamax
  · intro j hj0 hj1
    show load r j = load (block s) j
    rw [hget j, if_neg (by omega), hb]
  · intro j hj0 hj1
    show load r (j - 1) = load (block s) j
    rw [hget (j - 1), if_pos (by omega), hb]
    congr 1
    omega

theorem DeleteElement_outside (s : ArrayClass T) (index : Int)
    (h : index < 0 ∨ s.m_length ≤ index) : DeleteElement s index = .ok s := by
  unfold DeleteElement
  cases s.m_array with
  | none => rfl
  | some blk =>
    simp only
    rw [if_neg (by omega)]

theorem copyFrom_empty [Inhabited T] (s rhs : ArrayClass T)
    (h : rhs.m_length = 0) : copyFrom true s rhs = .ok s := by
  unfold copyFrom
  rw [if_neg (by omega)]

theorem copyFrom_spec [Inhabited T] (s rhs : ArrayClass T) (hs : s.m_array = none)
    (hs0 : s.m_alloc = 0) (hs1 : s.m_length = 0) (hwf : WellFormed rhs)
    (h : rhs.m_length ≠ 0) :
    ∃ r : List T, copyFrom true s rhs =
        .ok { s with m_array := some r, m_alloc := rhs.m_length, m_length := rhs.m_length } ∧
      (r.length : Int) = rhs.m_length ∧
      ∀ j : Int, 0 ≤ j → j < rhs.m_length → load r j = load (block rhs) j := by
  have hswf : WellFormed s := by
    refine ⟨?_, by omega, by omega, ?_⟩
    · rw [block_of_none hs, hs0]
      rfl
    · rw [hs0]
      decide
  obtain ⟨src, hsrc⟩ := isSome_of_pos hwf (by have := hwf.2.1; have := hwf.2.2.1; omega)
  obtain ⟨hlen, hl0, hl1, hamax⟩ := hwf
  have hb := block_of_some hsrc
  rw [hb] at hlen
  unfold INT_MAX at hamax
  rcases grow_cases s rhs.m_length hswf (by omega) with
    ⟨h2, _⟩ | ⟨_, h2, _⟩ | ⟨_, _, r0, hr0, hg, _, _⟩
  · omega
  · omega
  · obtain ⟨r, hr, hrlen, hget⟩ := copyElements_spec src rhs.m_length.toNat 0 r0 (le_refl 0)
      (by omega) (by omega) (by omega)
    refine ⟨r, ?_, by rw [hrlen]; exact hr0, fun j hj0 hj1 => ?_⟩
    · unfold copyFrom AssureExact
      rw [if_pos h, if_pos ⟨h, Or.inl (by omega)⟩, hg]
      simp only [Outcome.andThen, hsrc, hr]
    · rw [hget j, if_pos (by omega), hb]

/-- Every reachable contiguous array satisfies the representation invariant. -/
theorem Reachable.wellFormed [Inhabited T] {s : ArrayClass T} (h : Reachable s) :
    WellFormed s := by
  have hempty : ∀ t : ArrayClass T, t.m_array = none → t.m_alloc = 0 → t.m_length = 0 →
      WellFormed t := by
    intro t h1 h2 h3
    refine ⟨?_, by omega, by omega, ?_⟩
    · rw [block_of_none h1, h2]
      rfl
    · rw [h2]
      decide
  have hcopy : ∀ t rhs s1 : ArrayClass T, t.m_array = none → t.m_alloc = 0 → t.m_length = 0 →
      WellFormed rhs → copyFrom true t rhs = .ok s1 → WellFormed s1 := by
    intro t rhs s1 h1 h2 h3 hr hc
    by_cases hz : rhs.m_length = 0
    · rw [copyFrom_empty t rhs hz] at hc
      rw [← Outcome.ok.inj hc]
      exact hempty t h1 h2 h3
    · obtain ⟨r, hc2, hrl, _⟩ := copyFrom_spec t rhs h1 h2 h3 hr hz
      rw [hc2] at hc
      rw [← Outcome.ok.inj hc]
      exact ⟨hrl, hr.2.1, le_refl _, le_trans hr.2.2.1 hr.2.2.2⟩
  induction h with
  | ctor => exact hempty _ rfl rfl rfl
  | Add s s1 x _ hop ih =>
    unfold ArrayClass.Add at hop
    rcases SetElementIdx_inv s s1 _ x ih (by have := ih.2.2.1; have := ih.2.2.2; unfold INT_MAX at this; omega) hop with
      ⟨_, h2⟩ | ⟨_, h2⟩
    · rw [h2]
      exact ih
    · exact h2.1
  | SetElementIdx s s1 index x _ _ hmax hop ih =>
    unfold INT_MAX at hmax
    rcases SetElementIdx_inv s s1 index x ih hmax hop with ⟨_, h2⟩ | ⟨_, h2⟩
    · rw [h2]
      exact ih
    · exact h2.1
  | InsertElement s s1 index x _ _ hmax hop ih =>
    unfold INT_MAX at hmax
    by_cases h0 : 0 ≤ index
    · by_cases h1 : index < s.m_length
      · exact (InsertElement_inv s s1 index x ih h0 h1 hop).1
      · unfold ArrayClass.InsertElement at hop
        rw [if_pos h0, if_neg h1] at hop
        rcases SetElementIdx_inv s s1 index x ih hmax hop with ⟨_, h2⟩ | ⟨_, h2⟩
        · rw [h2]
          exact ih
        · exact h2.1
    · unfold ArrayClass.InsertElement at hop
      rw [if_neg h0] at hop
      rw [← Outcome.ok.inj hop]
      exact ih
  | DeleteElement s s1 index _ _ _ hop ih =>
    by_cases h0 : 0 ≤ index ∧ index < s.m_length
    · obtain ⟨s2, h2, hp⟩ := DeleteElement_spec s index ih h0.1 h0.2
      rw [h2] at hop
      rw [← Outcome.ok.inj hop]
      exact hp.1
    · rw [DeleteElement_outside s index (by omega)] at hop
      rw [← Outcome.ok.inj hop]
      exact ih
  | Reset s _ _ => exact hempty _ rfl rfl rfl
  | copyCtor rhs s1 _ hop ih => exact hcopy ArrayClass.ctor rhs s1 rfl rfl rfl ih hop
  | assign s rhs s1 _ _ hop _ ih2 => exact hcopy (ArrayClass.Reset s) rhs s1 rfl rfl rfl ih2 hop

/-! ### The contiguous array: repeated `Add` -/

theorem Add_step [Inhabited T] (s : ArrayClass T) (v : T) (hwf : WellFormed s)
    (hmod : s.m_alloc = 0 ∨ s.m_alloc % 20 = 10) :
    (AllocationFailed (Add true s v) ∧ 1073741819 ≤ s.m_length) ∨
    ∃ s1, Add true s v = .ok s1 ∧ SetElementIdxPost s s1 s.m_length v ∧
      (s1.m_alloc = 0 ∨ s1.m_alloc % 20 = 10) := by
  have hwf2 := hwf
  obtain ⟨hlen, hl0, hl1, hamax⟩ := hwf2
  unfold INT_MAX at hamax
  unfold Add
  by_cases hA : s.m_length < s.m_alloc
  · right
    obtain ⟨s1, h1, hp⟩ := SetElementIdx_below s s.m_length v hwf hl0 hA
    refine ⟨s1, h1, hp, ?_⟩
    rw [(hp.2.2.2.2.2.2.1 hA).1]
    exact hmod
  · by_cases hfit : (s.m_length + 5) * 2 ≤ 2147483647
    · right
      obtain ⟨s1, h1, hp⟩ := SetElementIdx_grows s s.m_length v hwf hl0 (by omega) hfit
      refine ⟨s1, h1, hp, Or.inr ?_⟩
      rw [(hp.2.2.2.2.2.2.2 (by omega)).1]
      omega
    · left
      exact ⟨SetElementIdx_failed s s.m_length v hwf hl0 (by omega) (by omega) (by omega),
        by omega⟩

theorem addAll_gen [Inhabited T] :
    ∀ (vs : List T) (s : ArrayClass T) (pre : List T), WellFormed s →
      (s.m_alloc = 0 ∨ s.m_alloc % 20 = 10) → s.m_length = pre.length →
      (∀ i : Nat, i < pre.length → load (block s) i = pre[i]?) →
      (AllocationFailed (addAll true vs s) ∧ 1073741819 < (pre ++ vs).length) ∨
      ∃ s1, addAll true vs s = .ok s1 ∧ WellFormed s1 ∧ s1.m_length = (pre ++ vs).length ∧
        ∀ i : Nat, i < (pre ++ vs).length → load (block s1) i = (pre ++ vs)[i]? := by
  intro vs
  induction vs with
  | nil =>
    intro s pre hwf _ hlen hget
    right
    refine ⟨s, rfl, hwf, ?_, ?_⟩
    · rw [List.append_nil]
      exact hlen
    · rw [List.append_nil]
      exact hget
  | cons v rest ih =>
    intro s pre hwf hmod hlen hget
    have happ : pre ++ v :: rest = (pre ++ [v]) ++ rest := by
      rw [List.append_assoc]
      rfl
    rcases Add_step s v hwf hmod with ⟨⟨n, t, hf⟩, hbig⟩ | ⟨s1, h1, hp, hmod1⟩
    · left
      refine ⟨⟨n, t, ?_⟩, ?_⟩
      · unfold addAll
        rw [hf]
        rfl
      · rw [List.length_append, List.length_cons]
        omega
    · obtain ⟨hwf1, hlen1, hat, hold, _⟩ := hp
      have hl0 := hwf.2.1
      have hlen2 : s1.m_length = ((pre ++ [v]).length : Nat) := by
        rw [hlen1, List.length_append, List.length_singleton]
        push_cast
        omega
      have hget2 : ∀ i : Nat, i < (pre ++ [v]).length → load (block s1) i = (pre ++ [v])[i]? := by
        intro i hi
        rw [List.length_append, List.length_singleton] at hi
        by_cases hip : i < pre.length
        · rw [hold i (by omega) (by omega) (by omega), hget i hip,
            List.getElem?_append_left hip]
        · have hie : i = pre.length := by omega
          have hie2 : (i : Int) = s.m_length := by omega
          rw [hie2, hat, hie, List.getElem?_append_right (le_refl _)]
          simp
      have hrun : addAll true (v :: rest) s = addAll true rest s1 := by
        show (Add true s v).andThen (addAll true rest) = addAll true rest s1
        rw [h1]
        rfl
      rw [hrun, happ]
      exact ih s1 (pre ++ [v]) hwf1 hmod1 hlen2 hget2

theorem Reachable.of_addAll [Inhabited T] :
    ∀ (vs : List T) (s s1 : ArrayClass T), Reachable s →
      ArrayClass.addAll true vs s = .ok s1 → Reachable s1 := by
  intro vs
  induction vs with
  | nil =>
    intro s s1 hr h
    rw [← Outcome.ok.inj h]
    exact hr
  | cons v rest ih =>
    intro s s1 hr h
    unfold ArrayClass.addAll at h
    cases hA : ArrayClass.Add true s v with
    | ok s2 =>
      rw [hA] at h
      exact ih s2 s1 (Reachable.Add s s2 v hr hA) h
    | throw e s2 =>
      rw [hA] at h
      cases h
    | undefined =>
      rw [hA] at h
      cases h

end ArrayClass

/-! ### The binned array: cells -/

namespace ArrayClass2

variable {T : Type}

theorem shiftRightInt_five (x : Int) : shiftRightInt x 5 = some (x / 32) := by
  unfold shiftRightInt
  rw [if_pos (by omega), Int.shiftRight_eq_div_pow]
  rfl

theorem andInt_mask (i : Int) (h0 : 0 ≤ i) (h1 : i ≤ 2147483647) : andInt 31 i = i % 32 := by
  unfold andInt
  have h31 : ((31 : Int) % 4294967296).toNat = 2 ^ 5 - 1 := by decide
  have hi : (i % 4294967296).toNat = i.toNat := by omega
  have hland : Nat.land (2 ^ 5 - 1) i.toNat = i.toNat % 2 ^ 5 := by
    show (2 ^ 5 - 1) &&& i.toNat = i.toNat % 2 ^ 5
    rw [Nat.and_comm]
    exact Nat.and_pow_two_sub_one_eq_mod _ 5
  rw [h31, hi, hland]
  have h2 : ((i.toNat % 2 ^ 5 : Nat) : Int) = i % 32 := by omega
  rw [Int.ofNat_eq_coe, h2]
  apply wrapInt_eq <;> omega

theorem read_eq (s : ArrayClass2 T) (d : List (List T)) (i : Int) (hshift : s.m_binShift = 5)
    (hmask : s.m_slotMask = 31) (hd : s.m_array = some d) (h0 : 0 ≤ i) (h1 : i ≤ 2147483647) :
    s.read i = cellRead d i := by
  unfold ArrayClass2_RO.read ArrayClass2_RO.GET_BIN_INDEX ArrayClass2_RO.GET_SLOT_INDEX cellRead
  rw [hd, hshift, hmask, andInt_mask i h0 h1]
  have h5 : (5 : Int) % 256 = 5 := by decide
  rw [h5, shiftRightInt_five]

theorem write_eq (s : ArrayClass2 T) (d : List (List T)) (i : Int) (x : T)
    (hshift : s.m_binShift = 5) (hmask : s.m_slotMask = 31) (hd : s.m_array = some d)
    (h0 : 0 ≤ i) (h1 : i ≤ 2147483647) :
    s.write i x = (cellWrite d i x).map fun d1 => { s with m_array := some d1 } := by
  unfold ArrayClass2_RO.write ArrayClass2_RO.GET_BIN_INDEX ArrayClass2_RO.GET_SLOT_INDEX cellWrite
  rw [hd, hshift, hmask, andInt_mask i h0 h1]
  have h5 : (5 : Int) % 256 = 5 := by decide
  rw [h5, shiftRightInt_five]
  simp only
  cases writeCell d (i / 32) (i % 32) x <;> rfl

theorem load_mem (d : List (List T)) (i : Int) (b : List T) (h : load d i = some b) : b ∈ d := by
  unfold load at h
  split at h
  · cases h
  · exact List.getElem?_mem h

theorem cellRead_some (d : List (List T)) (i : Int) (hd : ∀ b ∈ d, b.length = 32) (h0 : 0 ≤ i)
    (h1 : i < 32 * d.length) : ∃ x, cellRead d i = some x := by
  obtain ⟨b, hb⟩ := load_isSome d (i / 32) (by omega) (by omega)
  have hbl := hd b (load_mem d _ b hb)
  obtain ⟨x, hx⟩ := load_isSome b (i % 32) (by omega) (by omega)
  refine ⟨x, ?_⟩
  unfold cellRead readCell
  simp only [hb, hx]

theorem cellRead_none (d : List (List T)) (i : Int) (h : 32 * (d.length : Int) ≤ i) :
    cellRead d i = none := by
  unfold cellRead readCell
  rw [load_none_of_ge d (i / 32) (by omega)]

theorem cellWrite_none (d : List (List T)) (i : Int) (x : T) (h : 32 * (d.length : Int) ≤ i) :
    cellWrite d i x = none := by
  unfold cellWrite writeCell
  rw [load_none_of_ge d (i / 32) (by omega)]

theorem cellWrite_some (d : List (List T)) (i : Int) (x : T) (hd : ∀ b ∈ d, b.length = 32)
    (h0 : 0 ≤ i) (h1 : i < 32 * d.length) :
    ∃ d1, cellWrite d i x = some d1 ∧ d1.length = d.length ∧ (∀ b ∈ d1, b.length = 32) ∧
      ∀ j : Int, 0 ≤ j → cellRead d1 j = if j = i then some x else cellRead d j := by
  obtain ⟨b, hb⟩ := load_isSome d (i / 32) (by omega) (by omega)
  have hbl := hd b (load_mem d _ b hb)
  have hst := store_some b (i % 32) x (by omega) (by omega)
  have hst2 := store_some d (i / 32) (b.set (i % 32).toNat x) (by omega) (by omega)
  refine ⟨d.set (i / 32).toNat (b.set (i % 32).toNat x), ?_, ?_, ?_, ?_⟩
  · unfold cellWrite writeCell
    simp only [hb, hst, hst2]
  · rw [List.length_set]
  · intro c hc
    rcases List.mem_or_eq_of_mem_set hc with h | h
    · exact hd c h
    · rw [h, List.length_set]
      exact hbl
  · intro j hj
    unfold cellRead readCell
    rw [load_set d (i / 32) _ (by omega) (by omega)]
    by_cases hbin : j / 32 = i / 32
    · rw [if_pos hbin]
      simp only
      rw [load_set b (i % 32) x (by omega) (by omega), hbin, hb]
      by_cases hji : j = i
      · rw [if_pos hji, if_pos (by omega)]
      · rw [if_neg hji, if_neg (by omega)]
    · rw [if_neg hbin, if_neg (by intro h; apply hbin; rw [h])]

/-! ### The binned array: the three element loops -/

theorem write_some (s : ArrayClass2 T) (d : List (List T)) (i : Int) (x : T)
    (hshift : s.m_binShift = 5) (hmask : s.m_slotMask = 31) (hd : s.m_array = some d)
    (hok : ∀ b ∈ d, b.length = 32) (h0 : 0 ≤ i) (h1 : i < 32 * d.length)
    (h2 : i ≤ 2147483647) :
    ∃ d1, s.write i x = some { s with m_array := some d1 } ∧ d1.length = d.length ∧
      (∀ b ∈ d1, b.length = 32) ∧
      ∀ j : Int, 0 ≤ j → cellRead d1 j = if j = i then some x else cellRead d j := by
  obtain ⟨d1, hw, hlen, hok1, hget⟩ := cellWrite_some d i x hok h0 h1
  refine ⟨d1, ?_, hlen, hok1, hget⟩
  rw [write_eq s d i x hshift hmask hd h0 h2, hw]
  rfl

theorem shiftUp_bins :
    ∀ (n : Nat) (idx : Int) (s : ArrayClass2 T) (d : List (List T)), s.m_binShift = 5 →
      s.m_slotMask = 31 → s.m_array = some d → (∀ b ∈ d, b.length = 32) → 0 ≤ idx - n →
      idx < 32 * d.length → idx ≤ 2147483647 →
      ∃ d1, shiftUp n idx s = some { s with m_array := some d1 } ∧ d1.length = d.length ∧
        (∀ b ∈ d1, b.length = 32) ∧
        ∀ j : Int, 0 ≤ j →
          cellRead d1 j = if idx - n < j ∧ j ≤ idx then cellRead d (j - 1) else cellRead d j := by
  intro n
  induction n with
  | zero =>
    intro idx s d _ _ hd hok _ _ _
    refine ⟨d, ?_, rfl, hok, fun j _ => ?_⟩
    · unfold shiftUp
      rw [← hd]
    · rw [if_neg]
      push_cast
      omega
  | succ n ih =>
    intro idx s d hshift hmask hd hok h0 h1 h2
    push_cast at h0
    have hw : wrapInt (idx - 1) = idx - 1 := by
      apply wrapInt_eq <;> omega
    obtain ⟨x, hx⟩ := cellRead_some d (idx - 1) hok (by omega) (by omega)
    have hrd := read_eq s d (idx - 1) hshift hmask hd (by omega) (by omega)
    obtain ⟨d1, hwr, hlen1, hok1, hget1⟩ := write_some s d idx x hshift hmask hd hok (by omega)
      h1 h2
    obtain ⟨d2, hr, hlen2, hok2, hget2⟩ := ih (idx - 1) { s with m_array := some d1 } d1
      hshift hmask rfl hok1 (by omega) (by rw [hlen1]; omega) (by omega)
    refine ⟨d2, ?_, ?_, hok2, fun j hj => ?_⟩
    · unfold shiftUp
      simp only [hw, hrd, hx, hwr]
      exact hr
    · rw [hlen2, hlen1]
    · rw [hget2 j hj]
      push_cast
      by_cases hji : j = idx
      · subst hji
        rw [if_neg (by omega), if_pos (by omega), hget1 j hj, if_pos rfl, hx]
      · by_cases hr2 : idx - 1 - n < j ∧ j ≤ idx - 1
        · rw [if_pos hr2, if_pos (by omega), hget1 (j - 1) (by omega), if_neg (by omega)]
        · rw [if_neg hr2, if_neg (by omega), hget1 j hj, if_neg hji]

theorem shiftDown_bins :
    ∀ (n : Nat) (index : Int) (s : ArrayClass2 T) (d : List (List T)), s.m_binShift = 5 →
      s.m_slotMask = 31 → s.m_array = some d → (∀ b ∈ d, b.length = 32) → 0 ≤ index →
      index + n < 32 * d.length → index + n ≤ 2147483647 →
      ∃ d1, shiftDown n index s = some { s with m_array := some d1 } ∧ d1.length = d.length ∧
        (∀ b ∈ d1, b.length = 32) ∧
        ∀ j : Int, 0 ≤ j →
          cellRead d1 j =
            if index ≤ j ∧ j < index + n then cellRead d (j + 1) else cellRead d j := by
  intro n
  induction n with
  | zero =>
    intro index s d _ _ hd hok _ _ _
    refine ⟨d, ?_, rfl, hok, fun j _ => ?_⟩
    · unfold shiftDown
      rw [← hd]
    · rw [if_neg]
      push_cast
      omega
  | succ n ih =>
    intro index s d hshift hmask hd hok h0 h1 h2
    push_cast at h1 h2
    have hw : wrapInt (index + 1) = index + 1 := by
      apply wrapInt_eq <;> omega
    obtain ⟨x, hx⟩ := cellRead_some d (index + 1) hok (by omega) (by omega)
    have hrd := read_eq s d (index + 1) hshift hmask hd (by omega) (by omega)
    obtain ⟨d1, hwr, hlen1, hok1, hget1⟩ := write_some s d index x hshift hmask hd hok h0
      (by omega) (by omega)
    obtain ⟨d2, hr, hlen2, hok2, hget2⟩ := ih (index + 1) { s with m_array := some d1 } d1
      hshift hmask rfl hok1 (by omega) (by rw [hlen1]; omega) (by omega)
    refine ⟨d2, ?_, ?_, hok2, fun j hj => ?_⟩
    · unfold shiftDown
      simp only [hw, hrd, hx, hwr]
      exact hr
    · rw [hlen2, hlen1]
    · rw [hget2 j hj]
      push_cast
      by_cases hji : j = index
      · subst hji
        rw [if_neg (by omega), if_pos (by omega), hget1 j hj, if_pos rfl, hx]
      · by_cases hr2 : index + 1 ≤ j ∧ j < index + 1 + n
        · rw [if_pos hr2, if_pos (by omega), hget1 (j + 1) (by omega), if_neg (by omega)]
        · rw [if_neg hr2, if_neg (by omega), hget1 j hj, if_neg hji]

theorem copyElements_bins (rhs : ArrayClass2 T) (src : List (List T))
    (hrshift : rhs.m_binShift = 5) (hrmask : rhs.m_slotMask = 31) (hrd : rhs.m_array = some src)
    (hrok : ∀ b ∈ src, b.length = 32) :
    ∀ (n : Nat) (i : Int) (s : ArrayClass2 T) (d : List (List T)), s.m_binShift = 5 →
      s.m_slotMask = 31 → s.m_array = some d → (∀ b ∈ d, b.length = 32) → 0 ≤ i →
      i + n ≤ 32 * src.length → i + n ≤ 32 * d.length → i + n ≤ 2147483647 →
      ∃ d1, copyElements rhs n i s = some { s with m_array := some d1 } ∧
        d1.length = d.length ∧ (∀ b ∈ d1, b.length = 32) ∧
        ∀ j : Int, 0 ≤ j →
          cellRead d1 j = if i ≤ j ∧ j < i + n then cellRead src j else cellRead d j := by
  intro n
  induction n with
  | zero =>
    intro i s d _ _ hd hok _ _ _ _
    refine ⟨d, ?_, rfl, hok, fun j _ => ?_⟩
    · unfold copyElements
      rw [← hd]
    · rw [if_neg]
      push_cast
      omega
  | succ n ih =>
    intro i s d hshift hmask hd hok h0 h1 h2 h3
    push_cast at h1 h2 h3
    have hw : wrapInt (i + 1) = i + 1 := by
      apply wrapInt_eq <;> omega
    obtain ⟨x, hx⟩ := cellRead_some src i hrok h0 (by omega)
    have hrd2 := read_eq rhs src i hrshift hrmask hrd h0 (by omega)
    obtain ⟨d1, hwr, hlen1, hok1, hget1⟩ := write_some s d i x hshift hmask hd hok h0
      (by omega) (by omega)
    obtain ⟨d2, hr, hlen2, hok2, hget2⟩ := ih (i + 1) { s with m_array := some d1 } d1
      hshift hmask rfl hok1 (by omega) (by omega) (by rw [hlen1]; omega) (by omega)
    refine ⟨d2, ?_, ?_, hok2, fun j hj => ?_⟩
    · unfold copyElements
      simp only [hw, hrd2, hx, hwr]
      exact hr
    · rw [hlen2, hlen1]
    · rw [hget2 j hj]
      push_cast
      by_cases hji : j = i
      · subst hji
        rw [if_neg (by omega), if_pos (by omega), hget1 j hj, if_pos rfl, hx]
      · by_cases hr2 : i + 1 ≤ j ∧ j < i + 1 + n
        · rw [if_pos hr2, if_pos (by omega)]
        · rw [if_neg hr2, if_neg (by omega), hget1 j hj, if_neg hji]

/-! ### The binned array: growth -/

theorem bins_of_some {s : ArrayClass2 T} {d : List (List T)} (h : s.m_array = some d) :
    bins s = d := by
  unfold bins
  rw [h]
  rfl

theorem bins_of_none {s : ArrayClass2 T} (h : s.m_array = none) : bins s = [] := by
  unfold bins
  rw [h]
  rfl

theorem array_of_bins {s : ArrayClass2 T} (h : 0 < (bins s).length) :
    s.m_array = some (bins s) := by
  cases hs : s.m_array with
  | none =>
    rw [bins_of_none hs] at h
    cases h
  | some d => rw [bins_of_some hs]

theorem read_bins (s : ArrayClass2 T) (i : Int) (hshift : s.m_binShift = 5)
    (hmask : s.m_slotMask = 31) (h0 : 0 ≤ i) (h1 : i ≤ 2147483647) :
    s.read i = cellRead (bins s) i := by
  cases hs : s.m_array with
  | some d => rw [read_eq s d i hshift hmask hs h0 h1, bins_of_some hs]
  | none =>
    rw [bins_of_none hs, cellRead_none [] i (by simpa using h0)]
    unfold ArrayClass2_RO.read
    rw [hs]

theorem newBins_granted [Inhabited T] (f : Nat → Bool) (hf : ∀ k, f k = true) :
    ∀ (n k : Nat), newBins T f 32 n k =
      some (List.replicate n (List.replicate 32 (default : T))) := by
  intro n
  induction n with
  | zero =>
    intro k
    rfl
  | succ n ih =>
    intro k
    unfold newBins newBlock
    rw [if_pos ⟨hf k, by decide⟩, ih (k + 1)]
    rfl

theorem cellRead_append_left (d e : List (List T)) (j : Int) (h0 : 0 ≤ j)
    (h1 : j < 32 * d.length) : cellRead (d ++ e) j = cellRead d j := by
  unfold cellRead readCell
  rw [load_eq_getElem? _ _ (by omega), load_eq_getElem? _ _ (by omega),
    List.getElem?_append_left (by omega)]

theorem cellRead_append_right [Inhabited T] (d : List (List T)) (n : Nat) (j : Int)
    (h0 : 32 * (d.length : Int) ≤ j) (h1 : j < 32 * (d.length + n)) :
    cellRead (d ++ List.replicate n (List.replicate 32 (default : T))) j = some default := by
  unfold cellRead readCell
  rw [load_eq_getElem? _ _ (by omega), List.getElem?_append_right (by omega),
    List.getElem?_replicate, if_pos (by omega)]
  simp only
  exact ArrayClass.load_replicate 32 (j % 32) (by omega) (by omega)

/-- On a valid array with every request granted, `Assure` returns: nothing changes
when the bins suffice or the size is not positive, else bins of default elements
are appended to the directory. -/
theorem Assure_granted [Inhabited T] (s : ArrayClass2 T) (req : Int) (hwf : WellFormed s)
    (hmax : req ≤ 2147483647) :
    ∃ s1, Assure granted s req = .ok s1 ∧ WellFormed s1 ∧ s1.m_length = s.m_length ∧
      (0 < req → req ≤ 32 * s1.m_binCount) ∧ s.m_binCount ≤ s1.m_binCount ∧
      (req ≤ 32 * s.m_binCount → s1 = s) ∧
      (∀ j : Int, 0 ≤ j → j < 32 * s.m_binCount →
        cellRead (bins s1) j = cellRead (bins s) j) ∧
      (∀ j : Int, 32 * s.m_binCount ≤ j → j < 32 * s1.m_binCount →
        cellRead (bins s1) j = some default) := by
  have hwf2 := hwf
  obtain ⟨hmpb, hmask, hshift, hvalid, hlen, hok, hcap, hbmax, hlmin, hlmax⟩ := hwf2
  have hself : ∃ s1, Outcome.ok s = Outcome.ok s1 ∧ WellFormed s1 ∧ s1.m_length = s.m_length ∧
      s.m_binCount ≤ s1.m_binCount ∧ (req ≤ 32 * s.m_binCount → s1 = s) ∧
      (∀ j : Int, 0 ≤ j → j < 32 * s.m_binCount →
        cellRead (bins s1) j = cellRead (bins s) j) ∧
      (∀ j : Int, 32 * s.m_binCount ≤ j → j < 32 * s1.m_binCount →
        cellRead (bins s1) j = some default) :=
    ⟨s, rfl, hwf, rfl, le_refl _, fun _ => rfl, fun _ _ _ => rfl, fun j h1 h2 => by omega⟩
  by_cases hreq : 0 < req
  · have hw1 : wrapInt (req - 1) = req - 1 := by
      apply wrapInt_eq <;> omega
    have hw2 : wrapInt ((req - 1) / 32 + 1) = (req - 1) / 32 + 1 := by
      apply wrapInt_eq <;> omega
    have hcast : ((5 : Int) + 128) % 256 - 128 = 5 := by decide
    have hunf : Assure granted s req =
        if (req - 1) / 32 + 1 > s.m_binCount then
          if granted 0 = true ∧ 0 ≤ (req - 1) / 32 + 1 then
            match oldBins s with
            | none => .undefined
            | some old =>
              if s.m_binCount < 0 then .undefined
              else
                match newBins T (fun k => granted (k + 1)) s.m_maxPerBin
                    ((req - 1) / 32 + 1 - s.m_binCount).toNat 0 with
                | some fresh =>
                  .ok { s with m_array := some (old ++ fresh),
                               m_binCount := (req - 1) / 32 + 1 }
                | none =>
                  .throw (.CDynamicArrayException (Reset { s with m_valid := false }))
                    (Reset { s with m_valid := false })
          else
            .throw (.CDynamicArrayException (Reset { s with m_valid := false }))
              (Reset { s with m_valid := false })
        else .ok s := by
      unfold Assure
      rw [if_pos ⟨hvalid, hreq⟩, hshift, hcast, hw1, shiftRightInt_five]
      simp only [hw2]
    rw [hunf]
    by_cases hgrow : (req - 1) / 32 + 1 > s.m_binCount
    · rw [if_pos hgrow, if_pos ⟨rfl, by omega⟩]
      have hold : oldBins s = some (bins s) := by
        unfold oldBins
        by_cases hz : s.m_binCount ≤ 0
        · rw [if_pos hz]
          have hl0 : (bins s).length = 0 := by omega
          rw [List.length_eq_zero.mp hl0]
        · rw [if_neg hz, array_of_bins (by omega)]
          simp only
          rw [if_pos (by omega), List.take_of_length_le (by omega)]
      rw [hold]
      simp only
      have hnb : newBins T (fun k => granted (k + 1)) s.m_maxPerBin
          ((req - 1) / 32 + 1 - s.m_binCount).toNat 0 =
          some (List.replicate ((req - 1) / 32 + 1 - s.m_binCount).toNat
            (List.replicate 32 (default : T))) := by
        rw [hmpb]
        exact newBins_granted (fun k => granted (k + 1)) (fun _ => rfl) _ 0
      rw [if_neg (by omega), hnb]
      simp only
      have hb1 : bins { s with
          m_array := some (bins s ++ List.replicate ((req - 1) / 32 + 1 - s.m_binCount).toNat
            (List.replicate 32 (default : T))),
          m_binCount := (req - 1) / 32 + 1 } =
          bins s ++ List.replicate ((req - 1) / 32 + 1 - s.m_binCount).toNat
            (List.replicate 32 default) := rfl
      refine ⟨_, rfl, ⟨hmpb, hmask, hshift, hvalid, ?_, ?_, ?_, ?_, hlmin, hlmax⟩, rfl, ?_, ?_,
        ?_, ?_, ?_⟩
      · rw [hb1, List.length_append, List.length_replicate]
        show _ = (req - 1) / 32 + 1
        push_cast
        omega
      · rw [hb1]
        intro b hb
        rcases List.mem_append.mp hb with h | h
        · exact hok b h
        · rw [List.eq_of_mem_replicate h, List.length_replicate]
      · show s.m_length ≤ 32 * ((req - 1) / 32 + 1)
        omega
      · show (req - 1) / 32 + 1 ≤ 67108864
        omega
      · intro _
        show req ≤ 32 * ((req - 1) / 32 + 1)
        omega
      · show s.m_binCount ≤ (req - 1) / 32 + 1
        omega
      · intro h
        omega
      · intro j hj0 hj1
        rw [hb1]
        exact cellRead_append_left _ _ j hj0 (by omega)
      · intro j hj0 hj1
        rw [hb1]
        apply cellRead_append_right
        · omega
        · have hj2 : j < 32 * ((req - 1) / 32 + 1) := hj1
          omega
    · rw [if_neg hgrow]
      obtain ⟨s1, h1, h2, h3, h4, h5, h6, h7⟩ := hself
      refine ⟨s1, h1, h2, h3, ?_, h4, h5, h6, h7⟩
      intro _
      omega
  · have hunf : Assure granted s req = .ok s := by
      unfold Assure
      rw [if_neg (by omega)]
    rw [hunf]
    obtain ⟨s1, h1, h2, h3, h4, h5, h6, h7⟩ := hself
    exact ⟨s1, h1, h2, h3, fun h => absurd h hreq, h4, h5, h6, h7⟩

/-! ### The binned array: `SetElementIdx` -/

theorem WellFormed.setLength {s : ArrayClass2 T} (hwf : WellFormed s) (L : Int)
    (h1 : L ≤ 32 * s.m_binCount) (h2 : -2147483648 ≤ L) (h3 : L ≤ 2147483647) :
    WellFormed { s with m_length := L } := by
  obtain ⟨hmpb, hmask, hshift, hvalid, hlen, hok, hcap, hbmax, hlmin, hlmax⟩ := hwf
  exact ⟨hmpb, hmask, hshift, hvalid, hlen, hok, h1, hbmax, h2, h3⟩

theorem writeIfValid_spec (s : ArrayClass2 T) (i : Int) (v : T) (hwf : WellFormed s)
    (h0 : 0 ≤ i) (h1 : i < 32 * s.m_binCount) :
    ∃ s1, writeIfValid s i v = .ok s1 ∧ WellFormed s1 ∧ s1.m_length = s.m_length ∧
      s1.m_binCount = s.m_binCount ∧ cellRead (bins s1) i = some v ∧
      ∀ j : Int, 0 ≤ j → j ≠ i → cellRead (bins s1) j = cellRead (bins s) j := by
  obtain ⟨hmpb, hmask, hshift, hvalid, hlen, hok, hcap, hbmax, hlmin, hlmax⟩ := hwf
  have harr := array_of_bins (s := s) (by omega)
  obtain ⟨d1, hw, hlen1, hok1, hget⟩ := write_some s (bins s) i v hshift hmask harr hok h0
    (by omega) (by omega)
  refine ⟨{ s with m_array := some d1 }, ?_, ⟨hmpb, hmask, hshift, hvalid, ?_, hok1, hcap, hbmax,
    hlmin, hlmax⟩, rfl, rfl, ?_, fun j hj0 hj => ?_⟩
  · unfold writeIfValid
    rw [if_pos hvalid, hw]
  · show ((d1.length : Nat) : Int) = s.m_binCount
    rw [hlen1]
    exact hlen
  · show cellRead d1 i = some v
    rw [hget i h0, if_pos rfl]
  · show cellRead d1 j = cellRead (bins s) j
    rw [hget j hj0, if_neg hj]

theorem writeIfValid_outside (s : ArrayClass2 T) (i : Int) (v : T) (hwf : WellFormed s)
    (h0 : 0 ≤ i) (h1 : 32 * s.m_binCount ≤ i) (h2 : i ≤ 2147483647) :
    writeIfValid s i v = .undefined := by
  obtain ⟨hmpb, hmask, hshift, hvalid, hlen, hok, hcap, hbmax, hlmin, hlmax⟩ := hwf
  unfold writeIfValid
  rw [if_pos hvalid]
  cases hs : s.m_array with
  | none =>
    unfold ArrayClass2_RO.write
    rw [hs]
  | some d =>
    rw [write_eq s d i v hshift hmask hs h0 h2, cellWrite_none d i v
      (by rw [← bins_of_some hs]; omega)]
    rfl

/-- The binned `SetElementIdx` on a valid array for an index in `[0, INT_MAX)`. -/
theorem SetElementIdx_bins [Inhabited T] (s : ArrayClass2 T) (index : Int) (v : T)
    (hwf : WellFormed s) (h0 : 0 ≤ index) (hmax : index < 2147483647) :
    ∃ s1, SetElementIdx granted s index v = .ok s1 ∧ WellFormed s1 ∧
      s1.m_length = max s.m_length (index + 1) ∧ cellRead (bins s1) index = some v ∧
      s.m_binCount ≤ s1.m_binCount ∧
      (∀ j : Int, 0 ≤ j → j < 32 * s.m_binCount → j ≠ index →
        cellRead (bins s1) j = cellRead (bins s) j) ∧
      (∀ j : Int, 32 * s.m_binCount ≤ j → j < 32 * s1.m_binCount → j ≠ index →
        cellRead (bins s1) j = some default) := by
  have hcap := hwf.2.2.2.2.2.2.1
  have hb0 : 0 ≤ s.m_binCount := by
    have := hwf.2.2.2.2.1
    omega
  by_cases hL : index < s.m_length
  · obtain ⟨s1, h1, hwf1, hlen1, hbc1, hat, hold⟩ := writeIfValid_spec s index v hwf h0
      (by omega)
    refine ⟨s1, ?_, hwf1, by omega, hat, by omega, fun j hj0 _ hj => hold j hj0 hj,
      fun j hj0 hj1 _ => by omega⟩
    unfold SetElementIdx
    rw [if_pos h0, if_neg (by omega)]
    exact h1
  · have hw : wrapInt (index + 1) = index + 1 := by
      apply wrapInt_eq <;> omega
    obtain ⟨s1, h1, hwf1, hlen1, hreq1, hbc1, _, hold1, hnew1⟩ :=
      Assure_granted s (index + 1) hwf (by omega)
    have hwf2 := hwf1.setLength (index + 1) (hreq1 (by omega)) (by omega) (by omega)
    obtain ⟨s3, h3, hwf3, hlen3, hbc3, hat, hold3⟩ :=
      writeIfValid_spec { s1 with m_length := index + 1 } index v hwf2 h0
        (by have := hreq1 (by omega); show index < 32 * s1.m_binCount; omega)
    have hbc3b : s3.m_binCount = s1.m_binCount := hbc3
    have hlen3b : s3.m_length = index + 1 := hlen3
    refine ⟨s3, ?_, hwf3, by omega, hat, by omega, fun j hj0 hj1 hj => ?_,
      fun j hj0 hj1 hj => ?_⟩
    · unfold SetElementIdx
      rw [if_pos h0, if_pos (by omega), hw, h1]
      simp only [Outcome.andThen]
      rw [if_pos hwf1.2.2.2.1]
      exact h3
    · rw [hold3 j hj0 hj]
      exact hold1 j hj0 hj1
    · rw [hold3 j (by omega) hj]
      exact hnew1 j hj0 (by omega)

/-- The binned `SetElementIdx` on a valid array at `INT_MAX`: the length wraps. -/
theorem SetElementIdx_bins_top [Inhabited T] (s : ArrayClass2 T) (v : T)
    (hwf : WellFormed s) :
    (s.m_binCount < 67108864 ∧ SetElementIdx granted s 2147483647 v = .undefined) ∨
      (s.m_binCount = 67108864 ∧
        ∃ s1, SetElementIdx granted s 2147483647 v = .ok s1 ∧ WellFormed s1 ∧
          s1.m_length = -2147483648) := by
  have hlmax := hwf.2.2.2.2.2.2.2.2.2
  have hbmax := hwf.2.2.2.2.2.2.2.1
  have hb0 : 0 ≤ s.m_binCount := by
    have := hwf.2.2.2.2.1
    omega
  unfold INT_MAX at hlmax
  have hw : wrapInt (2147483647 + 1) = -2147483648 := by decide
  have ha : Assure granted s (-2147483648) = .ok s := by
    unfold Assure
    rw [if_neg (by omega)]
  have hunf : SetElementIdx granted s 2147483647 v =
      writeIfValid { s with m_length := -2147483648 } 2147483647 v := by
    unfold SetElementIdx
    rw [if_pos (by omega), if_pos (by omega), hw, ha]
    simp only [Outcome.andThen]
    rw [if_pos hwf.2.2.2.1]
  have hwf2 := hwf.setLength (-2147483648) (by omega) (by omega) (by omega)
  rw [hunf]
  by_cases hfull : s.m_binCount = 67108864
  · right
    obtain ⟨s1, h1, hwf1, hlen1, _⟩ := writeIfValid_spec { s with m_length := -2147483648 }
      2147483647 v hwf2 (by omega) (by show 2147483647 < 32 * s.m_binCount; omega)
    exact ⟨hfull, s1, h1, hwf1, hlen1⟩
  · left
    exact ⟨by omega, writeIfValid_outside _ _ v hwf2 (by omega)
      (by show 32 * s.m_binCount ≤ 2147483647; omega) (by omega)⟩

/-! ### The binned array: `InsertElement`, `DeleteElement`, copies -/

/-- The binned `InsertElement` inside the live range of a valid array. -/
theorem InsertElement_bins [Inhabited T] (s : ArrayClass2 T) (index : Int) (v : T)
    (hwf : WellFormed s) (h0 : 0 ≤ index) (h1 : index < s.m_length) :
    ∃ s1, InsertElement granted s index v = .ok s1 ∧ WellFormed s1 ∧
      s1.m_length = wrapInt (s.m_length + 1) ∧
      (∀ j : Int, 0 ≤ j → j < index → cellRead (bins s1) j = cellRead (bins s) j) ∧
      cellRead (bins s1) index = some v ∧
      (∀ j : Int, index ≤ j → j < s.m_length →
        cellRead (bins s1) (j + 1) = cellRead (bins s) j) ∧
      s.m_binCount ≤ s1.m_binCount ∧
      (∀ j : Int, s.m_length < j → j < 32 * s1.m_binCount →
        cellRead (bins s1) j =
          if j < 32 * s.m_binCount then cellRead (bins s) j else some default) := by
  have hwf2 := hwf
  obtain ⟨hmpb, hmask, hshift, hvalid, hlen, hok, hcap, hbmax, hlmin, hlmax⟩ := hwf2
  unfold INT_MAX at hlmax
  have hwr := wrapInt_range (s.m_length + 1)
  obtain ⟨sA, hA, hwfA, hlenA, hreqA, hbcA, _, holdA, hnewA⟩ :=
    Assure_granted s (wrapInt (s.m_length + 1)) hwf hwr.2
  have hcapA : s.m_length < 32 * sA.m_binCount := by
    by_cases htop : s.m_length = 2147483647
    · omega
    · have hw : wrapInt (s.m_length + 1) = s.m_length + 1 := by
        apply wrapInt_eq <;> omega
      rw [hw] at hreqA
      have := hreqA (by omega)
      omega
  have hwfA2 := hwfA
  obtain ⟨hmpbA, hmaskA, hshiftA, hvalidA, hlenAA, hokA, hcapAA, hbmaxA, hlminA, hlmaxA⟩ := hwfA2
  have harrA := array_of_bins (s := sA) (by omega)
  obtain ⟨d1, hsh, hlen1, hok1, hget1⟩ := shiftUp_bins (s.m_length - index).toNat s.m_length sA
    (bins sA) hshiftA hmaskA harrA hokA (by omega) (by omega) (by omega)
  obtain ⟨d2, hwr2, hlen2, hok2, hget2⟩ := write_some { sA with m_array := some d1 } d1 index v
    hshiftA hmaskA rfl hok1 h0 (by rw [hlen1]; omega) (by omega)
  refine ⟨{ sA with m_array := some d2, m_length := wrapInt (sA.m_length + 1) }, ?_,
    ⟨hmpbA, hmaskA, hshiftA, hvalidA, ?_, hok2, ?_, hbmaxA, ?_, ?_⟩, ?_, ?_, ?_, ?_, hbcA, ?_⟩
  · unfold InsertElement
    rw [if_pos h0, if_pos h1, hA]
    show (match shiftUp (sA.m_length - index).toNat sA.m_length sA with
      | none => Outcome.undefined
      | some s2 =>
        match s2.write index v with
        | none => Outcome.undefined
        | some s3 => Outcome.ok { s3 with m_length := wrapInt (s3.m_length + 1) }) = _
    rw [hlenA, hsh]
    simp only
    rw [hwr2]
    simp only
    rw [hlenA]
  · show ((d2.length : Nat) : Int) = sA.m_binCount
    rw [hlen2, hlen1]
    exact hlenAA
  · show wrapInt (sA.m_length + 1) ≤ 32 * sA.m_binCount
    rw [hlenA]
    unfold wrapInt
    omega
  · unfold INT_MIN
    show -2147483648 ≤ wrapInt (sA.m_length + 1)
    rw [hlenA]
    exact hwr.1
  · unfold INT_MAX
    show wrapInt (sA.m_length + 1) ≤ 2147483647
    rw [hlenA]
    exact hwr.2
  · show wrapInt (sA.m_length + 1) = wrapInt (s.m_length + 1)
    rw [hlenA]
  · intro j hj0 hj1
    show cellRead d2 j = cellRead (bins s) j
    rw [hget2 j hj0, if_neg (by omega), hget1 j hj0, if_neg (by omega)]
    exact holdA j hj0 (by omega)
  · show cellRead d2 index = some v
    rw [hget2 index h0, if_pos rfl]
  · intro j hj0 hj1
    show cellRead d2 (j + 1) = cellRead (bins s) j
    rw [hget2 (j + 1) (by omega), if_neg (by omega), hget1 (j + 1) (by omega),
      if_pos (by omega)]
    have he : j + 1 - 1 = j := by omega
    rw [he]
    exact holdA j (by omega) (by omega)
  · intro j hj0 hj1
    have hj2 : j < 32 * sA.m_binCount := hj1
    show cellRead d2 j = if j < 32 * s.m_binCount then cellRead (bins s) j else some default
    rw [hget2 j (by omega), if_neg (by omega), hget1 j (by omega), if_neg (by omega)]
    by_cases hjb : j < 32 * s.m_binCount
    · rw [if_pos hjb]
      exact holdA j (by omega) hjb
    · rw [if_neg hjb]
      exact hnewA j (by omega) hj2

/-- The binned `DeleteElement` inside the live range of a valid array. -/
theorem DeleteElement_bins (s : ArrayClass2 T) (index : Int) (hwf : WellFormed s)
    (h0 : 0 ≤ index) (h1 : index < s.m_length) :
    ∃ s1, DeleteElement s index = .ok s1 ∧ WellFormed s1 ∧ s1.m_length = s.m_length - 1 ∧
      (∀ j : Int, 0 ≤ j → j < index → cellRead (bins s1) j = cellRead (bins s) j) ∧
      (∀ j : Int, index < j → j < s.m_length →
        cellRead (bins s1) (j - 1) = cellRead (bins s) j) := by
  obtain ⟨hmpb, hmask, hshift, hvalid, hlen, hok, hcap, hbmax, hlmin, hlmax⟩ := hwf
  unfold INT_MAX at hlmax
  have harr := array_of_bins (s := s) (by omega)
  have hw : wrapInt (s.m_length - 1) = s.m_length - 1 := by
    apply wrapInt_eq <;> omega
  obtain ⟨d1, hsh, hlen1, hok1, hget1⟩ := shiftDown_bins (s.m_length - 1 - index).toNat index s
    (bins s) hshift hmask harr hok h0 (by omega) (by omega)
  refine ⟨{ s with m_array := some d1, m_length := s.m_length - 1 }, ?_,
    ⟨hmpb, hmask, hshift, hvalid, ?_, hok1, ?_, hbmax, ?_, ?_⟩, rfl, ?_, ?_⟩
  · unfold DeleteElement
    rw [if_pos ⟨h0, h1, by rw [harr]; rfl⟩, hw, hsh]
    simp only [hw]
  · show ((d1.length : Nat) : Int) = s.m_binCount
    rw [hlen1]
    exact hlen
  · show s.m_length - 1 ≤ 32 * s.m_binCount
    omega
  · unfold INT_MIN
    show -2147483648 ≤ s.m_length - 1
    omega
  · unfold INT_MAX
    show s.m_length - 1 ≤ 2147483647
    omega
  · intro j hj0 hj1
    show cellRead d1 j = cellRead (bins s) j
    rw [hget1 j hj0, if_neg (by omega)]
  · intro j hj0 hj1
    show cellRead d1 (j - 1) = cellRead (bins s) j
    rw [hget1 (j - 1) (by omega), if_pos (by omega)]
    congr 1
    omega

theorem DeleteElement_bins_outside (s : ArrayClass2 T) (index : Int)
    (h : index < 0 ∨ s.m_length ≤ index) : DeleteElement s index = .ok s := by
  unfold DeleteElement
  rw [if_neg]
  intro h2
  omega

/-- The binned `operator=` between valid arrays. -/
theorem assign_bins [Inhabited T] (s rhs : ArrayClass2 T) (hwf : WellFormed s)
    (hrwf : WellFormed rhs) :
    ∃ s1, assign granted s rhs = .ok s1 ∧ WellFormed s1 ∧
      (rhs.m_length ≠ 0 → s1.m_length = rhs.m_length ∧
        ∀ j : Int, 0 ≤ j → j < rhs.m_length →
          cellRead (bins s1) j = cellRead (bins rhs) j) := by
  have hb0 : 0 ≤ s.m_binCount := by
    have := hwf.2.2.2.2.1
    omega
  have hwf0 : WellFormed (if s.m_array.isSome = true then { s with m_length := 0 } else s) := by
    split
    · exact hwf.setLength 0 (by omega) (by omega) (by omega)
    · exact hwf
  obtain ⟨hrmpb, hrmask, hrshift, hrvalid, hrlen, hrok, hrcap, hrbmax, hrlmin, hrlmax⟩ := hrwf
  unfold INT_MAX at hrlmax
  unfold INT_MIN at hrlmin
  unfold assign
  simp only
  by_cases hz : rhs.m_length = 0
  · rw [if_neg (by omega)]
    exact ⟨_, rfl, hwf0, fun h => absurd hz h⟩
  · rw [if_pos hz]
    obtain ⟨sA, hA, hwfA, hlenA, hreqA, hbcA, _, _, _⟩ :=
      Assure_granted _ rhs.m_length hwf0 hrlmax
    have hwfA2 := hwfA
    obtain ⟨hmpbA, hmaskA, hshiftA, hvalidA, hlenAA, hokA, hcapAA, hbmaxA, hlminA, hlmaxA⟩ :=
      hwfA2
    rw [hA]
    simp only [Outcome.andThen]
    rw [if_pos hvalidA]
    by_cases hneg : rhs.m_length < 0
    · have hn : rhs.m_length.toNat = 0 := by omega
      rw [hn]
      refine ⟨{ sA with m_length := rhs.m_length }, rfl,
        hwfA.setLength rhs.m_length (by omega) hrlmin hrlmax, fun _ => ⟨rfl, fun j hj0 hj1 => ?_⟩⟩
      omega
    · have hcapA := hreqA (by omega)
      have harrA := array_of_bins (s := sA) (by omega)
      have harrR := array_of_bins (s := rhs) (by omega)
      obtain ⟨d1, hcp, hlen1, hok1, hget1⟩ := copyElements_bins rhs (bins rhs) hrshift hrmask
        harrR hrok rhs.m_length.toNat 0 sA (bins sA) hshiftA hmaskA harrA hokA (le_refl 0)
        (by omega) (by omega) (by omega)
      rw [hcp]
      refine ⟨{ sA with m_array := some d1, m_length := rhs.m_length }, rfl,
        ⟨hmpbA, hmaskA, hshiftA, hvalidA, ?_, hok1, hcapA, hbmaxA, hrlmin, hrlmax⟩,
        fun _ => ⟨rfl, fun j hj0 hj1 => ?_⟩⟩
      · show ((d1.length : Nat) : Int) = sA.m_binCount
        rw [hlen1]
        exact hlenAA
      · show cellRead d1 j = cellRead (bins rhs) j
        rw [hget1 j hj0, if_pos (by omega)]

theorem ctor_eq : (ctor : ArrayClass2 T) =
    { m_length := 0, m_maxPerBin := 32, m_slotMask := 31, m_binShift := 5, m_array := none,
      m_binCount := 0, m_valid := true } := by
  have h : ctorLoop 32 1 0 = some (32, 5) := by decide
  unfold ctor
  rw [h]
  have h31 : wrapInt (32 - 1) = 31 := by decide
  simp only [h31]

theorem ctor_wellFormed : WellFormed (ctor : ArrayClass2 T) := by
  rw [ctor_eq]
  refine ⟨rfl, rfl, rfl, rfl, rfl, ?_, ?_, ?_, ?_, ?_⟩
  · intro b hb
    cases hb
  · show (0 : Int) ≤ 32 * 0
    decide
  · show (0 : Int) ≤ 67108864
    decide
  · show INT_MIN ≤ 0
    decide
  · show (0 : Int) ≤ INT_MAX
    decide

/-- Every reachable binned array is valid and satisfies the representation
invariant. -/
theorem Reachable.valid [Inhabited T] {s : ArrayClass2 T} (h : Reachable s) :
    WellFormed s := by
  have hset : ∀ (t t1 : ArrayClass2 T) (index : Int) (v : T), WellFormed t →
      index ≤ 2147483647 → ArrayClass2.SetElementIdx granted t index v = .ok t1 →
      WellFormed t1 := by
    intro t t1 index v hwf hmax hop
    by_cases h0 : 0 ≤ index
    · by_cases htop : index = 2147483647
      · subst htop
        rcases SetElementIdx_bins_top t v hwf with ⟨_, h2⟩ | ⟨_, t2, h2, hwf2, _⟩
        · rw [h2] at hop
          cases hop
        · rw [h2] at hop
          rw [← Outcome.ok.inj hop]
          exact hwf2
      · obtain ⟨t2, h2, hwf2, _⟩ := SetElementIdx_bins t index v hwf h0 (by omega)
        rw [h2] at hop
        rw [← Outcome.ok.inj hop]
        exact hwf2
    · unfold ArrayClass2.SetElementIdx at hop
      rw [if_neg h0] at hop
      rw [← Outcome.ok.inj hop]
      exact hwf
  induction h with
  | ctor => exact ctor_wellFormed
  | Add s s1 x _ hop ih =>
    have hlmax := ih.2.2.2.2.2.2.2.2.2
    unfold INT_MAX at hlmax
    exact hset s s1 _ x ih hlmax hop
  | SetElementIdx s s1 index x _ _ hmax hop ih =>
    unfold INT_MAX at hmax
    exact hset s s1 index x ih hmax hop
  | InsertElement s s1 index x _ _ hmax hop ih =>
    unfold INT_MAX at hmax
    by_cases h0 : 0 ≤ index
    · by_cases h1 : index < s.m_length
      · obtain ⟨s2, h2, hwf2, _⟩ := InsertElement_bins s index x ih h0 h1
        rw [h2] at hop
        rw [← Outcome.ok.inj hop]
        exact hwf2
      · unfold ArrayClass2.InsertElement at hop
        rw [if_pos h0, if_neg h1] at hop
        exact hset s s1 index x ih hmax hop
    · unfold ArrayClass2.InsertElement at hop
      rw [if_neg h0] at hop
      rw [← Outcome.ok.inj hop]
      exact ih
  | DeleteElement s s1 index _ _ _ hop ih =>
    by_cases h0 : 0 ≤ index ∧ index < s.m_length
    · obtain ⟨s2, h2, hwf2, _⟩ := DeleteElement_bins s index ih h0.1 h0.2
      rw [h2] at hop
      rw [← Outcome.ok.inj hop]
      exact hwf2
    · rw [DeleteElement_bins_outside s index (by omega)] at hop
      rw [← Outcome.ok.inj hop]
      exact ih
  | Reset s _ ih =>
    obtain ⟨hmpb, hmask, hshift, hvalid, _⟩ := ih
    refine ⟨hmpb, hmask, hshift, hvalid, rfl, ?_, ?_, ?_, ?_, ?_⟩
    · intro b hb
      cases hb
    · show (0 : Int) ≤ 32 * 0
      decide
    · show (0 : Int) ≤ 67108864
      decide
    · show INT_MIN ≤ 0
      decide
    · show (0 : Int) ≤ INT_MAX
      decide
  | copyCtor rhs s1 _ hop ih =>
    obtain ⟨s2, h2, hwf2, _⟩ := assign_bins ArrayClass2.ctor rhs ctor_wellFormed ih
    unfold ArrayClass2.copyCtor at hop
    rw [h2] at hop
    rw [← Outcome.ok.inj hop]
    exact hwf2
  | assign s rhs s1 _ _ hop ih1 ih2 =>
    obtain ⟨s2, h2, hwf2, _⟩ := assign_bins s rhs ih1 ih2
    rw [h2] at hop
    rw [← Outcome.ok.inj hop]
    exact hwf2

/-! ### The binned array: `Get` -/

theorem Get_bins_value (s : ArrayClass2 T) (j : Int) (x : T) (hwf : WellFormed s) (h0 : 0 ≤ j)
    (h1 : j ≤ 2147483647) (hx : cellRead (bins s) j = some x) :
    ArrayClass2_RO.Get s j = .value x := by
  unfold ArrayClass2_RO.Get
  rw [read_bins s j hwf.2.2.1 hwf.2.1 h0 h1, hx]

theorem Get_bins_congr (s s1 : ArrayClass2 T) (j : Int) (hwf : WellFormed s)
    (hwf1 : WellFormed s1) (h0 : 0 ≤ j) (h1 : j ≤ 2147483647)
    (hx : cellRead (bins s1) j = cellRead (bins s) j) :
    ArrayClass2_RO.Get s1 j = ArrayClass2_RO.Get s j := by
  unfold ArrayClass2_RO.Get
  rw [read_bins s j hwf.2.2.1 hwf.2.1 h0 h1, read_bins s1 j hwf1.2.2.1 hwf1.2.1 h0 h1, hx]

theorem cell_live (s : ArrayClass2 T) (j : Int) (hwf : WellFormed s) (h0 : 0 ≤ j)
    (h1 : j < s.m_length) :
    ∃ x, cellRead (bins s) j = some x ∧ ArrayClass2_RO.Get s j = .value x := by
  have hcap := hwf.2.2.2.2.2.2.1
  have hlen := hwf.2.2.2.2.1
  have hbmax := hwf.2.2.2.2.2.2.2.1
  obtain ⟨x, hx⟩ := cellRead_some (bins s) j hwf.2.2.2.2.2.1 h0 (by omega)
  exact ⟨x, hx, Get_bins_value s j x hwf h0 (by omega) hx⟩

/-! ### The binned array: repeated `Add` -/

theorem addAll_bins_gen [Inhabited T] :
    ∀ (vs : List T) (s : ArrayClass2 T) (pre : List T), WellFormed s →
      s.m_length = pre.length → ((pre ++ vs).length : Int) ≤ 2147483647 →
      (∀ i : Nat, i < pre.length → cellRead (bins s) i = pre[i]?) →
      ∃ s1, addAll granted vs s = .ok s1 ∧ WellFormed s1 ∧ s1.m_length = (pre ++ vs).length ∧
        ∀ i : Nat, i < (pre ++ vs).length → cellRead (bins s1) i = (pre ++ vs)[i]? := by
  intro vs
  induction vs with
  | nil =>
    intro s pre hwf hlen _ hget
    refine ⟨s, rfl, hwf, ?_, ?_⟩
    · rw [List.append_nil]
      exact hlen
    · rw [List.append_nil]
      exact hget
  | cons v rest ih =>
    intro s pre hwf hlen hmax hget
    have happ : pre ++ v :: rest = (pre ++ [v]) ++ rest := by
      rw [List.append_assoc]
      rfl
    have hcap := hwf.2.2.2.2.2.2.1
    rw [List.length_append, List.length_cons] at hmax
    push_cast at hmax
    obtain ⟨s1, h1, hwf1, hlen1, hat, _, hold, _⟩ :=
      SetElementIdx_bins s s.m_length v hwf (by omega) (by omega)
    have hlen2 : s1.m_length = ((pre ++ [v]).length : Nat) := by
      rw [hlen1, List.length_append, List.length_singleton]
      push_cast
      omega
    have hget2 : ∀ i : Nat, i < (pre ++ [v]).length →
        cellRead (bins s1) i = (pre ++ [v])[i]? := by
      intro i hi
      rw [List.length_append, List.length_singleton] at hi
      by_cases hip : i < pre.length
      · rw [hold i (by omega) (by omega) (by omega), hget i hip,
          List.getElem?_append_left hip]
      · have hie : i = pre.length := by omega
        have hie2 : (i : Int) = s.m_length := by omega
        rw [hie2, hat, hie, List.getElem?_append_right (le_refl _)]
        simp
    have hrun : addAll granted (v :: rest) s = addAll granted rest s1 := by
      show (Add granted s v).andThen (addAll granted rest) = addAll granted rest s1
      unfold Add
      rw [h1]
      rfl
    rw [hrun, happ]
    exact ih s1 (pre ++ [v]) hwf1 hlen2
      (by rw [List.length_append, List.length_append, List.length_singleton]; push_cast; omega)
      hget2

theorem addAll_append [Inhabited T] (g : Nat → Bool) :
    ∀ (xs ys : List T) (s : ArrayClass2 T),
      addAll g (xs ++ ys) s = (addAll g xs s).andThen (addAll g ys) := by
  intro xs
  induction xs with
  | nil =>
    intro ys s
    rfl
  | cons x xs ih =>
    intro ys s
    show (Add g s x).andThen (addAll g (xs ++ ys)) =
      ((Add g s x).andThen (addAll g xs)).andThen (addAll g ys)
    cases Add g s x with
    | ok s1 => exact ih ys s1
    | throw e s1 => rfl
    | undefined => rfl

theorem Reachable.of_addAll_bins [Inhabited T] :
    ∀ (vs : List T) (s s1 : ArrayClass2 T), Reachable s →
      ArrayClass2.addAll granted vs s = .ok s1 → Reachable s1 := by
  intro vs
  induction vs with
  | nil =>
    intro s s1 hr h
    rw [← Outcome.ok.inj h]
    exact hr
  | cons v rest ih =>
    intro s s1 hr h
    unfold ArrayClass2.addAll at h
    cases hA : ArrayClass2.Add granted s v with
    | ok s2 =>
      rw [hA] at h
      exact ih s2 s1 (Reachable.Add s s2 v hr hA) h
    | throw e s2 =>
      rw [hA] at h
      cases h
    | undefined =>
      rw [hA] at h
      cases h

end ArrayClass2

/-! ### The contiguous array on a heap -/

namespace ArrayClassObject

variable {T : Type}

theorem get_lt {h : Heap T} {a : Nat} {blk : List T} (hg : h.get a = some blk) :
    a < h.blocks.length := by
  unfold Heap.get at hg
  by_contra hlt
  rw [List.getElem?_eq_none (by omega)] at hg
  cases hg

theorem get_set_self (h : Heap T) (a : Nat) (blk : List T) (ha : a < h.blocks.length) :
    (h.set a blk).get a = some blk := by
  unfold Heap.get Heap.set
  simp only [List.getElem?_set_self ha]

theorem get_set_other (h : Heap T) (a c : Nat) (blk : List T) (hne : a ≠ c) :
    (h.set a blk).get c = h.get c := by
  unfold Heap.get Heap.set
  simp only [List.getElem?_set_ne hne]

theorem get_delete_other (h : Heap T) (p : Option Nat) (c : Nat) (hne : p ≠ some c) :
    (h.delete p).get c = h.get c := by
  cases p with
  | none => rfl
  | some a =>
    unfold Heap.get Heap.delete
    have hac : a ≠ c := fun hh => hne (by rw [hh])
    simp only [List.getElem?_set_ne hac]

theorem length_delete (h : Heap T) (p : Option Nat) :
    (h.delete p).blocks.length = h.blocks.length := by
  cases p with
  | none => rfl
  | some a =>
    unfold Heap.delete
    simp only [List.length_set]

theorem length_set (h : Heap T) (a : Nat) (blk : List T) :
    (h.set a blk).blocks.length = h.blocks.length := by
  unfold Heap.set
  simp only [List.length_set]

theorem get_append_old (h : Heap T) (x : Option (List T)) (c : Nat) (hc : c < h.blocks.length) :
    Heap.get { blocks := h.blocks ++ [x] } c = h.get c := by
  unfold Heap.get
  simp only [List.getElem?_append_left hc]

theorem get_append_new (h : Heap T) (blk : List T) :
    Heap.get { blocks := h.blocks ++ [some blk] } h.blocks.length = some blk := by
  unfold Heap.get
  simp only [List.getElem?_append_right (le_refl _), Nat.sub_self, List.getElem?_cons_zero]

theorem Frame.refl (m : Heap T × ArrayClassObject) : Frame m m :=
  ⟨le_refl _, fun _ _ _ => rfl, fun _ h => Or.inl h⟩

theorem Frame.trans {m m1 m2 : Heap T × ArrayClassObject} (h1 : Frame m m1)
    (h2 : Frame m1 m2) : Frame m m2 := by
  obtain ⟨hl1, hg1, hp1⟩ := h1
  obtain ⟨hl2, hg2, hp2⟩ := h2
  refine ⟨le_trans hl1 hl2, fun a ha hne => ?_, fun a ha => ?_⟩
  · rw [hg2 a (by omega), hg1 a ha hne]
    intro hh
    rcases hp1 a hh with h3 | h3
    · exact hne h3
    · omega
  · rcases hp2 a ha with h3 | h3
    · exact hp1 a h3
    · exact Or.inr (by omega)

theorem Sound.ok (m : Heap T × ArrayClassObject) (hl : Live m.1 m.2) :
    Sound m (.ok m) (.ok (view m.1 m.2)) := by
  refine ⟨rfl, fun m1 h => ?_⟩
  rcases h with h | ⟨e, h⟩
  · rw [← Outcome.ok.inj h]
    exact ⟨hl, Frame.refl m⟩
  · cases h

theorem Sound.undefined (m : Heap T × ArrayClassObject) :
    Sound m .undefined .undefined := by
  refine ⟨rfl, fun m1 h => ?_⟩
  rcases h with h | ⟨e, h⟩
  · cases h
  · cases h

theorem Sound.andThen {m : Heap T × ArrayClassObject}
    {r : Outcome (Heap T × ArrayClassObject)} {v : Outcome (ArrayClass T)}
    {f : Heap T × ArrayClassObject → Outcome (Heap T × ArrayClassObject)}
    {g : ArrayClass T → Outcome (ArrayClass T)} (hs : Sound m r v)
    (hf : ∀ m1, Live m1.1 m1.2 → Frame m m1 → Sound m1 (f m1) (g (view m1.1 m1.2))) :
    Sound m (r.andThen f) (v.andThen g) := by
  obtain ⟨hv, hfr⟩ := hs
  cases r with
  | ok m1 =>
    obtain ⟨hl1, hf1⟩ := hfr m1 (Or.inl rfl)
    obtain ⟨hv2, hfr2⟩ := hf m1 hl1 hf1
    rw [← hv]
    refine ⟨hv2, fun m2 h2 => ?_⟩
    obtain ⟨hl2, hf2⟩ := hfr2 m2 h2
    exact ⟨hl2, hf1.trans hf2⟩
  | throw e m1 =>
    rw [← hv]
    exact ⟨rfl, hfr⟩
  | undefined =>
    rw [← hv]
    exact ⟨rfl, hfr⟩

theorem view_array_none (h : Heap T) (o : ArrayClassObject) (ho : o.m_array = none) :
    (view h o).m_array = none := by
  unfold view
  rw [ho]
  rfl

theorem view_array_some (h : Heap T) (o : ArrayClassObject) (a : Nat) (blk : List T)
    (ho : o.m_array = some a) (hg : h.get a = some blk) : (view h o).m_array = some blk := by
  unfold view
  rw [ho]
  exact hg

theorem view_isNone (h : Heap T) (o : ArrayClassObject) (hl : Live h o) :
    (view h o).m_array.isNone = o.m_array.isNone := by
  cases ho : o.m_array with
  | none =>
    rw [view_array_none h o ho]
    rfl
  | some a =>
    obtain ⟨blk, hg⟩ := hl a ho
    rw [view_array_some h o a blk ho hg]
    rfl

theorem grow_sound [Inhabited T] (g : Bool) (m : Heap T × ArrayClassObject) (size : Int)
    (hl : Live m.1 m.2) :
    Sound m (grow g m size) (ArrayClass.grow g (view m.1 m.2) size) := by
  obtain ⟨h, o⟩ := m
  simp only at hl
  unfold grow ArrayClass.grow Heap.new
  cases hnb : newBlock T g size with
  | none =>
    simp only
    refine ⟨rfl, fun m1 hm => ?_⟩
    rcases hm with hm | ⟨e, hm⟩
    · cases hm
    · obtain ⟨_, hm2⟩ := Outcome.throw.inj hm
      rw [← hm2]
      refine ⟨fun a ha => ?_, ⟨?_, ?_, ?_⟩⟩
      · cases ha
      · exact le_of_eq (length_delete h o.m_array).symm
      · intro a _ hne
        exact get_delete_other h o.m_array a hne
      · intro a ha
        cases ha
  | some blk =>
    simp only
    cases ho : o.m_array with
    | none =>
      simp only [view_array_none h o ho]
      refine ⟨?_, fun m1 hm => ?_⟩
      · show Outcome.ok (view _ _) = _
        unfold view
        simp only [Option.bind, get_append_new]
      · rcases hm with hm | ⟨e, hm⟩
        · rw [← Outcome.ok.inj hm]
          refine ⟨fun a ha => ?_, ⟨?_, ?_, ?_⟩⟩
          · rw [← Option.some.inj ha]
            exact ⟨blk, get_append_new h blk⟩
          · simp only [List.length_append, List.length_singleton]
            omega
          · intro a ha _
            exact get_append_old h _ a ha
          · intro a ha
            right
            rw [← Option.some.inj ha]
        · cases hm
    | some old =>
      obtain ⟨src, hsrc⟩ := hl old ho
      have hold := get_lt hsrc
      have hne : h.blocks.length ≠ old := by omega
      simp only [view_array_some h o old src ho hsrc, get_append_old h _ old hold, hsrc,
        get_append_new]
      cases hc : copyElements src o.m_length.toNat 0 blk with
      | none =>
        simp only [view, hc]
        exact Sound.undefined _
      | some filled =>
        have hget : ((Heap.set { blocks := h.blocks ++ [some blk] } h.blocks.length filled).delete
            (some old)).get h.blocks.length = some filled := by
          rw [get_delete_other _ _ _ (by intro hh; exact hne (Option.some.inj hh).symm)]
          apply get_set_self
          simp only [List.length_append, List.length_singleton]
          omega
        simp only [view, hc]
        refine ⟨?_, fun m1 hm => ?_⟩
        · show Outcome.ok (view _ _) = _
          unfold view
          simp only [Option.bind, hget]
        · rcases hm with hm | ⟨e, hm⟩
          · rw [← Outcome.ok.inj hm]
            refine ⟨fun a ha => ?_, ⟨?_, ?_, ?_⟩⟩
            · rw [← Option.some.inj ha]
              exact ⟨filled, hget⟩
            · rw [length_delete, length_set]
              simp only [List.length_append, List.length_singleton]
              omega
            · intro a ha hna
              have ha2 : a < h.blocks.length := ha
              rw [get_delete_other _ _ _ (by rw [← ho]; exact hna),
                get_set_other _ _ _ _ (by omega)]
              exact get_append_old h _ a ha
            · intro a ha
              right
              rw [← Option.some.inj ha]
          · cases hm

theorem Assure_sound [Inhabited T] (g : Bool) (m : Heap T × ArrayClassObject) (req : Int)
    (hl : Live m.1 m.2) :
    Sound m (Assure g m req) (ArrayClass.Assure g (view m.1 m.2) req) := by
  unfold Assure ArrayClass.Assure
  rw [view_isNone m.1 m.2 hl]
  show Sound m (if req ≠ 0 ∧ (req > m.2.m_alloc ∨ m.2.m_array.isNone = true) then _ else _)
    (if req ≠ 0 ∧ (req > m.2.m_alloc ∨ m.2.m_array.isNone = true) then _ else _)
  split
  · exact grow_sound g m _ hl
  · exact Sound.ok m hl

theorem AssureExact_sound [Inhabited T] (g : Bool) (m : Heap T × ArrayClassObject) (req : Int)
    (hl : Live m.1 m.2) :
    Sound m (AssureExact g m req) (ArrayClass.AssureExact g (view m.1 m.2) req) := by
  unfold AssureExact ArrayClass.AssureExact
  rw [view_isNone m.1 m.2 hl]
  show Sound m (if req ≠ 0 ∧ (req > m.2.m_alloc ∨ m.2.m_array.isNone = true) then _ else _)
    (if req ≠ 0 ∧ (req > m.2.m_alloc ∨ m.2.m_array.isNone = true) then _ else _)
  split
  · exact grow_sound g m _ hl
  · exact Sound.ok m hl

theorem Sound.ok_of (m m1 : Heap T × ArrayClassObject) (s1 : ArrayClass T)
    (hl : Live m1.1 m1.2) (hf : Frame m m1) (hv : view m1.1 m1.2 = s1) :
    Sound m (.ok m1) (.ok s1) := by
  refine ⟨by rw [← hv]; rfl, fun m2 h => ?_⟩
  rcases h with h | ⟨e, h⟩
  · rw [← Outcome.ok.inj h]
    exact ⟨hl, hf⟩
  · cases h

/-- A change in place of the object's own block, on the heap and on the array. -/
theorem inPlace_sound (m : Heap T × ArrayClassObject) (f : List T → Option (List T))
    (o1 : ArrayClassObject) (hl : Live m.1 m.2) (ho1 : o1.m_array = m.2.m_array) :
    match m.2.m_array with
    | none => inPlace m f = some m.1
    | some _ => ∃ blk, (view m.1 m.2).m_array = some blk ∧
        match f blk with
        | none => inPlace m f = none
        | some blk1 => ∃ h1, inPlace m f = some h1 ∧ Live h1 o1 ∧ Frame m (h1, o1) ∧
            view h1 o1 = { m_length := o1.m_length, m_array := some blk1,
                           m_alloc := o1.m_alloc, m_isValid := o1.m_isValid } := by
  obtain ⟨h, o⟩ := m
  simp only at hl ho1
  cases ho : o.m_array with
  | none =>
    simp only
    unfold inPlace
    simp only [ho]
  | some a =>
    simp only
    obtain ⟨blk, hg⟩ := hl a ho
    have ha := get_lt hg
    refine ⟨blk, view_array_some h o a blk ho hg, ?_⟩
    cases hf : f blk with
    | none =>
      simp only
      unfold inPlace
      simp only [ho, hg, hf]
    | some blk1 =>
      simp only
      refine ⟨h.set a blk1, ?_, ?_, ⟨?_, ?_, ?_⟩, ?_⟩
      · unfold inPlace
        simp only [ho, hg, hf]
      · intro c hc
        rw [ho1, ho] at hc
        rw [← Option.some.inj hc]
        exact ⟨blk1, get_set_self h a blk1 ha⟩
      · exact le_of_eq (length_set h a blk1).symm
      · intro c _ hne
        apply get_set_other
        intro hac
        apply hne
        show o.m_array = some c
        rw [ho, hac]
      · intro c hc
        left
        show o.m_array = some c
        rw [← ho1]
        exact hc
      · unfold view
        rw [ho1, ho]
        simp only [Option.bind, get_set_self h a blk1 ha]

theorem storeIfArray_sound (m : Heap T × ArrayClassObject) (index : Int) (x : T)
    (hl : Live m.1 m.2) :
    Sound m (storeIfArray m index x) (ArrayClass.storeIfArray (view m.1 m.2) index x) := by
  have hin := inPlace_sound m (fun blk => store blk index x) m.2 hl rfl
  unfold storeIfArray ArrayClass.storeIfArray
  cases ho : m.2.m_array with
  | none =>
    rw [ho] at hin
    simp only at hin
    rw [hin, view_array_none m.1 m.2 ho]
    exact Sound.ok m hl
  | some a =>
    rw [ho] at hin
    simp only at hin
    obtain ⟨blk, hv, hin2⟩ := hin
    rw [hv]
    simp only
    cases hst : store blk index x with
    | none =>
      rw [hst] at hin2
      simp only at hin2
      rw [hin2]
      exact Sound.undefined m
    | some blk1 =>
      rw [hst] at hin2
      simp only at hin2
      obtain ⟨h1, hin3, hl1, hf1, hv1⟩ := hin2
      rw [hin3]
      exact Sound.ok_of m (h1, m.2) _ hl1 hf1 hv1

theorem setLength_sound (m1 : Heap T × ArrayClassObject) (L : Int) (hl : Live m1.1 m1.2) :
    Sound m1 (.ok (if m1.2.m_array.isSome = true then (m1.1, { m1.2 with m_length := L }) else m1))
      (.ok (if (view m1.1 m1.2).m_array.isSome = true then
          { view m1.1 m1.2 with m_length := L } else view m1.1 m1.2)) := by
  have hiso : (view m1.1 m1.2).m_array.isSome = m1.2.m_array.isSome := by
    have h := view_isNone m1.1 m1.2 hl
    cases h1 : (view m1.1 m1.2).m_array <;> cases h2 : m1.2.m_array <;>
      rw [h1, h2] at h <;> first | rfl | cases h
  rw [hiso]
  split
  · exact Sound.ok_of m1 (m1.1, { m1.2 with m_length := L }) _ hl
      ⟨le_refl _, fun _ _ _ => rfl, fun _ h => Or.inl h⟩ rfl
  · exact Sound.ok m1 hl

theorem SetElementIdx_sound [Inhabited T] (g : Bool) (m : Heap T × ArrayClassObject)
    (index : Int) (x : T) (hl : Live m.1 m.2) :
    Sound m (SetElementIdx g m index x) (ArrayClass.SetElementIdx g (view m.1 m.2) index x) := by
  unfold SetElementIdx ArrayClass.SetElementIdx
  show Sound m (if index ≥ 0 then if index ≥ m.2.m_length then _ else _ else _)
    (if index ≥ 0 then if index ≥ m.2.m_length then _ else _ else _)
  split
  · split
    · refine Sound.andThen (Sound.andThen (Assure_sound g m _ hl) ?_) ?_
      · intro m1 hl1 _
        exact setLength_sound m1 _ hl1
      · intro m2 hl2 _
        exact storeIfArray_sound m2 index x hl2
    · exact storeIfArray_sound m index x hl
  · exact Sound.ok m hl

theorem InsertElement_sound [Inhabited T] (g : Bool) (m : Heap T × ArrayClassObject)
    (index : Int) (x : T) (hl : Live m.1 m.2) :
    Sound m (InsertElement g m index x) (ArrayClass.InsertElement g (view m.1 m.2) index x) := by
  unfold InsertElement ArrayClass.InsertElement
  show Sound m (if index ≥ 0 then if index < m.2.m_length then _ else _ else _)
    (if index ≥ 0 then if index < m.2.m_length then _ else _ else _)
  split
  · split
    · refine Sound.andThen (Assure_sound g m _ hl) ?_
      intro m1 hl1 _
      have hin := inPlace_sound m1 (fun blk =>
        match shiftUp (m1.2.m_length - index).toNat m1.2.m_length blk with
        | none => none
        | some blk1 => store blk1 index x)
        { m1.2 with m_length := wrapInt (m1.2.m_length + 1) } hl1 rfl
      cases ho : m1.2.m_array with
      | none =>
        rw [view_array_none m1.1 m1.2 ho]
        exact Sound.ok m1 hl1
      | some a =>
        rw [ho] at hin
        simp only at hin
        obtain ⟨blk, hv, hin2⟩ := hin
        rw [hv]
        simp only
        show Sound m1 _ (match shiftUp (m1.2.m_length - index).toNat m1.2.m_length blk with
          | none => Outcome.undefined
          | some blk1 =>
            match store blk1 index x with
            | none => Outcome.undefined
            | some blk2 => Outcome.ok { view m1.1 m1.2 with
                m_array := some blk2, m_length := wrapInt (m1.2.m_length + 1) })
        cases hsh : shiftUp (m1.2.m_length - index).toNat m1.2.m_length blk with
        | none =>
          rw [hsh] at hin2
          simp only at hin2
          rw [hin2]
          exact Sound.undefined m1
        | some blk1 =>
          rw [hsh] at hin2
          simp only at hin2
          simp only
          cases hst : store blk1 index x with
          | none =>
            rw [hst] at hin2
            simp only at hin2
            rw [hin2]
            exact Sound.undefined m1
          | some blk2 =>
            rw [hst] at hin2
            simp only at hin2
            obtain ⟨h2, hin3, hl2, hf2, hv2⟩ := hin2
            rw [hin3]
            exact Sound.ok_of m1 (h2, _) _ hl2 hf2 hv2
    · exact SetElementIdx_sound g m index x hl
  · exact Sound.ok m hl

theorem DeleteElement_sound (m : Heap T × ArrayClassObject) (index : Int)
    (hl : Live m.1 m.2) :
    Sound m (DeleteElement m index) (ArrayClass.DeleteElement (view m.1 m.2) index) := by
  have hin := inPlace_sound m (fun blk =>
    shiftDown (wrapInt (m.2.m_length - 1) - index).toNat index blk)
    { m.2 with m_length := wrapInt (m.2.m_length - 1) } hl rfl
  unfold DeleteElement ArrayClass.DeleteElement
  cases ho : m.2.m_array with
  | none =>
    rw [view_array_none m.1 m.2 ho]
    exact Sound.ok m hl
  | some a =>
    rw [ho] at hin
    simp only at hin
    obtain ⟨blk, hv, hin2⟩ := hin
    rw [hv]
    simp only
    show Sound m (if index ≥ 0 ∧ index < m.2.m_length then _ else _)
      (if index ≥ 0 ∧ index < m.2.m_length then
        (match shiftDown (wrapInt (m.2.m_length - 1) - index).toNat index blk with
          | none => Outcome.undefined
          | some blk1 => Outcome.ok { view m.1 m.2 with
              m_array := some blk1, m_length := wrapInt (m.2.m_length - 1) })
        else _)
    split
    · cases hsh : shiftDown (wrapInt (m.2.m_length - 1) - index).toNat index blk with
      | none =>
        rw [hsh] at hin2
        simp only at hin2
        rw [hin2]
        exact Sound.undefined m
      | some blk1 =>
        rw [hsh] at hin2
        simp only at hin2
        obtain ⟨h1, hin3, hl1, hf1, hv1⟩ := hin2
        rw [hin3]
        exact Sound.ok_of m (h1, _) _ hl1 hf1 hv1
    · exact Sound.ok m hl

theorem Mutation.run_sound [Inhabited T] (g : Bool) (mu : Mutation T)
    (m : Heap T × ArrayClassObject) (hl : Live m.1 m.2) :
    ∃ v, Sound m (mu.run g m) v := by
  cases mu with
  | SetElementIdx index x => exact ⟨_, SetElementIdx_sound g m index x hl⟩
  | InsertElement index x => exact ⟨_, InsertElement_sound g m index x hl⟩
  | DeleteElement index => exact ⟨_, DeleteElement_sound m index hl⟩

/-- The copy of `rhs` into an object without storage, on the heap and on the
array. -/
theorem copyFrom_sound [Inhabited T] (g : Bool) (m : Heap T × ArrayClassObject)
    (rhs : ArrayClassObject) (hl : Live m.1 m.2) (hnull : m.2.m_array = none)
    (hr : Live m.1 rhs) :
    Sound m (copyFrom g m rhs) (ArrayClass.copyFrom g (view m.1 m.2) (view m.1 rhs)) := by
  unfold copyFrom ArrayClass.copyFrom
  show Sound m (if rhs.m_length ≠ 0 then _ else _) (if rhs.m_length ≠ 0 then _ else _)
  split
  · refine Sound.andThen (AssureExact_sound g m rhs.m_length hl) ?_
    intro m1 hl1 hf1
    show Sound m1 _ (match (view m1.1 m1.2).m_array with
      | none => Outcome.ok { view m1.1 m1.2 with m_length := rhs.m_length }
      | some blk =>
        match (view m.1 rhs).m_array with
        | none =>
          if rhs.m_length ≤ 0 then Outcome.ok { view m1.1 m1.2 with m_length := rhs.m_length }
          else Outcome.undefined
        | some src =>
          match copyElements src rhs.m_length.toNat 0 blk with
          | none => Outcome.undefined
          | some blk1 => Outcome.ok { view m1.1 m1.2 with
              m_array := some blk1, m_length := rhs.m_length })
    have hsame : Frame m1 (m1.1, { m1.2 with m_length := rhs.m_length }) :=
      ⟨le_refl _, fun _ _ _ => rfl, fun _ h => Or.inl h⟩
    cases ho : m1.2.m_array with
    | none =>
      rw [view_array_none m1.1 m1.2 ho]
      simp only
      refine Sound.ok_of m1 (m1.1, _) _ ?_ hsame rfl
      intro a ha
      rw [ho] at ha
      cases ha
    | some a =>
      obtain ⟨blk, hg⟩ := hl1 a ho
      rw [view_array_some m1.1 m1.2 a blk ho hg]
      simp only
      cases hro : rhs.m_array with
      | none =>
        rw [view_array_none m.1 rhs hro]
        simp only
        split
        · exact Sound.ok_of m1 (m1.1, _) _ hl1 hsame rfl
        · exact Sound.undefined m1
      | some b =>
        obtain ⟨src, hsrc⟩ := hr b hro
        have hb := get_lt hsrc
        have hsrc1 : m1.1.get b = some src := by
          rw [hf1.2.1 b hb (by rw [hnull]; intro hh; cases hh)]
          exact hsrc
        rw [view_array_some m.1 rhs b src hro hsrc]
        simp only
        rw [hsrc1]
        simp only
        have hin := inPlace_sound m1 (fun blk => copyElements src rhs.m_length.toNat 0 blk)
          { m1.2 with m_length := rhs.m_length } hl1 rfl
        rw [ho] at hin
        simp only at hin
        obtain ⟨blk2, hv, hin2⟩ := hin
        rw [view_array_some m1.1 m1.2 a blk ho hg] at hv
        rw [← Option.some.inj hv] at hin2
        cases hc : copyElements src rhs.m_length.toNat 0 blk with
        | none =>
          rw [hc] at hin2
          simp only at hin2
          rw [hin2]
          exact Sound.undefined m1
        | some blk1 =>
          rw [hc] at hin2
          simp only at hin2
          obtain ⟨h2, hin3, hl2, hf2, hv2⟩ := hin2
          rw [hin3]
          exact Sound.ok_of m1 (h2, _) _ hl2 hf2 hv2
  · exact Sound.ok m hl

theorem view_congr (h h1 : Heap T) (o : ArrayClassObject)
    (hg : ∀ a, o.m_array = some a → h1.get a = h.get a) : view h1 o = view h o := by
  unfold view
  cases ho : o.m_array with
  | none => rfl
  | some a =>
    simp only [Option.bind, hg a ho]

theorem ok_of_viewOutcome {r : Outcome (Heap T × ArrayClassObject)} {s1 : ArrayClass T}
    (h : viewOutcome r = .ok s1) : ∃ m1, r = .ok m1 ∧ view m1.1 m1.2 = s1 := by
  cases r with
  | ok m1 => exact ⟨m1, rfl, Outcome.ok.inj h⟩
  | throw e m1 => cases h
  | undefined => cases h

/-- The copy of a well-formed `src` into an empty object `o0`: the common part of
the copy constructor and `operator=`. -/
theorem copyFrom_independent [Inhabited T] (h h0 : Heap T) (src o0 : ArrayClassObject)
    (hnull : o0.m_array = none) (halloc : o0.m_alloc = 0) (hlen : o0.m_length = 0)
    (hsrc : Live h0 src) (hview : view h0 src = view h src)
    (hwf : ArrayClass.WellFormed (view h src)) :
    ∃ h1 c, copyFrom true (h0, o0) src = .ok (h1, c) ∧ IsIndependentCopy h src h1 c := by
  have hl0 : Live h0 o0 := by
    intro a ha
    rw [hnull] at ha
    cases ha
  have hsound := copyFrom_sound true (h0, o0) src hl0 hnull hsrc
  have hval : ∃ s1, ArrayClass.copyFrom true (view h0 o0) (view h0 src) = .ok s1 ∧
      ArrayClass.WellFormed s1 ∧ s1.m_length = (view h src).m_length ∧
      ∀ i : Int, 0 ≤ i → i < (view h src).m_length →
        load (ArrayClass.block s1) i = load (ArrayClass.block (view h src)) i := by
    rw [hview]
    by_cases hz : (view h src).m_length = 0
    · refine ⟨view h0 o0, ArrayClass.copyFrom_empty _ _ hz, ?_, ?_, fun i hi0 hi1 => ?_⟩
      · refine ⟨?_, ?_, ?_, ?_⟩
        · rw [ArrayClass.block_of_none (view_array_none h0 o0 hnull)]
          show ((0 : Nat) : Int) = o0.m_alloc
          rw [halloc]
          rfl
        · show 0 ≤ o0.m_length
          omega
        · show o0.m_length ≤ o0.m_alloc
          omega
        · show o0.m_alloc ≤ INT_MAX
          rw [halloc]
          decide
      · show o0.m_length = _
        rw [hlen, hz]
      · omega
    · obtain ⟨r, hc, hrl, hget⟩ := ArrayClass.copyFrom_spec (view h0 o0) (view h src)
        (view_array_none h0 o0 hnull) halloc hlen hwf hz
      exact ⟨_, hc, ⟨hrl, hwf.2.1, le_refl _, le_trans hwf.2.2.1 hwf.2.2.2⟩, rfl, hget⟩
  obtain ⟨s1, hs1, hwf1, hlen1, hget1⟩ := hval
  obtain ⟨hv, hfr⟩ := hsound
  simp only at hv
  rw [hs1] at hv
  obtain ⟨m1, hr, hvm⟩ := ok_of_viewOutcome hv
  obtain ⟨hl1, hf1⟩ := hfr m1 (Or.inl hr)
  have hsrc1 : ∀ a, src.m_array = some a → m1.1.get a = h0.get a := by
    intro a ha
    obtain ⟨blk, hg⟩ := hsrc a ha
    exact hf1.2.1 a (get_lt hg) (by show o0.m_array ≠ some a; rw [hnull]; intro hh; cases hh)
  have hvsrc : view m1.1 src = view h src := by
    rw [view_congr h0 m1.1 src hsrc1, hview]
  refine ⟨m1.1, m1.2, hr, ?_, ?_, hvsrc, ?_⟩
  · show (view m1.1 m1.2).m_length = (view h src).m_length
    rw [hvm]
    exact hlen1
  · intro i hi0 hi1
    rw [hvm]
    exact ArrayClass.Get_congr (view h src) s1 i hwf hwf1 hi0 hi1 (by rw [hlen1]; exact hi1)
      (hget1 i hi0 hi1)
  · intro g mu m2 hm2
    obtain ⟨v, _, hfr2⟩ := Mutation.run_sound g mu m1 hl1
    obtain ⟨_, hf2⟩ := hfr2 m2 hm2
    rw [← hvsrc]
    apply view_congr
    intro a ha
    obtain ⟨blk, hg⟩ := hsrc a ha
    have hlt := get_lt hg
    apply hf2.2.1 a (lt_of_lt_of_le hlt hf1.1)
    intro hh
    rcases hf1.2.2 a hh with h3 | h3
    · have h4 : o0.m_array = some a := h3
      rw [hnull] at h4
      cases h4
    · have h4 : h0.blocks.length ≤ a := h3
      omega

end ArrayClassObject

/-! ### Call sequences on both families -/

namespace Call

variable {T : Type}

theorem Agree.forget [Inhabited T] {a : ArrayClass T} {b : ArrayClass2 T} {p : Bool}
    (h : Agree a b p) : Agree a b false :=
  ⟨h.1, h.2.1, h.2.2.1, h.2.2.2.1, h.2.2.2.2.1, fun hp => by cases hp⟩

/-- A write at `index >= 0` keeps the two arrays in agreement, when it leaves no gap
or the arrays are pristine. -/
theorem agree_set [Inhabited T] (a : ArrayClass T) (b : ArrayClass2 T) (p : Bool) (i : Int)
    (v : T) (hag : Agree a b p) (h0 : 0 ≤ i) (hmax : i < 1073741819)
    (hd : i ≤ a.m_length ∨ p = true) :
    ∃ a1 b1, ArrayClass.SetElementIdx true a i v = .ok a1 ∧
      ArrayClass2.SetElementIdx ArrayClass2.granted b i v = .ok b1 ∧ Agree a1 b1 p ∧
      a1.m_length = max a.m_length (i + 1) := by
  obtain ⟨hwa, hwb, hlen, hL, hsame, hpr⟩ := hag
  have hex : ∃ a1, ArrayClass.SetElementIdx true a i v = .ok a1 ∧
      ArrayClass.SetElementIdxPost a a1 i v := by
    by_cases hA : i < a.m_alloc
    · exact ArrayClass.SetElementIdx_below a i v hwa h0 hA
    · exact ArrayClass.SetElementIdx_grows a i v hwa h0 (by omega) (by omega)
  obtain ⟨a1, ha1, hwa1, hla1, hat1, hold1, _, hsome1, hin1, hout1⟩ := hex
  obtain ⟨b1, hb1, hwb1, hlb1, hatb, hbc, holdb, hnewb⟩ :=
    ArrayClass2.SetElementIdx_bins b i v hwb h0 (by omega)
  have hcapb := hwb.2.2.2.2.2.2.1
  have hcapb1 := hwb1.2.2.2.2.2.2.1
  have hla0 := hwa.2.1
  have hcapa := hwa.2.2.1
  have hcapa1 := hwa1.2.2.1
  have hcellA : ∀ j : Int, a.m_length ≤ j → j < a1.m_alloc → j ≠ i → p = true →
      load (ArrayClass.block a1) j = some default := by
    intro j hj0 hj1 hji hp
    by_cases hA : i < a.m_alloc
    · obtain ⟨hal, hun⟩ := hin1 hA
      rw [hun j hji]
      exact (hpr hp).1 j hj0 (by omega)
    · exact (hout1 (by omega)).2 j hj0 hj1 hji
  have hcellB : ∀ j : Int, b.m_length ≤ j → j < 32 * b1.m_binCount → j ≠ i → p = true →
      ArrayClass2.cellRead (ArrayClass2.bins b1) j = some default := by
    intro j hj0 hj1 hji hp
    by_cases hB : j < 32 * b.m_binCount
    · rw [holdb j (by omega) hB hji]
      exact (hpr hp).2 j hj0 hB
    · exact hnewb j (by omega) hj1 hji
  refine ⟨a1, b1, ha1, hb1, ⟨hwa1, hwb1, by omega, by omega, fun j hj0 hj1 => ?_,
    fun hp => ⟨fun j hj0 hj1 => ?_, fun j hj0 hj1 => ?_⟩⟩, hla1⟩
  · by_cases hji : j = i
    · rw [hji, hat1, hatb]
    · by_cases hjl : j < a.m_length
      · rw [hold1 j hj0 hjl hji, holdb j hj0 (by omega) hji]
        exact hsame j hj0 hjl
      · have hp : p = true := by
          rcases hd with h | h
          · omega
          · exact h
        rw [hcellA j (by omega) (by omega) hji hp, hcellB j (by omega) (by omega) hji hp]
  · exact hcellA j (by omega) hj1 (by omega) hp
  · exact hcellB j (by omega) hj1 (by omega) hp

/-- An insertion inside the live range keeps the two arrays in agreement. -/
theorem agree_insert [Inhabited T] (a : ArrayClass T) (b : ArrayClass2 T) (p : Bool) (i : Int)
    (v : T) (hag : Agree a b p) (h0 : 0 ≤ i) (h1 : i < a.m_length)
    (hmax : a.m_length < 1073741819) :
    ∃ a1 b1, ArrayClass.InsertElement true a i v = .ok a1 ∧
      ArrayClass2.InsertElement ArrayClass2.granted b i v = .ok b1 ∧ Agree a1 b1 p ∧
      a1.m_length = a.m_length + 1 := by
  obtain ⟨hwa, hwb, hlen, hL, hsame, hpr⟩ := hag
  have hcapa := hwa.2.2.1
  have hex : ∃ a1, ArrayClass.InsertElement true a i v = .ok a1 ∧
      ArrayClass.InsertElementPost a a1 i v := by
    by_cases hA : a.m_length < a.m_alloc
    · exact ArrayClass.InsertElement_below a i v hwa h0 h1 hA
    · exact ArrayClass.InsertElement_grows a i v hwa h0 h1 (by omega) (by omega)
  obtain ⟨a1, ha1, hwa1, hla1, hlow1, hat1, hhigh1, _, hsome1, hmono1, hrest1⟩ := hex
  obtain ⟨b1, hb1, hwb1, hlb1, hlowb, hatb, hhighb, hbc, hrestb⟩ :=
    ArrayClass2.InsertElement_bins b i v hwb h0 (by omega)
  have hw : wrapInt (b.m_length + 1) = b.m_length + 1 := by
    apply wrapInt_eq <;> omega
  rw [hw] at hlb1
  have hcapb := hwb.2.2.2.2.2.2.1
  refine ⟨a1, b1, ha1, hb1, ⟨hwa1, hwb1, by omega, by omega, fun j hj0 hj1 => ?_,
    fun hp => ⟨fun j hj0 hj1 => ?_, fun j hj0 hj1 => ?_⟩⟩, hla1⟩
  · by_cases hji : j < i
    · rw [hlow1 j hj0 hji, hlowb j hj0 hji]
      exact hsame j hj0 (by omega)
    · by_cases hje : j = i
      · rw [hje, hat1, hatb]
      · have he : j = (j - 1) + 1 := by omega
        rw [he, hhigh1 (j - 1) (by omega) (by omega), hhighb (j - 1) (by omega) (by omega)]
        exact hsame (j - 1) (by omega) (by omega)
  · rw [hrest1 j (by omega) hj1]
    by_cases hA : j < a.m_alloc
    · rw [if_pos hA]
      exact (hpr hp).1 j (by omega) hA
    · rw [if_neg hA]
  · rw [hrestb j (by omega) hj1]
    by_cases hB : j < 32 * b.m_binCount
    · rw [if_pos hB]
      exact (hpr hp).2 j (by omega) hB
    · rw [if_neg hB]

/-- A removal inside the live range keeps the two arrays in agreement; they are
no longer pristine. -/
theorem agree_delete [Inhabited T] (a : ArrayClass T) (b : ArrayClass2 T) (p : Bool) (i : Int)
    (hag : Agree a b p) (h0 : 0 ≤ i) (h1 : i < a.m_length) :
    ∃ a1 b1, ArrayClass.DeleteElement a i = .ok a1 ∧
      ArrayClass2.DeleteElement b i = .ok b1 ∧ Agree a1 b1 false ∧
      a1.m_length = a.m_length - 1 := by
  obtain ⟨hwa, hwb, hlen, hL, hsame, hpr⟩ := hag
  obtain ⟨a1, ha1, hwa1, hla1, hlow1, hhigh1, _⟩ := ArrayClass.DeleteElement_spec a i hwa h0 h1
  obtain ⟨b1, hb1, hwb1, hlb1, hlowb, hhighb⟩ :=
    ArrayClass2.DeleteElement_bins b i hwb h0 (by omega)
  refine ⟨a1, b1, ha1, hb1, ⟨hwa1, hwb1, by omega, by omega, fun j hj0 hj1 => ?_,
    fun hp => by cases hp⟩, hla1⟩
  by_cases hji : j < i
  · rw [hlow1 j hj0 hji, hlowb j hj0 hji]
    exact hsame j hj0 (by omega)
  · have he : j = (j + 1) - 1 := by omega
    rw [he, hhigh1 (j + 1) (by omega) (by omega), hhighb (j + 1) (by omega) (by omega)]
    exact hsame (j + 1) (by omega) (by omega)

theorem agree_reset [Inhabited T] (a : ArrayClass T) (b : ArrayClass2 T) (p : Bool)
    (hag : Agree a b p) : Agree (ArrayClass.Reset a) (ArrayClass2.Reset b) true := by
  obtain ⟨hwa, hwb, hlen, hL, hsame, hpr⟩ := hag
  obtain ⟨hmpb, hmask, hshift, hvalid, _, _, _, _, _, _⟩ := hwb
  refine ⟨⟨rfl, le_refl _, le_refl _, ?_⟩,
    ⟨hmpb, hmask, hshift, hvalid, rfl, fun c hc => ?_, ?_, ?_, ?_, ?_⟩, rfl, ?_,
    fun j hj0 hj1 => ?_, fun _ => ⟨fun j hj0 hj1 => ?_, fun j hj0 hj1 => ?_⟩⟩
  · show (0 : Int) ≤ INT_MAX
    decide
  · cases hc
  · show (0 : Int) ≤ 32 * 0
    decide
  · show (0 : Int) ≤ 67108864
    decide
  · show INT_MIN ≤ (0 : Int)
    decide
  · show (0 : Int) ≤ INT_MAX
    decide
  · show (0 : Int) ≤ 1073741819
    decide
  · have hj2 : j < 0 := hj1
    omega
  · have hj2 : (0 : Int) ≤ j := hj0
    have hj3 : j < 0 := hj1
    omega
  · have hj2 : (0 : Int) ≤ j := hj0
    have hj3 : j < 32 * 0 := hj1
    omega

/-- One call that the shape admits keeps the two arrays in agreement. -/
theorem agree_step [Inhabited T] (c : Call T) (a : ArrayClass T) (b : ArrayClass2 T)
    (sh sh1 : Shape) (hag : Agree a b sh.pristine) (hl : a.m_length = sh.length)
    (hs : shape c sh = some sh1) :
    ∃ a1 b1, onArrayClass true c a = .ok a1 ∧
      onArrayClass2 ArrayClass2.granted c b = .ok b1 ∧ Agree a1 b1 sh1.pristine ∧
      a1.m_length = sh1.length := by
  have hla0 := hag.1.2.1
  have hlen := hag.2.2.1
  have hext : ∀ (i : Int) (v : T), 0 ≤ i → a.m_length ≤ i → extend sh i = some sh1 →
      ∃ a1 b1, ArrayClass.SetElementIdx true a i v = .ok a1 ∧
        ArrayClass2.SetElementIdx ArrayClass2.granted b i v = .ok b1 ∧
        Agree a1 b1 sh1.pristine ∧ a1.m_length = sh1.length := by
    intro i v hi0 hi1 he
    unfold extend maxLength at he
    split at he
    · rename_i hc
      have he2 := Option.some.inj he
      obtain ⟨a1, b1, ha1, hb1, hag1, hl1⟩ := agree_set a b sh.pristine i v hag hi0 hc.2
        (by rcases hc.1 with h | h
            · exact Or.inl (by omega)
            · exact Or.inr h)
      refine ⟨a1, b1, ha1, hb1, ?_, ?_⟩
      · rw [← he2]
        exact hag1
      · rw [← he2, hl1]
        show max a.m_length (i + 1) = i + 1
        omega
    · cases he
  cases c with
  | Add v =>
    have hs2 : extend sh sh.length = some sh1 := hs
    rw [← hl] at hs2
    obtain ⟨a1, b1, ha1, hb1, hag1, hl1⟩ := hext a.m_length v hla0 (le_refl _) hs2
    refine ⟨a1, b1, ha1, ?_, hag1, hl1⟩
    show ArrayClass2.SetElementIdx ArrayClass2.granted b b.m_length v = _
    rw [← hlen]
    exact hb1
  | SetElementIdx i v =>
    have hs2 : (if i < sh.length then some sh else extend sh i) = some sh1 := hs
    by_cases hi : i < sh.length
    · rw [if_pos hi] at hs2
      have he2 := Option.some.inj hs2
      rw [← he2]
      by_cases hneg : i < 0
      · refine ⟨a, b, ArrayClass.SetElementIdx_neg a i v hneg, ?_, hag, hl⟩
        show ArrayClass2.SetElementIdx ArrayClass2.granted b i v = _
        unfold ArrayClass2.SetElementIdx
        rw [if_neg (by omega)]
      · obtain ⟨a1, b1, ha1, hb1, hag1, hl1⟩ := agree_set a b sh.pristine i v hag (by omega)
          (by have := hag.2.2.2.1; omega) (Or.inl (by omega))
        exact ⟨a1, b1, ha1, hb1, hag1, by rw [hl1, ← hl]; omega⟩
    · rw [if_neg hi] at hs2
      exact hext i v (by omega) (by omega) hs2
  | InsertElement i v =>
    have hs2 : (if i < 0 then some sh
      else if i < sh.length then
        if sh.length < maxLength then some { sh with length := sh.length + 1 } else none
      else extend sh i) = some sh1 := hs
    by_cases hneg : i < 0
    · rw [if_pos hneg] at hs2
      have he2 := Option.some.inj hs2
      rw [← he2]
      refine ⟨a, b, ?_, ?_, hag, hl⟩
      · show ArrayClass.InsertElement true a i v = _
        unfold ArrayClass.InsertElement
        rw [if_neg (by omega)]
      · show ArrayClass2.InsertElement ArrayClass2.granted b i v = _
        unfold ArrayClass2.InsertElement
        rw [if_neg (by omega)]
    · rw [if_neg hneg] at hs2
      by_cases hi : i < sh.length
      · rw [if_pos hi] at hs2
        unfold maxLength at hs2
        split at hs2
        · rename_i hc
          have he2 := Option.some.inj hs2
          obtain ⟨a1, b1, ha1, hb1, hag1, hl1⟩ := agree_insert a b sh.pristine i v hag
            (by omega) (by omega) (by omega)
          refine ⟨a1, b1, ha1, hb1, ?_, ?_⟩
          · rw [← he2]
            exact hag1
          · rw [← he2, hl1, hl]
        · cases hs2
      · rw [if_neg hi] at hs2
        obtain ⟨a1, b1, ha1, hb1, hag1, hl1⟩ := hext i v (by omega) (by omega) hs2
        refine ⟨a1, b1, ?_, ?_, hag1, hl1⟩
        · show ArrayClass.InsertElement true a i v = _
          unfold ArrayClass.InsertElement
          rw [if_pos (by omega), if_neg (by omega)]
          exact ha1
        · show ArrayClass2.InsertElement ArrayClass2.granted b i v = _
          unfold ArrayClass2.InsertElement
          rw [if_pos (by omega), if_neg (by omega)]
          exact hb1
  | DeleteElement i =>
    have hs2 : (if 0 ≤ i ∧ i < sh.length then
        some { length := sh.length - 1, pristine := false } else some sh) = some sh1 := hs
    by_cases hi : 0 ≤ i ∧ i < sh.length
    · rw [if_pos hi] at hs2
      have he2 := Option.some.inj hs2
      obtain ⟨a1, b1, ha1, hb1, hag1, hl1⟩ := agree_delete a b sh.pristine i hag hi.1
        (by omega)
      refine ⟨a1, b1, ha1, hb1, ?_, ?_⟩
      · rw [← he2]
        exact hag1
      · rw [← he2, hl1, hl]
    · rw [if_neg hi] at hs2
      have he2 := Option.some.inj hs2
      rw [← he2]
      exact ⟨a, b, ArrayClass.DeleteElement_outside a i (by omega),
        ArrayClass2.DeleteElement_bins_outside b i (by omega), hag, hl⟩
  | Reset =>
    have he2 : ({ length := 0, pristine := true } : Shape) = sh1 := Option.some.inj hs
    rw [← he2]
    exact ⟨_, _, rfl, rfl, agree_reset a b _ hag, rfl⟩

/-- The calls of a sequence that the shapes admit keep the two arrays in
agreement. -/
theorem agree_run [Inhabited T] :
    ∀ (cs : List (Call T)) (a : ArrayClass T) (b : ArrayClass2 T) (sh sh1 : Shape),
      Agree a b sh.pristine → a.m_length = sh.length → shapes cs sh = some sh1 →
      ∃ a1 b1, runArrayClass true cs a = .ok a1 ∧
        runArrayClass2 ArrayClass2.granted cs b = .ok b1 ∧ Agree a1 b1 sh1.pristine ∧
        a1.m_length = sh1.length := by
  intro cs
  induction cs with
  | nil =>
    intro a b sh sh1 hag hl hs
    have he : sh = sh1 := Option.some.inj hs
    rw [← he]
    exact ⟨a, b, rfl, rfl, hag, hl⟩
  | cons c cs ih =>
    intro a b sh sh1 hag hl hs
    unfold shapes at hs
    cases hc : shape c sh with
    | none =>
      rw [hc] at hs
      cases hs
    | some sh2 =>
      rw [hc] at hs
      obtain ⟨a2, b2, ha2, hb2, hag2, hl2⟩ := agree_step c a b sh sh2 hag hl hc
      obtain ⟨a1, b1, ha1, hb1, hag1, hl1⟩ := ih a2 b2 sh2 sh1 hag2 hl2 hs
      refine ⟨a1, b1, ?_, ?_, hag1, hl1⟩
      · unfold runArrayClass
        rw [ha2]
        exact ha1
      · unfold runArrayClass2
        rw [hb2]
        exact hb1

theorem agree_ctor [Inhabited T] :
    Agree (ArrayClass.ctor : ArrayClass T) (ArrayClass2.ctor : ArrayClass2 T) true := by
  have h := agree_reset (ArrayClass.Reset (ArrayClass.ctor : ArrayClass T))
    (ArrayClass2.Reset (ArrayClass2.ctor : ArrayClass2 T)) false
  have h1 : ArrayClass.Reset (ArrayClass.Reset (ArrayClass.ctor : ArrayClass T)) =
      ArrayClass.ctor := rfl
  have h2 : ArrayClass2.Reset (ArrayClass2.Reset (ArrayClass2.ctor : ArrayClass2 T)) =
      ArrayClass2.ctor := by
    rw [ArrayClass2.ctor_eq]
    rfl
  rw [h1, h2] at h
  apply h
  have hw := ArrayClass2.ctor_wellFormed (T := T)
  obtain ⟨hmpb, hmask, hshift, hvalid, _, _, _, _, _, _⟩ := hw
  refine ⟨⟨rfl, le_refl _, le_refl _, ?_⟩,
    ⟨hmpb, hmask, hshift, hvalid, rfl, fun c hc => ?_, ?_, ?_, ?_, ?_⟩, rfl, ?_,
    fun j hj0 hj1 => ?_, fun hp => by cases hp⟩
  · show (0 : Int) ≤ INT_MAX
    decide
  · cases hc
  · show (0 : Int) ≤ 32 * 0
    decide
  · show (0 : Int) ≤ 67108864
    decide
  · show INT_MIN ≤ (0 : Int)
    decide
  · show (0 : Int) ≤ INT_MAX
    decide
  · show (0 : Int) ≤ 1073741819
    decide
  · have hj2 : j < 0 := hj1
    omega

end Call

/-! ### The binned array on a heap -/

namespace ArrayClass2Object

variable {T : Type}

theorem load_map {A B : Type} (f : A → B) (l : List A) (i : Int) :
    load (l.map f) i = (load l i).map f := by
  unfold load
  split
  · rfl
  · rw [List.getElem?_map]

theorem binCells_some (bins : Heap T) (q : Nat) (blk : List T) (hg : bins.get q = some blk) :
    binCells bins (some q) = blk := by
  unfold binCells
  simp only [hg, Option.getD]

theorem view_array (h : Heap2 T) (o : ArrayClass2Object) :
    (view h o).m_array = (directory h o).map fun ptrs => ptrs.map (binCells h.bins) := rfl

theorem load_nil {A : Type} (i : Int) : load ([] : List A) i = none := by
  unfold load
  split <;> rfl

/-- A read of a cell through the heap is the read of the cell of the array the
object stands for. -/
theorem readAt_view (h : Heap2 T) (o : ArrayClass2Object) (bin slot : Int) :
    readAt h o bin slot =
      match (view h o).m_array with
      | none => none
      | some dir => readCell dir bin slot := by
  rw [view_array]
  unfold readAt binAt
  cases hd : directory h o with
  | none => rfl
  | some ptrs =>
    simp only [Option.map, readCell, load_map]
    cases hl : load ptrs bin with
    | none => rfl
    | some p =>
      cases p with
      | none =>
        simp only [Option.map, binCells, load_nil]
      | some q =>
        simp only [Option.map, binCells]
        cases hg : h.bins.get q with
        | none => simp only [Option.getD, load_nil]
        | some blk => rfl

/-- A read through the heap is the read of the array the object stands for. -/
theorem read_view (m : Heap2 T × ArrayClass2Object) (i : Int) :
    read m i = (view m.1 m.2).read i := by
  obtain ⟨h, o⟩ := m
  have hb : (view h o).GET_BIN_INDEX i = o.GET_BIN_INDEX i := rfl
  have hs : (view h o).GET_SLOT_INDEX i = o.GET_SLOT_INDEX i := rfl
  unfold read ArrayClass2_RO.read
  show (match o.GET_BIN_INDEX i with
    | none => none
    | some bin => readAt h o bin (o.GET_SLOT_INDEX i)) = _
  rw [hb, hs]
  generalize o.GET_SLOT_INDEX i = slot
  cases hbin : o.GET_BIN_INDEX i with
  | none => cases (view h o).m_array <;> rfl
  | some bin =>
    show readAt h o bin slot = _
    rw [readAt_view]
    cases (view h o).m_array <;> rfl

theorem Get_view (m : Heap2 T × ArrayClass2Object) (i : Int) (x : T) :
    Get m i = .value x ↔ (view m.1 m.2).Get i = .value x := by
  unfold Get ArrayClass2_RO.Get
  rw [read_view]
  cases (view m.1 m.2).read i with
  | none =>
    constructor <;> intro h <;> cases h
  | some y =>
    constructor
    · intro h
      rw [Access.value.inj h]
    · intro h
      rw [Access.value.inj h]

theorem Frame.refl_bins (m : Heap2 T × ArrayClass2Object) : Frame m m :=
  ⟨le_refl _, le_refl _, fun _ _ _ => rfl, fun _ _ _ => rfl, fun _ h => Or.inl h,
    fun _ h => Or.inl h⟩

theorem Frame.trans_bins {m m1 m2 : Heap2 T × ArrayClass2Object} (h1 : Frame m m1)
    (h2 : Frame m1 m2) : Frame m m2 := by
  obtain ⟨hb1, hd1, hgd1, hgb1, hpa1, hpb1⟩ := h1
  obtain ⟨hb2, hd2, hgd2, hgb2, hpa2, hpb2⟩ := h2
  refine ⟨le_trans hb1 hb2, le_trans hd1 hd2, fun a ha hne => ?_, fun q hq hno => ?_,
    fun a ha => ?_, fun q hq => ?_⟩
  · rw [hgd2 a (by omega), hgd1 a ha hne]
    intro hh
    rcases hpa1 a hh with h3 | h3
    · exact hne h3
    · omega
  · rw [hgb2 q (by omega), hgb1 q hq hno]
    intro hh
    rcases hpb1 q hh with h3 | h3
    · exact hno h3
    · omega
  · rcases hpa2 a ha with h3 | h3
    · exact hpa1 a h3
    · exact Or.inr (by omega)
  · rcases hpb2 q hq with h3 | h3
    · exact hpb1 q h3
    · exact Or.inr (by omega)

theorem Keeps.refl_keeps (m : Heap2 T × ArrayClass2Object) : Keeps m m :=
  fun ptrs h => ⟨ptrs, h, List.prefix_refl ptrs⟩

theorem Keeps.trans_keeps {m m1 m2 : Heap2 T × ArrayClass2Object} (h1 : Keeps m m1)
    (h2 : Keeps m1 m2) : Keeps m m2 := by
  intro ptrs hp
  obtain ⟨ptrs1, hp1, hpre1⟩ := h1 ptrs hp
  obtain ⟨ptrs2, hp2, hpre2⟩ := h2 ptrs1 hp1
  exact ⟨ptrs2, hp2, hpre1.trans hpre2⟩

theorem Sound.ok_bins (m : Heap2 T × ArrayClass2Object) (hl : Live m.1 m.2) :
    Sound m (.ok m) (.ok (view m.1 m.2)) := by
  refine ⟨rfl, fun m1 h => ?_, fun m1 h => ?_⟩
  · rcases h with h | ⟨e, h⟩
    · rw [← Outcome.ok.inj h]
      exact ⟨hl, Frame.refl_bins m⟩
    · cases h
  · rw [← Outcome.ok.inj h]
    exact Keeps.refl_keeps m

theorem Sound.undefined_bins (m : Heap2 T × ArrayClass2Object) :
    Sound m .undefined .undefined := by
  refine ⟨rfl, fun m1 h => ?_, fun m1 h => ?_⟩
  · rcases h with h | ⟨e, h⟩
    · cases h
    · cases h
  · cases h

theorem Sound.ok_of_bins (m m1 : Heap2 T × ArrayClass2Object) (s1 : ArrayClass2 T)
    (hl : Live m1.1 m1.2) (hf : Frame m m1) (hk : Keeps m m1) (hv : view m1.1 m1.2 = s1) :
    Sound m (.ok m1) (.ok s1) := by
  refine ⟨by rw [← hv]; rfl, fun m2 h => ?_, fun m2 h => ?_⟩
  · rcases h with h | ⟨e, h⟩
    · rw [← Outcome.ok.inj h]
      exact ⟨hl, hf⟩
    · cases h
  · rw [← Outcome.ok.inj h]
    exact hk

theorem Sound.andThen_bins {m : Heap2 T × ArrayClass2Object}
    {r : Outcome (Heap2 T × ArrayClass2Object)} {v : Outcome (ArrayClass2 T)}
    {f : Heap2 T × ArrayClass2Object → Outcome (Heap2 T × ArrayClass2Object)}
    {g : ArrayClass2 T → Outcome (ArrayClass2 T)} (hs : Sound m r v)
    (hf : ∀ m1, Live m1.1 m1.2 → Frame m m1 → Sound m1 (f m1) (g (view m1.1 m1.2))) :
    Sound m (r.andThen f) (v.andThen g) := by
  obtain ⟨hv, hfr, hkp⟩ := hs
  cases r with
  | ok m1 =>
    obtain ⟨hl1, hf1⟩ := hfr m1 (Or.inl rfl)
    have hk1 := hkp m1 rfl
    obtain ⟨hv2, hfr2, hkp2⟩ := hf m1 hl1 hf1
    rw [← hv]
    refine ⟨hv2, fun m2 h2 => ?_, fun m2 h2 => ?_⟩
    · obtain ⟨hl2, hf2⟩ := hfr2 m2 h2
      exact ⟨hl2, hf1.trans_bins hf2⟩
    · exact hk1.trans_keeps (hkp2 m2 h2)
  | throw e m1 =>
    rw [← hv]
    refine ⟨rfl, hfr, fun m2 h2 => ?_⟩
    cases h2
  | undefined =>
    rw [← hv]
    refine ⟨rfl, hfr, fun m2 h2 => ?_⟩
    cases h2

/-- Changing the bin at `q` changes the cells seen through the one directory cell
that points to it. -/
theorem map_binCells_set (bins : Heap T) (ptrs : List (Option Nat)) (k q : Nat) (blk1 : List T)
    (hnd : ptrs.Nodup) (hk : ptrs[k]? = some (some q)) (hq : q < bins.blocks.length) :
    ptrs.map (binCells (bins.set q blk1)) = (ptrs.map (binCells bins)).set k blk1 := by
  apply List.ext_getElem?
  intro n
  obtain ⟨hkl, hkq⟩ := List.getElem?_eq_some_iff.mp hk
  rw [List.getElem?_set, List.getElem?_map, List.getElem?_map, List.length_map]
  by_cases hn : k = n
  · rw [if_pos hn, if_pos hkl, ← hn, hk]
    show some (binCells (bins.set q blk1) (some q)) = some blk1
    rw [binCells_some _ q blk1 (ArrayClassObject.get_set_self bins q blk1 hq)]
  · rw [if_neg hn]
    cases hp : ptrs[n]? with
    | none => rfl
    | some p =>
      show some (binCells (bins.set q blk1) p) = some (binCells bins p)
      cases p with
      | none => rfl
      | some q2 =>
        have hne : q ≠ q2 := by
          intro hh
          obtain ⟨hnl, hnq⟩ := List.getElem?_eq_some_iff.mp hp
          have he : ptrs[k] = ptrs[n] := by rw [hkq, hnq, hh]
          exact hn ((hnd.getElem_inj_iff).mp he)
        show some (((bins.set q blk1).get q2).getD []) = some ((bins.get q2).getD [])
        rw [ArrayClassObject.get_set_other bins q q2 blk1 hne]

theorem directory_some (h : Heap2 T) (o : ArrayClass2Object) (a : Nat)
    (ptrs : List (Option Nat)) (ho : o.m_array = some a) (hg : h.dirs.get a = some ptrs) :
    directory h o = some ptrs := by
  unfold directory
  rw [ho]
  exact hg

theorem directory_none (h : Heap2 T) (o : ArrayClass2Object) (ho : o.m_array = none) :
    directory h o = none := by
  unfold directory
  rw [ho]

theorem load_mem_list {A : Type} (l : List A) (i : Int) (x : A) (h : load l i = some x) :
    x ∈ l := by
  unfold load at h
  split at h
  · cases h
  · exact List.getElem?_mem h

theorem binAt_none (h : Heap2 T) (o : ArrayClass2Object) (bin : Int)
    (hd : directory h o = none) : binAt h o bin = none := by
  unfold binAt
  rw [hd]

theorem binAt_of_load_none (h : Heap2 T) (o : ArrayClass2Object) (bin : Int)
    (ptrs : List (Option Nat)) (hd : directory h o = some ptrs) (hl : load ptrs bin = none) :
    binAt h o bin = none := by
  unfold binAt
  rw [hd]
  simp only [hl]

theorem binAt_of_load (h : Heap2 T) (o : ArrayClass2Object) (bin : Int)
    (ptrs : List (Option Nat)) (q : Nat) (hd : directory h o = some ptrs)
    (hl : load ptrs bin = some (some q)) : binAt h o bin = some q := by
  unfold binAt
  rw [hd]
  simp only [hl]

theorem binAt_inv (h : Heap2 T) (o : ArrayClass2Object) (bin : Int) (q : Nat)
    (hb : binAt h o bin = some q) :
    ∃ ptrs, directory h o = some ptrs ∧ load ptrs bin = some (some q) := by
  unfold binAt at hb
  cases hd : directory h o with
  | none =>
    rw [hd] at hb
    cases hb
  | some ptrs =>
    rw [hd] at hb
    refine ⟨ptrs, rfl, ?_⟩
    cases hl : load ptrs bin with
    | none =>
      simp only [hl] at hb
      cases hb
    | some p =>
      cases p with
      | none =>
        simp only [hl] at hb
        cases hb
      | some q2 =>
        simp only [hl] at hb
        rw [Option.some.inj hb]

theorem writeAt_of_none (h : Heap2 T) (o : ArrayClass2Object) (bin slot : Int) (x : T)
    (hb : binAt h o bin = none) : writeAt h o bin slot x = none := by
  unfold writeAt
  rw [hb]

theorem writeAt_of_cell (h : Heap2 T) (o : ArrayClass2Object) (bin slot : Int) (x : T)
    (q : Nat) (blk : List T) (hb : binAt h o bin = some q) (hg : h.bins.get q = some blk) :
    writeAt h o bin slot x =
      (store blk slot x).map fun blk1 => { bins := h.bins.set q blk1, dirs := h.dirs } := by
  unfold writeAt
  simp only [hb, hg]
  cases store blk slot x <;> rfl

/-- A write of a cell through the heap is the write of the cell of the array the
object stands for; it changes one bin of the object in place. -/
theorem writeAt_view (h : Heap2 T) (o : ArrayClass2Object) (bin slot : Int) (x : T)
    (hl : Live h o) :
    match writeAt h o bin slot x with
    | none => ∀ dir, (view h o).m_array = some dir → writeCell dir bin slot x = none
    | some h1 => ∃ dir dir1, (view h o).m_array = some dir ∧
        writeCell dir bin slot x = some dir1 ∧ (view h1 o).m_array = some dir1 ∧ Live h1 o ∧
        Frame (h, o) (h1, o) ∧ h1.dirs = h.dirs := by
  cases ho : o.m_array with
  | none =>
    have hd := directory_none h o ho
    rw [writeAt_of_none h o bin slot x (binAt_none h o bin hd)]
    intro dir hdir
    rw [view_array, hd] at hdir
    cases hdir
  | some a =>
    obtain ⟨ptrs, hg, hlen, hnd, hall⟩ := hl.2 a ho
    have hd := directory_some h o a ptrs ho hg
    have hva : (view h o).m_array = some (ptrs.map (binCells h.bins)) := by
      rw [view_array, hd]
      rfl
    cases hlp : load ptrs bin with
    | none =>
      rw [writeAt_of_none h o bin slot x (binAt_of_load_none h o bin ptrs hd hlp)]
      intro dir hdir
      rw [hva] at hdir
      rw [← Option.some.inj hdir]
      unfold writeCell
      rw [load_map, hlp]
      rfl
    | some p =>
      obtain ⟨q, blk, hpq, hgq⟩ := hall p (load_mem_list ptrs bin p hlp)
      rw [hpq] at hlp
      rw [writeAt_of_cell h o bin slot x q blk (binAt_of_load h o bin ptrs q hd hlp) hgq]
      have hlv : load (ptrs.map (binCells h.bins)) bin = some blk := by
        rw [load_map, hlp]
        show some (binCells h.bins (some q)) = some blk
        rw [binCells_some h.bins q blk hgq]
      cases hst : store blk slot x with
      | none =>
        show ∀ dir, (view h o).m_array = some dir → writeCell dir bin slot x = none
        intro dir hdir
        rw [hva] at hdir
        rw [← Option.some.inj hdir]
        unfold writeCell
        rw [hlv]
        simp only [hst]
      | some blk1 =>
        have hbin0 : 0 ≤ bin := by
          by_contra hneg
          rw [load_none_of_neg ptrs bin (by omega)] at hlp
          cases hlp
        have hk : ptrs[bin.toNat]? = some (some q) := by
          rw [← load_eq_getElem? ptrs bin hbin0, hlp]
        obtain ⟨hkl, _⟩ := List.getElem?_eq_some_iff.mp hk
        have hq := ArrayClassObject.get_lt hgq
        have hmap := map_binCells_set h.bins ptrs bin.toNat q blk1 hnd hk hq
        have hst2 : store (ptrs.map (binCells h.bins)) bin blk1 =
            some ((ptrs.map (binCells h.bins)).set bin.toNat blk1) :=
          store_some _ bin blk1 hbin0 (by rw [List.length_map]; omega)
        have hwc : writeCell (ptrs.map (binCells h.bins)) bin slot x =
            some ((ptrs.map (binCells h.bins)).set bin.toNat blk1) := by
          unfold writeCell
          rw [hlv]
          simp only [hst, hst2]
        have hd1 : directory ({ bins := h.bins.set q blk1, dirs := h.dirs } : Heap2 T) o =
            some ptrs := directory_some _ o a ptrs ho hg
        show ∃ dir dir1, (view h o).m_array = some dir ∧
          writeCell dir bin slot x = some dir1 ∧
          (view { bins := h.bins.set q blk1, dirs := h.dirs } o).m_array = some dir1 ∧
          Live { bins := h.bins.set q blk1, dirs := h.dirs } o ∧
          Frame (h, o) ({ bins := h.bins.set q blk1, dirs := h.dirs }, o) ∧ h.dirs = h.dirs
        refine ⟨_, _, hva, hwc, ?_, ⟨hl.1, fun a2 ha2 => ?_⟩, ⟨?_, le_refl _, fun _ _ _ => rfl,
          fun q2 _ hno => ?_, fun _ h2 => Or.inl h2, fun q2 hown => Or.inl ?_⟩, rfl⟩
        · rw [view_array, hd1]
          show some (ptrs.map (binCells (h.bins.set q blk1))) = _
          rw [hmap]
        · rw [ho] at ha2
          rw [← Option.some.inj ha2]
          refine ⟨ptrs, hg, hlen, hnd, fun p2 hp2 => ?_⟩
          obtain ⟨q2, blk2, hpq2, hgq2⟩ := hall p2 hp2
          by_cases hqq : q = q2
          · exact ⟨q2, blk1, hpq2, by rw [← hqq]; exact ArrayClassObject.get_set_self _ q blk1 hq⟩
          · exact ⟨q2, blk2, hpq2, by
              show (h.bins.set q blk1).get q2 = some blk2
              rw [ArrayClassObject.get_set_other _ q q2 blk1 hqq]
              exact hgq2⟩
        · exact le_of_eq (ArrayClassObject.length_set h.bins q blk1).symm
        · show (h.bins.set q blk1).get q2 = h.bins.get q2
          apply ArrayClassObject.get_set_other
          intro hqq
          apply hno
          refine ⟨ptrs, hd, ?_⟩
          rw [← hqq]
          exact load_mem_list ptrs bin _ hlp
        · obtain ⟨ptrs2, hd2, hmem⟩ := hown
          rw [hd1] at hd2
          exact ⟨ptrs2, by rw [hd]; exact hd2, hmem⟩

theorem view_with (h h1 : Heap2 T) (o : ArrayClass2Object) :
    view h1 o = { view h o with m_array := (view h1 o).m_array } := rfl

/-- A write through the heap is the write on the array the object stands for; it
changes one bin of the object in place. -/
theorem write_view (m : Heap2 T × ArrayClass2Object) (i : Int) (x : T) (hl : Live m.1 m.2) :
    match write m i x with
    | none => (view m.1 m.2).write i x = none
    | some h1 => (view m.1 m.2).write i x = some (view h1 m.2) ∧ Live h1 m.2 ∧
        Frame m (h1, m.2) ∧ h1.dirs = m.1.dirs := by
  obtain ⟨h, o⟩ := m
  have hl2 : Live h o := hl
  have hb : (view h o).GET_BIN_INDEX i = o.GET_BIN_INDEX i := rfl
  have hs : (view h o).GET_SLOT_INDEX i = o.GET_SLOT_INDEX i := rfl
  have hw : write (h, o) i x = match o.GET_BIN_INDEX i with
      | none => none
      | some bin => writeAt h o bin (o.GET_SLOT_INDEX i) x := rfl
  have hvw : (view h o).write i x = match (view h o).m_array, o.GET_BIN_INDEX i with
      | some dir, some bin =>
        match writeCell dir bin (o.GET_SLOT_INDEX i) x with
        | none => none
        | some dir1 => some { view h o with m_array := some dir1 }
      | _, _ => none := rfl
  show match write (h, o) i x with
    | none => (view h o).write i x = none
    | some h1 => (view h o).write i x = some (view h1 o) ∧ Live h1 o ∧
        Frame (h, o) (h1, o) ∧ h1.dirs = h.dirs
  rw [hw, hvw]
  generalize o.GET_SLOT_INDEX i = slot
  cases hbin : o.GET_BIN_INDEX i with
  | none =>
    show (match (view h o).m_array, (none : Option Int) with
      | some dir, some bin =>
        match writeCell dir bin slot x with
        | none => none
        | some dir1 => some { view h o with m_array := some dir1 }
      | _, _ => none) = none
    cases (view h o).m_array <;> rfl
  | some bin =>
    have hwa := writeAt_view h o bin slot x hl2
    show match writeAt h o bin slot x with
      | none => _
      | some h1 => _
    cases hwr : writeAt h o bin slot x with
    | none =>
      rw [hwr] at hwa
      simp only at hwa
      show (match (view h o).m_array, some bin with
        | some dir, some bin =>
          match writeCell dir bin slot x with
          | none => none
          | some dir1 => some { view h o with m_array := some dir1 }
        | _, _ => none) = none
      cases hva : (view h o).m_array with
      | none => rfl
      | some dir =>
        simp only [hwa dir hva]
    | some h1 =>
      rw [hwr] at hwa
      simp only at hwa
      obtain ⟨dir, dir1, hva, hwc, hva1, hl1, hf1, hd1⟩ := hwa
      refine ⟨?_, hl1, hf1, hd1⟩
      show (match (view h o).m_array, some bin with
        | some dir, some bin =>
          match writeCell dir bin slot x with
          | none => none
          | some dir1 => some { view h o with m_array := some dir1 }
        | _, _ => none) = some (view h1 o)
      rw [hva]
      simp only [hwc]
      have e := view_with h h1 o
      rw [hva1] at e
      rw [e]

theorem ownsBin_lt (h : Heap2 T) (o : ArrayClass2Object) (q : Nat) (hl : Live h o)
    (hown : OwnsBin h o q) : q < h.bins.blocks.length := by
  obtain ⟨ptrs, hd, hmem⟩ := hown
  cases ho : o.m_array with
  | none =>
    rw [directory_none h o ho] at hd
    cases hd
  | some a =>
    obtain ⟨ptrs2, hg, _, _, hall⟩ := hl.2 a ho
    rw [directory_some h o a ptrs2 ho hg] at hd
    rw [← Option.some.inj hd] at hmem
    obtain ⟨q2, blk, hpq, hgq⟩ := hall (some q) hmem
    rw [Option.some.inj hpq]
    exact ArrayClassObject.get_lt hgq

theorem view_eq_of_array (h h1 : Heap2 T) (o : ArrayClass2Object)
    (he : (view h1 o).m_array = (view h o).m_array) : view h1 o = view h o := by
  have e := view_with h h1 o
  rw [he] at e
  exact e

/-- A call on one object leaves another object, which has no block in common with
it, as it was. -/
theorem Apart.frame {h h1 : Heap2 T} {o o1 rhs : ArrayClass2Object}
    (hf : Frame (h, o) (h1, o1)) (hl : Live h rhs) (hap : Apart h o rhs) :
    view h1 rhs = view h rhs ∧ Live h1 rhs ∧ Apart h1 o1 rhs := by
  obtain ⟨hbl, hdl, hgd, hgb, hpa, hpb⟩ := hf
  cases hr : rhs.m_array with
  | none =>
    have hd := directory_none h rhs hr
    have hd1 := directory_none h1 rhs hr
    refine ⟨?_, ⟨fun _ => hl.1 hr, fun a ha => ?_⟩, ⟨fun a _ => ?_, fun q _ hown => ?_⟩⟩
    · apply view_eq_of_array
      rw [view_array h1 rhs, view_array h rhs, hd1, hd]
      rfl
    · rw [hr] at ha
      cases ha
    · rw [hr]
      intro hh
      cases hh
    · obtain ⟨ptrs, hd2, _⟩ := hown
      rw [hd1] at hd2
      cases hd2
  | some a =>
    obtain ⟨ptrs, hg, hlen, hnd, hall⟩ := hl.2 a hr
    have hd := directory_some h rhs a ptrs hr hg
    have ha := ArrayClassObject.get_lt hg
    have hne : o.m_array ≠ some a := fun hh => hap.1 a hh hr
    have hg1 : h1.dirs.get a = some ptrs := by
      rw [← hg]
      exact hgd a ha hne
    have hd1 := directory_some h1 rhs a ptrs hr hg1
    have hbins : ∀ p ∈ ptrs, ∃ q blk, p = some q ∧ h1.bins.get q = some blk ∧
        h.bins.get q = some blk := by
      intro p hp
      obtain ⟨q, blk, hpq, hgq⟩ := hall p hp
      refine ⟨q, blk, hpq, ?_, hgq⟩
      rw [← hgq]
      apply hgb q (ArrayClassObject.get_lt hgq)
      intro hown
      exact hap.2 q hown ⟨ptrs, hd, by rw [← hpq]; exact hp⟩
    refine ⟨?_, ⟨fun hh => ?_, fun a2 ha2 => ?_⟩, ⟨fun a2 ha2 => ?_, fun q hown hown2 => ?_⟩⟩
    · apply view_eq_of_array
      rw [view_array h1 rhs, view_array h rhs, hd1, hd]
      have hmap : ptrs.map (binCells h1.bins) = ptrs.map (binCells h.bins) := by
        apply List.map_congr_left
        intro p hp
        obtain ⟨q, blk, hpq, hg1q, hgq⟩ := hbins p hp
        rw [hpq, binCells_some _ q blk hg1q, binCells_some _ q blk hgq]
      show some (ptrs.map (binCells h1.bins)) = some (ptrs.map (binCells h.bins))
      rw [hmap]
    · rw [hr] at hh
      cases hh
    · rw [hr] at ha2
      rw [← Option.some.inj ha2]
      refine ⟨ptrs, hg1, hlen, hnd, fun p hp => ?_⟩
      obtain ⟨q, blk, hpq, hg1q, _⟩ := hbins p hp
      exact ⟨q, blk, hpq, hg1q⟩
    · rw [hr]
      intro hh
      have hh2 : a = a2 := Option.some.inj hh
      rcases hpa a2 ha2 with h3 | h3
      · have h4 : o.m_array = some a2 := h3
        exact hne (by rw [hh2]; exact h4)
      · have h4 : h.dirs.blocks.length ≤ a2 := h3
        omega
    · have hown3 : OwnsBin h rhs q := by
        obtain ⟨ptrs2, hd2, hmem⟩ := hown2
        rw [hd1] at hd2
        exact ⟨ptrs2, by rw [hd]; exact hd2, hmem⟩
      have hq := ownsBin_lt h rhs q hl hown3
      rcases hpb q hown with h3 | h3
      · exact hap.2 q h3 hown3
      · have h4 : h.bins.blocks.length ≤ q := h3
        omega

theorem shiftUp_view (o : ArrayClass2Object) :
    ∀ (n : Nat) (idx : Int) (h : Heap2 T), Live h o →
      match shiftUp o n idx h with
      | none => ArrayClass2.shiftUp n idx (view h o) = none
      | some h1 => ArrayClass2.shiftUp n idx (view h o) = some (view h1 o) ∧ Live h1 o ∧
          Frame (h, o) (h1, o) ∧ h1.dirs = h.dirs := by
  intro n
  induction n with
  | zero =>
    intro idx h hl
    exact ⟨rfl, hl, Frame.refl_bins _, rfl⟩
  | succ n ih =>
    intro idx h hl
    unfold shiftUp ArrayClass2.shiftUp
    rw [read_view]
    generalize wrapInt (idx - 1) = j
    cases hrd : (view h o).read j with
    | none => rfl
    | some x =>
      simp only
      have hw := write_view (h, o) idx x hl
      cases hwr : write (h, o) idx x with
      | none =>
        rw [hwr] at hw
        simp only at hw
        simp only [hw]
      | some h1 =>
        rw [hwr] at hw
        simp only at hw
        obtain ⟨hvw, hl1, hf1, hd1⟩ := hw
        simp only [hvw]
        have h2 := ih j h1 hl1
        cases hsh : shiftUp o n j h1 with
        | none =>
          rw [hsh] at h2
          exact h2
        | some h3 =>
          rw [hsh] at h2
          obtain ⟨hv3, hl3, hf3, hd3⟩ := h2
          exact ⟨hv3, hl3, hf1.trans_bins hf3, by rw [hd3, hd1]⟩

theorem shiftDown_view (o : ArrayClass2Object) :
    ∀ (n : Nat) (index : Int) (h : Heap2 T), Live h o →
      match shiftDown o n index h with
      | none => ArrayClass2.shiftDown n index (view h o) = none
      | some h1 => ArrayClass2.shiftDown n index (view h o) = some (view h1 o) ∧ Live h1 o ∧
          Frame (h, o) (h1, o) ∧ h1.dirs = h.dirs := by
  intro n
  induction n with
  | zero =>
    intro index h hl
    exact ⟨rfl, hl, Frame.refl_bins _, rfl⟩
  | succ n ih =>
    intro index h hl
    unfold shiftDown ArrayClass2.shiftDown
    rw [read_view]
    generalize wrapInt (index + 1) = j
    cases hrd : (view h o).read j with
    | none => rfl
    | some x =>
      simp only
      have hw := write_view (h, o) index x hl
      cases hwr : write (h, o) index x with
      | none =>
        rw [hwr] at hw
        simp only at hw
        simp only [hw]
      | some h1 =>
        rw [hwr] at hw
        simp only at hw
        obtain ⟨hvw, hl1, hf1, hd1⟩ := hw
        simp only [hvw]
        have h2 := ih j h1 hl1
        cases hsh : shiftDown o n j h1 with
        | none =>
          rw [hsh] at h2
          exact h2
        | some h3 =>
          rw [hsh] at h2
          obtain ⟨hv3, hl3, hf3, hd3⟩ := h2
          exact ⟨hv3, hl3, hf1.trans_bins hf3, by rw [hd3, hd1]⟩

theorem copyElements_view (o rhs : ArrayClass2Object) :
    ∀ (n : Nat) (i : Int) (h : Heap2 T), Live h o → Live h rhs → Apart h o rhs →
      match copyElements o rhs n i h with
      | none => ArrayClass2.copyElements (view h rhs) n i (view h o) = none
      | some h1 => ArrayClass2.copyElements (view h rhs) n i (view h o) = some (view h1 o) ∧
          Live h1 o ∧ Frame (h, o) (h1, o) ∧ h1.dirs = h.dirs := by
  intro n
  induction n with
  | zero =>
    intro i h hl _ _
    exact ⟨rfl, hl, Frame.refl_bins _, rfl⟩
  | succ n ih =>
    intro i h hl hlr hap
    unfold copyElements ArrayClass2.copyElements
    rw [read_view]
    generalize wrapInt (i + 1) = j
    show match (match (view h rhs).read i with
      | none => none
      | some x =>
        match write (h, o) i x with
        | none => none
        | some h1 => copyElements o rhs n j h1) with
      | none => _
      | some h1 => _
    cases hrd : (view h rhs).read i with
    | none => rfl
    | some x =>
      simp only
      have hw := write_view (h, o) i x hl
      cases hwr : write (h, o) i x with
      | none =>
        rw [hwr] at hw
        simp only at hw
        simp only [hw]
      | some h1 =>
        rw [hwr] at hw
        simp only at hw
        obtain ⟨hvw, hl1, hf1, hd1⟩ := hw
        simp only [hvw]
        obtain ⟨hvr, hlr1, hap1⟩ := Apart.frame hf1 hlr hap
        have h2 := ih j h1 hl1 hlr1 hap1
        rw [hvr] at h2
        cases hcp : copyElements o rhs n j h1 with
        | none =>
          rw [hcp] at h2
          exact h2
        | some h3 =>
          rw [hcp] at h2
          obtain ⟨hv3, hl3, hf3, hd3⟩ := h2
          exact ⟨hv3, hl3, hf1.trans_bins hf3, by rw [hd3, hd1]⟩

theorem length_deleteBins (ps : List (Option Nat)) :
    ∀ bins : Heap T, (deleteBins bins ps).blocks.length = bins.blocks.length := by
  induction ps with
  | nil =>
    intro bins
    rfl
  | cons p ps ih =>
    intro bins
    unfold deleteBins
    rw [ih, ArrayClassObject.length_delete]

theorem get_deleteBins (ps : List (Option Nat)) (q : Nat) (hq : some q ∉ ps) :
    ∀ bins : Heap T, (deleteBins bins ps).get q = bins.get q := by
  induction ps with
  | nil =>
    intro bins
    rfl
  | cons p ps ih =>
    intro bins
    unfold deleteBins
    rw [ih (fun hh => hq (List.mem_cons_of_mem p hh)),
      ArrayClassObject.get_delete_other bins p q (fun hh => hq (by rw [hh]; exact List.mem_cons_self _ _))]

/-- On a live object the bin pointers `m_array[0..m_binCount)` are the cells of the
directory. -/
theorem oldPtrs_live (h : Heap2 T) (o : ArrayClass2Object) (hl : Live h o) :
    ∃ old, oldPtrs h o = some old ∧ (∀ ptrs, directory h o = some ptrs → old = ptrs) ∧
      (directory h o = none → old = []) ∧
      ArrayClass2.oldBins (view h o) = some (old.map (binCells h.bins)) := by
  have hbc : (view h o).m_binCount = o.m_binCount := rfl
  cases ho : o.m_array with
  | none =>
    have hb := hl.1 ho
    have hd := directory_none h o ho
    refine ⟨[], ?_, fun ptrs hp => ?_, fun _ => rfl, ?_⟩
    · unfold oldPtrs
      rw [if_pos hb]
    · rw [hd] at hp
      cases hp
    · unfold ArrayClass2.oldBins
      rw [hbc, if_pos hb]
      rfl
  | some a =>
    obtain ⟨ptrs, hg, hlen, hnd, hall⟩ := hl.2 a ho
    have hd := directory_some h o a ptrs ho hg
    have hva : (view h o).m_array = some (ptrs.map (binCells h.bins)) := by
      rw [view_array, hd]
      rfl
    refine ⟨ptrs, ?_, fun ptrs2 hp => ?_, fun hn => ?_, ?_⟩
    · unfold oldPtrs
      by_cases hb : o.m_binCount ≤ 0
      · rw [if_pos hb]
        have h0 : ptrs.length = 0 := by omega
        rw [List.length_eq_zero.mp h0]
      · rw [if_neg hb, hd]
        simp only
        rw [if_pos (by omega), List.take_of_length_le (by omega)]
    · rw [hd] at hp
      exact Option.some.inj hp
    · rw [hd] at hn
      cases hn
    · unfold ArrayClass2.oldBins
      rw [hbc]
      by_cases hb : o.m_binCount ≤ 0
      · rw [if_pos hb]
        have h0 : ptrs.length = 0 := by omega
        rw [List.length_eq_zero.mp h0]
        rfl
      · rw [if_neg hb, hva]
        simp only
        rw [List.length_map, if_pos (by omega), List.take_of_length_le
          (by rw [List.length_map]; omega)]

/-- The member `Reset` on a live object. -/
theorem Reset_view (m : Heap2 T × ArrayClass2Object) (hl : Live m.1 m.2) :
    ∃ m1, Reset m = some m1 ∧ view m1.1 m1.2 = ArrayClass2.Reset (view m.1 m.2) ∧
      Live m1.1 m1.2 ∧ Frame m m1 := by
  obtain ⟨h, o⟩ := m
  have hl2 : Live h o := hl
  obtain ⟨old, hold, hsome, hnone, _⟩ := oldPtrs_live h o hl2
  have hown : ∀ q, some q ∈ old → OwnsBin h o q := by
    intro q hq
    cases hd : directory h o with
    | none =>
      rw [hnone hd] at hq
      cases hq
    | some ptrs =>
      rw [hsome ptrs hd] at hq
      exact ⟨ptrs, hd, hq⟩
  refine ⟨({ bins := deleteBins h.bins old, dirs := h.dirs.delete o.m_array },
      { o with m_array := none, m_binCount := 0, m_length := 0 }), ?_, ?_, ?_, ?_⟩
  · unfold Reset
    show (match oldPtrs h o with
      | none => none
      | some ptrs => some (({ bins := deleteBins h.bins ptrs, dirs := h.dirs.delete o.m_array } :
          Heap2 T), ({ o with m_array := none, m_binCount := 0, m_length := 0 } :
          ArrayClass2Object))) = _
    rw [hold]
  · rfl
  · refine ⟨fun _ => le_refl _, fun a ha => ?_⟩
    cases ha
  · refine ⟨?_, ?_, fun a _ hne => ?_, fun q _ hno => ?_, fun a ha => ?_, fun q hq => ?_⟩
    · exact le_of_eq (length_deleteBins old h.bins).symm
    · exact le_of_eq (ArrayClassObject.length_delete h.dirs o.m_array).symm
    · exact ArrayClassObject.get_delete_other h.dirs o.m_array a hne
    · exact get_deleteBins old q (fun hh => hno (hown q hh)) h.bins
    · cases ha
    · obtain ⟨ptrs, hd, _⟩ := hq
      cases hd

/-- The statements that end a failed `Assure`, on a live object. -/
theorem fail_sound (m m0 : Heap2 T × ArrayClass2Object) (hl : Live m.1 m.2)
    (hf : Frame m0 m) (hv : view m.1 m.2 = view m0.1 m0.2) :
    Sound m0 (fail m)
      (.throw (.CDynamicArrayException (ArrayClass2.Reset { view m0.1 m0.2 with m_valid := false }))
        (ArrayClass2.Reset { view m0.1 m0.2 with m_valid := false })) := by
  obtain ⟨h, o⟩ := m
  have hl2 : Live h { o with m_valid := false } := hl
  obtain ⟨m1, hr, hv1, hl1, hf1⟩ := Reset_view (h, { o with m_valid := false }) hl2
  have hfr : Frame m0 m1 := by
    refine hf.trans_bins ?_
    obtain ⟨a1, a2, a3, a4, a5, a6⟩ := hf1
    exact ⟨a1, a2, a3, a4, a5, a6⟩
  have hv2 : view m1.1 m1.2 = ArrayClass2.Reset { view m0.1 m0.2 with m_valid := false } := by
    rw [hv1, ← hv]
    rfl
  unfold fail
  show Sound m0 (match Reset (h, { o with m_valid := false }) with
    | none => Outcome.undefined
    | some m1 => Outcome.throw (ArrayException.CDynamicArrayException m1) m1) _
  rw [hr]
  refine ⟨?_, fun m2 hm => ?_, fun m2 hm => ?_⟩
  · show Outcome.throw (ArrayException.CDynamicArrayException (view m1.1 m1.2)) (view m1.1 m1.2) = _
    rw [hv2]
  · rcases hm with hm | ⟨e, hm⟩
    · cases hm
    · obtain ⟨_, hm2⟩ := Outcome.throw.inj hm
      rw [← hm2]
      exact ⟨hl1, hfr⟩
  · cases hm

/-- The loop that allocates the new bins, on the heap and on the array. -/
theorem newBins_spec [Inhabited T] (grants : Nat → Bool) (mpb : Int) :
    ∀ (n k : Nat) (b : Heap T),
      b.blocks.length ≤ (newBins grants mpb n k b).1.blocks.length ∧
      (∀ q, q < b.blocks.length → (newBins grants mpb n k b).1.get q = b.get q) ∧
      match (newBins grants mpb n k b).2 with
      | none => ArrayClass2.newBins T grants mpb n k = none
      | some fresh =>
        ArrayClass2.newBins T grants mpb n k =
            some (fresh.map (binCells (newBins grants mpb n k b).1)) ∧
          fresh.length = n ∧ fresh.Nodup ∧
          ∀ p ∈ fresh, ∃ q blk, p = some q ∧ b.blocks.length ≤ q ∧
            (newBins grants mpb n k b).1.get q = some blk := by
  intro n
  induction n with
  | zero =>
    intro k b
    refine ⟨le_refl _, fun _ _ => rfl, rfl, rfl, List.nodup_nil, fun p hp => ?_⟩
    cases hp
  | succ n ih =>
    intro k b
    unfold newBins ArrayClass2.newBins Heap.new
    cases hnb : newBlock T (grants k) mpb with
    | none =>
      exact ⟨le_refl _, fun _ _ => rfl, rfl⟩
    | some blk =>
      simp only
      obtain ⟨hlen, hold, hrest⟩ := ih (k + 1) { blocks := b.blocks ++ [some blk] }
      have hlen1 : ({ blocks := b.blocks ++ [some blk] } : Heap T).blocks.length =
          b.blocks.length + 1 := by
        simp only [List.length_append, List.length_singleton]
      rw [hlen1] at hlen hold
      have hnew : (newBins grants mpb n (k + 1) { blocks := b.blocks ++ [some blk] }).1.get
          b.blocks.length = some blk := by
        rw [hold b.blocks.length (by omega)]
        exact ArrayClassObject.get_append_new b blk
      have hkeep : ∀ q, q < b.blocks.length →
          (newBins grants mpb n (k + 1) { blocks := b.blocks ++ [some blk] }).1.get q =
            b.get q := by
        intro q hq
        rw [hold q (by omega)]
        exact ArrayClassObject.get_append_old b _ q hq
      generalize hr : newBins grants mpb n (k + 1) { blocks := b.blocks ++ [some blk] } = r
        at hlen hold hrest hnew hkeep
      obtain ⟨b2, fr⟩ := r
      have hlen2 : b.blocks.length + 1 ≤ b2.blocks.length := hlen
      cases fr with
      | none =>
        simp only at hrest
        simp only [hrest]
        exact ⟨by show b.blocks.length ≤ b2.blocks.length; omega, hkeep, trivial⟩
      | some rest =>
        simp only at hrest
        obtain ⟨hval, hrl, hnd, hall⟩ := hrest
        simp only [hval]
        refine ⟨by show b.blocks.length ≤ b2.blocks.length; omega, hkeep, ?_, ?_, ?_, fun p hp => ?_⟩
        · show some (blk :: rest.map (binCells b2)) =
            some (binCells b2 (some b.blocks.length) :: rest.map (binCells b2))
          rw [binCells_some b2 _ blk hnew]
        · show rest.length + 1 = n + 1
          rw [hrl]
        · refine List.nodup_cons.mpr ⟨fun hmem => ?_, hnd⟩
          obtain ⟨q, _, hpq, hq, _⟩ := hall _ hmem
          have := Option.some.inj hpq
          simp only [List.length_append, List.length_singleton] at hq
          omega
        · rcases List.mem_cons.mp hp with h1 | h1
          · exact ⟨b.blocks.length, blk, h1, le_refl _, hnew⟩
          · obtain ⟨q, blk2, hpq, hq, hg⟩ := hall p h1
            simp only [List.length_append, List.length_singleton] at hq
            exact ⟨q, blk2, hpq, by omega, hg⟩

/-- Blocks added to the heap leave a live object as it was. -/
theorem extend_frame (h h1 : Heap2 T) (o : ArrayClass2Object) (hl : Live h o)
    (hbl : h.bins.blocks.length ≤ h1.bins.blocks.length)
    (hdl : h.dirs.blocks.length ≤ h1.dirs.blocks.length)
    (hgd : ∀ a, a < h.dirs.blocks.length → h1.dirs.get a = h.dirs.get a)
    (hgb : ∀ q, q < h.bins.blocks.length → h1.bins.get q = h.bins.get q) :
    Live h1 o ∧ Frame (h, o) (h1, o) ∧ view h1 o = view h o ∧
      directory h1 o = directory h o := by
  have hdir : directory h1 o = directory h o := by
    cases ho : o.m_array with
    | none => rw [directory_none h o ho, directory_none h1 o ho]
    | some a =>
      obtain ⟨ptrs, hg, _, _, _⟩ := hl.2 a ho
      rw [directory_some h o a ptrs ho hg,
        directory_some h1 o a ptrs ho (by rw [hgd a (ArrayClassObject.get_lt hg)]; exact hg)]
  have hcells : ∀ ptrs, directory h o = some ptrs →
      ∀ p ∈ ptrs, ∃ q blk, p = some q ∧ h.bins.get q = some blk ∧ h1.bins.get q = some blk := by
    intro ptrs hd p hp
    cases ho : o.m_array with
    | none =>
      rw [directory_none h o ho] at hd
      cases hd
    | some a =>
      obtain ⟨ptrs2, hg, _, _, hall⟩ := hl.2 a ho
      rw [directory_some h o a ptrs2 ho hg] at hd
      rw [← Option.some.inj hd] at hp
      obtain ⟨q, blk, hpq, hgq⟩ := hall p hp
      exact ⟨q, blk, hpq, hgq, by rw [hgb q (ArrayClassObject.get_lt hgq)]; exact hgq⟩
  refine ⟨⟨hl.1, fun a ha => ?_⟩, ⟨hbl, hdl, fun a ha _ => hgd a ha, fun q hq _ => hgb q hq,
    fun a ha => Or.inl ha, fun q hq => Or.inl ?_⟩, ?_, hdir⟩
  · obtain ⟨ptrs, hg, hlen, hnd, hall⟩ := hl.2 a ha
    refine ⟨ptrs, by rw [hgd a (ArrayClassObject.get_lt hg)]; exact hg, hlen, hnd,
      fun p hp => ?_⟩
    obtain ⟨q, blk, hpq, _, hg1⟩ := hcells ptrs (directory_some h o a ptrs ha hg) p hp
    exact ⟨q, blk, hpq, hg1⟩
  · obtain ⟨ptrs, hd, hmem⟩ := hq
    exact ⟨ptrs, by rw [← hdir]; exact hd, hmem⟩
  · apply view_eq_of_array
    rw [view_array h1 o, view_array h o, hdir]
    cases hd : directory h o with
    | none => rfl
    | some ptrs =>
      show some (ptrs.map (binCells h1.bins)) = some (ptrs.map (binCells h.bins))
      have hmap : ptrs.map (binCells h1.bins) = ptrs.map (binCells h.bins) := by
        apply List.map_congr_left
        intro p hp
        obtain ⟨q, blk, hpq, hg0, hg1⟩ := hcells ptrs hd p hp
        rw [hpq, binCells_some _ q blk hg1, binCells_some _ q blk hg0]
      rw [hmap]

theorem newBlock_none_iff (A : Type) [Inhabited A] (g : Bool) (n : Int) :
    newBlock A g n = none ↔ ¬ (g = true ∧ 0 ≤ n) := by
  unfold newBlock
  constructor
  · intro h hc
    rw [if_pos hc] at h
    cases h
  · intro hc
    rw [if_neg hc]

/-- The growth of the directory, on the heap and on the array. -/
theorem grow_sound_bins [Inhabited T] (grants : Nat → Bool) (m : Heap2 T × ArrayClass2Object)
    (nbc : Int) (hl : Live m.1 m.2) (hgt : nbc > m.2.m_binCount) :
    Sound m (grow grants m nbc)
      (if grants 0 = true ∧ 0 ≤ nbc then
        match ArrayClass2.oldBins (view m.1 m.2) with
        | none => .undefined
        | some old =>
          if (view m.1 m.2).m_binCount < 0 then .undefined
          else
            match ArrayClass2.newBins T (fun k => grants (k + 1)) (view m.1 m.2).m_maxPerBin
                (nbc - (view m.1 m.2).m_binCount).toNat 0 with
            | some fresh =>
              .ok { view m.1 m.2 with m_array := some (old ++ fresh), m_binCount := nbc }
            | none =>
              .throw (.CDynamicArrayException
                  (ArrayClass2.Reset { view m.1 m.2 with m_valid := false }))
                (ArrayClass2.Reset { view m.1 m.2 with m_valid := false })
      else
        .throw (.CDynamicArrayException (ArrayClass2.Reset { view m.1 m.2 with m_valid := false }))
          (ArrayClass2.Reset { view m.1 m.2 with m_valid := false })) := by
  obtain ⟨h, o⟩ := m
  have hl2 : Live h o := hl
  have hgt2 : nbc > o.m_binCount := hgt
  obtain ⟨old, hold, hsome, hnone, holdV⟩ := oldPtrs_live h o hl2
  have hbc : (view h o).m_binCount = o.m_binCount := rfl
  have hmp : (view h o).m_maxPerBin = o.m_maxPerBin := rfl
  show Sound (h, o) (grow grants (h, o) nbc) (if grants 0 = true ∧ 0 ≤ nbc then
        match ArrayClass2.oldBins (view h o) with
        | none => Outcome.undefined
        | some old =>
          if (view h o).m_binCount < 0 then Outcome.undefined
          else
            match ArrayClass2.newBins T (fun k => grants (k + 1)) (view h o).m_maxPerBin
                (nbc - (view h o).m_binCount).toNat 0 with
            | some fresh =>
              Outcome.ok { view h o with m_array := some (old ++ fresh), m_binCount := nbc }
            | none =>
              Outcome.throw (ArrayException.CDynamicArrayException
                  (ArrayClass2.Reset { view h o with m_valid := false }))
                (ArrayClass2.Reset { view h o with m_valid := false })
      else
        Outcome.throw (ArrayException.CDynamicArrayException
            (ArrayClass2.Reset { view h o with m_valid := false }))
          (ArrayClass2.Reset { view h o with m_valid := false }))
  rw [holdV, hbc, hmp]
  unfold grow Heap.new
  cases hnb : newBlock (Option Nat) (grants 0) nbc with
  | none =>
    rw [if_neg ((newBlock_none_iff _ _ _).mp hnb)]
    exact fail_sound (h, o) (h, o) hl2 (Frame.refl_bins _) rfl
  | some blk =>
    have hc : grants 0 = true ∧ 0 ≤ nbc := by
      by_contra hcon
      rw [(newBlock_none_iff _ _ _).mpr hcon] at hnb
      cases hnb
    rw [if_pos hc]
    simp only [hold]
    by_cases hneg : o.m_binCount < 0
    · rw [if_pos hneg, if_pos hneg]
      exact Sound.undefined_bins _
    · rw [if_neg hneg, if_neg hneg]
      have holdlen : (old.length : Int) = o.m_binCount := by
        cases ho : o.m_array with
        | none =>
          rw [hnone (directory_none h o ho)]
          have := hl2.1 ho
          simp only [List.length_nil, Nat.cast_zero]
          omega
        | some a =>
          obtain ⟨ptrs, hg, hlen, _, _⟩ := hl2.2 a ho
          rw [hsome ptrs (directory_some h o a ptrs ho hg)]
          exact hlen
      have holdok : old.Nodup ∧ ∀ p ∈ old, ∃ q blk, p = some q ∧ h.bins.get q = some blk ∧
          OwnsBin h o q := by
        cases ho : o.m_array with
        | none =>
          rw [hnone (directory_none h o ho)]
          exact ⟨List.nodup_nil, fun p hp => by cases hp⟩
        | some a =>
          obtain ⟨ptrs, hg, _, hnd, hall⟩ := hl2.2 a ho
          have hd := directory_some h o a ptrs ho hg
          rw [hsome ptrs hd]
          refine ⟨hnd, fun p hp => ?_⟩
          obtain ⟨q, blk2, hpq, hgq⟩ := hall p hp
          exact ⟨q, blk2, hpq, hgq, ptrs, hd, by rw [← hpq]; exact hp⟩
      have hna : o.m_array ≠ some h.dirs.blocks.length := by
        intro hh
        obtain ⟨ptrs, hg, _, _, _⟩ := hl2.2 _ hh
        have := ArrayClassObject.get_lt hg
        omega
      obtain ⟨hlen, hkeep, hrest⟩ := newBins_spec (fun k => grants (k + 1)) o.m_maxPerBin
        (nbc - o.m_binCount).toNat 0 h.bins
      generalize hr : newBins (fun k => grants (k + 1)) o.m_maxPerBin
        (nbc - o.m_binCount).toNat 0 h.bins = r at hlen hkeep hrest
      obtain ⟨b2, fr⟩ := r
      have hlen2 : h.bins.blocks.length ≤ b2.blocks.length := hlen
      have hkeep2 : ∀ q, q < h.bins.blocks.length → b2.get q = h.bins.get q := hkeep
      have hdl : h.dirs.blocks.length ≤
          ({ blocks := h.dirs.blocks ++ [some blk] } : Heap (Option Nat)).blocks.length := by
        simp only [List.length_append, List.length_singleton]
        omega
      cases fr with
      | none =>
        simp only at hrest
        simp only [hrest]
        obtain ⟨hl3, hf3, hv3, _⟩ := extend_frame h
          { bins := b2, dirs := { blocks := h.dirs.blocks ++ [some blk] } } o hl2 hlen2 hdl
          (fun a ha => ArrayClassObject.get_append_old h.dirs _ a ha) hkeep2
        exact fail_sound ({ bins := b2, dirs := { blocks := h.dirs.blocks ++ [some blk] } }, o)
          (h, o) hl3 hf3 hv3
      | some fresh =>
        simp only at hrest
        obtain ⟨hval, hfl, hfnd, hfall⟩ := hrest
        simp only [hval]
        have hget : ((Heap.set { blocks := h.dirs.blocks ++ [some blk] } h.dirs.blocks.length
            (old ++ fresh)).delete o.m_array).get h.dirs.blocks.length = some (old ++ fresh) := by
          rw [ArrayClassObject.get_delete_other _ _ _ hna]
          apply ArrayClassObject.get_set_self
          simp only [List.length_append, List.length_singleton]
          omega
        have hmapold : old.map (binCells b2) = old.map (binCells h.bins) := by
          apply List.map_congr_left
          intro p hp
          obtain ⟨q, blk2, hpq, hgq, _⟩ := holdok.2 p hp
          rw [hpq, binCells_some _ q blk2 hgq,
            binCells_some _ q blk2 (by rw [hkeep2 q (ArrayClassObject.get_lt hgq)]; exact hgq)]
        have hdir1 : directory
            ({ bins := b2, dirs := (Heap.set { blocks := h.dirs.blocks ++ [some blk] }
              h.dirs.blocks.length (old ++ fresh)).delete o.m_array } : Heap2 T)
            { o with m_array := some h.dirs.blocks.length, m_binCount := nbc } =
            some (old ++ fresh) := directory_some _ _ _ _ rfl hget
        refine Sound.ok_of_bins (h, o) _ _ ⟨fun hh => ?_, fun a ha => ?_⟩
          ⟨hlen2, ?_, fun a ha hne => ?_, fun q hq _ => hkeep2 q hq, fun a ha => Or.inr ?_,
            fun q hq => ?_⟩ (fun ptrs hp => ?_) ?_
        · cases hh
        · have ha2 : h.dirs.blocks.length = a := Option.some.inj ha
          rw [← ha2]
          refine ⟨old ++ fresh, hget, ?_, ?_, fun p hp => ?_⟩
          · show ((old ++ fresh).length : Int) = nbc
            rw [List.length_append, hfl]
            push_cast
            omega
          · refine List.nodup_append.mpr ⟨holdok.1, hfnd, fun p hp1 hp2 => ?_⟩
            obtain ⟨q, blk2, hpq, hgq, _⟩ := holdok.2 p hp1
            obtain ⟨q2, _, hpq2, hq2, _⟩ := hfall p hp2
            have := ArrayClassObject.get_lt hgq
            have he : q = q2 := Option.some.inj (hpq.symm.trans hpq2)
            omega
          · rcases List.mem_append.mp hp with hp1 | hp2
            · obtain ⟨q, blk2, hpq, hgq, _⟩ := holdok.2 p hp1
              exact ⟨q, blk2, hpq, by
                show b2.get q = some blk2
                rw [hkeep2 q (ArrayClassObject.get_lt hgq)]
                exact hgq⟩
            · obtain ⟨q, blk2, hpq, _, hgq⟩ := hfall p hp2
              exact ⟨q, blk2, hpq, hgq⟩
        · show h.dirs.blocks.length ≤ ((Heap.set { blocks := h.dirs.blocks ++ [some blk] }
            h.dirs.blocks.length (old ++ fresh)).delete o.m_array).blocks.length
          rw [ArrayClassObject.length_delete, ArrayClassObject.length_set]
          exact hdl
        · show ((Heap.set { blocks := h.dirs.blocks ++ [some blk] }
            h.dirs.blocks.length (old ++ fresh)).delete o.m_array).get a = h.dirs.get a
          have ha2 : a < h.dirs.blocks.length := ha
          rw [ArrayClassObject.get_delete_other _ _ _ hne,
            ArrayClassObject.get_set_other _ _ _ _ (by omega)]
          exact ArrayClassObject.get_append_old h.dirs _ a ha2
        · have ha2 : h.dirs.blocks.length = a := Option.some.inj ha
          show h.dirs.blocks.length ≤ a
          omega
        · obtain ⟨ptrs, hd, hmem⟩ := hq
          rw [hdir1] at hd
          rw [← Option.some.inj hd] at hmem
          rcases List.mem_append.mp hmem with hp1 | hp2
          · obtain ⟨q2, _, hpq, _, hown⟩ := holdok.2 _ hp1
            rw [Option.some.inj hpq]
            exact Or.inl hown
          · obtain ⟨q2, _, hpq, hq2, _⟩ := hfall _ hp2
            rw [Option.some.inj hpq]
            exact Or.inr hq2
        · have hp2 : directory h o = some ptrs := hp
          have he := hsome ptrs hp2
          exact ⟨old ++ fresh, hdir1, by rw [he]; exact List.prefix_append ptrs fresh⟩
        · have e := view_with h ({ bins := b2, dirs := (Heap.set
              { blocks := h.dirs.blocks ++ [some blk] } h.dirs.blocks.length
              (old ++ fresh)).delete o.m_array } : Heap2 T)
            { o with m_array := some h.dirs.blocks.length, m_binCount := nbc }
          rw [view_array, hdir1] at e
          rw [e]
          show ({ view h { o with m_array := some h.dirs.blocks.length, m_binCount := nbc } with
            m_array := some ((old ++ fresh).map (binCells b2)) } : ArrayClass2 T) = _
          rw [List.map_append, hmapold]
          rfl

theorem Assure_sound_bins [Inhabited T] (grants : Nat → Bool) (m : Heap2 T × ArrayClass2Object)
    (req : Int) (hl : Live m.1 m.2) :
    Sound m (Assure grants m req) (ArrayClass2.Assure grants (view m.1 m.2) req) := by
  have e1 : (view m.1 m.2).m_valid = m.2.m_valid := rfl
  have e2 : (view m.1 m.2).m_binShift = m.2.m_binShift := rfl
  have e3 : (view m.1 m.2).m_binCount = m.2.m_binCount := rfl
  unfold Assure ArrayClass2.Assure
  rw [e1, e2]
  by_cases hc : m.2.m_valid = true ∧ req > 0
  · rw [if_pos hc, if_pos hc]
    generalize shiftRightInt (wrapInt (req - 1)) ((m.2.m_binShift + 128) % 256 - 128) = sh
    cases sh with
    | none => exact Sound.undefined_bins m
    | some q =>
      simp only
      generalize wrapInt (q + 1) = nbc
      by_cases hg : nbc > m.2.m_binCount
      · rw [if_pos hg, if_pos (by rw [e3]; exact hg)]
        exact grow_sound_bins grants m nbc hl hg
      · rw [if_neg hg, if_neg (by rw [e3]; exact hg)]
        exact Sound.ok_bins m hl
  · rw [if_neg hc, if_neg hc]
    exact Sound.ok_bins m hl

theorem directory_congr (h h1 : Heap2 T) (o o1 : ArrayClass2Object) (hd : h1.dirs = h.dirs)
    (ha : o1.m_array = o.m_array) : directory h1 o1 = directory h o := by
  unfold directory
  rw [hd, ha]

theorem Keeps.of_dirs (h h1 : Heap2 T) (o o1 : ArrayClass2Object) (hd : h1.dirs = h.dirs)
    (ha : o1.m_array = o.m_array) : Keeps (h, o) (h1, o1) := by
  intro ptrs hp
  exact ⟨ptrs, by rw [directory_congr h h1 o o1 hd ha]; exact hp, List.prefix_refl ptrs⟩

theorem writeIfValid_sound (m : Heap2 T × ArrayClass2Object) (index : Int) (x : T)
    (hl : Live m.1 m.2) :
    Sound m (writeIfValid m index x) (ArrayClass2.writeIfValid (view m.1 m.2) index x) := by
  have e1 : (view m.1 m.2).m_valid = m.2.m_valid := rfl
  unfold writeIfValid ArrayClass2.writeIfValid
  rw [e1]
  by_cases hv : m.2.m_valid = true
  · rw [if_pos hv, if_pos hv]
    have hw := write_view m index x hl
    cases hwr : write m index x with
    | none =>
      rw [hwr] at hw
      simp only at hw
      rw [hw]
      exact Sound.undefined_bins m
    | some h1 =>
      rw [hwr] at hw
      simp only at hw
      obtain ⟨hvw, hl1, hf1, hd1⟩ := hw
      rw [hvw]
      exact Sound.ok_of_bins m (h1, m.2) _ hl1 hf1 (Keeps.of_dirs m.1 h1 m.2 m.2 hd1 rfl) rfl
  · rw [if_neg hv, if_neg hv]
    exact Sound.ok_bins m hl

theorem Live.setLength_live {h : Heap2 T} {o : ArrayClass2Object} (hl : Live h o) (L : Int) :
    Live h { o with m_length := L } := hl

theorem Frame.setLength_frame (h : Heap2 T) (o : ArrayClass2Object) (L : Int) :
    Frame (h, o) (h, { o with m_length := L }) :=
  ⟨le_refl _, le_refl _, fun _ _ _ => rfl, fun _ _ _ => rfl, fun _ ha => Or.inl ha,
    fun _ hq => Or.inl hq⟩

theorem setLength_sound_bins (m1 : Heap2 T × ArrayClass2Object) (L : Int) (hl : Live m1.1 m1.2) :
    Sound m1 (.ok (if m1.2.m_valid = true then (m1.1, { m1.2 with m_length := L }) else m1))
      (.ok (if (view m1.1 m1.2).m_valid = true then
          { view m1.1 m1.2 with m_length := L } else view m1.1 m1.2)) := by
  have e1 : (view m1.1 m1.2).m_valid = m1.2.m_valid := rfl
  rw [e1]
  by_cases hv : m1.2.m_valid = true
  · rw [if_pos hv, if_pos hv]
    exact Sound.ok_of_bins m1 (m1.1, { m1.2 with m_length := L }) _ (hl.setLength_live L)
      (Frame.setLength_frame m1.1 m1.2 L) (Keeps.of_dirs m1.1 m1.1 m1.2 _ rfl rfl) rfl
  · rw [if_neg hv, if_neg hv]
    exact Sound.ok_bins m1 hl

theorem SetElementIdx_sound_bins [Inhabited T] (grants : Nat → Bool)
    (m : Heap2 T × ArrayClass2Object) (index : Int) (x : T) (hl : Live m.1 m.2) :
    Sound m (SetElementIdx grants m index x)
      (ArrayClass2.SetElementIdx grants (view m.1 m.2) index x) := by
  have e1 : (view m.1 m.2).m_length = m.2.m_length := rfl
  unfold SetElementIdx ArrayClass2.SetElementIdx
  rw [e1]
  by_cases h0 : index ≥ 0
  · rw [if_pos h0, if_pos h0]
    by_cases h1 : index ≥ m.2.m_length
    · rw [if_pos h1, if_pos h1]
      generalize wrapInt (index + 1) = L
      refine Sound.andThen_bins (Sound.andThen_bins (Assure_sound_bins grants m L hl) ?_) ?_
      · intro m1 hl1 _
        exact setLength_sound_bins m1 L hl1
      · intro m2 hl2 _
        exact writeIfValid_sound m2 index x hl2
    · rw [if_neg h1, if_neg h1]
      exact writeIfValid_sound m index x hl
  · rw [if_neg h0, if_neg h0]
    exact Sound.ok_bins m hl

theorem InsertElement_sound_bins [Inhabited T] (grants : Nat → Bool)
    (m : Heap2 T × ArrayClass2Object) (index : Int) (x : T) (hl : Live m.1 m.2) :
    Sound m (InsertElement grants m index x)
      (ArrayClass2.InsertElement grants (view m.1 m.2) index x) := by
  have e1 : (view m.1 m.2).m_length = m.2.m_length := rfl
  unfold InsertElement ArrayClass2.InsertElement
  rw [e1]
  by_cases h0 : index ≥ 0
  · rw [if_pos h0, if_pos h0]
    by_cases h1 : index < m.2.m_length
    · rw [if_pos h1, if_pos h1]
      generalize wrapInt (m.2.m_length + 1) = L
      refine Sound.andThen_bins (Assure_sound_bins grants m L hl) ?_
      intro m1 hl1 _
      have e2 : (view m1.1 m1.2).m_length = m1.2.m_length := rfl
      simp only [e2]
      have hsh := shiftUp_view m1.2 (m1.2.m_length - index).toNat m1.2.m_length m1.1 hl1
      cases hs : shiftUp m1.2 (m1.2.m_length - index).toNat m1.2.m_length m1.1 with
      | none =>
        rw [hs] at hsh
        simp only at hsh
        rw [hsh]
        exact Sound.undefined_bins m1
      | some h2 =>
        rw [hs] at hsh
        simp only at hsh
        obtain ⟨hv2, hl2, hf2, hd2⟩ := hsh
        rw [hv2]
        simp only
        have hw := write_view (h2, m1.2) index x hl2
        cases hwr : write (h2, m1.2) index x with
        | none =>
          rw [hwr] at hw
          simp only at hw
          rw [hw]
          exact Sound.undefined_bins m1
        | some h3 =>
          rw [hwr] at hw
          simp only at hw
          obtain ⟨hv3, hl3, hf3, hd3⟩ := hw
          rw [hv3]
          have e3 : (view h3 m1.2).m_length = m1.2.m_length := rfl
          simp only [e3]
          generalize wrapInt (m1.2.m_length + 1) = L2
          exact Sound.ok_of_bins m1 (h3, { m1.2 with m_length := L2 }) _ (hl3.setLength_live L2)
            ((hf2.trans_bins hf3).trans_bins (Frame.setLength_frame h3 m1.2 L2))
            (Keeps.of_dirs m1.1 h3 m1.2 _ (by rw [hd3, hd2]) rfl) rfl
    · rw [if_neg h1, if_neg h1]
      exact SetElementIdx_sound_bins grants m index x hl
  · rw [if_neg h0, if_neg h0]
    exact Sound.ok_bins m hl

theorem view_isSome (h : Heap2 T) (o : ArrayClass2Object) (hl : Live h o) :
    (view h o).m_array.isSome = o.m_array.isSome := by
  rw [view_array]
  cases ho : o.m_array with
  | none =>
    rw [directory_none h o ho]
    rfl
  | some a =>
    obtain ⟨ptrs, hg, _, _, _⟩ := hl.2 a ho
    rw [directory_some h o a ptrs ho hg]
    rfl

theorem DeleteElement_sound_bins (m : Heap2 T × ArrayClass2Object) (index : Int)
    (hl : Live m.1 m.2) :
    Sound m (DeleteElement m index) (ArrayClass2.DeleteElement (view m.1 m.2) index) := by
  have e1 : (view m.1 m.2).m_length = m.2.m_length := rfl
  unfold DeleteElement ArrayClass2.DeleteElement
  rw [e1, view_isSome m.1 m.2 hl]
  by_cases hc : index ≥ 0 ∧ index < m.2.m_length ∧ m.2.m_array.isSome = true
  · rw [if_pos hc, if_pos hc]
    generalize hL : wrapInt (m.2.m_length - 1) = L
    have hsh := shiftDown_view m.2 (L - index).toNat index m.1 hl
    cases hs : shiftDown m.2 (L - index).toNat index m.1 with
    | none =>
      rw [hs] at hsh
      simp only at hsh
      rw [hsh]
      exact Sound.undefined_bins m
    | some h1 =>
      rw [hs] at hsh
      simp only at hsh
      obtain ⟨hv1, hl1, hf1, hd1⟩ := hsh
      rw [hv1]
      have e3 : (view h1 m.2).m_length = m.2.m_length := rfl
      simp only [e3, hL]
      exact Sound.ok_of_bins m (h1, { m.2 with m_length := L }) _ (hl1.setLength_live L)
        (hf1.trans_bins (Frame.setLength_frame h1 m.2 L)) (Keeps.of_dirs m.1 h1 m.2 _ hd1 rfl) rfl
  · rw [if_neg hc, if_neg hc]
    exact Sound.ok_bins m hl

end ArrayClass2Object

namespace ArrayClass2Object

variable {T : Type}

/-- A call of a mutator on a live object, when it returns or throws, leaves the
object live and touches no block but its own. -/
theorem call_frame [Inhabited T] (grants : Nat → Bool) (c : Call T)
    (m m1 : Heap2 T × ArrayClass2Object) (hl : Live m.1 m.2)
    (hr : call grants c m = .ok m1 ∨ ∃ e, call grants c m = .throw e m1) :
    Live m1.1 m1.2 ∧ Frame m m1 := by
  cases c with
  | Add v => exact (SetElementIdx_sound_bins grants m m.2.m_length v hl).2.1 m1 hr
  | SetElementIdx index v => exact (SetElementIdx_sound_bins grants m index v hl).2.1 m1 hr
  | InsertElement index v => exact (InsertElement_sound_bins grants m index v hl).2.1 m1 hr
  | DeleteElement index => exact (DeleteElement_sound_bins m index hl).2.1 m1 hr
  | Reset =>
    obtain ⟨m2, hr2, _, hl2, hf2⟩ := Reset_view m hl
    have hc : call grants Call.Reset m = .ok m2 := by
      unfold call
      simp only [hr2]
    rw [hc] at hr
    rcases hr with hr | ⟨e, hr⟩
    · rw [← Outcome.ok.inj hr]
      exact ⟨hl2, hf2⟩
    · cases hr

/-- A statement about a call started from `m0` holds from `m`, when the two have the
same heap and the same directory. -/
theorem Sound.rebase {m m0 : Heap2 T × ArrayClass2Object}
    {r : Outcome (Heap2 T × ArrayClass2Object)} {v : Outcome (ArrayClass2 T)}
    (hh : m0.1 = m.1) (ha : m0.2.m_array = m.2.m_array) (hs : Sound m0 r v) : Sound m r v := by
  obtain ⟨h, o⟩ := m
  obtain ⟨h0, o0⟩ := m0
  have hh2 : h0 = h := hh
  have ha2 : o0.m_array = o.m_array := ha
  subst hh2
  have hdir : directory h0 o0 = directory h0 o := directory_congr h0 h0 o o0 rfl ha2
  have hown : ∀ q, OwnsBin h0 o0 q ↔ OwnsBin h0 o q := by
    intro q
    unfold OwnsBin
    rw [hdir]
  obtain ⟨hv, hfr, hkp⟩ := hs
  refine ⟨hv, fun m1 hm => ?_, fun m1 hm => ?_⟩
  · obtain ⟨hl1, hb, hd, hgd, hgb, hpa, hpb⟩ := hfr m1 hm
    refine ⟨hl1, hb, hd, fun a ha3 hne => hgd a ha3 ?_, fun q hq hno => hgb q hq ?_,
      fun a ha3 => ?_, fun q hq => ?_⟩
    · show o0.m_array ≠ some a
      rw [ha2]
      exact hne
    · intro hh3
      exact hno ((hown q).mp hh3)
    · rcases hpa a ha3 with h3 | h3
      · left
        show o.m_array = some a
        rw [← ha2]
        exact h3
      · exact Or.inr h3
    · rcases hpb q hq with h3 | h3
      · exact Or.inl ((hown q).mp h3)
      · exact Or.inr h3
  · intro ptrs hp
    have hp2 : directory h0 o = some ptrs := hp
    apply hkp m1 hm ptrs
    show directory h0 o0 = some ptrs
    rw [hdir]
    exact hp2

/-- The statements of `operator=` after the length of the target has been cleared,
on the heap and on the array. -/
theorem copyInto_sound [Inhabited T] (grants : Nat → Bool) (m : Heap2 T × ArrayClass2Object)
    (rhs : ArrayClass2Object) (hl : Live m.1 m.2) (hlr : Live m.1 rhs)
    (hap : Apart m.1 m.2 rhs) :
    Sound m
      (if rhs.m_length ≠ 0 then
        (Assure grants m rhs.m_length).andThen fun m1 =>
          if m1.2.m_valid = true then
            match copyElements m1.2 rhs rhs.m_length.toNat 0 m1.1 with
            | none => .undefined
            | some h2 => .ok (h2, { m1.2 with m_length := rhs.m_length })
          else .ok (m1.1, { m1.2 with m_length := rhs.m_length })
      else .ok m)
      (if rhs.m_length ≠ 0 then
        (ArrayClass2.Assure grants (view m.1 m.2) rhs.m_length).andThen fun s1 =>
          if s1.m_valid = true then
            match ArrayClass2.copyElements (view m.1 rhs) rhs.m_length.toNat 0 s1 with
            | none => .undefined
            | some s2 => .ok { s2 with m_length := rhs.m_length }
          else .ok { s1 with m_length := rhs.m_length }
      else .ok (view m.1 m.2)) := by
  by_cases hz : rhs.m_length ≠ 0
  · rw [if_pos hz, if_pos hz]
    refine Sound.andThen_bins (Assure_sound_bins grants m rhs.m_length hl) ?_
    intro m1 hl1 hf1
    obtain ⟨hvr, hlr1, hap1⟩ := @Apart.frame _ m.1 m1.1 m.2 m1.2 _
      hf1 hlr hap
    have e1 : (view m1.1 m1.2).m_valid = m1.2.m_valid := rfl
    simp only [e1]
    by_cases hv : m1.2.m_valid = true
    · rw [if_pos hv, if_pos hv]
      have hcp := copyElements_view m1.2 rhs rhs.m_length.toNat 0 m1.1 hl1 hlr1 hap1
      rw [hvr] at hcp
      cases hc : copyElements m1.2 rhs rhs.m_length.toNat 0 m1.1 with
      | none =>
        rw [hc] at hcp
        simp only at hcp
        rw [hcp]
        exact Sound.undefined_bins m1
      | some h2 =>
        rw [hc] at hcp
        simp only at hcp
        obtain ⟨hv2, hl2, hf2, hd2⟩ := hcp
        rw [hv2]
        exact Sound.ok_of_bins m1 (h2, { m1.2 with m_length := rhs.m_length }) _
          (hl2.setLength_live _) (hf2.trans_bins (Frame.setLength_frame h2 m1.2 _))
          (Keeps.of_dirs m1.1 h2 m1.2 _ hd2 rfl) rfl
    · rw [if_neg hv, if_neg hv]
      exact Sound.ok_of_bins m1 (m1.1, { m1.2 with m_length := rhs.m_length }) _
        (hl1.setLength_live _) (Frame.setLength_frame m1.1 m1.2 _)
        (Keeps.of_dirs m1.1 m1.1 m1.2 _ rfl rfl) rfl
  · rw [if_neg hz, if_neg hz]
    exact Sound.ok_bins m hl

/-- The member `operator=`, on the heap and on the array, for two objects with no
block in common. -/
theorem assign_sound [Inhabited T] (grants : Nat → Bool) (m : Heap2 T × ArrayClass2Object)
    (rhs : ArrayClass2Object) (hl : Live m.1 m.2) (hlr : Live m.1 rhs)
    (hap : Apart m.1 m.2 rhs) :
    Sound m (assign grants m rhs) (ArrayClass2.assign grants (view m.1 m.2) (view m.1 rhs)) := by
  have e1 : (view m.1 rhs).m_length = rhs.m_length := rfl
  unfold assign ArrayClass2.assign
  rw [view_isSome m.1 m.2 hl, e1]
  by_cases hs : m.2.m_array.isSome = true
  · simp only [hs, if_true]
    have hl0 : Live m.1 { m.2 with m_length := 0 } := hl.setLength_live 0
    have hap0 : Apart m.1 { m.2 with m_length := 0 } rhs := hap
    exact @Sound.rebase _ m (m.1, { m.2 with m_length := 0 }) _ _ rfl rfl
      (copyInto_sound grants (m.1, { m.2 with m_length := 0 }) rhs hl0 hlr hap0)
  · simp only [hs]
    exact copyInto_sound grants m rhs hl hlr hap

end ArrayClass2Object
namespace ArrayClass2

variable {T : Type}

/-- The binned `operator=` onto a valid target of non-negative length: the result
has the length and the elements of the source. -/
theorem assign_bins_full [Inhabited T] (s rhs : ArrayClass2 T) (hwf : WellFormed s)
    (hrwf : WellFormed rhs) (h0 : 0 ≤ s.m_length) :
    ∃ s1, assign granted s rhs = .ok s1 ∧ WellFormed s1 ∧ s1.m_length = rhs.m_length ∧
      ∀ j : Int, 0 ≤ j → j < rhs.m_length →
        cellRead (bins s1) j = cellRead (bins rhs) j := by
  by_cases hz : rhs.m_length = 0
  · have hb0 : 0 ≤ s.m_binCount := by
      have := hwf.2.2.2.2.1
      omega
    have hcap := hwf.2.2.2.2.2.2.1
    cases hs : s.m_array with
    | none =>
      have hbl := hwf.2.2.2.2.1
      rw [bins_of_none hs] at hbl
      simp only [List.length_nil, Nat.cast_zero] at hbl
      refine ⟨s, ?_, hwf, by omega, fun j hj0 hj1 => by omega⟩
      unfold assign
      simp only [hs, Option.isSome]
      rw [if_neg (by omega)]
      rfl
    | some d =>
      refine ⟨{ s with m_length := 0 }, ?_, hwf.setLength 0 (by omega) (by omega) (by omega),
        by rw [hz], fun j hj0 hj1 => by omega⟩
      unfold assign
      simp only [hs, Option.isSome]
      rw [if_neg (by omega)]
      rfl
  · obtain ⟨s1, h1, hwf1, hrest⟩ := assign_bins s rhs hwf hrwf
    obtain ⟨hlen, hcells⟩ := hrest hz
    exact ⟨s1, h1, hwf1, hlen, hcells⟩

end ArrayClass2

namespace ArrayClass2Object

variable {T : Type}

theorem ctor_obj_eq : ctor =
    { m_length := 0, m_maxPerBin := 32, m_slotMask := 31, m_binShift := 5, m_array := none,
      m_binCount := 0, m_valid := true } := by
  have h : ArrayClass2.ctorLoop 32 1 0 = some (32, 5) := by decide
  unfold ctor
  rw [h]
  have h31 : wrapInt (32 - 1) = 31 := by decide
  simp only [h31]

theorem view_ctor (h : Heap2 T) : view h ctor = (ArrayClass2.ctor : ArrayClass2 T) := by
  rw [ctor_obj_eq, ArrayClass2.ctor_eq]
  rfl

theorem ctor_live (h : Heap2 T) : Live h ctor := by
  rw [ctor_obj_eq]
  refine ⟨fun _ => le_refl _, fun a ha => ?_⟩
  cases ha

theorem ctor_apart (h : Heap2 T) (rhs : ArrayClass2Object) : Apart h ctor rhs := by
  rw [ctor_obj_eq]
  refine ⟨fun a ha => ?_, fun q hq => ?_⟩
  · cases ha
  · obtain ⟨ptrs, hd, _⟩ := hq
    cases hd

theorem ok_of_viewOutcome_bins {r : Outcome (Heap2 T × ArrayClass2Object)} {s1 : ArrayClass2 T}
    (h : viewOutcome r = .ok s1) : ∃ m1, r = .ok m1 ∧ view m1.1 m1.2 = s1 := by
  cases r with
  | ok m1 => exact ⟨m1, rfl, Outcome.ok.inj h⟩
  | throw e m1 => cases h
  | undefined => cases h

/-- The copy of a valid `src` onto a valid object `tgt` of non-negative length that
has no block in common with it. -/
theorem assign_independent [Inhabited T] (h : Heap2 T) (src tgt : ArrayClass2Object)
    (hsrc : Live h src) (htgt : Live h tgt) (hap : Apart h tgt src)
    (hwfs : ArrayClass2.WellFormed (view h src)) (hwft : ArrayClass2.WellFormed (view h tgt))
    (htl : 0 ≤ tgt.m_length) :
    ∃ h1 c, assign ArrayClass2.granted (h, tgt) src = .ok (h1, c) ∧
      IsIndependentCopy h src h1 c := by
  obtain ⟨s1, hs1, hwf1, hlen1, hcells⟩ :=
    ArrayClass2.assign_bins_full (view h tgt) (view h src) hwft hwfs htl
  obtain ⟨hv, hfr, _⟩ := assign_sound ArrayClass2.granted (h, tgt) src htgt hsrc hap
  simp only at hv
  rw [hs1] at hv
  obtain ⟨m1, hr, hvm⟩ := ok_of_viewOutcome_bins hv
  obtain ⟨hl1, hf1⟩ := hfr m1 (Or.inl hr)
  obtain ⟨hvsrc, hlsrc1, hap1⟩ := @Apart.frame _ h m1.1 tgt m1.2 _
    hf1 hsrc hap
  refine ⟨m1.1, m1.2, hr, ?_, fun i hi0 hi1 => ?_, hvsrc, fun grants mu m2 hm2 => ?_⟩
  · show (view m1.1 m1.2).m_length = (view h src).m_length
    rw [hvm]
    exact hlen1
  · have hi2 : i < (view h src).m_length := hi1
    have hlmax := hwfs.2.2.2.2.2.2.2.2.2
    unfold INT_MAX at hlmax
    obtain ⟨x, hx, hg⟩ := ArrayClass2.cell_live (view h src) i hwfs hi0 hi2
    have hg1 : (view m1.1 m1.2).Get i = .value x := by
      rw [hvm]
      exact ArrayClass2.Get_bins_value s1 i x hwf1 hi0 (by omega)
        (by rw [hcells i hi0 hi2]; exact hx)
    refine ⟨?_, by rw [hg1, hg]⟩
    rw [(Get_view (m1.1, m1.2) i x).mpr hg1, (Get_view (m1.1, src) i x).mpr (by
      show (view m1.1 src).Get i = .value x
      rw [hvsrc]
      exact hg)]
  · obtain ⟨_, hf2⟩ := call_frame grants mu (m1.1, m1.2) m2 hl1 hm2
    obtain ⟨hv2, _, _⟩ := @Apart.frame _ m1.1 m2.1 m1.2 m2.2 _
      hf2 hlsrc1 hap1
    rw [hv2, hvsrc]

end ArrayClass2Object

namespace ArrayClass2Object

theorem sampleSrc_live : Live sampleHeap sampleSrc := by
  refine ⟨fun hn => ?_, fun a ha => ?_⟩
  · cases hn
  · have ha2 : (0 : Nat) = a := Option.some.inj ha
    rw [← ha2]
    refine ⟨[some 0], rfl, rfl, by decide, fun p hp => ?_⟩
    exact ⟨0, _, List.mem_singleton.mp hp, rfl⟩

theorem sampleTgt_live : Live sampleHeap sampleTgt := by
  refine ⟨fun hn => ?_, fun a ha => ?_⟩
  · cases hn
  · have ha2 : (1 : Nat) = a := Option.some.inj ha
    rw [← ha2]
    refine ⟨[some 1], rfl, rfl, by decide, fun p hp => ?_⟩
    exact ⟨1, _, List.mem_singleton.mp hp, rfl⟩

theorem sample_apart : Apart sampleHeap sampleTgt sampleSrc := by
  refine ⟨fun a ha hb => ?_, fun q hq hq2 => ?_⟩
  · have ha2 : (1 : Nat) = a := Option.some.inj ha
    have hb2 : (0 : Nat) = a := Option.some.inj hb
    omega
  · obtain ⟨ptrs, hd, hmem⟩ := hq
    obtain ⟨ptrs2, hd2, hmem2⟩ := hq2
    have e1 : [some 1] = ptrs := Option.some.inj hd
    have e2 : [some 0] = ptrs2 := Option.some.inj hd2
    rw [← e1] at hmem
    rw [← e2] at hmem2
    have h1 := Option.some.inj (List.mem_singleton.mp hmem)
    have h2 := Option.some.inj (List.mem_singleton.mp hmem2)
    omega

theorem sampleObj32_live : Live sampleHeap32 sampleObj32 := by
  refine ⟨fun hn => ?_, fun a ha => ?_⟩
  · cases hn
  · have ha2 : (0 : Nat) = a := Option.some.inj ha
    rw [← ha2]
    refine ⟨[some 0], rfl, rfl, by decide, fun p hp => ?_⟩
    exact ⟨0, _, List.mem_singleton.mp hp, rfl⟩

end ArrayClass2Object

namespace ArrayClass2Object

variable {T : Type}

theorem load_prefix {A : Type} (l l1 : List A) (j : Int) (x : A) (hp : l <+: l1)
    (h : load l j = some x) : load l1 j = some x := by
  obtain ⟨t, ht⟩ := hp
  rw [← ht]
  unfold load at h ⊢
  split at h
  · cases h
  · rename_i hj
    rw [if_neg hj]
    have hlt : j.toNat < l.length := by
      rcases Nat.lt_or_ge j.toNat l.length with hlt | hge
      · exact hlt
      · rw [List.getElem?_eq_none hge] at h
        cases h
    rw [List.getElem?_append_left hlt]
    exact h

/-- On a live object whose array is well formed, `SafeGet(i)` for `0 <= i < length`
is the address of the bin the directory cell `i / 32` points to, with slot
`i % 32`. -/
theorem SafeGet_at (h : Heap2 T) (o : ArrayClass2Object) (i : Int) (hl : Live h o)
    (hwf : ArrayClass2.WellFormed (view h o)) (h0 : 0 ≤ i) (h1 : i < o.m_length) :
    ∃ ptrs q, directory h o = some ptrs ∧ load ptrs (i / 32) = some (some q) ∧
      SafeGet (h, o) i = .value (some (q, i % 32)) := by
  obtain ⟨hmpb, hmask, hshift, hvalid, hlen, hok, hcap, hbmax, hlmin, hlmax⟩ := hwf
  have hmpb2 : o.m_maxPerBin = 32 := hmpb
  have hmask2 : o.m_slotMask = 31 := hmask
  have hshift2 : o.m_binShift = 5 := hshift
  have hcap2 : o.m_length ≤ 32 * o.m_binCount := hcap
  have hbmax2 : o.m_binCount ≤ 67108864 := hbmax
  have hlmax2 : o.m_length ≤ 2147483647 := hlmax
  have hbpos : 0 < o.m_binCount := by omega
  cases ho : o.m_array with
  | none =>
    have := hl.1 ho
    omega
  | some a =>
    obtain ⟨ptrs, hg, hplen, hnd, hall⟩ := hl.2 a ho
    have hd : directory h o = some ptrs := directory_some h o a ptrs ho hg
    obtain ⟨p, hp⟩ := load_isSome ptrs (i / 32) (by omega) (by omega)
    obtain ⟨q, blk, hpq, hblk⟩ := hall p (load_mem_list ptrs _ p hp)
    rw [hpq] at hp
    have hbl : blk.length = 32 := by
      apply hok
      have hbins : ArrayClass2.bins (view h o) = ptrs.map (binCells h.bins) := by
        unfold ArrayClass2.bins
        rw [view_array, hd]
        rfl
      rw [hbins, ← binCells_some h.bins q blk hblk]
      exact List.mem_map_of_mem _ (load_mem_list ptrs _ _ hp)
    have hbin : o.GET_BIN_INDEX i = some (i / 32) := by
      unfold GET_BIN_INDEX
      rw [hshift2]
      exact ArrayClass2.shiftRightInt_five i
    have hslot : o.GET_SLOT_INDEX i = i % 32 := by
      unfold GET_SLOT_INDEX
      rw [hmask2]
      exact ArrayClass2.andInt_mask i h0 (by omega)
    have hb : binAt h o (i / 32) = some q := binAt_of_load h o _ ptrs q hd hp
    refine ⟨ptrs, q, hd, hp, ?_⟩
    have hsg : SafeGet (h, o) i =
        if i < o.m_length then
          match o.GET_BIN_INDEX i with
          | none => .undefined
          | some bin =>
            if bin < o.m_binCount then
              if o.GET_SLOT_INDEX i < o.m_maxPerBin then
                match binAt h o bin with
                | none => .undefined
                | some q =>
                  match h.bins.get q with
                  | none => .undefined
                  | some blk =>
                    if 0 ≤ o.GET_SLOT_INDEX i ∧ o.GET_SLOT_INDEX i ≤ blk.length then
                      .value (some (q, o.GET_SLOT_INDEX i))
                    else .undefined
              else .value none
            else .value none
        else .value none := rfl
    rw [hsg]
    generalize o.GET_SLOT_INDEX i = slot at hslot ⊢
    subst hslot
    rw [if_pos h1, hbin]
    simp only
    rw [if_pos (by omega), hmpb2, if_pos (by omega), hb]
    simp only [hblk]
    rw [if_pos ⟨by omega, by omega⟩]

theorem stays_of_keeps (m m1 : Heap2 T × ArrayClass2Object) (hl : Live m.1 m.2)
    (hwf : ArrayClass2.WellFormed (view m.1 m.2)) (hl1 : Live m1.1 m1.2)
    (hwf1 : ArrayClass2.WellFormed (view m1.1 m1.2)) (hk : Keeps m m1)
    (hlen : m.2.m_length ≤ m1.2.m_length) : Stays m m1 := by
  refine ⟨hk, fun i h0 h1 => ?_⟩
  obtain ⟨ptrs, q, hd, hp, hs⟩ := SafeGet_at m.1 m.2 i hl hwf h0 h1
  obtain ⟨ptrs1, q1, hd1, hp1, hs1⟩ := SafeGet_at m1.1 m1.2 i hl1 hwf1 h0 (by omega)
  obtain ⟨ptrs2, hd2, hpre⟩ := hk ptrs hd
  rw [hd1] at hd2
  rw [← Option.some.inj hd2] at hpre
  have hp2 := load_prefix ptrs ptrs1 _ _ hpre hp
  rw [hp1] at hp2
  have hq : q1 = q := Option.some.inj (Option.some.inj hp2)
  rw [hq] at hs1
  exact ⟨(q, i % 32), hs, hs1⟩

theorem SetElementIdx_inside_obj [Inhabited T] (grants : Nat → Bool)
    (m m1 : Heap2 T × ArrayClass2Object) (index : Int) (value : T) (h0 : 0 ≤ index)
    (h1 : index < m.2.m_length) (hr : SetElementIdx grants m index value = .ok m1) :
    m1.2 = m.2 := by
  unfold SetElementIdx at hr
  rw [if_pos h0, if_neg (by omega)] at hr
  unfold writeIfValid at hr
  split at hr
  · split at hr
    · cases hr
    · rw [← Outcome.ok.inj hr]
  · rw [← Outcome.ok.inj hr]

theorem SetElementIdx_stays [Inhabited T] (h : Heap2 T) (o : ArrayClass2Object) (index : Int)
    (value : T) (hl : Live h o) (hwf : ArrayClass2.WellFormed (view h o)) (h0 : 0 ≤ index)
    (hmax : index < 2147483647) :
    ∃ h1 o1, SetElementIdx ArrayClass2.granted (h, o) index value = .ok (h1, o1) ∧
      Stays (h, o) (h1, o1) ∧ o.m_binCount ≤ o1.m_binCount ∧
      (o.m_binCount < o1.m_binCount → o.m_length ≤ index) ∧
      ∀ i : Int, 0 ≤ i → i < o.m_length → i ≠ index → Get (h1, o1) i = Get (h, o) i := by
  obtain ⟨s1, hs1, hwf1, hlen1, hat, hbc, hold, hnew⟩ :=
    ArrayClass2.SetElementIdx_bins (view h o) index value hwf h0 hmax
  obtain ⟨hv, hfr, hkp⟩ := SetElementIdx_sound_bins ArrayClass2.granted (h, o) index value hl
  obtain ⟨m1, hr, hvm⟩ := ok_of_viewOutcome_bins (hv.trans hs1)
  obtain ⟨hl1, hf1⟩ := hfr m1 (Or.inl hr)
  have hk := hkp m1 hr
  rw [← hvm] at hwf1 hlen1 hbc hold
  have hcap : o.m_length ≤ 32 * o.m_binCount := hwf.2.2.2.2.2.2.1
  have hlmax : o.m_length ≤ 2147483647 := hwf.2.2.2.2.2.2.2.2.2
  have hlen2 : m1.2.m_length = max o.m_length (index + 1) := hlen1
  have hbc2 : o.m_binCount ≤ m1.2.m_binCount := hbc
  refine ⟨m1.1, m1.2, hr, stays_of_keeps (h, o) m1 hl hwf hl1 hwf1 hk ?_, hbc2, fun hg => ?_,
    fun i hi0 hi1 hi => ?_⟩
  · show o.m_length ≤ m1.2.m_length
    omega
  · by_contra hc
    have he := SetElementIdx_inside_obj ArrayClass2.granted (h, o) m1 index value h0
      (by show index < o.m_length; omega) hr
    rw [he] at hg
    exact absurd hg (lt_irrefl _)
  · obtain ⟨x, hx, hgx⟩ := ArrayClass2.cell_live (view h o) i hwf hi0 hi1
    have hc := hold i hi0 (by show i < 32 * o.m_binCount; omega) hi
    rw [hx] at hc
    have hg1 := ArrayClass2.Get_bins_value (view m1.1 m1.2) i x hwf1 hi0 (by omega) hc
    rw [(Get_view (h, o) i x).mpr hgx]
    exact (Get_view m1 i x).mpr hg1

theorem Add_stays [Inhabited T] (h : Heap2 T) (o : ArrayClass2Object) (value : T)
    (hl : Live h o) (hwf : ArrayClass2.WellFormed (view h o)) (hlen : o.m_length < 2147483647) :
    ∃ h1 o1, Add ArrayClass2.granted (h, o) value = .ok (h1, o1) ∧
      Stays (h, o) (h1, o1) ∧ o.m_binCount ≤ o1.m_binCount ∧
      ∀ i : Int, 0 ≤ i → i < o.m_length → Get (h1, o1) i = Get (h, o) i := by
  have ha : Add ArrayClass2.granted (h, o) value =
      SetElementIdx ArrayClass2.granted (h, o) o.m_length value := rfl
  rw [ha]
  by_cases h0 : 0 ≤ o.m_length
  · obtain ⟨h1, o1, hr, hst, hbc, _, hget⟩ :=
      SetElementIdx_stays h o o.m_length value hl hwf h0 hlen
    exact ⟨h1, o1, hr, hst, hbc, fun i hi0 hi1 => hget i hi0 hi1 (by omega)⟩
  · refine ⟨h, o, ?_, ⟨Keeps.refl_keeps (h, o), fun i hi0 hi1 => ?_⟩, le_refl _,
      fun i hi0 hi1 => ?_⟩
    · unfold SetElementIdx
      rw [if_neg (by omega)]
    · exact absurd (show i < o.m_length from hi1) (by omega)
    · exact absurd hi1 (by omega)

theorem InsertElement_stays [Inhabited T] (h : Heap2 T) (o : ArrayClass2Object) (index : Int)
    (value : T) (hl : Live h o) (hwf : ArrayClass2.WellFormed (view h o)) (h0 : 0 ≤ index)
    (hmax : index < 2147483647) (hlen : o.m_length < 2147483647) :
    ∃ h1 o1, InsertElement ArrayClass2.granted (h, o) index value = .ok (h1, o1) ∧
      Stays (h, o) (h1, o1) ∧ o.m_binCount ≤ o1.m_binCount ∧
      (∀ i : Int, 0 ≤ i → i < o.m_length → i < index → Get (h1, o1) i = Get (h, o) i) ∧
      ∀ i : Int, index ≤ i → i < o.m_length → Get (h1, o1) (i + 1) = Get (h, o) i := by
  by_cases hin : index < o.m_length
  · obtain ⟨s1, hs1, hwf1, hlen1, hlow, hat, hup, hbc, hrest⟩ :=
      ArrayClass2.InsertElement_bins (view h o) index value hwf h0 hin
    obtain ⟨hv, hfr, hkp⟩ := InsertElement_sound_bins ArrayClass2.granted (h, o) index value hl
    obtain ⟨m1, hr, hvm⟩ := ok_of_viewOutcome_bins (hv.trans hs1)
    obtain ⟨hl1, hf1⟩ := hfr m1 (Or.inl hr)
    have hk := hkp m1 hr
    rw [← hvm] at hwf1 hlen1 hbc hlow hup
    have hlmin : -2147483648 ≤ o.m_length := hwf.2.2.2.2.2.2.2.2.1
    have hw : wrapInt (o.m_length + 1) = o.m_length + 1 := by
      apply wrapInt_eq <;> omega
    have hlen2 : m1.2.m_length = wrapInt (o.m_length + 1) := hlen1
    rw [hw] at hlen2
    have hbc2 : o.m_binCount ≤ m1.2.m_binCount := hbc
    refine ⟨m1.1, m1.2, hr, stays_of_keeps (h, o) m1 hl hwf hl1 hwf1 hk ?_, hbc2,
      fun i hi0 hi1 hi => ?_, fun i hi0 hi1 => ?_⟩
    · show o.m_length ≤ m1.2.m_length
      omega
    · obtain ⟨x, hx, hgx⟩ := ArrayClass2.cell_live (view h o) i hwf hi0 hi1
      have hc := hlow i hi0 hi
      rw [hx] at hc
      have hg1 := ArrayClass2.Get_bins_value (view m1.1 m1.2) i x hwf1 hi0 (by omega) hc
      rw [(Get_view (h, o) i x).mpr hgx]
      exact (Get_view m1 i x).mpr hg1
    · obtain ⟨x, hx, hgx⟩ := ArrayClass2.cell_live (view h o) i hwf (by omega) hi1
      have hc := hup i hi0 hi1
      rw [hx] at hc
      have hg1 := ArrayClass2.Get_bins_value (view m1.1 m1.2) (i + 1) x hwf1 (by omega)
        (by omega) hc
      rw [(Get_view (h, o) i x).mpr hgx]
      exact (Get_view m1 (i + 1) x).mpr hg1
  · obtain ⟨h1, o1, hr, hst, hbc, _, hget⟩ := SetElementIdx_stays h o index value hl hwf h0 hmax
    refine ⟨h1, o1, ?_, hst, hbc, fun i hi0 hi1 hi => hget i hi0 hi1 (by omega),
      fun i hi0 hi1 => absurd hi1 (by omega)⟩
    unfold InsertElement
    rw [if_pos h0, if_neg hin]
    exact hr

end ArrayClass2Object

theorem Outcome.andThen_throw {σ : Type} {o : Outcome σ} {f : σ → Outcome σ}
    {e : ArrayException σ} {s1 : σ} (h : o.andThen f = .throw e s1) :
    o = .throw e s1 ∨ ∃ s2, o = .ok s2 ∧ f s2 = .throw e s1 := by
  cases o with
  | ok s2 => exact Or.inr ⟨s2, rfl, h⟩
  | throw e2 s2 => exact Or.inl h
  | undefined => cases h

theorem Outcome.andThen_ok {σ : Type} {o : Outcome σ} {f : σ → Outcome σ} {s1 : σ}
    (h : o.andThen f = .ok s1) : ∃ s2, o = .ok s2 ∧ f s2 = .ok s1 := by
  cases o with
  | ok s2 => exact ⟨s2, rfl, h⟩
  | throw e2 s2 => cases h
  | undefined => cases h

namespace ArrayClass

variable {T : Type}

end ArrayClass
namespace ArrayClass2

variable {T : Type}

end ArrayClass2
namespace ArrayClass2

variable {T : Type}

/-- The length of a reachable binned array is not negative, or it is `INT_MIN`: the
length has wrapped. -/
theorem Reachable.length_bins [Inhabited T] {s : ArrayClass2 T} (h : Reachable s) :
    0 ≤ s.m_length ∨ s.m_length = -2147483648 := by
  have hset : ∀ (t t1 : ArrayClass2 T) (index : Int) (v : T), WellFormed t →
      index ≤ 2147483647 → ArrayClass2.SetElementIdx granted t index v = .ok t1 →
      (0 ≤ t.m_length ∨ t.m_length = -2147483648) →
      (0 ≤ t1.m_length ∨ t1.m_length = -2147483648) := by
    intro t t1 index v hwf hmax hop hl
    by_cases h0 : 0 ≤ index
    · by_cases htop : index = 2147483647
      · subst htop
        rcases SetElementIdx_bins_top t v hwf with ⟨_, h2⟩ | ⟨_, t2, h2, _, hl2⟩
        · rw [h2] at hop
          cases hop
        · rw [h2] at hop
          rw [← Outcome.ok.inj hop]
          exact Or.inr hl2
      · obtain ⟨t2, h2, _, hl2, _⟩ := SetElementIdx_bins t index v hwf h0 (by omega)
        rw [h2] at hop
        rw [← Outcome.ok.inj hop]
        left
        omega
    · unfold ArrayClass2.SetElementIdx at hop
      rw [if_neg h0] at hop
      rw [← Outcome.ok.inj hop]
      exact hl
  have hassign : ∀ (t rhs t1 : ArrayClass2 T), WellFormed t → WellFormed rhs →
      ArrayClass2.assign granted t rhs = .ok t1 →
      (0 ≤ t.m_length ∨ t.m_length = -2147483648) →
      (0 ≤ rhs.m_length ∨ rhs.m_length = -2147483648) →
      (0 ≤ t1.m_length ∨ t1.m_length = -2147483648) := by
    intro t rhs t1 hwf hrwf hop hl hrl
    by_cases hz : rhs.m_length = 0
    · unfold ArrayClass2.assign at hop
      simp only at hop
      rw [if_neg (by omega)] at hop
      rw [← Outcome.ok.inj hop]
      split
      · exact Or.inl (le_refl _)
      · exact hl
    · obtain ⟨t2, h2, _, hl2⟩ := assign_bins t rhs hwf hrwf
      rw [h2] at hop
      rw [← Outcome.ok.inj hop, (hl2 hz).1]
      exact hrl
  induction h with
  | ctor =>
    rw [ctor_eq]
    exact Or.inl (le_refl _)
  | Add s s1 x hr hop ih =>
    have hlmax := hr.valid.2.2.2.2.2.2.2.2.2
    unfold INT_MAX at hlmax
    exact hset s s1 _ x hr.valid hlmax hop ih
  | SetElementIdx s s1 index x hr _ hmax hop ih =>
    unfold INT_MAX at hmax
    exact hset s s1 index x hr.valid hmax hop ih
  | InsertElement s s1 index x hr _ hmax hop ih =>
    unfold INT_MAX at hmax
    have hlmax := hr.valid.2.2.2.2.2.2.2.2.2
    unfold INT_MAX at hlmax
    by_cases h0 : 0 ≤ index
    · by_cases h1 : index < s.m_length
      · obtain ⟨s2, h2, _, hl2, _⟩ := InsertElement_bins s index x hr.valid h0 h1
        rw [h2] at hop
        rw [← Outcome.ok.inj hop, hl2]
        unfold wrapInt
        omega
      · unfold ArrayClass2.InsertElement at hop
        rw [if_pos h0, if_neg h1] at hop
        exact hset s s1 index x hr.valid hmax hop ih
    · unfold ArrayClass2.InsertElement at hop
      rw [if_neg h0] at hop
      rw [← Outcome.ok.inj hop]
      exact ih
  | DeleteElement s s1 index hr _ _ hop ih =>
    by_cases h0 : 0 ≤ index ∧ index < s.m_length
    · obtain ⟨s2, h2, _, hl2, _⟩ := DeleteElement_bins s index hr.valid h0.1 h0.2
      rw [h2] at hop
      rw [← Outcome.ok.inj hop, hl2]
      left
      omega
    · rw [DeleteElement_bins_outside s index (by omega)] at hop
      rw [← Outcome.ok.inj hop]
      exact ih
  | Reset s _ _ => exact Or.inl (le_refl _)
  | copyCtor rhs s1 hr hop ih =>
    unfold ArrayClass2.copyCtor at hop
    refine hassign ArrayClass2.ctor rhs s1 ctor_wellFormed hr.valid hop ?_ ih
    rw [ctor_eq]
    exact Or.inl (le_refl _)
  | assign s rhs s1 hr1 hr2 hop ih1 ih2 =>
    exact hassign s rhs s1 hr1.valid hr2.valid hop ih1 ih2

end ArrayClass2
namespace ArrayClass2

theorem sampleNegative_reachable : Reachable sampleNegative := by
  obtain ⟨s, hs, hwf, hlen, _⟩ := SetElementIdx_bins
    (ArrayClass2.ctor : ArrayClass2 Int) 2147483646 0 ctor_wellFormed (by decide) (by decide)
  have hl0 : (ArrayClass2.ctor : ArrayClass2 Int).m_length = 0 := by
    rw [ctor_eq]
  rw [hl0] at hlen
  have hlen2 : s.m_length = 2147483647 := by
    rw [hlen]
    decide
  have hrs : Reachable s :=
    Reachable.SetElementIdx _ s 2147483646 0 Reachable.ctor (by decide) (by decide) hs
  have hcap := hwf.2.2.2.2.2.2.1
  rcases SetElementIdx_bins_top s 0 hwf with ⟨hlt, _⟩ | ⟨_, w, hw, hwfw, hlw⟩
  · omega
  · have hrw : Reachable w := by
      refine Reachable.Add s w 0 hrs ?_
      unfold ArrayClass2.Add
      rw [hlen2]
      exact hw
    refine Reachable.copyCtor w _ hrw ?_
    have ha : ArrayClass2.Assure granted (ArrayClass2.ctor : ArrayClass2 Int)
        (-2147483648) = .ok ArrayClass2.ctor := by decide
    have hnone : (ArrayClass2.ctor : ArrayClass2 Int).m_array.isSome = false := by decide
    have ht : (-2147483648 : Int).toNat = 0 := by decide
    have hv : (ArrayClass2.ctor : ArrayClass2 Int).m_valid = true := by decide
    unfold ArrayClass2.copyCtor ArrayClass2.assign
    rw [hlw]
    simp only [hnone, Bool.false_eq_true, if_false]
    rw [if_pos (by decide), ha]
    simp only [Outcome.andThen, hv, if_true, ht, ArrayClass2.copyElements]
    decide

end ArrayClass2

namespace ArrayClass2

variable {T : Type}

theorem isMemberLoop_spec [DecidableEq T] (s : ArrayClass2 T) (x : T) (hwf : WellFormed s) :
    ∀ (n : Nat) (i : Int), 0 ≤ i → i + n ≤ s.m_length →
      ∃ b, ArrayClass2_RO.isMemberLoop s x n i = some b ∧
        (b = true ↔ ∃ j : Int, i ≤ j ∧ j < i + n ∧ cellRead (bins s) j = some x) := by
  obtain ⟨hmpb, hmask, hshift, hvalid, hlen, hok, hcap, hbmax, hlmin, hlmax⟩ := hwf
  unfold INT_MAX at hlmax
  intro n
  induction n with
  | zero =>
    intro i _ _
    refine ⟨false, rfl, ?_⟩
    constructor
    · intro h
      cases h
    · rintro ⟨j, h1, h2, _⟩
      simp only [Nat.cast_zero, add_zero] at h2
      omega
  | succ n ih =>
    intro i h0 h1
    have h1b : i + ((n : Int) + 1) ≤ s.m_length := by
      push_cast at h1
      exact h1
    obtain ⟨y, hy⟩ := cellRead_some (bins s) i hok h0 (by omega)
    have hrd : s.read i = some y := by
      rw [read_bins s i hshift hmask h0 (by omega), hy]
    have hw : wrapInt (i + 1) = i + 1 := by
      apply wrapInt_eq <;> omega
    unfold ArrayClass2_RO.isMemberLoop
    rw [hrd]
    simp only
    by_cases hyx : y = x
    · rw [if_pos hyx]
      refine ⟨true, rfl, ?_⟩
      constructor
      · intro _
        exact ⟨i, le_refl _, by push_cast; omega, by rw [hy, hyx]⟩
      · intro _
        rfl
    · rw [if_neg hyx, hw]
      obtain ⟨b, hb, hiff⟩ := ih (i + 1) (by omega) (by omega)
      refine ⟨b, hb, ?_⟩
      rw [hiff]
      constructor
      · rintro ⟨j, hj1, hj2, hj3⟩
        exact ⟨j, by omega, by push_cast; omega, hj3⟩
      · rintro ⟨j, hj1, hj2, hj3⟩
        have hne : j ≠ i := by
          intro hji
          rw [hji, hy] at hj3
          exact hyx (Option.some.inj hj3)
        exact ⟨j, by omega, by push_cast at hj2; omega, hj3⟩

theorem isMemberLoop_congr [DecidableEq T] (s s1 : ArrayClass2_RO T) (x : T) :
    ∀ (n : Nat) (i : Int), 0 ≤ i → i + n ≤ 2147483647 →
      (∀ j : Int, i ≤ j → j < i + n → s1.read j = s.read j) →
      ArrayClass2_RO.isMemberLoop s1 x n i = ArrayClass2_RO.isMemberLoop s x n i := by
  intro n
  induction n with
  | zero =>
    intro i _ _ _
    rfl
  | succ n ih =>
    intro i h0 h1 hrd
    have h1b : i + ((n : Int) + 1) ≤ 2147483647 := by
      push_cast at h1
      exact h1
    have hw : wrapInt (i + 1) = i + 1 := by
      apply wrapInt_eq <;> omega
    unfold ArrayClass2_RO.isMemberLoop
    rw [hrd i (le_refl _) (by push_cast; omega), hw,
      ih (i + 1) (by omega) (by omega) (fun j hj1 hj2 => hrd j (by omega) (by push_cast; omega))]

theorem read_of_Get (s s1 : ArrayClass2_RO T) (j : Int)
    (h : ArrayClass2_RO.Get s1 j = ArrayClass2_RO.Get s j) : s1.read j = s.read j := by
  unfold ArrayClass2_RO.Get at h
  cases h1 : s1.read j with
  | none =>
    cases h2 : s.read j with
    | none => rfl
    | some y =>
      rw [h1, h2] at h
      cases h
  | some y1 =>
    cases h2 : s.read j with
    | none =>
      rw [h1, h2] at h
      cases h
    | some y =>
      rw [h1, h2] at h
      rw [Access.value.inj h]

end ArrayClass2

/-! ### The hash table -/

namespace HashTable

variable {T : Type}

theorem load_append_mid {A : Type} (pre rest : List A) (c : A) :
    load (pre ++ c :: rest) (pre.length : Int) = some c := by
  rw [load_eq_getElem? _ _ (by omega)]
  have h : ((pre.length : Int)).toNat = pre.length := by omega
  rw [h, List.getElem?_append_right (le_refl _), Nat.sub_self, List.getElem?_cons_zero]

theorem load_lt_length {A : Type} (l : List A) (i : Int) (x : A) (h : load l i = some x) :
    0 ≤ i ∧ i < l.length := by
  unfold load at h
  split at h
  · cases h
  · rename_i hi
    have hlt : i.toNat < l.length := by
      rcases Nat.lt_or_ge i.toNat l.length with hlt | hge
      · exact hlt
      · rw [List.getElem?_eq_none hge] at h
        cases h
    omega

theorem bucketOf_eq (t : HashTable T) (key : Int) (h0 : 0 < t.TableSize)
    (h1 : t.TableSize ≤ 2147483647) :
    bucketOf t key = some (HashValue key % t.TableSize) ∧ 0 ≤ HashValue key % t.TableSize ∧
      HashValue key % t.TableSize < t.TableSize := by
  have hm : t.TableSize % 4294967296 = t.TableSize := by omega
  refine ⟨?_, Int.emod_nonneg _ (by omega), Int.emod_lt_of_pos _ h0⟩
  unfold bucketOf
  rw [hm, if_neg (by omega)]

theorem findInChain_spec (key : Int) :
    ∀ (chain : List (HashEntry T)) (k0 : Nat),
      (findInChain key chain k0 = none ∧ ∀ e ∈ chain, e.Key ≠ key) ∨
      (∃ (k : Nat) (entry : HashEntry T), findInChain key chain k0 = some (k0 + k) ∧
        chain[k]? = some entry ∧ entry.Key = key ∧
        ∀ (j : Nat) (e : HashEntry T), j < k → chain[j]? = some e → e.Key ≠ key) := by
  intro chain
  induction chain with
  | nil =>
    intro k0
    exact Or.inl ⟨rfl, fun e he => by cases he⟩
  | cons entry rest ih =>
    intro k0
    by_cases hk : entry.Key = key
    · right
      refine ⟨0, entry, ?_, List.getElem?_cons_zero, hk,
        fun j e hj _ => absurd hj (Nat.not_lt_zero j)⟩
      unfold findInChain
      rw [if_pos hk]
      rfl
    · rcases ih (k0 + 1) with ⟨hn, hall⟩ | ⟨k, e, hf, hget, hkey, hbefore⟩
      · left
        refine ⟨?_, fun e he => ?_⟩
        · unfold findInChain
          rw [if_neg hk]
          exact hn
        · rcases List.mem_cons.mp he with h | h
          · rw [h]
            exact hk
          · exact hall e h
      · right
        refine ⟨k + 1, e, ?_, by rw [List.getElem?_cons_succ]; exact hget, hkey,
          fun j e2 hj hg => ?_⟩
        · unfold findInChain
          rw [if_neg hk, hf]
          congr 1
          omega
        · cases j with
          | zero =>
            rw [List.getElem?_cons_zero] at hg
            rw [← Option.some.inj hg]
            exact hk
          | succ j =>
            rw [List.getElem?_cons_succ] at hg
            exact hbefore j e2 (by omega) hg

/-- The scan of the buckets `i`, ..., `i + n - 1`, the last of the table: absent when
all are empty, else the head of the first chain that is not. -/
theorem scan_spec (t : HashTable T) (tbl : List (List (HashEntry T)))
    (ht : t.Table = some tbl) (hmax : (tbl.length : Int) ≤ 2147483647) :
    ∀ (n : Nat) (i : Int), 0 ≤ i → i + n = tbl.length →
      ((∀ j : Int, i ≤ j → j < tbl.length → load tbl j = some []) ∧
        scan t n i = .value none) ∨
      (∃ (b : Int) (e : HashEntry T) (c : List (HashEntry T)), i ≤ b ∧ b < tbl.length ∧
        (∀ j : Int, i ≤ j → j < b → load tbl j = some []) ∧ load tbl b = some (e :: c) ∧
        scan t n i = .value (some (b, 0))) := by
  intro n
  induction n with
  | zero =>
    intro i _ hn
    left
    refine ⟨fun j h1 h2 => ?_, rfl⟩
    simp only [Nat.cast_zero, add_zero] at hn
    omega
  | succ n ih =>
    intro i h0 hn
    have hn2 : i + ((n : Int) + 1) = tbl.length := by
      push_cast at hn
      exact hn
    obtain ⟨chain, hc⟩ := load_isSome tbl i h0 (by omega)
    have hw : wrapInt (i + 1) = i + 1 := by
      apply wrapInt_eq <;> omega
    unfold scan
    rw [ht]
    simp only
    rw [hc]
    cases chain with
    | nil =>
      simp only
      rw [hw]
      rcases ih (i + 1) (by omega) (by omega) with ⟨hall, hs⟩ | ⟨b, e, c, hb0, hb1, hall, hl, hs⟩
      · left
        refine ⟨fun j h1 h2 => ?_, hs⟩
        by_cases hji : j = i
        · rw [hji]
          exact hc
        · exact hall j (by omega) h2
      · right
        refine ⟨b, e, c, by omega, hb1, fun j h1 h2 => ?_, hl, hs⟩
        by_cases hji : j = i
        · rw [hji]
          exact hc
        · exact hall j (by omega) h2
    | cons e c =>
      right
      exact ⟨i, e, c, le_refl _, by omega, fun j h1 h2 => by omega, hc, rfl⟩

theorem scan_eq (t : HashTable T) (tbl : List (List (HashEntry T)))
    (ht : t.Table = some tbl) (hmax : (tbl.length : Int) ≤ 2147483647) :
    ∀ (rest pre : List (List (HashEntry T))), tbl = pre ++ rest →
      scan t rest.length pre.length = .value (tablePtrs rest pre.length).head? := by
  intro rest
  induction rest with
  | nil =>
    intro pre _
    rfl
  | cons c rest ih =>
    intro pre hpre
    have hlen : tbl.length = pre.length + (rest.length + 1) := by
      rw [hpre, List.length_append, List.length_cons]
    have hc : load tbl (pre.length : Int) = some c := by
      rw [hpre]
      exact load_append_mid pre rest c
    have hw : wrapInt ((pre.length : Int) + 1) = pre.length + 1 := by
      apply wrapInt_eq <;> omega
    show scan t (rest.length + 1) pre.length = _
    unfold scan
    rw [ht]
    simp only
    rw [hc]
    cases c with
    | nil =>
      simp only
      rw [hw]
      have := ih (pre ++ [[]]) (by rw [hpre, List.append_assoc]; rfl)
      rw [List.length_append, List.length_singleton] at this
      push_cast at this
      rw [this]
      rfl
    | cons e c => rfl

end HashTable

namespace HashTable

variable {T : Type}

theorem entryAt_of_load (t : HashTable T) (tbl : List (List (HashEntry T)))
    (chain : List (HashEntry T)) (b : Int) (k : Nat) (ht : t.Table = some tbl)
    (hc : load tbl b = some chain) : entryAt t (b, k) = chain[k]? := by
  unfold entryAt
  rw [ht]
  simp only
  rw [hc]

theorem entryAt_inv (t : HashTable T) (tbl : List (List (HashEntry T))) (b : Int) (k : Nat)
    (entry : HashEntry T) (ht : t.Table = some tbl) (he : entryAt t (b, k) = some entry) :
    ∃ chain, load tbl b = some chain ∧ chain[k]? = some entry := by
  unfold entryAt at he
  rw [ht] at he
  simp only at he
  cases hc : load tbl b with
  | none =>
    rw [hc] at he
    cases he
  | some chain =>
    rw [hc] at he
    exact ⟨chain, rfl, he⟩

theorem entryAt_mid (t : HashTable T) (tbl : List (List (HashEntry T)))
    (ht : t.Table = some tbl) (pre rest : List (List (HashEntry T)))
    (cpre csuf : List (HashEntry T)) (e : HashEntry T)
    (hpre : tbl = pre ++ (cpre ++ e :: csuf) :: rest) :
    entryAt t ((pre.length : Int), cpre.length) = some e ∧
      entryAt t ((pre.length : Int), cpre.length + 1) = csuf[0]? := by
  have hc : load tbl (pre.length : Int) = some (cpre ++ e :: csuf) := by
    rw [hpre]
    exact load_append_mid pre rest _
  rw [entryAt_of_load t tbl _ _ _ ht hc, entryAt_of_load t tbl _ _ _ ht hc]
  constructor
  · rw [List.getElem?_append_right (le_refl _), Nat.sub_self, List.getElem?_cons_zero]
  · rw [List.getElem?_append_right (by omega)]
    have h : cpre.length + 1 - cpre.length = 0 + 1 := by omega
    rw [h, List.getElem?_cons_succ]

theorem WalkNext_eq (t : HashTable T) (b : Int) (k : Nat) (entry : HashEntry T)
    (he : entryAt t (b, k) = some entry) (hb : bucketOf t entry.Key = some b)
    (hw : wrapInt b = b) (hw1 : wrapInt (b + 1) = b + 1) :
    WalkNext t (b, k) =
      match entryAt t (b, k + 1) with
      | some _ => .value (some (b, k + 1))
      | none => scan t (t.TableSize - (b + 1)).toNat (b + 1) := by
  unfold WalkNext
  simp only [he, hb, hw, hw1]

theorem chainPtrs_map (t : HashTable T) (tbl : List (List (HashEntry T)))
    (ht : t.Table = some tbl) (b : Int) (chain : List (HashEntry T))
    (hc : load tbl b = some chain) :
    ∀ (csuf cpre : List (HashEntry T)), chain = cpre ++ csuf →
      (chainPtrs b csuf cpre.length).map (entryAt t) = csuf.map some := by
  intro csuf
  induction csuf with
  | nil =>
    intro cpre _
    rfl
  | cons e cs ih =>
    intro cpre hch
    have h1 : entryAt t (b, cpre.length) = some e := by
      rw [entryAt_of_load t tbl chain b _ ht hc, hch,
        List.getElem?_append_right (le_refl _), Nat.sub_self, List.getElem?_cons_zero]
    have h2 := ih (cpre ++ [e]) (by rw [hch, List.append_assoc]; rfl)
    rw [List.length_append, List.length_singleton] at h2
    show entryAt t (b, cpre.length) :: (chainPtrs b cs (cpre.length + 1)).map (entryAt t) =
      some e :: cs.map some
    rw [h1, h2]

theorem tablePtrs_map (t : HashTable T) (tbl : List (List (HashEntry T)))
    (ht : t.Table = some tbl) :
    ∀ (rest pre : List (List (HashEntry T))), tbl = pre ++ rest →
      (tablePtrs rest pre.length).map (entryAt t) = rest.flatten.map some := by
  intro rest
  induction rest with
  | nil =>
    intro pre _
    rfl
  | cons c rest ih =>
    intro pre hpre
    have hc : load tbl (pre.length : Int) = some c := by
      rw [hpre]
      exact load_append_mid pre rest c
    have h1 := chainPtrs_map t tbl ht _ c hc c [] rfl
    have h2 := ih (pre ++ [c]) (by rw [hpre, List.append_assoc]; rfl)
    rw [List.length_append, List.length_singleton] at h2
    push_cast at h2
    show (chainPtrs (pre.length : Int) c 0 ++ tablePtrs rest ((pre.length : Int) + 1)).map
      (entryAt t) = (c :: rest).flatten.map some
    rw [List.map_append, h2, List.flatten_cons, List.map_append]
    congr 1

theorem walkFrom_absent (t : HashTable T) (n : Nat) : walkFrom t n (.value none) = some [] := by
  cases n <;> rfl

/-- The walk from the head of a list of buckets on, through the rest of the table. -/
theorem walkFrom_table (t : HashTable T) (tbl : List (List (HashEntry T)))
    (ht : t.Table = some tbl) (hsize : (tbl.length : Int) = t.TableSize)
    (hmax : t.TableSize ≤ 2147483647) (hp : Placed t) :
    ∀ (rest pre : List (List (HashEntry T))), tbl = pre ++ rest →
      ∀ n : Nat, (tablePtrs rest pre.length).length ≤ n →
        walkFrom t n (.value (tablePtrs rest pre.length).head?) =
          some (tablePtrs rest pre.length) := by
  intro rest
  induction rest with
  | nil =>
    intro pre _ n _
    exact walkFrom_absent t n
  | cons c rest ih =>
    intro pre hpre
    have hlen : tbl.length = pre.length + (rest.length + 1) := by
      rw [hpre, List.length_append, List.length_cons]
    have hrest := ih (pre ++ [c]) (by rw [hpre, List.append_assoc]; rfl)
    rw [List.length_append, List.length_singleton] at hrest
    push_cast at hrest
    have hscan := scan_eq t tbl ht (by omega) rest (pre ++ [c])
      (by rw [hpre, List.append_assoc]; rfl)
    rw [List.length_append, List.length_singleton] at hscan
    push_cast at hscan
    have hw : wrapInt (pre.length : Int) = pre.length := by
      apply wrapInt_eq <;> omega
    have hw1 : wrapInt ((pre.length : Int) + 1) = pre.length + 1 := by
      apply wrapInt_eq <;> omega
    have hn : (t.TableSize - ((pre.length : Int) + 1)).toNat = rest.length := by omega
    have hchain : ∀ (csuf cpre : List (HashEntry T)), c = cpre ++ csuf →
        ∀ n : Nat,
          (chainPtrs (pre.length : Int) csuf cpre.length ++
            tablePtrs rest ((pre.length : Int) + 1)).length ≤ n →
          walkFrom t n (.value (chainPtrs (pre.length : Int) csuf cpre.length ++
            tablePtrs rest ((pre.length : Int) + 1)).head?) =
          some (chainPtrs (pre.length : Int) csuf cpre.length ++
            tablePtrs rest ((pre.length : Int) + 1)) := by
      intro csuf
      induction csuf with
      | nil =>
        intro cpre _ n hn2
        exact hrest n hn2
      | cons e cs ihc =>
        intro cpre hch n hn2
        obtain ⟨he, hnext⟩ := entryAt_mid t tbl ht pre rest cpre cs e (by rw [hpre, hch])
        have hb := hp _ e he
        have hwn := WalkNext_eq t _ _ e he hb hw hw1
        have hstep := ihc (cpre ++ [e]) (by rw [hch, List.append_assoc]; rfl)
        have hl1 : (cpre ++ [e]).length = cpre.length + 1 := by
          rw [List.length_append, List.length_singleton]
        rw [hl1] at hstep
        have hnext2 : WalkNext t ((pre.length : Int), cpre.length) =
            .value (chainPtrs (pre.length : Int) cs (cpre.length + 1) ++
              tablePtrs rest ((pre.length : Int) + 1)).head? := by
          rw [hwn, hnext]
          cases cs with
          | nil =>
            rw [List.getElem?_nil]
            simp only
            rw [hn]
            exact hscan
          | cons e2 cs2 =>
            rw [List.getElem?_cons_zero]
            rfl
        cases n with
        | zero =>
          simp only [chainPtrs, List.cons_append, List.length_cons] at hn2
          omega
        | succ m =>
          show (match walkFrom t m (WalkNext t ((pre.length : Int), cpre.length)) with
            | none => none
            | some r => some (((pre.length : Int), cpre.length) :: r)) = _
          rw [hnext2, hstep m (by
            simp only [chainPtrs, List.cons_append, List.length_cons] at hn2
            omega)]
          rfl
    intro n hn2
    exact hchain c [] rfl n hn2

end HashTable

namespace HashTable

theorem sampleTable_wellFormed : WellFormed sampleTable := by
  refine ⟨by decide, by decide, fun tbl h => ?_⟩
  rw [← Option.some.inj h]
  rfl

theorem sampleNoStorage_wellFormed : WellFormed sampleNoStorage := by
  refine ⟨by decide, by decide, fun tbl h => ?_⟩
  cases h

theorem sampleNoStorage_placed : Placed sampleNoStorage := by
  intro p entry h
  cases h

theorem sampleTable_placed : Placed sampleTable := by
  intro p entry h
  obtain ⟨b, k⟩ := p
  obtain ⟨chain, hc, hk⟩ := entryAt_inv sampleTable _ b k entry rfl h
  have hb := load_lt_length _ b chain hc
  have hb3 : b < 3 := hb.2
  have hcases : b = 0 ∨ b = 1 ∨ b = 2 := by omega
  rcases hcases with rfl | rfl | rfl
  · have hc2 : chain = [{ Obj := 'a', Key := 0 }, { Obj := 'b', Key := 3 }] :=
      (Option.some.inj hc).symm
    rw [hc2] at hk
    cases k with
    | zero =>
      rw [List.getElem?_cons_zero] at hk
      rw [← Option.some.inj hk]
      decide
    | succ k =>
      rw [List.getElem?_cons_succ] at hk
      cases k with
      | zero =>
        rw [List.getElem?_cons_zero] at hk
        rw [← Option.some.inj hk]
        decide
      | succ k =>
        rw [List.getElem?_cons_succ, List.getElem?_nil] at hk
        cases hk
  · have hc2 : chain = [] := (Option.some.inj hc).symm
    rw [hc2, List.getElem?_nil] at hk
    cases hk
  · have hc2 : chain = [{ Obj := 'c', Key := 2 }] := (Option.some.inj hc).symm
    rw [hc2] at hk
    cases k with
    | zero =>
      rw [List.getElem?_cons_zero] at hk
      rw [← Option.some.inj hk]
      decide
    | succ k =>
      rw [List.getElem?_cons_succ, List.getElem?_nil] at hk
      cases hk

end HashTable

namespace ArrayClass2

variable {T : Type}

theorem SameGeometry.refl_geometry (s : ArrayClass2 T) : SameGeometry s s := ⟨rfl, rfl, rfl⟩

theorem SameGeometry.trans_geometry {s s1 s2 : ArrayClass2 T} (h1 : SameGeometry s s1)
    (h2 : SameGeometry s1 s2) : SameGeometry s s2 :=
  ⟨h2.1.trans h1.1, h2.2.1.trans h1.2.1, h2.2.2.trans h1.2.2⟩

theorem write_geometry (s s1 : ArrayClass2 T) (i : Int) (x : T) (h : s.write i x = some s1) :
    SameGeometry s s1 ∧ s1.m_binCount = s.m_binCount := by
  unfold ArrayClass2_RO.write at h
  generalize s.GET_SLOT_INDEX i = slot at h
  generalize s.GET_BIN_INDEX i = b at h
  cases hd : s.m_array with
  | none =>
    rw [hd] at h
    cases h
  | some dir =>
    rw [hd] at h
    cases b with
    | none => cases h
    | some bin =>
      simp only at h
      cases hw : writeCell dir bin slot x with
      | none =>
        rw [hw] at h
        cases h
      | some d1 =>
        rw [hw] at h
        cases h
        exact ⟨⟨rfl, rfl, rfl⟩, rfl⟩

theorem shiftUp_geometry :
    ∀ (n : Nat) (idx : Int) (s s1 : ArrayClass2 T), shiftUp n idx s = some s1 →
      SameGeometry s s1 ∧ s1.m_binCount = s.m_binCount := by
  intro n
  induction n with
  | zero =>
    intro idx s s1 h
    cases h
    exact ⟨⟨rfl, rfl, rfl⟩, rfl⟩
  | succ n ih =>
    intro idx s s1 h
    unfold shiftUp at h
    cases hr : s.read (wrapInt (idx - 1)) with
    | none =>
      rw [hr] at h
      cases h
    | some x =>
      rw [hr] at h
      simp only at h
      cases hw : s.write idx x with
      | none =>
        rw [hw] at h
        cases h
      | some s2 =>
        rw [hw] at h
        obtain ⟨e1, e2⟩ := ih _ s2 s1 h
        obtain ⟨e3, e4⟩ := write_geometry s s2 idx x hw
        exact ⟨e3.trans_geometry e1, e2.trans e4⟩

theorem shiftDown_geometry :
    ∀ (n : Nat) (index : Int) (s s1 : ArrayClass2 T), shiftDown n index s = some s1 →
      SameGeometry s s1 ∧ s1.m_binCount = s.m_binCount := by
  intro n
  induction n with
  | zero =>
    intro index s s1 h
    cases h
    exact ⟨⟨rfl, rfl, rfl⟩, rfl⟩
  | succ n ih =>
    intro index s s1 h
    unfold shiftDown at h
    cases hr : s.read (wrapInt (index + 1)) with
    | none =>
      rw [hr] at h
      cases h
    | some x =>
      rw [hr] at h
      simp only at h
      cases hw : s.write index x with
      | none =>
        rw [hw] at h
        cases h
      | some s2 =>
        rw [hw] at h
        obtain ⟨e1, e2⟩ := ih _ s2 s1 h
        obtain ⟨e3, e4⟩ := write_geometry s s2 index x hw
        exact ⟨e3.trans_geometry e1, e2.trans e4⟩

theorem copyElements_geometry (rhs : ArrayClass2 T) :
    ∀ (n : Nat) (i : Int) (s s1 : ArrayClass2 T), copyElements rhs n i s = some s1 →
      SameGeometry s s1 ∧ s1.m_binCount = s.m_binCount := by
  intro n
  induction n with
  | zero =>
    intro i s s1 h
    cases h
    exact ⟨⟨rfl, rfl, rfl⟩, rfl⟩
  | succ n ih =>
    intro i s s1 h
    unfold copyElements at h
    cases hr : rhs.read i with
    | none =>
      rw [hr] at h
      cases h
    | some x =>
      rw [hr] at h
      simp only at h
      cases hw : s.write i x with
      | none =>
        rw [hw] at h
        cases h
      | some s2 =>
        rw [hw] at h
        obtain ⟨e1, e2⟩ := ih _ s2 s1 h
        obtain ⟨e3, e4⟩ := write_geometry s s2 i x hw
        exact ⟨e3.trans_geometry e1, e2.trans e4⟩

/-- Whatever the array and whatever the allocator answers, `Assure` leaves the bin
geometry alone; when it returns the bin count has not gone down, when it throws the
bin count is 0. -/
theorem Assure_geometry [Inhabited T] (grants : Nat → Bool) (s s1 : ArrayClass2 T)
    (req : Int) :
    (Assure grants s req = .ok s1 → SameGeometry s s1 ∧ s.m_binCount ≤ s1.m_binCount) ∧
      (∀ e, Assure grants s req = .throw e s1 → SameGeometry s s1 ∧ s1.m_binCount = 0) := by
  unfold Assure
  generalize shiftRightInt (wrapInt (req - 1)) ((s.m_binShift + 128) % 256 - 128) = sh
  generalize newBins T (fun k => grants (k + 1)) s.m_maxPerBin = nb
  by_cases hv : s.m_valid = true ∧ req > 0
  · rw [if_pos hv]
    cases sh with
    | none =>
      exact ⟨fun h => (by cases h), fun e h => (by cases h)⟩
    | some q =>
      simp only
      by_cases hg : wrapInt (q + 1) > s.m_binCount
      · rw [if_pos hg]
        by_cases hgr : grants 0 = true ∧ 0 ≤ wrapInt (q + 1)
        · rw [if_pos hgr]
          cases oldBins s with
          | none => exact ⟨fun h => (by cases h), fun e h => (by cases h)⟩
          | some old =>
            simp only
            by_cases hneg : s.m_binCount < 0
            · rw [if_pos hneg]
              exact ⟨fun h => (by cases h), fun e h => (by cases h)⟩
            · rw [if_neg hneg]
              cases nb (wrapInt (q + 1) - s.m_binCount).toNat 0 with
              | some fresh =>
                simp only
                refine ⟨fun h => ?_, fun e h => (by cases h)⟩
                cases h
                exact ⟨⟨rfl, rfl, rfl⟩, le_of_lt hg⟩
              | none =>
                simp only
                refine ⟨fun h => (by cases h), fun e h => ?_⟩
                cases h
                exact ⟨⟨rfl, rfl, rfl⟩, rfl⟩
        · rw [if_neg hgr]
          refine ⟨fun h => (by cases h), fun e h => ?_⟩
          cases h
          exact ⟨⟨rfl, rfl, rfl⟩, rfl⟩
      · rw [if_neg hg]
        refine ⟨fun h => ?_, fun e h => (by cases h)⟩
        cases h
        exact ⟨⟨rfl, rfl, rfl⟩, le_refl _⟩
  · rw [if_neg hv]
    refine ⟨fun h => ?_, fun e h => (by cases h)⟩
    cases h
    exact ⟨⟨rfl, rfl, rfl⟩, le_refl _⟩

theorem writeIfValid_geometry (s s1 : ArrayClass2 T) (index : Int) (v : T) :
    (writeIfValid s index v = .ok s1 → SameGeometry s s1 ∧ s1.m_binCount = s.m_binCount) ∧
      (∀ e, writeIfValid s index v ≠ .throw e s1) := by
  unfold writeIfValid
  by_cases hv : s.m_valid = true
  · rw [if_pos hv]
    cases hw : s.write index v with
    | none => exact ⟨fun h => (by cases h), fun e h => (by cases h)⟩
    | some s2 =>
      refine ⟨fun h => ?_, fun e h => (by cases h)⟩
      cases h
      exact write_geometry s s1 index v hw
  · rw [if_neg hv]
    refine ⟨fun h => ?_, fun e h => (by cases h)⟩
    cases h
    exact ⟨⟨rfl, rfl, rfl⟩, rfl⟩

end ArrayClass2
namespace ArrayClass2

variable {T : Type}

theorem setLengthIfValid_geometry (s : ArrayClass2 T) (L : Int) :
    SameGeometry s (if s.m_valid = true then { s with m_length := L } else s) ∧
      (if s.m_valid = true then { s with m_length := L } else s).m_binCount = s.m_binCount := by
  split
  · exact ⟨⟨rfl, rfl, rfl⟩, rfl⟩
  · exact ⟨⟨rfl, rfl, rfl⟩, rfl⟩

/-- Whatever the array, the index and the allocator's answers, `SetElementIdx` leaves
the bin geometry alone; when it returns the bin count has not gone down. -/
theorem SetElementIdx_geometry [Inhabited T] (grants : Nat → Bool) (s s1 : ArrayClass2 T)
    (index : Int) (v : T) :
    (SetElementIdx grants s index v = .ok s1 →
        SameGeometry s s1 ∧ s.m_binCount ≤ s1.m_binCount) ∧
      (∀ e, SetElementIdx grants s index v = .throw e s1 →
        SameGeometry s s1 ∧ s1.m_binCount = 0) := by
  unfold SetElementIdx
  by_cases h0 : index ≥ 0
  · rw [if_pos h0]
    by_cases h1 : index ≥ s.m_length
    · rw [if_pos h1]
      constructor
      · intro h
        obtain ⟨s3, h3, hw⟩ := Outcome.andThen_ok h
        obtain ⟨s2, h2, hf⟩ := Outcome.andThen_ok h3
        cases hf
        obtain ⟨g1, b1⟩ := (Assure_geometry grants s s2 _).1 h2
        obtain ⟨g2, b2⟩ := setLengthIfValid_geometry s2 (wrapInt (index + 1))
        obtain ⟨g3, b3⟩ := (writeIfValid_geometry _ s1 index v).1 hw
        refine ⟨(g1.trans_geometry g2).trans_geometry g3, ?_⟩
        rw [b3, b2]
        exact b1
      · intro e h
        rcases Outcome.andThen_throw h with h3 | ⟨s3, _, hw⟩
        · rcases Outcome.andThen_throw h3 with h2 | ⟨s2, _, hf⟩
          · exact (Assure_geometry grants s s1 _).2 e h2
          · cases hf
        · exact absurd hw ((writeIfValid_geometry s3 s1 index v).2 e)
    · rw [if_neg h1]
      constructor
      · intro h
        obtain ⟨g3, b3⟩ := (writeIfValid_geometry s s1 index v).1 h
        exact ⟨g3, le_of_eq b3.symm⟩
      · intro e h
        exact absurd h ((writeIfValid_geometry s s1 index v).2 e)
  · rw [if_neg h0]
    refine ⟨fun h => ?_, fun e h => (by cases h)⟩
    cases h
    exact ⟨⟨rfl, rfl, rfl⟩, le_refl _⟩

/-- Whatever the array, the index and the allocator's answers, `InsertElement` leaves
the bin geometry alone; when it returns the bin count has not gone down. -/
theorem InsertElement_geometry [Inhabited T] (grants : Nat → Bool) (s s1 : ArrayClass2 T)
    (index : Int) (v : T) :
    (InsertElement grants s index v = .ok s1 →
        SameGeometry s s1 ∧ s.m_binCount ≤ s1.m_binCount) ∧
      (∀ e, InsertElement grants s index v = .throw e s1 →
        SameGeometry s s1 ∧ s1.m_binCount = 0) := by
  unfold InsertElement
  by_cases h0 : index ≥ 0
  · rw [if_pos h0]
    by_cases h1 : index < s.m_length
    · rw [if_pos h1]
      have hstep : ∀ s2 : ArrayClass2 T,
          (∀ t, (match shiftUp (s2.m_length - index).toNat s2.m_length s2 with
            | none => Outcome.undefined
            | some s3 =>
              match s3.write index v with
              | none => Outcome.undefined
              | some s4 => Outcome.ok { s4 with m_length := wrapInt (s4.m_length + 1) }) =
              .ok t → SameGeometry s2 t ∧ t.m_binCount = s2.m_binCount) ∧
          (∀ e t, (match shiftUp (s2.m_length - index).toNat s2.m_length s2 with
            | none => Outcome.undefined
            | some s3 =>
              match s3.write index v with
              | none => Outcome.undefined
              | some s4 => Outcome.ok { s4 with m_length := wrapInt (s4.m_length + 1) }) ≠
              .throw e t) := by
        intro s2
        cases hu : shiftUp (s2.m_length - index).toNat s2.m_length s2 with
        | none => exact ⟨fun t h => (by cases h), fun e t h => (by cases h)⟩
        | some s3 =>
          simp only
          cases hw : s3.write index v with
          | none => exact ⟨fun t h => (by cases h), fun e t h => (by cases h)⟩
          | some s4 =>
            simp only
            refine ⟨fun t h => ?_, fun e t h => (by cases h)⟩
            cases h
            obtain ⟨g1, b1⟩ := shiftUp_geometry _ _ s2 s3 hu
            obtain ⟨g2, b2⟩ := write_geometry s3 s4 index v hw
            exact ⟨g1.trans_geometry g2, b2.trans b1⟩
      constructor
      · intro h
        obtain ⟨s2, h2, hf⟩ := Outcome.andThen_ok h
        obtain ⟨g1, b1⟩ := (Assure_geometry grants s s2 _).1 h2
        obtain ⟨g2, b2⟩ := (hstep s2).1 s1 hf
        exact ⟨g1.trans_geometry g2, by rw [b2]; exact b1⟩
      · intro e h
        rcases Outcome.andThen_throw h with h2 | ⟨s2, _, hf⟩
        · exact (Assure_geometry grants s s1 _).2 e h2
        · exact absurd hf ((hstep s2).2 e s1)
    · rw [if_neg h1]
      exact SetElementIdx_geometry grants s s1 index v
  · rw [if_neg h0]
    refine ⟨fun h => ?_, fun e h => (by cases h)⟩
    cases h
    exact ⟨⟨rfl, rfl, rfl⟩, le_refl _⟩

/-- Whatever the array and the index, `DeleteElement` leaves the bin geometry and the
bin count alone, and it does not throw. -/
theorem DeleteElement_geometry (s s1 : ArrayClass2 T) (index : Int) :
    (DeleteElement s index = .ok s1 → SameGeometry s s1 ∧ s1.m_binCount = s.m_binCount) ∧
      (∀ e, DeleteElement s index ≠ .throw e s1) := by
  unfold DeleteElement
  split
  · cases hd : shiftDown (wrapInt (s.m_length - 1) - index).toNat index s with
    | none => exact ⟨fun h => (by cases h), fun e h => (by cases h)⟩
    | some s2 =>
      simp only
      refine ⟨fun h => ?_, fun e h => (by cases h)⟩
      cases h
      exact shiftDown_geometry _ _ s s2 hd
  · refine ⟨fun h => ?_, fun e h => (by cases h)⟩
    cases h
    exact ⟨⟨rfl, rfl, rfl⟩, rfl⟩

/-- Whatever the two arrays and the allocator's answers, copy-assignment leaves the
bin geometry of the target alone (it does not take the source's); when it returns
the bin count has not gone down. -/
theorem assign_geometry [Inhabited T] (grants : Nat → Bool) (s rhs s1 : ArrayClass2 T) :
    (assign grants s rhs = .ok s1 → SameGeometry s s1 ∧ s.m_binCount ≤ s1.m_binCount) ∧
      (∀ e, assign grants s rhs = .throw e s1 → SameGeometry s s1 ∧ s1.m_binCount = 0) := by
  have key : ∀ s0 : ArrayClass2 T,
      ((if rhs.m_length ≠ 0 then
        (Assure grants s0 rhs.m_length).andThen fun s1 =>
          if s1.m_valid = true then
            match copyElements rhs rhs.m_length.toNat 0 s1 with
            | none => .undefined
            | some s2 => .ok { s2 with m_length := rhs.m_length }
          else .ok { s1 with m_length := rhs.m_length }
      else .ok s0) = .ok s1 → SameGeometry s0 s1 ∧ s0.m_binCount ≤ s1.m_binCount) ∧
      (∀ e, (if rhs.m_length ≠ 0 then
        (Assure grants s0 rhs.m_length).andThen fun s1 =>
          if s1.m_valid = true then
            match copyElements rhs rhs.m_length.toNat 0 s1 with
            | none => .undefined
            | some s2 => .ok { s2 with m_length := rhs.m_length }
          else .ok { s1 with m_length := rhs.m_length }
      else .ok s0) = .throw e s1 → SameGeometry s0 s1 ∧ s1.m_binCount = 0) := by
    intro s0
    by_cases hz : rhs.m_length ≠ 0
    · rw [if_pos hz]
      have hstep : ∀ s2 : ArrayClass2 T,
          (∀ t, (if s2.m_valid = true then
              match copyElements rhs rhs.m_length.toNat 0 s2 with
              | none => Outcome.undefined
              | some s3 => Outcome.ok { s3 with m_length := rhs.m_length }
            else Outcome.ok { s2 with m_length := rhs.m_length }) = .ok t →
              SameGeometry s2 t ∧ t.m_binCount = s2.m_binCount) ∧
          (∀ e t, (if s2.m_valid = true then
              match copyElements rhs rhs.m_length.toNat 0 s2 with
              | none => Outcome.undefined
              | some s3 => Outcome.ok { s3 with m_length := rhs.m_length }
            else Outcome.ok { s2 with m_length := rhs.m_length }) ≠ .throw e t) := by
        intro s2
        by_cases hv : s2.m_valid = true
        · rw [if_pos hv]
          cases hc : copyElements rhs rhs.m_length.toNat 0 s2 with
          | none => exact ⟨fun t h => (by cases h), fun e t h => (by cases h)⟩
          | some s3 =>
            simp only
            refine ⟨fun t h => ?_, fun e t h => (by cases h)⟩
            cases h
            exact copyElements_geometry rhs _ _ s2 s3 hc
        · rw [if_neg hv]
          refine ⟨fun t h => ?_, fun e t h => (by cases h)⟩
          cases h
          exact ⟨⟨rfl, rfl, rfl⟩, rfl⟩
      constructor
      · intro h
        obtain ⟨s2, h2, hf⟩ := Outcome.andThen_ok h
        obtain ⟨g1, b1⟩ := (Assure_geometry grants s0 s2 _).1 h2
        obtain ⟨g2, b2⟩ := (hstep s2).1 s1 hf
        exact ⟨g1.trans_geometry g2, by rw [b2]; exact b1⟩
      · intro e h
        rcases Outcome.andThen_throw h with h2 | ⟨s2, _, hf⟩
        · exact (Assure_geometry grants s0 s1 _).2 e h2
        · exact absurd hf ((hstep s2).2 e s1)
    · rw [if_neg hz]
      refine ⟨fun h => ?_, fun e h => (by cases h)⟩
      cases h
      exact ⟨⟨rfl, rfl, rfl⟩, le_refl _⟩
  unfold assign
  simp only
  by_cases ha : s.m_array.isSome = true
  · rw [if_pos ha]
    exact key { s with m_length := 0 }
  · rw [if_neg ha]
    exact key s

end ArrayClass2

namespace Call

variable {T : Type}

/-- Every call on a binned array, whatever the array and the allocator's answers,
leaves the bin geometry alone; when it returns, the bin count has not gone down,
`Reset` apart. -/
theorem onArrayClass2_geometry [Inhabited T] (grants : Nat → Bool) (c : Call T)
    (s s1 : ArrayClass2 T) :
    (onArrayClass2 grants c s = .ok s1 →
        ArrayClass2.SameGeometry s s1 ∧ (c ≠ .Reset → s.m_binCount ≤ s1.m_binCount)) ∧
      (∀ e, onArrayClass2 grants c s = .throw e s1 → ArrayClass2.SameGeometry s s1) := by
  cases c with
  | Add value =>
    obtain ⟨h1, h2⟩ := ArrayClass2.SetElementIdx_geometry grants s s1 s.m_length value
    exact ⟨fun h => ⟨(h1 h).1, fun _ => (h1 h).2⟩, fun e h => (h2 e h).1⟩
  | SetElementIdx index value =>
    obtain ⟨h1, h2⟩ := ArrayClass2.SetElementIdx_geometry grants s s1 index value
    exact ⟨fun h => ⟨(h1 h).1, fun _ => (h1 h).2⟩, fun e h => (h2 e h).1⟩
  | InsertElement index value =>
    obtain ⟨h1, h2⟩ := ArrayClass2.InsertElement_geometry grants s s1 index value
    exact ⟨fun h => ⟨(h1 h).1, fun _ => (h1 h).2⟩, fun e h => (h2 e h).1⟩
  | DeleteElement index =>
    obtain ⟨h1, h2⟩ := ArrayClass2.DeleteElement_geometry s s1 index
    exact ⟨fun h => ⟨(h1 h).1, fun _ => le_of_eq (h1 h).2.symm⟩, fun e h => absurd h (h2 e)⟩
  | Reset =>
    refine ⟨fun h => ?_, fun e h => (by cases h)⟩
    cases h
    exact ⟨⟨rfl, rfl, rfl⟩, fun hne => absurd rfl hne⟩

end Call
namespace ArrayClass2

variable {T : Type}

/-- On a valid array with every request granted, `Assure(req)` with `req > 0` returns
with `max m_binCount ((req + 31) / 32)` bins: the old bins followed by new bins of 32
default elements each. -/
theorem Assure_granted_exact [Inhabited T] (s : ArrayClass2 T) (req : Int)
    (hwf : WellFormed s) (hreq : 0 < req) (hmax : req ≤ 2147483647) :
    ∃ s1, Assure granted s req = .ok s1 ∧ WellFormed s1 ∧ s1.m_length = s.m_length ∧
      s1.m_binCount = max s.m_binCount ((req + 31) / 32) ∧
      bins s1 = bins s ++
        List.replicate (s1.m_binCount - s.m_binCount).toNat (List.replicate 32 default) := by
  have hwf2 := hwf
  obtain ⟨hmpb, hmask, hshift, hvalid, hlen, hok, hcap, hbmax, hlmin, hlmax⟩ := hwf2
  have hw1 : wrapInt (req - 1) = req - 1 := by
    apply wrapInt_eq <;> omega
  have hw2 : wrapInt ((req - 1) / 32 + 1) = (req - 1) / 32 + 1 := by
    apply wrapInt_eq <;> omega
  have hcast : ((5 : Int) + 128) % 256 - 128 = 5 := by decide
  have hsh : shiftRightInt (wrapInt (req - 1)) ((s.m_binShift + 128) % 256 - 128) =
      some ((req - 1) / 32) := by
    rw [hshift, hcast, hw1, shiftRightInt_five]
  have hunf : Assure granted s req =
      if (req - 1) / 32 + 1 > s.m_binCount then
        if granted 0 = true ∧ 0 ≤ (req - 1) / 32 + 1 then
          match oldBins s with
          | none => .undefined
          | some old =>
            if s.m_binCount < 0 then .undefined
            else
              match newBins T (fun k => granted (k + 1)) s.m_maxPerBin
                  ((req - 1) / 32 + 1 - s.m_binCount).toNat 0 with
              | some fresh =>
                .ok { s with m_array := some (old ++ fresh),
                             m_binCount := (req - 1) / 32 + 1 }
              | none =>
                .throw (.CDynamicArrayException (Reset { s with m_valid := false }))
                  (Reset { s with m_valid := false })
        else
          .throw (.CDynamicArrayException (Reset { s with m_valid := false }))
            (Reset { s with m_valid := false })
      else .ok s := by
    unfold Assure
    rw [if_pos ⟨hvalid, hreq⟩, hsh]
    simp only [hw2]
  rw [hunf]
  by_cases hgrow : (req - 1) / 32 + 1 > s.m_binCount
  · rw [if_pos hgrow, if_pos ⟨rfl, by omega⟩]
    have hold : oldBins s = some (bins s) := by
      unfold oldBins
      by_cases hz : s.m_binCount ≤ 0
      · rw [if_pos hz]
        have hl0 : (bins s).length = 0 := by omega
        rw [List.length_eq_zero.mp hl0]
      · rw [if_neg hz, array_of_bins (by omega)]
        simp only
        rw [if_pos (by omega), List.take_of_length_le (by omega)]
    rw [hold]
    simp only
    have hnb : newBins T (fun k => granted (k + 1)) s.m_maxPerBin
        ((req - 1) / 32 + 1 - s.m_binCount).toNat 0 =
        some (List.replicate ((req - 1) / 32 + 1 - s.m_binCount).toNat
          (List.replicate 32 (default : T))) := by
      rw [hmpb]
      exact newBins_granted (fun k => granted (k + 1)) (fun _ => rfl) _ 0
    rw [if_neg (by omega), hnb]
    simp only
    have hb1 : bins { s with
        m_array := some (bins s ++ List.replicate ((req - 1) / 32 + 1 - s.m_binCount).toNat
          (List.replicate 32 (default : T))),
        m_binCount := (req - 1) / 32 + 1 } =
        bins s ++ List.replicate ((req - 1) / 32 + 1 - s.m_binCount).toNat
          (List.replicate 32 default) := rfl
    refine ⟨_, rfl, ⟨hmpb, hmask, hshift, hvalid, ?_, ?_, ?_, ?_, hlmin, hlmax⟩, rfl, ?_, ?_⟩
    · rw [hb1, List.length_append, List.length_replicate]
      show _ = (req - 1) / 32 + 1
      push_cast
      omega
    · rw [hb1]
      intro b hb
      rcases List.mem_append.mp hb with h | h
      · exact hok b h
      · rw [List.eq_of_mem_replicate h, List.length_replicate]
    · show s.m_length ≤ 32 * ((req - 1) / 32 + 1)
      omega
    · show (req - 1) / 32 + 1 ≤ 67108864
      omega
    · show (req - 1) / 32 + 1 = max s.m_binCount ((req + 31) / 32)
      omega
    · exact hb1
  · rw [if_neg hgrow]
    refine ⟨s, rfl, hwf, rfl, ?_, ?_⟩
    · omega
    · rw [Int.sub_self]
      exact (List.append_nil _).symm

end ArrayClass2

namespace ArrayClass

variable {T : Type}

/-- With the allocation granted and a size that is an `int` and at least the length,
the common body of `Assure` and `AssureExact` returns with a block of that size whose
first `m_length` cells are those of the old block, the others default elements. -/
theorem grow_fits [Inhabited T] (s : ArrayClass T) (size : Int) (hwf : WellFormed s)
    (h0 : s.m_length ≤ size) (hsize : size ≤ 2147483647) :
    ∃ r : List T, (r.length : Int) = size ∧
      grow true s size = .ok { s with m_array := some r, m_alloc := size } ∧
      (∀ j : Int, 0 ≤ j → j < s.m_length → load r j = load (block s) j) ∧
      (∀ j : Int, s.m_length ≤ j → j < size → load r j = some default) := by
  have hl0 := hwf.2.1
  rcases grow_cases s size hwf hsize with ⟨h, _⟩ | ⟨_, h, _⟩ | ⟨_, _, r, h⟩
  · omega
  · omega
  · exact ⟨r, h⟩

theorem AssureExact_skip [Inhabited T] (g : Bool) (s : ArrayClass T) (req : Int)
    (h : ¬ (req ≠ 0 ∧ (s.m_alloc < req ∨ s.m_array = none))) :
    AssureExact g s req = .ok s ∧ Assure g s req = .ok s := by
  have h2 : ¬ (req ≠ 0 ∧ (req > s.m_alloc ∨ s.m_array.isNone = true)) := by
    intro hh
    apply h
    refine ⟨hh.1, ?_⟩
    rcases hh.2 with h3 | h3
    · exact Or.inl h3
    · exact Or.inr (Option.isNone_iff_eq_none.mp h3)
  constructor
  · unfold AssureExact
    rw [if_neg h2]
  · unfold Assure
    rw [if_neg h2]

theorem AssureExact_grow [Inhabited T] (g : Bool) (s : ArrayClass T) (req : Int)
    (h : req ≠ 0 ∧ (s.m_alloc < req ∨ s.m_array = none)) :
    AssureExact g s req = grow g s req ∧
      Assure g s req = grow g s (wrapInt (wrapInt (req + 4) * 2)) := by
  have h2 : req ≠ 0 ∧ (req > s.m_alloc ∨ s.m_array.isNone = true) := by
    refine ⟨h.1, ?_⟩
    rcases h.2 with h3 | h3
    · exact Or.inl h3
    · exact Or.inr (Option.isNone_iff_eq_none.mpr h3)
  constructor
  · unfold AssureExact
    rw [if_pos h2]
  · unfold Assure
    rw [if_pos h2]

theorem length_of_none {s : ArrayClass T} (hwf : WellFormed s) (h : s.m_array = none) :
    s.m_length = 0 ∧ s.m_alloc = 0 := by
  obtain ⟨hlen, hl0, hl1, _⟩ := hwf
  rw [block_of_none h] at hlen
  simp only [List.length_nil, Nat.cast_zero] at hlen
  omega

end ArrayClass

namespace ArrayClass

variable {T : Type}

/-- A write below the capacity asks the allocator for nothing: the outcome does not
depend on what the allocator would answer. -/
theorem SetElementIdx_no_alloc [Inhabited T] (g : Bool) (s : ArrayClass T) (index : Int)
    (x : T) (hwf : WellFormed s) (h0 : 0 ≤ index) (hA : index < s.m_alloc) :
    SetElementIdx g s index x = SetElementIdx true s index x := by
  have hwf2 := hwf
  obtain ⟨_, _, _, hamax⟩ := hwf2
  unfold INT_MAX at hamax
  obtain ⟨blk, hblk⟩ := isSome_of_pos hwf (by omega)
  have hw : wrapInt (index + 1) = index + 1 := wrapInt_eq _ (by omega) (by omega)
  have hskip : ∀ g1 : Bool, Assure g1 s (wrapInt (index + 1)) = .ok s := by
    intro g1
    refine (AssureExact_skip g1 s _ ?_).2
    rw [hw, hblk]
    intro hh
    rcases hh.2 with h | h
    · omega
    · cases h
  unfold SetElementIdx
  rw [hskip g, hskip true]

theorem sampleStale_reachable : Reachable sampleStale := by
  have h2 : Reachable ({ m_length := 2, m_array := some (5 :: 6 :: List.replicate 8 0),
                         m_alloc := 10, m_isValid := true } : ArrayClass Int) :=
    Reachable.of_addAll [5, 6] ArrayClass.ctor _ Reachable.ctor (by decide)
  exact Reachable.DeleteElement _ _ 1 h2 (by decide) (by decide) (by decide)

end ArrayClass

namespace HashTable

variable {T : Type}

/-- The entries that pointers point to are the entries of the chains. -/
theorem entryAt_iff_mem (t : HashTable T) (tbl : List (List (HashEntry T)))
    (ht : t.Table = some tbl) (e : HashEntry T) :
    (∃ p, entryAt t p = some e) ↔ e ∈ tbl.flatten := by
  constructor
  · rintro ⟨⟨b, k⟩, hp⟩
    obtain ⟨chain, hc, hk⟩ := entryAt_inv t tbl b k e ht hp
    exact List.mem_flatten.mpr ⟨chain, ArrayClass2.load_mem tbl b chain hc, List.getElem?_mem hk⟩
  · intro he
    obtain ⟨chain, hc, hmem⟩ := List.mem_flatten.mp he
    obtain ⟨b, hb⟩ := List.getElem?_of_mem hc
    obtain ⟨k, hk⟩ := List.getElem?_of_mem hmem
    refine ⟨((b : Int), k), ?_⟩
    rw [entryAt_of_load t tbl chain (b : Int) k ht ?_]
    · exact hk
    · rw [load_eq_getElem? tbl (b : Int) (by omega)]
      exact hb

/-- With backing storage and `TableSize > 0`, `FindFirst(key)` returns: the first entry
with the key in the chain of bucket `HashValue(key) mod TableSize`, or absent when that
chain has none. -/
theorem FindFirst_returns (t : HashTable T) (tbl : List (List (HashEntry T))) (key : Int)
    (hwf : WellFormed t) (ht : t.Table = some tbl) (hsize : 0 < t.TableSize) :
    ∃ chain, load tbl (HashValue key % t.TableSize) = some chain ∧
      ((∃ (k : Nat) (entry : HashEntry T), chain[k]? = some entry ∧ entry.Key = key ∧
          FindFirst t key = .value (some (HashValue key % t.TableSize, k))) ∨
        ((∀ e ∈ chain, e.Key ≠ key) ∧ FindFirst t key = .value none)) := by
  obtain ⟨_, hmax, hlen⟩ := hwf
  unfold INT_MAX at hmax
  obtain ⟨hb, hb0, hb1⟩ := bucketOf_eq t key hsize hmax
  have hl := hlen tbl ht
  obtain ⟨chain, hc⟩ := load_isSome tbl (HashValue key % t.TableSize) hb0 (by omega)
  refine ⟨chain, hc, ?_⟩
  have hunf : FindFirst t key =
      match findInChain key chain 0 with
      | none => .value none
      | some k => .value (some (HashValue key % t.TableSize, k)) := by
    unfold FindFirst
    rw [ht]
    simp only
    rw [hb]
    simp only
    rw [hc]
  rcases findInChain_spec key chain 0 with ⟨hn, hall⟩ | ⟨k, e, hf, hget, hkey, _⟩
  · right
    rw [hunf, hn]
    exact ⟨hall, rfl⟩
  · left
    rw [hunf, hf, Nat.zero_add]
    exact ⟨k, e, hget, hkey, rfl⟩

/-- With each entry in its bucket, `FindFirst(key)` returns an entry exactly when some
chain of the table holds an entry with the key. -/
theorem FindFirst_iff (t : HashTable T) (tbl : List (List (HashEntry T))) (key : Int)
    (hwf : WellFormed t) (ht : t.Table = some tbl) (hsize : 0 < t.TableSize)
    (hp : Placed t) :
    (∃ p, FindFirst t key = .value (some p)) ↔ ∃ e ∈ tbl.flatten, e.Key = key := by
  have hmax := hwf.2.1
  unfold INT_MAX at hmax
  obtain ⟨chain, hc, hcase⟩ := FindFirst_returns t tbl key hwf ht hsize
  constructor
  · rintro ⟨p, hf⟩
    rcases hcase with ⟨k, e, hget, hkey, _⟩ | ⟨_, hnone⟩
    · exact ⟨e, List.mem_flatten.mpr
        ⟨chain, ArrayClass2.load_mem tbl _ chain hc, List.getElem?_mem hget⟩, hkey⟩
    · rw [hnone] at hf
      cases Access.value.inj hf
  · rintro ⟨e, he, hkey⟩
    rcases hcase with ⟨k, e1, _, _, hf⟩ | ⟨hall, _⟩
    · exact ⟨_, hf⟩
    · exfalso
      obtain ⟨⟨b, k⟩, hat⟩ := (entryAt_iff_mem t tbl ht e).mpr he
      have hplaced := hp (b, k) e hat
      rw [hkey, (bucketOf_eq t key hsize hmax).1] at hplaced
      have hbk : HashValue key % t.TableSize = b := Option.some.inj hplaced
      obtain ⟨chain1, hc1, hk1⟩ := entryAt_inv t tbl b k e ht hat
      rw [← hbk, hc] at hc1
      cases hc1
      exact hall e (List.getElem?_mem hk1) hkey

/-- With each entry in its bucket and enough calls allowed, the walk visits the
pointers to the entries of the chains, bucket after bucket. -/
theorem walk_table (t : HashTable T) (tbl : List (List (HashEntry T)))
    (hwf : WellFormed t) (ht : t.Table = some tbl) (hp : Placed t)
    (n : Nat) (hn : tbl.flatten.length ≤ n) :
    walk t n = some (tablePtrs tbl 0) ∧
      (tablePtrs tbl 0).map (entryAt t) = tbl.flatten.map some := by
  obtain ⟨_, hmax, hlen⟩ := hwf
  unfold INT_MAX at hmax
  have hl := hlen tbl ht
  have hmap := tablePtrs_map t tbl ht tbl [] rfl
  have hlength : (tablePtrs tbl 0).length = tbl.flatten.length := by
    have := congrArg List.length hmap
    rw [List.length_map, List.length_map] at this
    exact this
  refine ⟨?_, hmap⟩
  have hs := scan_eq t tbl ht (by omega) tbl [] rfl
  have hw := walkFrom_table t tbl ht hl hmax hp tbl [] rfl n (by
    rw [← hlength] at hn
    exact hn)
  have hnat : t.TableSize.toNat = tbl.length := by omega
  unfold walk WalkFirst
  rw [hnat]
  exact (congrArg (walkFrom t n) hs).trans hw

end HashTable

namespace ArrayClass

variable {T : Type}

/-- Whenever `InsertElement(k, v)` with `0 <= k <= m_length` returns, `DeleteElement(k)`
on the result returns with the old length and the old elements. -/
theorem InsertElement_then_DeleteElement [Inhabited T] (s s1 : ArrayClass T) (k : Int)
    (v : T) (hwf : WellFormed s) (h0 : 0 ≤ k) (h1 : k ≤ s.m_length)
    (h : InsertElement true s k v = .ok s1) :
    ∃ s2, DeleteElement s1 k = .ok s2 ∧ s2.m_length = s.m_length ∧
      s.m_alloc ≤ s2.m_alloc ∧
      ∀ j : Int, 0 ≤ j → j < s.m_length → ArrayClass_RO.Get s2 j = ArrayClass_RO.Get s j := by
  have hwf0 := hwf
  obtain ⟨_, hl0, hl1, hamax⟩ := hwf0
  unfold INT_MAX at hamax
  have key : WellFormed s1 ∧ s1.m_length = s.m_length + 1 ∧ s.m_alloc ≤ s1.m_alloc ∧
      (∀ j : Int, 0 ≤ j → j < k → load (block s1) j = load (block s) j) ∧
      (∀ j : Int, k ≤ j → j < s.m_length → load (block s1) (j + 1) = load (block s) j) := by
    by_cases hk : k < s.m_length
    · obtain ⟨a1, a2, a3, _, a5, _, _, a8, _⟩ := InsertElement_inv s s1 k v hwf h0 hk h
      exact ⟨a1, a2, a8, a3, a5⟩
    · have hkl : k = s.m_length := by omega
      unfold InsertElement at h
      rw [if_pos h0, if_neg hk] at h
      rcases SetElementIdx_inv s s1 k v hwf (by omega) h with ⟨hneg, _⟩ | ⟨_, hpost⟩
      · omega
      · obtain ⟨a1, a2, _, a4, _, _, a7, a8⟩ := hpost
        refine ⟨a1, by omega, ?_, fun j hj0 hj1 => a4 j hj0 (by omega) (by omega),
          fun j hj0 hj1 => (by omega)⟩
        by_cases hA : k < s.m_alloc
        · have := (a7 hA).1
          omega
        · have := (a8 (by omega)).1
          omega
  obtain ⟨hwf1, hlen1, halloc1, hlow, hhigh⟩ := key
  obtain ⟨s2, h2, hwf2, hlen2, blow, bhigh, _, balloc, _⟩ :=
    DeleteElement_spec s1 k hwf1 h0 (by omega)
  refine ⟨s2, h2, by omega, by omega, fun j hj0 hj1 => ?_⟩
  refine Get_congr s s2 j hwf hwf2 hj0 hj1 (by omega) ?_
  by_cases hjk : j < k
  · rw [blow j hj0 hjk]
    exact hlow j hj0 hjk
  · have hb := bhigh (j + 1) (by omega) (by omega)
    rw [Int.add_sub_cancel] at hb
    rw [hb]
    exact hhigh j (by omega) hj1

/-- With the allocation granted, `InsertElement(k, v)` with `0 <= k <= m_length`
returns when a cell is free or the size `(m_length + 5) * 2` to allocate is an `int`. -/
theorem InsertElement_returns [Inhabited T] (s : ArrayClass T) (k : Int) (v : T)
    (hwf : WellFormed s) (h0 : 0 ≤ k) (h1 : k ≤ s.m_length)
    (hfit : s.m_length < s.m_alloc ∨ (s.m_length + 5) * 2 ≤ 2147483647) :
    ∃ s1, InsertElement true s k v = .ok s1 := by
  have hwf0 := hwf
  obtain ⟨_, hl0, hl1, hamax⟩ := hwf0
  by_cases hk : k < s.m_length
  · by_cases hA : s.m_length < s.m_alloc
    · obtain ⟨s1, h, _⟩ := InsertElement_below s k v hwf h0 hk hA
      exact ⟨s1, h⟩
    · obtain ⟨s1, h, _⟩ := InsertElement_grows s k v hwf h0 hk (by omega) (by omega)
      exact ⟨s1, h⟩
  · have hkl : k = s.m_length := by omega
    have hunf : InsertElement true s k v = SetElementIdx true s k v := by
      unfold InsertElement
      rw [if_pos h0, if_neg hk]
    rw [hunf]
    by_cases hA : k < s.m_alloc
    · obtain ⟨s1, h, _⟩ := SetElementIdx_below s k v hwf h0 hA
      exact ⟨s1, h⟩
    · obtain ⟨s1, h, _⟩ := SetElementIdx_grows s k v hwf h0 (by omega) (by omega)
      exact ⟨s1, h⟩

end ArrayClass

namespace ArrayClass2

variable {T : Type}

/-- On a valid binned array of length below `INT_MAX`, every allocation granted,
`InsertElement(k, v)` with `0 <= k <= m_length` followed by `DeleteElement(k)` returns
with the old length and the old elements. -/
theorem InsertElement_then_DeleteElement_bins [Inhabited T] (s : ArrayClass2 T) (k : Int)
    (v : T) (hwf : WellFormed s) (h0 : 0 ≤ k) (h1 : k ≤ s.m_length)
    (hmax : s.m_length < 2147483647) :
    ∃ s1 s2, InsertElement granted s k v = .ok s1 ∧ DeleteElement s1 k = .ok s2 ∧
      s2.m_length = s.m_length ∧ s.m_binCount ≤ s2.m_binCount ∧
      ∀ j : Int, 0 ≤ j → j < s.m_length →
        ArrayClass2_RO.Get s2 j = ArrayClass2_RO.Get s j := by
  have hcap := hwf.2.2.2.2.2.2.1
  have key : ∃ s1, InsertElement granted s k v = .ok s1 ∧ WellFormed s1 ∧
      s1.m_length = s.m_length + 1 ∧ s.m_binCount ≤ s1.m_binCount ∧
      (∀ j : Int, 0 ≤ j → j < k → cellRead (bins s1) j = cellRead (bins s) j) ∧
      (∀ j : Int, k ≤ j → j < s.m_length →
        cellRead (bins s1) (j + 1) = cellRead (bins s) j) := by
    by_cases hk : k < s.m_length
    · obtain ⟨s1, a0, a1, a2, a3, _, a5, a6, _⟩ := InsertElement_bins s k v hwf h0 hk
      refine ⟨s1, a0, a1, ?_, a6, a3, a5⟩
      rw [a2]
      exact wrapInt_eq _ (by omega) (by omega)
    · have hkl : k = s.m_length := by omega
      have hunf : InsertElement granted s k v = SetElementIdx granted s k v := by
        unfold InsertElement
        rw [if_pos h0, if_neg hk]
      obtain ⟨s1, a0, a1, a2, _, a4, a5, _⟩ := SetElementIdx_bins s k v hwf h0 (by omega)
      refine ⟨s1, hunf.trans a0, a1, by omega, a4,
        fun j hj0 hj1 => a5 j hj0 (by omega) (by omega), fun j hj0 hj1 => (by omega)⟩
  obtain ⟨s1, hins, hwf1, hlen1, hcount1, hlow, hhigh⟩ := key
  obtain ⟨s2, h2, hwf2, hlen2, blow, bhigh⟩ := DeleteElement_bins s1 k hwf1 h0 (by omega)
  have hcount2 := ((DeleteElement_geometry s1 s2 k).1 h2).2
  refine ⟨s1, s2, hins, h2, by omega, by omega, fun j hj0 hj1 => ?_⟩
  refine Get_bins_congr s s2 j hwf hwf2 hj0 (by omega) ?_
  by_cases hjk : j < k
  · rw [blow j hj0 hjk]
    exact hlow j hj0 hjk
  · have hb := bhigh (j + 1) (by omega) (by omega)
    rw [Int.add_sub_cancel] at hb
    rw [hb]
    exact hhigh j (by omega) hj1

end ArrayClass2

namespace ArrayClass

variable {T : Type}

end ArrayClass

/-! ### Claims -/

/-- C1: for every state of the contiguous array and every index, `Get(index)`
throws `CDynamicArrayException` carrying the container exactly when
`index < 0`, `index >= length` or the storage is null; otherwise it yields what is
stored at position `index` of the block. -/
theorem ArrayClass_RO.Get_spec {T : Type} (s : ArrayClass_RO T) (index : Int) :
    (s.Get index = .throw (.CDynamicArrayException s) ↔
        (index < 0 ∨ index ≥ s.m_length ∨ s.m_array = none)) ∧
    ((∃ e, s.Get index = .throw e) ↔
        (index < 0 ∨ index ≥ s.m_length ∨ s.m_array = none)) ∧
    (¬ (index < 0 ∨ index ≥ s.m_length ∨ s.m_array = none) →
        ∃ blk, s.m_array = some blk ∧
          s.Get index = (match blk[index.toNat]? with
            | some x => .value x
            | none => .undefined)) := by
  have hiff : (index ≥ s.m_length ∨ index < 0 ∨ s.m_array.isNone = true) ↔
      (index < 0 ∨ index ≥ s.m_length ∨ s.m_array = none) := by
    rw [Option.isNone_iff_eq_none]
    constructor
    · rintro (h | h | h)
      · exact Or.inr (Or.inl h)
      · exact Or.inl h
      · exact Or.inr (Or.inr h)
    · rintro (h | h | h)
      · exact Or.inr (Or.inl h)
      · exact Or.inl h
      · exact Or.inr (Or.inr h)
  unfold ArrayClass_RO.Get
  by_cases h : index ≥ s.m_length ∨ index < 0 ∨ s.m_array.isNone = true
  · rw [if_pos h]
    have h2 := hiff.mp h
    exact ⟨⟨fun _ => h2, fun _ => rfl⟩, ⟨fun _ => h2, fun _ => ⟨_, rfl⟩⟩,
      fun h3 => absurd h2 h3⟩
  · rw [if_neg h]
    have hc := fun h3 => h (hiff.mpr h3)
    have hlt : ¬ index < 0 := fun h3 => hc (Or.inl h3)
    cases hs : s.m_array with
    | none => exact absurd (Or.inr (Or.inr hs)) hc
    | some blk =>
      simp only [load, if_neg hlt]
      refine ⟨⟨?_, fun h3 => absurd (hs ▸ h3) hc⟩, ⟨?_, fun h3 => absurd (hs ▸ h3) hc⟩,
        fun _ => ⟨blk, rfl, rfl⟩⟩
      · intro h3
        cases hb : blk[index.toNat]? <;> rw [hb] at h3 <;> cases h3
      · rintro ⟨e, h3⟩
        cases hb : blk[index.toNat]? <;> rw [hb] at h3 <;> cases h3

/-- C2, counterexample: on the freshly constructed empty array the call
`SetElementIdx(2147483647, 7)` has every allocation granted (`Assure` is entered
with `index + 1` wrapped to `INT_MIN` and allocates 8 cells), yet it does not end
with length `index + 1` and `Get(index) == 7`: the write `m_array[2147483647]` falls
outside the block. -/
theorem ArrayClass.SetElementIdx_INT_MAX_undefined :
    ArrayClass.Reachable (ArrayClass.ctor : ArrayClass Int) ∧ (0 : Int) ≤ 2147483647 ∧
      (2147483647 : Int) ≤ INT_MAX ∧
      ArrayClass.Assure true (ArrayClass.ctor : ArrayClass Int) (wrapInt (2147483647 + 1)) =
        .ok { m_length := 0, m_array := some (List.replicate 8 0), m_alloc := 8,
              m_isValid := true } ∧
      ArrayClass.SetElementIdx true (ArrayClass.ctor : ArrayClass Int) 2147483647 7 =
        .undefined :=
  ⟨ArrayClass.Reachable.ctor, by decide, by decide, by decide, by decide⟩

/-- C2, amended: for every reachable contiguous array, every value `v` and every
index that is at least 0 and either below the capacity or at most `INT_MAX - 5`,
a call `SetElementIdx(index, v)` whose allocation does not fail returns; afterwards
`Get(index)` returns `v`, the length is `max(old length, index + 1)`, and `Get(j)` is
unchanged for every `j < old length` other than `index`. -/
theorem ArrayClass.SetElementIdx_then_Get {T : Type} [Inhabited T] (s : ArrayClass T)
    (index : Int) (v : T) (hr : ArrayClass.Reachable s) (h0 : 0 ≤ index)
    (hrep : index < s.m_alloc ∨ index ≤ INT_MAX - 5)
    (hno : ¬ ArrayClass.AllocationFailed (ArrayClass.SetElementIdx true s index v)) :
    ∃ s1, ArrayClass.SetElementIdx true s index v = .ok s1 ∧
      s1.Get index = .value v ∧
      s1.GetLength = max s.GetLength (index + 1) ∧
      ∀ j : Int, 0 ≤ j → j < s.GetLength → j ≠ index → s1.Get j = s.Get j := by
  have hwf := hr.wellFormed
  have hamax := hwf.2.2.2
  unfold INT_MAX at hrep hamax
  have hex : ∃ s1, ArrayClass.SetElementIdx true s index v = .ok s1 ∧
      ArrayClass.SetElementIdxPost s s1 index v := by
    by_cases hA : index < s.m_alloc
    · exact ArrayClass.SetElementIdx_below s index v hwf h0 hA
    · by_cases hfit : (index + 5) * 2 ≤ 2147483647
      · exact ArrayClass.SetElementIdx_grows s index v hwf h0 (by omega) hfit
      · exact absurd (ArrayClass.SetElementIdx_failed s index v hwf h0 (by omega) (by omega)
          (by omega)) hno
  obtain ⟨s1, hs1, hwf1, hlen, hat, hold, _, hsome, _, _⟩ := hex
  refine ⟨s1, hs1, ?_, hlen, fun j hj0 hj1 hj => ?_⟩
  · exact ArrayClass.Get_value s1 index v h0 (by rw [hlen]; omega) hsome hat
  · exact ArrayClass.Get_congr s s1 j hwf hwf1 hj0 hj1
      (by rw [hlen]; unfold ArrayClass_RO.GetLength at hj1; omega) (hold j hj0 hj1 hj)

/-- C2, witness: `SetElementIdx(3, 7)` on the array holding 5 at position 0. -/
theorem ArrayClass.SetElementIdx_then_Get_witness :
    ∃ s1, ArrayClass.SetElementIdx true ArrayClass.sampleOne 3 7 = .ok s1 ∧
      s1.Get 3 = .value 7 ∧
      s1.GetLength = max ArrayClass.sampleOne.GetLength (3 + 1) ∧
      ∀ j : Int, 0 ≤ j → j < ArrayClass.sampleOne.GetLength → j ≠ 3 →
        s1.Get j = ArrayClass.sampleOne.Get j :=
  ArrayClass.SetElementIdx_then_Get ArrayClass.sampleOne 3 7
    (ArrayClass.Reachable.Add ArrayClass.ctor _ 5 ArrayClass.Reachable.ctor (by decide))
    (by decide) (Or.inl (by decide))
    (ArrayClass.not_allocationFailed_of_isOk (by decide))

/-- C6, counterexample: from the empty array, `SetElementIdx(1073741818, 0)` gets a
block of 2147483646 cells and `SetElementIdx(2147483645, 0)` fills it, so the
array is reachable with length 2147483646; `InsertElement(0, 7)` on it does not
yield length `L + 1`: the size `(L + 1 + 4) << 1` wraps to 6, the allocation of 6
cells succeeds, and copying the live elements leaves the new block. -/
theorem ArrayClass.InsertElement_full_undefined :
    ∃ s1 s2 : ArrayClass Int,
      ArrayClass.SetElementIdx true ArrayClass.ctor 1073741818 0 = .ok s1 ∧
      ArrayClass.SetElementIdx true s1 2147483645 0 = .ok s2 ∧
      ArrayClass.Reachable s2 ∧ s2.GetLength = 2147483646 ∧
      wrapInt (wrapInt (s2.GetLength + 1 + 4) * 2) = 6 ∧
      ArrayClass.InsertElement true s2 0 7 = .undefined := by
  have hr0 : ArrayClass.Reachable (ArrayClass.ctor : ArrayClass Int) := ArrayClass.Reachable.ctor
  have hw0 := hr0.wellFormed
  obtain ⟨s1, h1, hp1⟩ := ArrayClass.SetElementIdx_grows (ArrayClass.ctor : ArrayClass Int)
    1073741818 0 hw0 (by decide) (by decide) (by decide)
  have hr1 : ArrayClass.Reachable s1 :=
    ArrayClass.Reachable.SetElementIdx _ s1 1073741818 0 hr0 (by decide) (by decide) h1
  have ha1 : s1.m_alloc = 2147483646 := by
    have h := (hp1.2.2.2.2.2.2.2 (by decide)).1
    rw [h]
    decide
  have hl1 : s1.m_length = 1073741819 := by
    have h := hp1.2.1
    rw [h]
    decide
  obtain ⟨s2, h2, hp2⟩ := ArrayClass.SetElementIdx_below s1 2147483645 0 hp1.1 (by decide)
    (by rw [ha1]; decide)
  have hr2 : ArrayClass.Reachable s2 :=
    ArrayClass.Reachable.SetElementIdx _ s2 2147483645 0 hr1 (by decide) (by decide) h2
  have ha2 : s2.m_alloc = 2147483646 := by
    rw [(hp2.2.2.2.2.2.2.1 (by rw [ha1]; decide)).1, ha1]
  have hl2 : s2.m_length = 2147483646 := by
    have h := hp2.2.1
    rw [h, hl1]
    decide
  refine ⟨s1, s2, h1, h2, hr2, hl2, ?_, ?_⟩
  · show wrapInt (wrapInt (s2.m_length + 1 + 4) * 2) = 6
    rw [hl2]
    decide
  · exact ArrayClass.InsertElement_undefined s2 0 7 hp2.1 (by decide) (by rw [hl2]; decide)
      (by rw [hl2, ha2]) (by rw [hl2]; decide)

/-- C6, amended: for every reachable contiguous array of length `L` that is below
its capacity or has `L <= INT_MAX - 5`, every `k` with `0 <= k < L` and every `v`, a
call `InsertElement(k, v)` whose allocation does not fail returns with length
`L + 1`; positions below `k` are unchanged, position `k` holds `v`, and the element
originally at `i` in `[k, L)` is now at `i + 1`. -/
theorem ArrayClass.InsertElement_shifts {T : Type} [Inhabited T] (s : ArrayClass T)
    (k : Int) (v : T) (hr : ArrayClass.Reachable s) (h0 : 0 ≤ k) (h1 : k < s.GetLength)
    (hrep : s.GetLength < s.m_alloc ∨ s.GetLength ≤ INT_MAX - 5)
    (hno : ¬ ArrayClass.AllocationFailed (ArrayClass.InsertElement true s k v)) :
    ∃ s1, ArrayClass.InsertElement true s k v = .ok s1 ∧
      s1.GetLength = s.GetLength + 1 ∧
      (∀ j : Int, 0 ≤ j → j < k → s1.Get j = s.Get j) ∧
      s1.Get k = .value v ∧
      (∀ i : Int, k ≤ i → i < s.GetLength → s1.Get (i + 1) = s.Get i) := by
  have hwf := hr.wellFormed
  have hl1 := hwf.2.2.1
  unfold ArrayClass_RO.GetLength at h1 hrep
  unfold INT_MAX at hrep
  have hex : ∃ s1, ArrayClass.InsertElement true s k v = .ok s1 ∧
      ArrayClass.InsertElementPost s s1 k v := by
    by_cases hA : s.m_length < s.m_alloc
    · exact ArrayClass.InsertElement_below s k v hwf h0 h1 hA
    · by_cases hfit : (s.m_length + 5) * 2 ≤ 2147483647
      · exact ArrayClass.InsertElement_grows s k v hwf h0 h1 (by omega) hfit
      · exact absurd (ArrayClass.InsertElement_failed s k v hwf h0 h1 (by omega) (by omega)
          (by omega)) hno
  obtain ⟨s1, hs1, hwf1, hlen, hlow, hat, hhigh, _, hsome, _⟩ := hex
  refine ⟨s1, hs1, hlen, fun j hj0 hj1 => ?_, ?_, fun i hi0 hi1 => ?_⟩
  · exact ArrayClass.Get_congr s s1 j hwf hwf1 hj0 (by omega) (by omega) (hlow j hj0 hj1)
  · exact ArrayClass.Get_value s1 k v h0 (by omega) hsome hat
  · unfold ArrayClass_RO.GetLength at hi1
    obtain ⟨x, hx, hg⟩ := ArrayClass.load_live s i hwf (by omega) hi1
    rw [hg]
    exact ArrayClass.Get_value s1 (i + 1) x (by omega) (by omega) hsome
      (by rw [hhigh i hi0 hi1, hx])

/-- C6, witness: `InsertElement(1, 9)` on the array holding 5, 6, 7. -/
theorem ArrayClass.InsertElement_shifts_witness :
    ∃ s1, ArrayClass.InsertElement true ArrayClass.sampleThree 1 9 = .ok s1 ∧
      s1.GetLength = ArrayClass.sampleThree.GetLength + 1 ∧
      (∀ j : Int, 0 ≤ j → j < 1 → s1.Get j = ArrayClass.sampleThree.Get j) ∧
      s1.Get 1 = .value 9 ∧
      (∀ i : Int, 1 ≤ i → i < ArrayClass.sampleThree.GetLength →
        s1.Get (i + 1) = ArrayClass.sampleThree.Get i) :=
  ArrayClass.InsertElement_shifts ArrayClass.sampleThree 1 9
    (ArrayClass.Reachable.of_addAll [5, 6, 7] ArrayClass.ctor _ ArrayClass.Reachable.ctor
      (by decide))
    (by decide) (by decide) (Or.inl (by decide))
    (ArrayClass.not_allocationFailed_of_isOk (by decide))

/-- C8: for every reachable contiguous array of length `L` and every `k` with
`0 <= k < L`, `DeleteElement(k)` returns with length `L - 1`; positions below `k` are
unchanged and the element originally at `i` in `(k, L)` is now at `i - 1`. -/
theorem ArrayClass.DeleteElement_shifts {T : Type} [Inhabited T] (s : ArrayClass T)
    (k : Int) (hr : ArrayClass.Reachable s) (h0 : 0 ≤ k) (h1 : k < s.GetLength) :
    ∃ s1, ArrayClass.DeleteElement s k = .ok s1 ∧
      s1.GetLength = s.GetLength - 1 ∧
      (∀ j : Int, 0 ≤ j → j < k → s1.Get j = s.Get j) ∧
      (∀ i : Int, k < i → i < s.GetLength → s1.Get (i - 1) = s.Get i) := by
  have hwf := hr.wellFormed
  unfold ArrayClass_RO.GetLength at h1
  obtain ⟨s1, hs1, hwf1, hlen, hlow, hhigh, _, _, hsome⟩ :=
    ArrayClass.DeleteElement_spec s k hwf h0 h1
  refine ⟨s1, hs1, hlen, fun j hj0 hj1 => ?_, fun i hi0 hi1 => ?_⟩
  · exact ArrayClass.Get_congr s s1 j hwf hwf1 hj0 (by omega) (by omega) (hlow j hj0 hj1)
  · unfold ArrayClass_RO.GetLength at hi1
    obtain ⟨x, hx, hg⟩ := ArrayClass.load_live s i hwf (by omega) hi1
    rw [hg]
    exact ArrayClass.Get_value s1 (i - 1) x (by omega) (by omega) hsome
      (by rw [hhigh i hi0 hi1, hx])

/-- C8, witness: `DeleteElement(1)` on the array holding 5, 6, 7. -/
theorem ArrayClass.DeleteElement_shifts_witness :
    ∃ s1, ArrayClass.DeleteElement ArrayClass.sampleThree 1 = .ok s1 ∧
      s1.GetLength = ArrayClass.sampleThree.GetLength - 1 ∧
      (∀ j : Int, 0 ≤ j → j < 1 → s1.Get j = ArrayClass.sampleThree.Get j) ∧
      (∀ i : Int, 1 < i → i < ArrayClass.sampleThree.GetLength →
        s1.Get (i - 1) = ArrayClass.sampleThree.Get i) :=
  ArrayClass.DeleteElement_shifts ArrayClass.sampleThree 1
    (ArrayClass.Reachable.of_addAll [5, 6, 7] ArrayClass.ctor _ ArrayClass.Reachable.ctor
      (by decide))
    (by decide) (by decide)

/-- C4: for every list of values `v_0..v_{n-1}`, the calls `Add(v_0)`, ...,
`Add(v_{n-1})` on a freshly constructed empty contiguous array, when no allocation
fails (as is the case for every `n <= 1073741819`), return with length `n` and
`Get(i) == v_i` for every `0 <= i < n`. -/
theorem ArrayClass.addAll_spec {T : Type} [Inhabited T] (vs : List T)
    (h : (vs.length : Int) ≤ 1073741819 ∨
      ¬ ArrayClass.AllocationFailed (ArrayClass.addAll true vs ArrayClass.ctor)) :
    ∃ s, ArrayClass.addAll true vs ArrayClass.ctor = .ok s ∧
      s.GetLength = vs.length ∧
      ∀ (i : Nat) (hi : i < vs.length), s.Get i = .value vs[i] := by
  have hw0 :=
    (ArrayClass.Reachable.ctor : ArrayClass.Reachable (ArrayClass.ctor : ArrayClass T)).wellFormed
  rcases ArrayClass.addAll_gen vs ArrayClass.ctor [] hw0 (Or.inl rfl) rfl
    (fun i hi => absurd hi (Nat.not_lt_zero i)) with ⟨hf, hbig⟩ | ⟨s, hs, hwf, hlen, hget⟩
  · rw [List.nil_append] at hbig
    rcases h with h | h
    · omega
    · exact absurd hf h
  · rw [List.nil_append] at hlen hget
    refine ⟨s, hs, hlen, fun i hi => ?_⟩
    have hx := hget i hi
    rw [List.getElem?_eq_getElem hi] at hx
    exact ArrayClass.Get_value s i vs[i] (by omega) (by rw [hlen]; omega)
      (ArrayClass.isSome_of_pos hwf (by have := hwf.2.2.1; omega)) hx

/-- C4, witness: `Add(4); Add(5); Add(6)`. -/
theorem ArrayClass.addAll_spec_witness :
    ∃ s, ArrayClass.addAll true [(4 : Int), 5, 6] ArrayClass.ctor = .ok s ∧
      s.GetLength = [(4 : Int), 5, 6].length ∧
      ∀ (i : Nat) (hi : i < [(4 : Int), 5, 6].length), s.Get i = .value [(4 : Int), 5, 6][i] :=
  ArrayClass.addAll_spec [(4 : Int), 5, 6] (Or.inl (by decide))

/-- C3, counterexample: on the freshly constructed empty binned array the call
`SetElementIdx(2147483647, 7)` does not end with length `index + 1` and
`Get(index) == 7`: `index + 1` wraps to `INT_MIN`, `Assure` does nothing, and the
write goes through the null directory. -/
theorem ArrayClass2.SetElementIdx_bins_INT_MAX_undefined :
    ArrayClass2.Reachable (ArrayClass2.ctor : ArrayClass2 Int) ∧ (0 : Int) ≤ 2147483647 ∧
      (2147483647 : Int) ≤ INT_MAX ∧
      ArrayClass2.Assure ArrayClass2.granted (ArrayClass2.ctor : ArrayClass2 Int)
        (wrapInt (2147483647 + 1)) = .ok ArrayClass2.ctor ∧
      ArrayClass2.SetElementIdx ArrayClass2.granted (ArrayClass2.ctor : ArrayClass2 Int)
        2147483647 7 = .undefined :=
  ⟨ArrayClass2.Reachable.ctor, by decide, by decide, by decide, by decide⟩

/-- C3, amended: for every reachable binned array, every value `v` and every index
with `0 <= index < INT_MAX`, `SetElementIdx(index, v)` returns; afterwards
`Get(index)` returns `v`, the length is `max(old length, index + 1)`, and `Get(j)` is
unchanged for every `j < old length` other than `index`. -/
theorem ArrayClass2.SetElementIdx_bins_then_Get {T : Type} [Inhabited T] (s : ArrayClass2 T)
    (index : Int) (v : T) (hr : ArrayClass2.Reachable s) (h0 : 0 ≤ index)
    (hmax : index < INT_MAX) :
    ∃ s1, ArrayClass2.SetElementIdx ArrayClass2.granted s index v = .ok s1 ∧
      s1.Get index = .value v ∧
      s1.GetLength = max s.GetLength (index + 1) ∧
      ∀ j : Int, 0 ≤ j → j < s.GetLength → j ≠ index → s1.Get j = s.Get j := by
  have hwf := hr.valid
  have hcap := hwf.2.2.2.2.2.2.1
  have hbmax := hwf.2.2.2.2.2.2.2.1
  unfold INT_MAX at hmax
  obtain ⟨s1, h1, hwf1, hlen, hat, _, hold, _⟩ :=
    ArrayClass2.SetElementIdx_bins s index v hwf h0 hmax
  refine ⟨s1, h1, ?_, hlen, fun j hj0 hj1 hj => ?_⟩
  · exact ArrayClass2.Get_bins_value s1 index v hwf1 h0 (by omega) hat
  · unfold ArrayClass2_RO.GetLength at hj1
    exact ArrayClass2.Get_bins_congr s s1 j hwf hwf1 hj0 (by omega)
      (hold j hj0 (by omega) hj)

/-- C3, witness: `SetElementIdx(40, 7)` on the array holding `0..32`. -/
theorem ArrayClass2.SetElementIdx_bins_then_Get_witness :
    ∃ s1, ArrayClass2.SetElementIdx ArrayClass2.granted ArrayClass2.sample33 40 7 = .ok s1 ∧
      s1.Get 40 = .value 7 ∧
      s1.GetLength = max ArrayClass2.sample33.GetLength (40 + 1) ∧
      ∀ j : Int, 0 ≤ j → j < ArrayClass2.sample33.GetLength → j ≠ 40 →
        s1.Get j = ArrayClass2.sample33.Get j :=
  ArrayClass2.SetElementIdx_bins_then_Get ArrayClass2.sample33 40 7
    (ArrayClass2.Reachable.of_addAll_bins ArrayClass2.values33 ArrayClass2.ctor _
      ArrayClass2.Reachable.ctor (by decide))
    (by decide) (by decide)

/-- C5, counterexample: 2147483648 calls of `Add(0)` on the freshly constructed
empty binned array, every allocation granted, return with length -2147483648,
not 2147483648: the last call computes `m_length + 1` at `m_length = INT_MAX`. -/
theorem ArrayClass2.addAll_bins_wraps :
    ∃ s1, ArrayClass2.addAll ArrayClass2.granted (List.replicate 2147483648 (0 : Int))
        ArrayClass2.ctor = .ok s1 ∧
      s1.GetLength = -2147483648 := by
  have hrep : List.replicate 2147483648 (0 : Int) = List.replicate 2147483647 0 ++ [0] :=
    List.replicate_succ' 2147483647 0
  obtain ⟨s, hs, hwf, hlen, _⟩ := ArrayClass2.addAll_bins_gen (List.replicate 2147483647 (0 : Int))
    ArrayClass2.ctor [] ArrayClass2.ctor_wellFormed (by rw [ArrayClass2.ctor_eq]; rfl)
    (by rw [List.nil_append, List.length_replicate]; decide)
    (fun i hi => absurd hi (Nat.not_lt_zero i))
  rw [List.nil_append, List.length_replicate] at hlen
  have hlen2 : s.m_length = 2147483647 := by
    rw [hlen]
    decide
  have hcap := hwf.2.2.2.2.2.2.1
  rcases ArrayClass2.SetElementIdx_bins_top s 0 hwf with ⟨hlt, _⟩ | ⟨_, s1, h1, _, hl1⟩
  · omega
  · refine ⟨s1, ?_, hl1⟩
    rw [hrep, ArrayClass2.addAll_append, hs]
    show (ArrayClass2.Add ArrayClass2.granted s 0).andThen
      (ArrayClass2.addAll ArrayClass2.granted []) = _
    unfold ArrayClass2.Add
    rw [hlen2, h1]
    rfl

/-- C5, amended: for every list of at most `INT_MAX` values `v_0..v_{n-1}`, the calls
`Add(v_0)`, ..., `Add(v_{n-1})` on a freshly constructed empty binned array return
with length `n` and `Get(i) == v_i` for every `0 <= i < n`, whatever bin
boundaries `n` crosses. -/
theorem ArrayClass2.addAll_bins_spec {T : Type} [Inhabited T] (vs : List T)
    (h : (vs.length : Int) ≤ INT_MAX) :
    ∃ s, ArrayClass2.addAll ArrayClass2.granted vs ArrayClass2.ctor = .ok s ∧
      s.GetLength = vs.length ∧
      ∀ (i : Nat) (hi : i < vs.length), s.Get i = .value vs[i] := by
  unfold INT_MAX at h
  obtain ⟨s, hs, hwf, hlen, hget⟩ := ArrayClass2.addAll_bins_gen vs
    (ArrayClass2.ctor : ArrayClass2 T) [] ArrayClass2.ctor_wellFormed
    (by rw [ArrayClass2.ctor_eq]; rfl) (by rw [List.nil_append]; exact h)
    (fun i hi => absurd hi (Nat.not_lt_zero i))
  rw [List.nil_append] at hlen hget
  refine ⟨s, hs, hlen, fun i hi => ?_⟩
  have hx := hget i hi
  rw [List.getElem?_eq_getElem hi] at hx
  exact ArrayClass2.Get_bins_value s i vs[i] hwf (by omega) (by omega) hx

/-- C5, witness: the 33 calls `Add(0)`, ..., `Add(32)`. -/
theorem ArrayClass2.addAll_bins_spec_witness :
    ∃ s, ArrayClass2.addAll ArrayClass2.granted ArrayClass2.values33 ArrayClass2.ctor = .ok s ∧
      s.GetLength = ArrayClass2.values33.length ∧
      ∀ (i : Nat) (hi : i < ArrayClass2.values33.length),
        s.Get i = .value ArrayClass2.values33[i] :=
  ArrayClass2.addAll_bins_spec ArrayClass2.values33 (by decide)

/-- C7, counterexample: `SetElementIdx(2147483646, 0)` on the empty binned array,
every allocation granted, gives a reachable array of length `L = 2147483647`;
`InsertElement(0, 7)` on it returns with length -2147483648, not `L + 1`. -/
theorem ArrayClass2.InsertElement_bins_wraps :
    ∃ s s1 : ArrayClass2 Int,
      ArrayClass2.SetElementIdx ArrayClass2.granted ArrayClass2.ctor 2147483646 0 = .ok s ∧
      ArrayClass2.Reachable s ∧ s.GetLength = 2147483647 ∧
      ArrayClass2.InsertElement ArrayClass2.granted s 0 7 = .ok s1 ∧
      s1.GetLength = -2147483648 := by
  obtain ⟨s, hs, hwf, hlen, _⟩ := ArrayClass2.SetElementIdx_bins (ArrayClass2.ctor : ArrayClass2 Int)
    2147483646 0 ArrayClass2.ctor_wellFormed (by decide) (by decide)
  have hlen2 : s.m_length = 2147483647 := by
    rw [hlen, ArrayClass2.ctor_eq]
    decide
  have hr : ArrayClass2.Reachable s :=
    ArrayClass2.Reachable.SetElementIdx _ s 2147483646 0 ArrayClass2.Reachable.ctor (by decide)
      (by decide) hs
  obtain ⟨s1, h1, _, hl1, _⟩ := ArrayClass2.InsertElement_bins s 0 7 hwf (by decide)
    (by rw [hlen2]; decide)
  refine ⟨s, s1, hs, hr, hlen2, h1, ?_⟩
  show s1.m_length = -2147483648
  rw [hl1, hlen2]
  decide

/-- C7, amended: for every reachable binned array of length `L < INT_MAX`, every `k`
with `0 <= k < L` and every `v`, `InsertElement(k, v)` returns with length `L + 1`;
positions below `k` are unchanged, position `k` holds `v`, and the element
originally at `i` in `[k, L)` is now at `i + 1`, also when `L` is a multiple of the
bin size. -/
theorem ArrayClass2.InsertElement_bins_shifts {T : Type} [Inhabited T] (s : ArrayClass2 T)
    (k : Int) (v : T) (hr : ArrayClass2.Reachable s) (h0 : 0 ≤ k) (h1 : k < s.GetLength)
    (hmax : s.GetLength < INT_MAX) :
    ∃ s1, ArrayClass2.InsertElement ArrayClass2.granted s k v = .ok s1 ∧
      s1.GetLength = s.GetLength + 1 ∧
      (∀ j : Int, 0 ≤ j → j < k → s1.Get j = s.Get j) ∧
      s1.Get k = .value v ∧
      (∀ i : Int, k ≤ i → i < s.GetLength → s1.Get (i + 1) = s.Get i) := by
  have hwf := hr.valid
  unfold ArrayClass2_RO.GetLength at h1 hmax
  unfold INT_MAX at hmax
  obtain ⟨s1, hs1, hwf1, hlen, hlow, hat, hhigh⟩ :=
    ArrayClass2.InsertElement_bins s k v hwf h0 h1
  have hw : wrapInt (s.m_length + 1) = s.m_length + 1 := by
    apply wrapInt_eq <;> omega
  rw [hw] at hlen
  refine ⟨s1, hs1, hlen, fun j hj0 hj1 => ?_, ?_, fun i hi0 hi1 => ?_⟩
  · exact ArrayClass2.Get_bins_congr s s1 j hwf hwf1 hj0 (by omega) (hlow j hj0 hj1)
  · exact ArrayClass2.Get_bins_value s1 k v hwf1 h0 (by omega) hat
  · unfold ArrayClass2_RO.GetLength at hi1
    obtain ⟨x, hx, hg⟩ := ArrayClass2.cell_live s i hwf (by omega) hi1
    rw [hg]
    exact ArrayClass2.Get_bins_value s1 (i + 1) x hwf1 (by omega) (by omega)
      (by rw [hhigh.1 i hi0 hi1, hx])

/-- C7, witness: `InsertElement(5, 7)` on the array holding `0..31`, whose single bin
is full. -/
theorem ArrayClass2.InsertElement_bins_shifts_witness :
    ∃ s1, ArrayClass2.InsertElement ArrayClass2.granted ArrayClass2.sample32 5 7 = .ok s1 ∧
      s1.GetLength = ArrayClass2.sample32.GetLength + 1 ∧
      (∀ j : Int, 0 ≤ j → j < 5 → s1.Get j = ArrayClass2.sample32.Get j) ∧
      s1.Get 5 = .value 7 ∧
      (∀ i : Int, 5 ≤ i → i < ArrayClass2.sample32.GetLength →
        s1.Get (i + 1) = ArrayClass2.sample32.Get i) :=
  ArrayClass2.InsertElement_bins_shifts ArrayClass2.sample32 5 7
    (ArrayClass2.Reachable.of_addAll_bins ArrayClass2.values32 ArrayClass2.ctor _
      ArrayClass2.Reachable.ctor (by decide))
    (by decide) (by decide) (by decide)

/-- C9: for every reachable binned array of length `L` and every `k` with
`0 <= k < L`, `DeleteElement(k)` returns with length `L - 1`; positions below `k` are
unchanged and the element originally at `i` in `(k, L)` is now at `i - 1`, across
however many bins the shifted range spans. -/
theorem ArrayClass2.DeleteElement_bins_shifts {T : Type} [Inhabited T] (s : ArrayClass2 T)
    (k : Int) (hr : ArrayClass2.Reachable s) (h0 : 0 ≤ k) (h1 : k < s.GetLength) :
    ∃ s1, ArrayClass2.DeleteElement s k = .ok s1 ∧
      s1.GetLength = s.GetLength - 1 ∧
      (∀ j : Int, 0 ≤ j → j < k → s1.Get j = s.Get j) ∧
      (∀ i : Int, k < i → i < s.GetLength → s1.Get (i - 1) = s.Get i) := by
  have hwf := hr.valid
  have hlmax := hwf.2.2.2.2.2.2.2.2.2
  unfold INT_MAX at hlmax
  unfold ArrayClass2_RO.GetLength at h1
  obtain ⟨s1, hs1, hwf1, hlen, hlow, hhigh⟩ := ArrayClass2.DeleteElement_bins s k hwf h0 h1
  refine ⟨s1, hs1, hlen, fun j hj0 hj1 => ?_, fun i hi0 hi1 => ?_⟩
  · exact ArrayClass2.Get_bins_congr s s1 j hwf hwf1 hj0 (by omega) (hlow j hj0 hj1)
  · unfold ArrayClass2_RO.GetLength at hi1
    obtain ⟨x, hx, hg⟩ := ArrayClass2.cell_live s i hwf (by omega) hi1
    rw [hg]
    exact ArrayClass2.Get_bins_value s1 (i - 1) x hwf1 (by omega) (by omega)
      (by rw [hhigh i hi0 hi1, hx])

/-- C9, witness: `DeleteElement(3)` on the array holding `0..32`, which spans two
bins. -/
theorem ArrayClass2.DeleteElement_bins_shifts_witness :
    ∃ s1, ArrayClass2.DeleteElement ArrayClass2.sample33 3 = .ok s1 ∧
      s1.GetLength = ArrayClass2.sample33.GetLength - 1 ∧
      (∀ j : Int, 0 ≤ j → j < 3 → s1.Get j = ArrayClass2.sample33.Get j) ∧
      (∀ i : Int, 3 < i → i < ArrayClass2.sample33.GetLength →
        s1.Get (i - 1) = ArrayClass2.sample33.Get i) :=
  ArrayClass2.DeleteElement_bins_shifts ArrayClass2.sample33 3
    (ArrayClass2.Reachable.of_addAll_bins ArrayClass2.values33 ArrayClass2.ctor _
      ArrayClass2.Reachable.ctor (by decide))
    (by decide) (by decide)

/-- A mutator call on a copy that `IsIndependentCopy` says nothing about: on the
heap holding the array 5, 6, 7, copy-construction gives a copy of length 3, and
`SetElementIdx(2147483647, 7)` on the copy has undefined behaviour (`index + 1`
wraps, `Assure` is skipped, and the write `m_array[2147483647]` is outside the
copy's block). -/
theorem ArrayClassObject.copy_then_wild_write :
    ArrayClass.Reachable (ArrayClassObject.view ArrayClassObject.sampleHeap
        ArrayClassObject.sampleSrc) ∧
      ArrayClassObject.copyCtor true ArrayClassObject.sampleHeap ArrayClassObject.sampleSrc =
        .ok ({ blocks := [some (5 :: 6 :: 7 :: List.replicate 7 0),
                          some (5 :: List.replicate 9 0), some [5, 6, 7]] },
             { m_length := 3, m_array := some 2, m_alloc := 3, m_isValid := true }) ∧
      ArrayClassObject.Mutation.run true (.SetElementIdx 2147483647 7)
        (({ blocks := [some (5 :: 6 :: 7 :: List.replicate 7 0),
                       some (5 :: List.replicate 9 0), some [5, 6, 7]] } : Heap Int),
         ({ m_length := 3, m_array := some 2, m_alloc := 3, m_isValid := true } :
           ArrayClassObject)) = .undefined :=
  ⟨ArrayClass.Reachable.of_addAll [5, 6, 7] ArrayClass.ctor _ ArrayClass.Reachable.ctor
      (by decide), by decide, by decide⟩

/-- C10: for every heap holding a reachable contiguous array `src` of length `L`
(also `L = 0`) and any other array `tgt`, with a block of its own or none,
copy-construction from `src` and copy-assignment of `src` onto `tgt` both return an
array of length `L` whose element `i` equals that of `src` for every `0 <= i < L`;
`src` (length, capacity and block) is as before; and a later `SetElementIdx`,
`InsertElement` or `DeleteElement` on the copy, whether it returns or throws,
leaves `src` as before. -/
theorem ArrayClassObject.copy_independent {T : Type} [Inhabited T] (h : Heap T)
    (src tgt : ArrayClassObject) (hsrc : ArrayClassObject.Live h src)
    (_htgt : ArrayClassObject.Live h tgt)
    (hsep : ∀ a, tgt.m_array = some a → src.m_array ≠ some a)
    (hrs : ArrayClass.Reachable (ArrayClassObject.view h src)) :
    (∃ h1 c, ArrayClassObject.copyCtor true h src = .ok (h1, c) ∧
        ArrayClassObject.IsIndependentCopy h src h1 c) ∧
    (∃ h1 c, ArrayClassObject.assign true (h, tgt) src = .ok (h1, c) ∧
        ArrayClassObject.IsIndependentCopy h src h1 c) := by
  have hwf := hrs.wellFormed
  constructor
  · exact ArrayClassObject.copyFrom_independent h h src ArrayClassObject.ctor rfl rfl rfl hsrc
      rfl hwf
  · have hkeep : ∀ a, src.m_array = some a → (h.delete tgt.m_array).get a = h.get a := by
      intro a ha
      apply ArrayClassObject.get_delete_other
      intro hh
      exact hsep a hh ha
    have hsrc0 : ArrayClassObject.Live (h.delete tgt.m_array) src := by
      intro a ha
      obtain ⟨blk, hg⟩ := hsrc a ha
      exact ⟨blk, by rw [hkeep a ha]; exact hg⟩
    exact ArrayClassObject.copyFrom_independent h (h.delete tgt.m_array) src _ rfl rfl rfl hsrc0
      (ArrayClassObject.view_congr h _ src hkeep) hwf

/-- C10, witness: the array 5, 6, 7 at address 0 copied, and assigned onto the
array at address 1. -/
theorem ArrayClassObject.copy_independent_witness :
    (∃ h1 c, ArrayClassObject.copyCtor true ArrayClassObject.sampleHeap
          ArrayClassObject.sampleSrc = .ok (h1, c) ∧
        ArrayClassObject.IsIndependentCopy ArrayClassObject.sampleHeap
          ArrayClassObject.sampleSrc h1 c) ∧
    (∃ h1 c, ArrayClassObject.assign true (ArrayClassObject.sampleHeap,
          ArrayClassObject.sampleTgt) ArrayClassObject.sampleSrc = .ok (h1, c) ∧
        ArrayClassObject.IsIndependentCopy ArrayClassObject.sampleHeap
          ArrayClassObject.sampleSrc h1 c) :=
  ArrayClassObject.copy_independent ArrayClassObject.sampleHeap ArrayClassObject.sampleSrc
    ArrayClassObject.sampleTgt
    (fun a ha => by
      have ha2 : a = 0 := (Option.some.inj ha).symm
      rw [ha2]
      exact ⟨_, rfl⟩)
    (fun a ha => by
      have ha2 : a = 1 := (Option.some.inj ha).symm
      rw [ha2]
      exact ⟨_, rfl⟩)
    (fun a ha hb => by
      have ha2 : (1 : Nat) = a := Option.some.inj ha
      have hb2 : (0 : Nat) = a := Option.some.inj hb
      omega)
    (ArrayClass.Reachable.of_addAll [5, 6, 7] ArrayClass.ctor _ ArrayClass.Reachable.ctor
      (by decide))

/-- C12, counterexample: the binned array holding `0..32` (33 calls of `Add`) has
length 33, yet `Get(33)` raises nothing, it returns the default element of the
unused cell next to the last element; `Get(-1)` raises nothing either, it reads
`m_array[-1]`, outside the directory. -/
theorem ArrayClass2_RO.Get_bins_unchecked :
    ArrayClass2.addAll ArrayClass2.granted ArrayClass2.values33 ArrayClass2.ctor =
        .ok ArrayClass2.sample33 ∧
      ArrayClass2.sample33.GetLength = 33 ∧
      ArrayClass2.sample33.Get 33 = .value 0 ∧
      ArrayClass2.sample33.Get (-1) = .undefined := by
  decide

/-- C12, amended: for every contiguous array, of every length, `Get(-1)` and
`Get(length)` throw `CDynamicArrayException` carrying the container; the binned
`Get` is unchecked: for no array and no index does it throw. -/
theorem ArrayClass_RO.Get_at_bounds {T : Type} (a : ArrayClass_RO T) (b : ArrayClass2_RO T)
    (index : Int) (e : ArrayException (ArrayClass2_RO T)) :
    a.Get (-1) = .throw (.CDynamicArrayException a) ∧
      a.Get a.GetLength = .throw (.CDynamicArrayException a) ∧
      b.Get index ≠ .throw e := by
  refine ⟨?_, ?_, ?_⟩
  · unfold ArrayClass_RO.Get
    rw [if_pos (Or.inr (Or.inl (by decide)))]
  · unfold ArrayClass_RO.Get ArrayClass_RO.GetLength
    rw [if_pos (Or.inl (le_refl _))]
  · unfold ArrayClass2_RO.Get
    cases b.read index <;> intro h <;> cases h

/-- C13: for every state of the binned array and every index at or above the
length, `SafeGet(index)` returns the null pointer. -/
theorem ArrayClass2_RO.SafeGet_beyond {T : Type} (s : ArrayClass2_RO T) (index : Int)
    (h : s.GetLength ≤ index) : s.SafeGet index = .value none := by
  unfold ArrayClass2_RO.SafeGet
  unfold ArrayClass2_RO.GetLength at h
  rw [if_neg (by omega)]

/-- C13, witness: `SafeGet(33)` on the array holding `0..32`. -/
theorem ArrayClass2_RO.SafeGet_beyond_witness :
    ArrayClass2.sample33.SafeGet 33 = .value none :=
  ArrayClass2_RO.SafeGet_beyond ArrayClass2.sample33 33 (by decide)

/-- C14, the code at the failing input: on the binned array holding `0..31` (32
calls of `Add`; one bin), `SafeGet(-1)` passes the three tests (`-1 < 32`, bin
`-1 < 1`, slot `31 < 32`) and forms `&m_array[-1][31]`, reading `m_array[-1]`
outside the directory, instead of returning the null pointer; the same on the
freshly constructed array, whose directory is null. -/
theorem ArrayClass2_RO.SafeGet_negative :
    ArrayClass2.addAll ArrayClass2.granted ArrayClass2.values32 ArrayClass2.ctor =
        .ok ArrayClass2.sample32 ∧
      ArrayClass2.sample32.GET_BIN_INDEX (-1) = some (-1) ∧
      ArrayClass2.sample32.GET_SLOT_INDEX (-1) = 31 ∧
      ArrayClass2.sample32.SafeGet (-1) = .undefined ∧
      ArrayClass2.sample32.SafeGet (-1) ≠ .value none ∧
      (ArrayClass2.ctor : ArrayClass2 Int).SafeGet (-1) ≠ .value none := by
  decide

/-- C15: for every reachable binned array and every index with
`0 <= index < length`, `SafeGet(index)` returns a non-null pointer, to the cell
of bin `index >> binShift` and slot `slotMask & index`, which is the cell
`Get(index)` reads; that bin is below the bin count. -/
theorem ArrayClass2_RO.SafeGet_live {T : Type} [Inhabited T] (s : ArrayClass2 T) (index : Int)
    (hr : ArrayClass2.Reachable s) (h0 : 0 ≤ index) (h1 : index < s.GetLength) :
    ∃ (bin slot : Int) (dir : List (List T)) (x : T),
      s.SafeGet index = .value (some (bin, slot)) ∧
      s.GET_BIN_INDEX index = some bin ∧ s.GET_SLOT_INDEX index = slot ∧
      bin < s.m_binCount ∧ s.m_array = some dir ∧ readCell dir bin slot = some x ∧
      s.Get index = .value x := by
  obtain ⟨hmpb, hmask, hshift, hvalid, hlen, hok, hcap, hbmax, hlmin, hlmax⟩ := hr.valid
  unfold ArrayClass2_RO.GetLength at h1
  unfold INT_MAX at hlmax
  have hpos : 0 < (ArrayClass2.bins s).length := by omega
  have hd := ArrayClass2.array_of_bins hpos
  have hbin : s.GET_BIN_INDEX index = some (index / 32) := by
    unfold ArrayClass2_RO.GET_BIN_INDEX
    rw [hshift]
    exact ArrayClass2.shiftRightInt_five index
  have hslot : s.GET_SLOT_INDEX index = index % 32 := by
    unfold ArrayClass2_RO.GET_SLOT_INDEX
    rw [hmask]
    exact ArrayClass2.andInt_mask index h0 (by omega)
  obtain ⟨b, hb⟩ := load_isSome (ArrayClass2.bins s) (index / 32) (by omega) (by omega)
  have hbl := hok b (ArrayClass2.load_mem _ _ b hb)
  obtain ⟨x, hx⟩ := load_isSome b (index % 32) (by omega) (by omega)
  have hcell : readCell (ArrayClass2.bins s) (index / 32) (index % 32) = some x := by
    unfold readCell
    simp only [hb, hx]
  refine ⟨index / 32, index % 32, ArrayClass2.bins s, x, ?_, hbin, hslot, by omega, hd, hcell, ?_⟩
  · unfold ArrayClass2_RO.SafeGet
    rw [if_pos h1, hbin]
    simp only
    rw [if_pos (by omega), hslot, hmpb, if_pos (by omega), hd]
    simp only [hb]
    rw [if_pos ⟨by omega, by omega⟩]
  · unfold ArrayClass2_RO.Get ArrayClass2_RO.read
    rw [hd, hbin]
    simp only
    rw [hslot, hcell]

/-- C15, witness: `SafeGet(32)` on the array holding `0..32`: bin 1, slot 0. -/
theorem ArrayClass2_RO.SafeGet_live_witness :
    ∃ (bin slot : Int) (dir : List (List Int)) (x : Int),
      ArrayClass2.sample33.SafeGet 32 = .value (some (bin, slot)) ∧
      ArrayClass2.sample33.GET_BIN_INDEX 32 = some bin ∧
      ArrayClass2.sample33.GET_SLOT_INDEX 32 = slot ∧
      bin < ArrayClass2.sample33.m_binCount ∧ ArrayClass2.sample33.m_array = some dir ∧
      readCell dir bin slot = some x ∧ ArrayClass2.sample33.Get 32 = .value x :=
  ArrayClass2_RO.SafeGet_live ArrayClass2.sample33 32
    (ArrayClass2.Reachable.of_addAll_bins ArrayClass2.values33 ArrayClass2.ctor _
      ArrayClass2.Reachable.ctor (by decide))
    (by decide) (by decide)

/-- C18: in both families, for every state, `SetElementIdx(index, v)` and
`InsertElement(index, v)` with `index < 0`, and `DeleteElement(index)` with
`index < 0` or `index >= length`, return normally and leave the whole state (length,
capacity, validity flag, storage) as it was, whatever the allocator would answer. -/
theorem ArrayClass.rejected_index_noop {T : Type} [Inhabited T] (g : Bool) (grants : Nat → Bool)
    (a : ArrayClass T) (b : ArrayClass2 T) (index : Int) (v : T) :
    (index < 0 →
      ArrayClass.SetElementIdx g a index v = .ok a ∧
      ArrayClass.InsertElement g a index v = .ok a ∧
      ArrayClass2.SetElementIdx grants b index v = .ok b ∧
      ArrayClass2.InsertElement grants b index v = .ok b) ∧
    (index < 0 ∨ index ≥ a.GetLength → ArrayClass.DeleteElement a index = .ok a) ∧
    (index < 0 ∨ index ≥ b.GetLength → ArrayClass2.DeleteElement b index = .ok b) := by
  refine ⟨fun h => ⟨?_, ?_, ?_, ?_⟩, fun h => ?_, fun h => ?_⟩
  · unfold ArrayClass.SetElementIdx
    rw [if_neg (by omega)]
  · unfold ArrayClass.InsertElement
    rw [if_neg (by omega)]
  · unfold ArrayClass2.SetElementIdx
    rw [if_neg (by omega)]
  · unfold ArrayClass2.InsertElement
    rw [if_neg (by omega)]
  · unfold ArrayClass_RO.GetLength at h
    exact ArrayClass.DeleteElement_outside a index (by omega)
  · unfold ArrayClass2_RO.GetLength at h
    exact ArrayClass2.DeleteElement_bins_outside b index (by omega)

/-- C18, witness: index -1 on the contiguous array holding 5, 6, 7 and on the binned
array holding `0..32`; `DeleteElement(-1)` on both. -/
theorem ArrayClass.rejected_index_noop_witness :
    (ArrayClass.SetElementIdx true ArrayClass.sampleThree (-1) 9 = .ok ArrayClass.sampleThree ∧
      ArrayClass.InsertElement true ArrayClass.sampleThree (-1) 9 = .ok ArrayClass.sampleThree ∧
      ArrayClass2.SetElementIdx ArrayClass2.granted ArrayClass2.sample33 (-1) 9 =
        .ok ArrayClass2.sample33 ∧
      ArrayClass2.InsertElement ArrayClass2.granted ArrayClass2.sample33 (-1) 9 =
        .ok ArrayClass2.sample33) ∧
    ArrayClass.DeleteElement ArrayClass.sampleThree (-1) = .ok ArrayClass.sampleThree ∧
    ArrayClass2.DeleteElement ArrayClass2.sample33 (-1) = .ok ArrayClass2.sample33 :=
  ⟨(ArrayClass.rejected_index_noop true ArrayClass2.granted ArrayClass.sampleThree
      ArrayClass2.sample33 (-1) 9).1 (by decide),
    (ArrayClass.rejected_index_noop true ArrayClass2.granted ArrayClass.sampleThree
      ArrayClass2.sample33 (-1) 9).2.1 (Or.inl (by decide)),
    (ArrayClass.rejected_index_noop true ArrayClass2.granted ArrayClass.sampleThree
      ArrayClass2.sample33 (-1) 9).2.2 (Or.inl (by decide))⟩

/-- C20: for every state of the contiguous array, `Reset` leaves the storage null
and length and capacity 0; for every state of the binned array, `Reset` leaves the
directory null and bin count and length 0, and keeps bin size, bin shift and slot
mask.  `Reset` is idempotent in both families.  A following `Add(v)` (allocations
granted) returns with length 1 and `Get(0) == v`: on every contiguous array, and on
every binned array that is valid, with the bin geometry the constructor sets. -/
theorem ArrayClass.Reset_spec {T : Type} [Inhabited T] (a : ArrayClass T) (b : ArrayClass2 T)
    (v : T) :
    ((ArrayClass.Reset a).m_array = none ∧ (ArrayClass.Reset a).GetLength = 0 ∧
      (ArrayClass.Reset a).m_alloc = 0) ∧
    ((ArrayClass2.Reset b).m_array = none ∧ (ArrayClass2.Reset b).m_binCount = 0 ∧
      (ArrayClass2.Reset b).GetLength = 0 ∧ (ArrayClass2.Reset b).m_maxPerBin = b.m_maxPerBin ∧
      (ArrayClass2.Reset b).m_binShift = b.m_binShift ∧
      (ArrayClass2.Reset b).m_slotMask = b.m_slotMask) ∧
    ArrayClass.Reset (ArrayClass.Reset a) = ArrayClass.Reset a ∧
    ArrayClass2.Reset (ArrayClass2.Reset b) = ArrayClass2.Reset b ∧
    (∃ a1, ArrayClass.Add true (ArrayClass.Reset a) v = .ok a1 ∧ a1.GetLength = 1 ∧
      a1.Get 0 = .value v) ∧
    (b.m_valid = true → b.m_maxPerBin = 32 → b.m_binShift = 5 → b.m_slotMask = 31 →
      ∃ b1, ArrayClass2.Add ArrayClass2.granted (ArrayClass2.Reset b) v = .ok b1 ∧
        b1.GetLength = 1 ∧ b1.Get 0 = .value v) := by
  refine ⟨⟨rfl, rfl, rfl⟩, ⟨rfl, rfl, rfl, rfl, rfl, rfl⟩, rfl, rfl, ?_, ?_⟩
  · have hwf : ArrayClass.WellFormed (ArrayClass.Reset a) := by
      refine ⟨rfl, le_refl _, le_refl _, ?_⟩
      show (0 : Int) ≤ INT_MAX
      decide
    have ha : (ArrayClass.Reset a).m_alloc = 0 := rfl
    have hl : (ArrayClass.Reset a).m_length = 0 := rfl
    obtain ⟨a1, h1, _, hlen, hat, _, _, hsome, _, _⟩ :=
      ArrayClass.SetElementIdx_grows (ArrayClass.Reset a) 0 v hwf (le_refl _)
        (by rw [ha]) (by decide)
    rw [hl] at hlen
    refine ⟨a1, ?_, ?_, ?_⟩
    · unfold ArrayClass.Add
      rw [hl]
      exact h1
    · show a1.m_length = 1
      rw [hlen]
      decide
    · exact ArrayClass.Get_value a1 0 v (le_refl _) (by rw [hlen]; decide) hsome hat
  · intro hvalid hmpb hshift hmask
    have hwf : ArrayClass2.WellFormed (ArrayClass2.Reset b) := by
      refine ⟨hmpb, hmask, hshift, hvalid, rfl, fun c hc => ?_, ?_, ?_, ?_, ?_⟩
      · cases hc
      · show (0 : Int) ≤ 32 * 0
        decide
      · show (0 : Int) ≤ 67108864
        decide
      · show INT_MIN ≤ (0 : Int)
        decide
      · show (0 : Int) ≤ INT_MAX
        decide
    have hl : (ArrayClass2.Reset b).m_length = 0 := rfl
    obtain ⟨b1, h1, hwf1, hlen, hat, _, _, _⟩ :=
      ArrayClass2.SetElementIdx_bins (ArrayClass2.Reset b) 0 v hwf (le_refl _) (by decide)
    rw [hl] at hlen
    refine ⟨b1, ?_, ?_, ?_⟩
    · unfold ArrayClass2.Add
      rw [hl]
      exact h1
    · show b1.m_length = 1
      rw [hlen]
      decide
    · exact ArrayClass2.Get_bins_value b1 0 v hwf1 (le_refl _) (by decide) hat

/-- C20, witness: `Reset` and then `Add(9)` on the contiguous array holding 5, 6, 7
and on the binned array holding `0..32`. -/
theorem ArrayClass.Reset_spec_witness :
    ∃ b1, ArrayClass2.Add ArrayClass2.granted (ArrayClass2.Reset ArrayClass2.sample33) 9 =
        .ok b1 ∧
      b1.GetLength = 1 ∧ b1.Get 0 = .value 9 :=
  (ArrayClass.Reset_spec ArrayClass.sampleThree ArrayClass2.sample33 9).2.2.2.2.2
    (by decide) (by decide) (by decide) (by decide)

/-- C17, counterexample: after `Add(1); DeleteElement(0); SetElementIdx(10, 7)` on a
freshly constructed contiguous array and on a freshly constructed binned array,
every allocation granted, both have length 11, but `Get(0)` is the default 0 on the
contiguous array (the new block of 30 received no element) and the removed 1 on the
binned array (the bin kept it). -/
theorem Call.families_differ :
    ∃ (a : ArrayClass Int) (b : ArrayClass2 Int),
      Call.runArrayClass true Call.staleCalls ArrayClass.ctor = .ok a ∧
      Call.runArrayClass2 ArrayClass2.granted Call.staleCalls ArrayClass2.ctor = .ok b ∧
      a.GetLength = 11 ∧ b.GetLength = 11 ∧ a.Get 0 = .value 0 ∧ b.Get 0 = .value 1 :=
  ⟨_, _, rfl, rfl, by decide, by decide, by decide, by decide⟩

/-- C17, amended: for every finite sequence of `Add`, `SetElementIdx`,
`InsertElement`, `DeleteElement` and `Reset` calls, with any integer indices, in
which the length stays at most 1073741819 and no `SetElementIdx` or `InsertElement`
with `index > length` comes after a `DeleteElement` that removed an element unless
a `Reset` came in between (`shapes` admits the sequence), the calls applied to a
fresh contiguous array and to a fresh binned array, every allocation granted, all
return, and the two arrays end with the same length and with `Get(i)` returning the
same element for every `0 <= i < length`.  For positions that no call has written
this rests on the cells of a fresh block holding the default-constructed value, the
premise of an element type with a default constructor. -/
theorem Call.families_agree {T : Type} [Inhabited T] (cs : List (Call T)) (sh : Shape)
    (h : Call.shapes cs { length := 0, pristine := true } = some sh) :
    ∃ (a : ArrayClass T) (b : ArrayClass2 T),
      Call.runArrayClass true cs ArrayClass.ctor = .ok a ∧
      Call.runArrayClass2 ArrayClass2.granted cs ArrayClass2.ctor = .ok b ∧
      a.GetLength = sh.length ∧ b.GetLength = sh.length ∧
      ∀ i : Int, 0 ≤ i → i < sh.length → ∃ x, a.Get i = .value x ∧ b.Get i = .value x := by
  obtain ⟨a, b, ha, hb, hag, hl⟩ := Call.agree_run cs ArrayClass.ctor ArrayClass2.ctor
    { length := 0, pristine := true } sh Call.agree_ctor rfl h
  obtain ⟨hwa, hwb, hlen, hL, hsame, _⟩ := hag
  refine ⟨a, b, ha, hb, hl, ?_, fun i hi0 hi1 => ?_⟩
  · show b.m_length = sh.length
    rw [← hlen]
    exact hl
  · rw [← hl] at hi1
    obtain ⟨x, hx, hg⟩ := ArrayClass.load_live a i hwa hi0 hi1
    refine ⟨x, hg, ?_⟩
    rw [hsame i hi0 hi1] at hx
    exact ArrayClass2.Get_bins_value b i x hwb hi0 (by omega) hx

/-- C17, witness: ten calls, among them a write and an insertion beyond the end of
the pristine arrays, a removal and a reset; both arrays end with length 2. -/
theorem Call.families_agree_witness :
    ∃ (a : ArrayClass Int) (b : ArrayClass2 Int),
      Call.runArrayClass true Call.sampleCalls ArrayClass.ctor = .ok a ∧
      Call.runArrayClass2 ArrayClass2.granted Call.sampleCalls ArrayClass2.ctor = .ok b ∧
      a.GetLength = 2 ∧ b.GetLength = 2 ∧
      ∀ i : Int, 0 ≤ i → i < 2 → ∃ x, a.Get i = .value x ∧ b.Get i = .value x :=
  Call.families_agree Call.sampleCalls { length := 2, pristine := true } (by decide)

/-- C11, counterexample: from the empty binned array, `SetElementIdx(2147483646, 0)`
and `Add(0)`, every allocation granted, give a reachable valid array of length
`INT_MIN` (the length wraps); copy-constructing from it gives the reachable valid
array `t` without storage and of length `INT_MIN`.  Copy-assigning the freshly
constructed array (`L = 0`) onto `t` returns with length `INT_MIN`, not 0: the
length is cleared only when the target has storage. -/
theorem ArrayClass2.assign_bins_stale_length :
    ArrayClass2.Reachable ArrayClass2.sampleNegative ∧
      ArrayClass2.sampleNegative.m_valid = true ∧
      ArrayClass2.Reachable (ArrayClass2.ctor : ArrayClass2 Int) ∧
      (ArrayClass2.ctor : ArrayClass2 Int).GetLength = 0 ∧
      ArrayClass2.assign ArrayClass2.granted ArrayClass2.sampleNegative ArrayClass2.ctor =
        .ok ArrayClass2.sampleNegative ∧
      ArrayClass2.sampleNegative.GetLength = -2147483648 := by
  refine ⟨?_, rfl, ArrayClass2.Reachable.ctor, by decide, by decide, rfl⟩
  obtain ⟨s, hs, hwf, hlen, _⟩ := ArrayClass2.SetElementIdx_bins
    (ArrayClass2.ctor : ArrayClass2 Int) 2147483646 0 ArrayClass2.ctor_wellFormed
    (by decide) (by decide)
  have hl0 : (ArrayClass2.ctor : ArrayClass2 Int).m_length = 0 := by
    rw [ArrayClass2.ctor_eq]
  rw [hl0] at hlen
  have hlen2 : s.m_length = 2147483647 := by
    rw [hlen]
    decide
  have hrs : ArrayClass2.Reachable s :=
    ArrayClass2.Reachable.SetElementIdx _ s 2147483646 0 ArrayClass2.Reachable.ctor
      (by decide) (by decide) hs
  have hcap := hwf.2.2.2.2.2.2.1
  rcases ArrayClass2.SetElementIdx_bins_top s 0 hwf with ⟨hlt, _⟩ | ⟨_, w, hw, hwfw, hlw⟩
  · omega
  · have hrw : ArrayClass2.Reachable w := by
      refine ArrayClass2.Reachable.Add s w 0 hrs ?_
      unfold ArrayClass2.Add
      rw [hlen2]
      exact hw
    refine ArrayClass2.Reachable.copyCtor w _ hrw ?_
    have ha : ArrayClass2.Assure ArrayClass2.granted (ArrayClass2.ctor : ArrayClass2 Int)
        (-2147483648) = .ok ArrayClass2.ctor := by decide
    have hnone : (ArrayClass2.ctor : ArrayClass2 Int).m_array.isSome = false := by decide
    have ht : (-2147483648 : Int).toNat = 0 := by decide
    have hv : (ArrayClass2.ctor : ArrayClass2 Int).m_valid = true := by decide
    unfold ArrayClass2.copyCtor ArrayClass2.assign
    rw [hlw]
    simp only [hnone, Bool.false_eq_true, if_false]
    rw [if_pos (by decide), ha]
    simp only [Outcome.andThen, hv, if_true, ht, ArrayClass2.copyElements]
    decide

/-- C11, amended: for every heap holding a reachable valid binned array `src` of
length `L` (also `L = 0`) and any other reachable valid array `tgt` of non-negative
length (empty, shorter or longer than `src`), copy-construction from `src` and
copy-assignment of `src` onto `tgt` both return an array of length `L` whose element
`i` equals that of `src` for every `0 <= i < L`; `src` (members, directory and bins)
is as before; and a later `Add`, `SetElementIdx`, `InsertElement`, `DeleteElement`
or `Reset` on the copy, whether it returns or throws, leaves `src` as before. -/
theorem ArrayClass2Object.copy_bins_independent {T : Type} [Inhabited T] (h : Heap2 T)
    (src tgt : ArrayClass2Object) (hsrc : ArrayClass2Object.Live h src)
    (htgt : ArrayClass2Object.Live h tgt) (hsep : ArrayClass2Object.Apart h tgt src)
    (hrs : ArrayClass2.Reachable (ArrayClass2Object.view h src))
    (hrt : ArrayClass2.Reachable (ArrayClass2Object.view h tgt))
    (htl : 0 ≤ tgt.m_length) :
    (∃ h1 c, ArrayClass2Object.copyCtor ArrayClass2.granted h src = .ok (h1, c) ∧
        ArrayClass2Object.IsIndependentCopy h src h1 c) ∧
    (∃ h1 c, ArrayClass2Object.assign ArrayClass2.granted (h, tgt) src = .ok (h1, c) ∧
        ArrayClass2Object.IsIndependentCopy h src h1 c) := by
  constructor
  · exact ArrayClass2Object.assign_independent h src ArrayClass2Object.ctor hsrc
      (ArrayClass2Object.ctor_live h) (ArrayClass2Object.ctor_apart h src) hrs.valid
      (by rw [ArrayClass2Object.view_ctor]; exact ArrayClass2.ctor_wellFormed)
      (by rw [ArrayClass2Object.ctor_obj_eq])
  · exact ArrayClass2Object.assign_independent h src tgt hsrc htgt hsep hrs.valid hrt.valid htl

/-- C11, witness: the array 5, 6, 7 copied, and assigned onto the array holding 9,
on a heap where each has its own directory and bin. -/
theorem ArrayClass2Object.copy_bins_independent_witness :
    (∃ h1 c, ArrayClass2Object.copyCtor ArrayClass2.granted ArrayClass2Object.sampleHeap
          ArrayClass2Object.sampleSrc = .ok (h1, c) ∧
        ArrayClass2Object.IsIndependentCopy ArrayClass2Object.sampleHeap
          ArrayClass2Object.sampleSrc h1 c) ∧
    (∃ h1 c, ArrayClass2Object.assign ArrayClass2.granted (ArrayClass2Object.sampleHeap,
          ArrayClass2Object.sampleTgt) ArrayClass2Object.sampleSrc = .ok (h1, c) ∧
        ArrayClass2Object.IsIndependentCopy ArrayClass2Object.sampleHeap
          ArrayClass2Object.sampleSrc h1 c) :=
  ArrayClass2Object.copy_bins_independent ArrayClass2Object.sampleHeap
    ArrayClass2Object.sampleSrc ArrayClass2Object.sampleTgt ArrayClass2Object.sampleSrc_live
    ArrayClass2Object.sampleTgt_live ArrayClass2Object.sample_apart
    (ArrayClass2.Reachable.of_addAll_bins [5, 6, 7] ArrayClass2.ctor _
      ArrayClass2.Reachable.ctor (by decide))
    (ArrayClass2.Reachable.of_addAll_bins [9] ArrayClass2.ctor _
      ArrayClass2.Reachable.ctor (by decide))
    (by decide)

/-- C16, counterexample: the array holding `0..31` in one full bin is reachable and
valid; `InsertElement(0, 99)`, every allocation granted, raises its bin count from 1
to 2, and afterwards the cell of bin 0 and slot 0, the one `SafeGet(0)` points to
before and after, holds 99 instead of 0: the element that was at index 0 is now in
slot 1, and the contents of the old bin below the old length 32 have changed. -/
theorem ArrayClass2Object.InsertElement_moves :
    ArrayClass2Object.Live ArrayClass2Object.sampleHeap32 ArrayClass2Object.sampleObj32 ∧
    ArrayClass2.Reachable
      (ArrayClass2Object.view ArrayClass2Object.sampleHeap32 ArrayClass2Object.sampleObj32) ∧
    ∃ h1 o1, ArrayClass2Object.InsertElement ArrayClass2.granted
        (ArrayClass2Object.sampleHeap32, ArrayClass2Object.sampleObj32) 0 99 = .ok (h1, o1) ∧
      ArrayClass2Object.sampleObj32.m_binCount = 1 ∧ o1.m_binCount = 2 ∧
      ArrayClass2Object.SafeGet
        (ArrayClass2Object.sampleHeap32, ArrayClass2Object.sampleObj32) 0 =
          .value (some (0, 0)) ∧
      ArrayClass2Object.SafeGet (h1, o1) 0 = .value (some (0, 0)) ∧
      ArrayClass2Object.Get
        (ArrayClass2Object.sampleHeap32, ArrayClass2Object.sampleObj32) 0 = .value 0 ∧
      ArrayClass2Object.Get (h1, o1) 0 = .value 99 ∧
      ArrayClass2Object.Get (h1, o1) 1 = .value 0 := by
  refine ⟨ArrayClass2Object.sampleObj32_live,
    ArrayClass2.Reachable.of_addAll_bins ArrayClass2.values32 ArrayClass2.ctor _
      ArrayClass2.Reachable.ctor (by decide), _, _, rfl, ?_⟩
  decide

/-- C16, amended: for every heap holding a reachable valid binned array of length
below `INT_MAX`, every allocation granted, `Add(value)`, and for
`0 <= index < INT_MAX` also `SetElementIdx(index, value)` and
`InsertElement(index, value)`, return; the bin count does not shrink; the new
directory starts with the cells of the old one (the old bins, at the same
addresses, in the same positions) and for every `0 <= i < length` (the old length)
`SafeGet(i)` returns the same non-null pointer before and after.  After `Add` the
contents of every cell below the old length are unchanged; after `SetElementIdx`
those of every such cell other than cell `index`, and when the bin count was raised
`index` is not below the old length; after `InsertElement` only those of the cells
below `index`, the elements from `index` on being one cell further. -/
theorem ArrayClass2Object.bins_stay {T : Type} [Inhabited T] (h : Heap2 T)
    (o : ArrayClass2Object) (index : Int) (value : T) (hl : ArrayClass2Object.Live h o)
    (hr : ArrayClass2.Reachable (ArrayClass2Object.view h o)) (h0 : 0 ≤ index)
    (hmax : index < INT_MAX) (hlen : o.m_length < INT_MAX) :
    (∃ h1 o1, ArrayClass2Object.Add ArrayClass2.granted (h, o) value = .ok (h1, o1) ∧
      ArrayClass2Object.Stays (h, o) (h1, o1) ∧ o.m_binCount ≤ o1.m_binCount ∧
      ∀ i : Int, 0 ≤ i → i < o.m_length →
        ArrayClass2Object.Get (h1, o1) i = ArrayClass2Object.Get (h, o) i) ∧
    (∃ h1 o1, ArrayClass2Object.SetElementIdx ArrayClass2.granted (h, o) index value =
        .ok (h1, o1) ∧
      ArrayClass2Object.Stays (h, o) (h1, o1) ∧ o.m_binCount ≤ o1.m_binCount ∧
      (o.m_binCount < o1.m_binCount → o.m_length ≤ index) ∧
      ∀ i : Int, 0 ≤ i → i < o.m_length → i ≠ index →
        ArrayClass2Object.Get (h1, o1) i = ArrayClass2Object.Get (h, o) i) ∧
    (∃ h1 o1, ArrayClass2Object.InsertElement ArrayClass2.granted (h, o) index value =
        .ok (h1, o1) ∧
      ArrayClass2Object.Stays (h, o) (h1, o1) ∧ o.m_binCount ≤ o1.m_binCount ∧
      (∀ i : Int, 0 ≤ i → i < o.m_length → i < index →
        ArrayClass2Object.Get (h1, o1) i = ArrayClass2Object.Get (h, o) i) ∧
      ∀ i : Int, index ≤ i → i < o.m_length →
        ArrayClass2Object.Get (h1, o1) (i + 1) = ArrayClass2Object.Get (h, o) i) := by
  unfold INT_MAX at hmax hlen
  exact ⟨ArrayClass2Object.Add_stays h o value hl hr.valid hlen,
    ArrayClass2Object.SetElementIdx_stays h o index value hl hr.valid h0 hmax,
    ArrayClass2Object.InsertElement_stays h o index value hl hr.valid h0 hmax hlen⟩

/-- C16, witness: the array holding `0..31` in one full bin, where `Add(99)` and
`SetElementIdx(40, 99)` each need a second bin, and `InsertElement(40, 99)`. -/
theorem ArrayClass2Object.bins_stay_witness :
    (∃ h1 o1, ArrayClass2Object.Add ArrayClass2.granted
        (ArrayClass2Object.sampleHeap32, ArrayClass2Object.sampleObj32) 99 = .ok (h1, o1) ∧
      ArrayClass2Object.Stays (ArrayClass2Object.sampleHeap32, ArrayClass2Object.sampleObj32)
        (h1, o1) ∧
      ArrayClass2Object.sampleObj32.m_binCount ≤ o1.m_binCount ∧
      ∀ i : Int, 0 ≤ i → i < ArrayClass2Object.sampleObj32.m_length →
        ArrayClass2Object.Get (h1, o1) i =
          ArrayClass2Object.Get
            (ArrayClass2Object.sampleHeap32, ArrayClass2Object.sampleObj32) i) ∧
    (∃ h1 o1, ArrayClass2Object.SetElementIdx ArrayClass2.granted
        (ArrayClass2Object.sampleHeap32, ArrayClass2Object.sampleObj32) 40 99 = .ok (h1, o1) ∧
      ArrayClass2Object.Stays (ArrayClass2Object.sampleHeap32, ArrayClass2Object.sampleObj32)
        (h1, o1) ∧
      ArrayClass2Object.sampleObj32.m_binCount ≤ o1.m_binCount ∧
      (ArrayClass2Object.sampleObj32.m_binCount < o1.m_binCount →
        ArrayClass2Object.sampleObj32.m_length ≤ 40) ∧
      ∀ i : Int, 0 ≤ i → i < ArrayClass2Object.sampleObj32.m_length → i ≠ 40 →
        ArrayClass2Object.Get (h1, o1) i =
          ArrayClass2Object.Get
            (ArrayClass2Object.sampleHeap32, ArrayClass2Object.sampleObj32) i) ∧
    (∃ h1 o1, ArrayClass2Object.InsertElement ArrayClass2.granted
        (ArrayClass2Object.sampleHeap32, ArrayClass2Object.sampleObj32) 40 99 = .ok (h1, o1) ∧
      ArrayClass2Object.Stays (ArrayClass2Object.sampleHeap32, ArrayClass2Object.sampleObj32)
        (h1, o1) ∧
      ArrayClass2Object.sampleObj32.m_binCount ≤ o1.m_binCount ∧
      (∀ i : Int, 0 ≤ i → i < ArrayClass2Object.sampleObj32.m_length → i < 40 →
        ArrayClass2Object.Get (h1, o1) i =
          ArrayClass2Object.Get
            (ArrayClass2Object.sampleHeap32, ArrayClass2Object.sampleObj32) i) ∧
      ∀ i : Int, 40 ≤ i → i < ArrayClass2Object.sampleObj32.m_length →
        ArrayClass2Object.Get (h1, o1) (i + 1) =
          ArrayClass2Object.Get
            (ArrayClass2Object.sampleHeap32, ArrayClass2Object.sampleObj32) i) :=
  ArrayClass2Object.bins_stay ArrayClass2Object.sampleHeap32 ArrayClass2Object.sampleObj32 40 99
    ArrayClass2Object.sampleObj32_live
    (ArrayClass2.Reachable.of_addAll_bins ArrayClass2.values32 ArrayClass2.ctor _
      ArrayClass2.Reachable.ctor (by decide))
    (by decide) (by decide) (by decide)

/-- C30, counterexample: the binned array without storage whose length is `INT_MIN`
is reachable (from the empty array by `SetElementIdx(2147483646, 0)`, `Add(0)` and
copy-construction, every allocation granted), and its length is negative. -/
theorem ArrayClass2.reachable_negative_length :
    ArrayClass2.Reachable ArrayClass2.sampleNegative ∧
      ArrayClass2.sampleNegative.GetLength = INT_MIN ∧
      ¬ 0 ≤ ArrayClass2.sampleNegative.GetLength :=
  ⟨ArrayClass2.sampleNegative_reachable, rfl, by decide⟩

/-- C30, amended: every contiguous array reachable from a default-constructed one by
`Add`, `SetElementIdx`, `InsertElement`, `DeleteElement`, `Reset`, copy-construction
and copy-assignment (allocations succeeding) satisfies `0 <= length <= m_alloc`, and
its storage is non-null whenever `length > 0`.  Every binned array so reachable
satisfies `length <= m_binCount * m_maxPerBin` and `0 <= m_binCount`, its directory is
non-null whenever `m_binCount > 0`, and its length is not negative or is `INT_MIN`. -/
theorem ArrayClass.reachable_within_capacity {T : Type} [Inhabited T] :
    (∀ s : ArrayClass T, ArrayClass.Reachable s →
      0 ≤ s.GetLength ∧ s.GetLength ≤ s.m_alloc ∧
        (0 < s.GetLength → s.m_array.isSome = true)) ∧
    (∀ s : ArrayClass2 T, ArrayClass2.Reachable s →
      (0 ≤ s.GetLength ∨ s.GetLength = INT_MIN) ∧
        s.GetLength ≤ s.m_binCount * s.m_maxPerBin ∧ 0 ≤ s.m_binCount ∧
        (0 < s.m_binCount → s.m_array.isSome = true)) := by
  constructor
  · intro s hr
    have hwf := hr.wellFormed
    obtain ⟨hlen, hl0, hl1, _⟩ := hwf
    refine ⟨hl0, hl1, fun hpos => ?_⟩
    have hpos2 : 0 < s.m_length := hpos
    cases hs : s.m_array with
    | none =>
      rw [ArrayClass.block_of_none hs] at hlen
      simp only [List.length_nil, Nat.cast_zero] at hlen
      omega
    | some blk => rfl
  · intro s hr
    obtain ⟨hmpb, _, _, _, hlen, _, hcap, _, _, _⟩ := hr.valid
    refine ⟨hr.length_bins, ?_, ?_, fun hpos => ?_⟩
    · show s.m_length ≤ s.m_binCount * s.m_maxPerBin
      rw [hmpb]
      omega
    · omega
    · cases hs : s.m_array with
      | none =>
        rw [ArrayClass2.bins_of_none hs] at hlen
        simp only [List.length_nil, Nat.cast_zero] at hlen
        omega
      | some d => rfl

/-- C30, witness: the contiguous array holding 5, 6, 7 and the binned array holding
`0..32`. -/
theorem ArrayClass.reachable_within_capacity_witness :
    (0 ≤ ArrayClass.sampleThree.GetLength ∧
      ArrayClass.sampleThree.GetLength ≤ ArrayClass.sampleThree.m_alloc ∧
      (0 < ArrayClass.sampleThree.GetLength → ArrayClass.sampleThree.m_array.isSome = true)) ∧
    ((0 ≤ ArrayClass2.sample33.GetLength ∨ ArrayClass2.sample33.GetLength = INT_MIN) ∧
      ArrayClass2.sample33.GetLength ≤
        ArrayClass2.sample33.m_binCount * ArrayClass2.sample33.m_maxPerBin ∧
      0 ≤ ArrayClass2.sample33.m_binCount ∧
      (0 < ArrayClass2.sample33.m_binCount → ArrayClass2.sample33.m_array.isSome = true)) :=
  ⟨ArrayClass.reachable_within_capacity.1 ArrayClass.sampleThree
      (ArrayClass.Reachable.of_addAll [5, 6, 7] ArrayClass.ctor _ ArrayClass.Reachable.ctor
        (by decide)),
    ArrayClass.reachable_within_capacity.2 ArrayClass2.sample33
      (ArrayClass2.Reachable.of_addAll_bins ArrayClass2.values33 ArrayClass2.ctor _
        ArrayClass2.Reachable.ctor (by decide))⟩

/-- C21: for every reachable valid binned array and every value `x`, `IsMember(x)`
returns, and it returns true if and only if there is an index `i` with
`0 <= i < length` and `Get(i) == x`; it returns false when the length is 0 (or
negative); and it returns the same on every array of the same length whose elements
at `0 <= i < length` are the same, whatever its storage holds at or beyond the
length. -/
theorem ArrayClass2_RO.IsMember_spec {T : Type} [DecidableEq T] [Inhabited T]
    (s : ArrayClass2 T) (x : T) (hr : ArrayClass2.Reachable s) :
    ∃ b, s.IsMember x = .value b ∧
      (b = true ↔ ∃ i : Int, 0 ≤ i ∧ i < s.GetLength ∧ s.Get i = .value x) ∧
      (s.GetLength ≤ 0 → b = false) ∧
      ∀ s1 : ArrayClass2_RO T, s1.GetLength = s.GetLength →
        (∀ i : Int, 0 ≤ i → i < s.GetLength → s1.Get i = s.Get i) →
        s1.IsMember x = .value b := by
  have hwf := hr.valid
  have hlmax : s.m_length ≤ 2147483647 := hwf.2.2.2.2.2.2.2.2.2
  unfold ArrayClass2_RO.GetLength
  by_cases hpos : s.m_length ≤ 0
  · refine ⟨false, ?_, ?_, fun _ => rfl, fun s1 hl _ => ?_⟩
    · unfold ArrayClass2_RO.IsMember
      rw [if_pos hpos]
    · constructor
      · intro h
        cases h
      · rintro ⟨i, h0, h1, _⟩
        omega
    · unfold ArrayClass2_RO.IsMember
      rw [if_pos (by rw [hl]; exact hpos)]
  · obtain ⟨b, hb, hiff⟩ := ArrayClass2.isMemberLoop_spec s x hwf s.m_length.toNat 0
      (le_refl _) (by omega)
    have hcast : (0 : Int) + (s.m_length.toNat : Int) = s.m_length := by omega
    refine ⟨b, ?_, ?_, fun h => absurd h hpos, fun s1 hl hget => ?_⟩
    · unfold ArrayClass2_RO.IsMember
      rw [if_neg hpos, hb]
    · rw [hiff, hcast]
      constructor
      · rintro ⟨j, hj0, hj1, hj2⟩
        exact ⟨j, hj0, hj1, ArrayClass2.Get_bins_value s j x hwf hj0 (by omega) hj2⟩
      · rintro ⟨j, hj0, hj1, hj2⟩
        obtain ⟨y, hy, hgy⟩ := ArrayClass2.cell_live s j hwf hj0 hj1
        rw [hgy] at hj2
        rw [Access.value.inj hj2] at hy
        exact ⟨j, hj0, hj1, hy⟩
    · have hl2 : s1.m_length = s.m_length := hl
      unfold ArrayClass2_RO.IsMember
      rw [hl2, if_neg hpos, ArrayClass2.isMemberLoop_congr s s1 x s.m_length.toNat 0 (le_refl _)
        (by omega) (fun j hj0 hj1 => ArrayClass2.read_of_Get s s1 j (hget j hj0 (by omega))), hb]

/-- C21, witness: on the array holding `0..32`, 32 is a member. -/
theorem ArrayClass2_RO.IsMember_spec_witness :
    ∃ b, ArrayClass2.sample33.IsMember 32 = .value b ∧
      (b = true ↔ ∃ i : Int, 0 ≤ i ∧ i < ArrayClass2.sample33.GetLength ∧
        ArrayClass2.sample33.Get i = .value 32) ∧
      (ArrayClass2.sample33.GetLength ≤ 0 → b = false) ∧
      ∀ s1 : ArrayClass2_RO Int, s1.GetLength = ArrayClass2.sample33.GetLength →
        (∀ i : Int, 0 ≤ i → i < ArrayClass2.sample33.GetLength →
          s1.Get i = ArrayClass2.sample33.Get i) →
        s1.IsMember 32 = .value b :=
  ArrayClass2_RO.IsMember_spec ArrayClass2.sample33 32
    (ArrayClass2.Reachable.of_addAll_bins ArrayClass2.values33 ArrayClass2.ctor _
      ArrayClass2.Reachable.ctor (by decide))

/-- C22: for every hash table with `TableSize > 0` (the table null or an array of
`TableSize` chains) and every key, `FindFirst(key)` returns absent when the table has
no backing storage; otherwise, in the chain of bucket `HashValue(key) mod TableSize`,
it returns the first entry in chain order whose key equals `key`, and absent when the
chain holds no such entry.  An entry it returns has the key `key`. -/
theorem HashTable.FindFirst_spec {T : Type} (t : HashTable T) (key : Int)
    (hwf : HashTable.WellFormed t) (hsize : 0 < t.TableSize) :
    (t.Table = none → t.FindFirst key = .value none) ∧
    (∀ tbl, t.Table = some tbl →
      ∃ chain, load tbl (HashTable.HashValue key % t.TableSize) = some chain ∧
        ((∃ (k : Nat) (entry : HashEntry T), chain[k]? = some entry ∧ entry.Key = key ∧
            (∀ (j : Nat) (e : HashEntry T), j < k → chain[j]? = some e → e.Key ≠ key) ∧
            t.FindFirst key = .value (some (HashTable.HashValue key % t.TableSize, k))) ∨
          ((∀ e ∈ chain, e.Key ≠ key) ∧ t.FindFirst key = .value none))) ∧
    (∀ p, t.FindFirst key = .value (some p) →
      ∃ entry, HashTable.entryAt t p = some entry ∧ entry.Key = key) := by
  obtain ⟨_, hmax, hlen⟩ := hwf
  unfold INT_MAX at hmax
  obtain ⟨hb, hb0, hb1⟩ := HashTable.bucketOf_eq t key hsize hmax
  have hsome : ∀ tbl, t.Table = some tbl →
      ∃ chain, load tbl (HashTable.HashValue key % t.TableSize) = some chain ∧
        ((∃ (k : Nat) (entry : HashEntry T), chain[k]? = some entry ∧ entry.Key = key ∧
            (∀ (j : Nat) (e : HashEntry T), j < k → chain[j]? = some e → e.Key ≠ key) ∧
            t.FindFirst key = .value (some (HashTable.HashValue key % t.TableSize, k))) ∨
          ((∀ e ∈ chain, e.Key ≠ key) ∧ t.FindFirst key = .value none)) := by
    intro tbl ht
    have hl := hlen tbl ht
    obtain ⟨chain, hc⟩ := load_isSome tbl (HashTable.HashValue key % t.TableSize) hb0 (by omega)
    refine ⟨chain, hc, ?_⟩
    have hunf : t.FindFirst key =
        match HashTable.findInChain key chain 0 with
        | none => .value none
        | some k => .value (some (HashTable.HashValue key % t.TableSize, k)) := by
      unfold HashTable.FindFirst
      rw [ht]
      simp only
      rw [hb]
      simp only
      rw [hc]
    rcases HashTable.findInChain_spec key chain 0 with ⟨hn, hall⟩ | ⟨k, e, hf, hget, hkey, hbefore⟩
    · right
      rw [hunf, hn]
      exact ⟨hall, rfl⟩
    · left
      rw [hunf, hf, Nat.zero_add]
      exact ⟨k, e, hget, hkey, hbefore, rfl⟩
  refine ⟨fun hnone => ?_, hsome, fun p hp => ?_⟩
  · unfold HashTable.FindFirst
    rw [hnone]
  · cases ht : t.Table with
    | none =>
      unfold HashTable.FindFirst at hp
      rw [ht] at hp
      cases hp
    | some tbl =>
      obtain ⟨chain, hc, hcase⟩ := hsome tbl ht
      rcases hcase with ⟨k, e, hget, hkey, _, hf⟩ | ⟨_, hf⟩
      · rw [hf] at hp
        rw [← Option.some.inj (Access.value.inj hp),
          HashTable.entryAt_of_load t tbl chain _ k ht hc]
        exact ⟨e, hget, hkey⟩
      · rw [hf] at hp
        cases Access.value.inj hp

/-- C22, witness: key 3 in the table with `a` (key 0) and `b` (key 3) in bucket 0
and `c` (key 2) in bucket 2. -/
theorem HashTable.FindFirst_spec_witness :
    (HashTable.sampleTable.Table = none → HashTable.sampleTable.FindFirst 3 = .value none) ∧
    (∀ tbl, HashTable.sampleTable.Table = some tbl →
      ∃ chain, load tbl (HashTable.HashValue 3 % HashTable.sampleTable.TableSize) = some chain ∧
        ((∃ (k : Nat) (entry : HashEntry Char), chain[k]? = some entry ∧ entry.Key = 3 ∧
            (∀ (j : Nat) (e : HashEntry Char), j < k → chain[j]? = some e → e.Key ≠ 3) ∧
            HashTable.sampleTable.FindFirst 3 =
              .value (some (HashTable.HashValue 3 % HashTable.sampleTable.TableSize, k))) ∨
          ((∀ e ∈ chain, e.Key ≠ 3) ∧ HashTable.sampleTable.FindFirst 3 = .value none))) ∧
    (∀ p, HashTable.sampleTable.FindFirst 3 = .value (some p) →
      ∃ entry, HashTable.entryAt HashTable.sampleTable p = some entry ∧ entry.Key = 3) :=
  HashTable.FindFirst_spec HashTable.sampleTable 3 HashTable.sampleTable_wellFormed (by decide)

/-- C23, the code at the failing input: on the table of 3 buckets that has no backing
storage (`Table == NULL`, `TableSize == 3`), every bucket of which is empty and for
which `FindFirst`, which tests `Table == NULL`, returns absent, `WalkFirst()` has no
such test and reads `Table[0]` through the null pointer: undefined behaviour, not the
absent result. -/
theorem HashTable.WalkFirst_no_storage :
    HashTable.WellFormed HashTable.sampleNoStorage ∧
      HashTable.sampleNoStorage.FindFirst 0 = .value none ∧
      HashTable.sampleNoStorage.WalkFirst = .undefined :=
  ⟨HashTable.sampleNoStorage_wellFormed, by decide, by decide⟩

/-- With backing storage `WalkFirst` does return what is asked of it: for every hash
table with `TableSize <= 0`, `WalkFirst()` returns absent; for every hash table that
has backing storage (an array of `TableSize` chains), either every bucket in
`[0, TableSize)` is empty and `WalkFirst()` returns absent, or it returns the head
entry of the chain of the lowest-indexed non-empty bucket. -/
theorem HashTable.WalkFirst_spec {T : Type} (t : HashTable T)
    (hwf : HashTable.WellFormed t) :
    (t.TableSize ≤ 0 → t.WalkFirst = .value none) ∧
    ∀ tbl, t.Table = some tbl →
      ((∀ j : Int, 0 ≤ j → j < t.TableSize → load tbl j = some []) ∧
        t.WalkFirst = .value none) ∨
      (∃ (b : Int) (e : HashEntry T) (c : List (HashEntry T)), 0 ≤ b ∧ b < t.TableSize ∧
        (∀ j : Int, 0 ≤ j → j < b → load tbl j = some []) ∧ load tbl b = some (e :: c) ∧
        HashTable.entryAt t (b, 0) = some e ∧ t.WalkFirst = .value (some (b, 0))) := by
  obtain ⟨_, hmax, hlen⟩ := hwf
  unfold INT_MAX at hmax
  constructor
  · intro h
    have h0 : t.TableSize.toNat = 0 := by omega
    unfold HashTable.WalkFirst
    rw [h0]
    rfl
  · intro tbl ht
    have hl := hlen tbl ht
    have hn : (0 : Int) + (t.TableSize.toNat : Nat) = tbl.length := by omega
    rcases HashTable.scan_spec t tbl ht (by omega) t.TableSize.toNat 0 (le_refl _) hn with
      ⟨hall, hs⟩ | ⟨b, e, c, hb0, hb1, hall, hc, hs⟩
    · left
      exact ⟨fun j h1 h2 => hall j h1 (by omega), hs⟩
    · right
      refine ⟨b, e, c, hb0, by omega, hall, hc, ?_, hs⟩
      rw [HashTable.entryAt_of_load t tbl _ b 0 ht hc, List.getElem?_cons_zero]

/-- The first entry of the table with `a`, `b` in bucket 0 and `c` in bucket 2. -/
theorem HashTable.WalkFirst_spec_witness :
    ((∀ j : Int, 0 ≤ j → j < HashTable.sampleTable.TableSize →
        load [[({ Obj := 'a', Key := 0 } : HashEntry Char), { Obj := 'b', Key := 3 }], [],
          [{ Obj := 'c', Key := 2 }]] j = some []) ∧
      HashTable.sampleTable.WalkFirst = .value none) ∨
    (∃ (b : Int) (e : HashEntry Char) (c : List (HashEntry Char)), 0 ≤ b ∧
      b < HashTable.sampleTable.TableSize ∧
      (∀ j : Int, 0 ≤ j → j < b →
        load [[({ Obj := 'a', Key := 0 } : HashEntry Char), { Obj := 'b', Key := 3 }], [],
          [{ Obj := 'c', Key := 2 }]] j = some []) ∧
      load [[({ Obj := 'a', Key := 0 } : HashEntry Char), { Obj := 'b', Key := 3 }], [],
        [{ Obj := 'c', Key := 2 }]] b = some (e :: c) ∧
      HashTable.entryAt HashTable.sampleTable (b, 0) = some e ∧
      HashTable.sampleTable.WalkFirst = .value (some (b, 0))) :=
  (HashTable.WalkFirst_spec HashTable.sampleTable HashTable.sampleTable_wellFormed).2 _ rfl

/-- C24: for every hash table (an array of `TableSize` chains) in which each entry
lies in bucket `HashValue(key) mod TableSize`, and every entry of the table, at place
`k` of the chain of bucket `b`: `WalkNext` on it returns its chain successor when it
has one; otherwise either every bucket with index above `b` is empty and it returns
absent, or it returns the head entry of the chain of the lowest-indexed non-empty
bucket with index above `b`. -/
theorem HashTable.WalkNext_spec {T : Type} (t : HashTable T) (hwf : HashTable.WellFormed t)
    (hp : HashTable.Placed t) (b : Int) (k : Nat) (entry : HashEntry T)
    (he : HashTable.entryAt t (b, k) = some entry) :
    ∃ tbl, t.Table = some tbl ∧
      (∀ e1, HashTable.entryAt t (b, k + 1) = some e1 →
        t.WalkNext (b, k) = .value (some (b, k + 1))) ∧
      (HashTable.entryAt t (b, k + 1) = none →
        ((∀ j : Int, b < j → j < t.TableSize → load tbl j = some []) ∧
          t.WalkNext (b, k) = .value none) ∨
        (∃ (b1 : Int) (e : HashEntry T) (c : List (HashEntry T)), b < b1 ∧
          b1 < t.TableSize ∧ (∀ j : Int, b < j → j < b1 → load tbl j = some []) ∧
          load tbl b1 = some (e :: c) ∧ HashTable.entryAt t (b1, 0) = some e ∧
          t.WalkNext (b, k) = .value (some (b1, 0)))) := by
  obtain ⟨_, hmax, hlen⟩ := hwf
  unfold INT_MAX at hmax
  cases ht : t.Table with
  | none =>
    unfold HashTable.entryAt at he
    rw [ht] at he
    cases he
  | some tbl =>
    have hl := hlen tbl ht
    obtain ⟨chain, hc, _⟩ := HashTable.entryAt_inv t tbl b k entry ht he
    obtain ⟨hb0, hb1⟩ := HashTable.load_lt_length tbl b chain hc
    have hw : wrapInt b = b := by
      apply wrapInt_eq <;> omega
    have hw1 : wrapInt (b + 1) = b + 1 := by
      apply wrapInt_eq <;> omega
    have hwn := HashTable.WalkNext_eq t b k entry he (hp _ entry he) hw hw1
    refine ⟨tbl, rfl, fun e1 h1 => ?_, fun h1 => ?_⟩
    · rw [hwn, h1]
    · rw [hwn, h1]
      simp only
      have hn : b + 1 + ((t.TableSize - (b + 1)).toNat : Nat) = tbl.length := by omega
      rcases HashTable.scan_spec t tbl ht (by omega) (t.TableSize - (b + 1)).toNat (b + 1)
          (by omega) hn with ⟨hall, hs⟩ | ⟨b1, e, c, h0, h2, hall, hc1, hs⟩
      · left
        exact ⟨fun j hj1 hj2 => hall j (by omega) (by omega), hs⟩
      · right
        refine ⟨b1, e, c, by omega, by omega, fun j hj1 hj2 => hall j (by omega) hj2, hc1, ?_, hs⟩
        rw [HashTable.entryAt_of_load t tbl _ b1 0 ht hc1, List.getElem?_cons_zero]

/-- C24, witness: the entry `b`, the last of the chain of bucket 0, in the table with
`a`, `b` in bucket 0 and `c` in bucket 2. -/
theorem HashTable.WalkNext_spec_witness :
    ∃ tbl, HashTable.sampleTable.Table = some tbl ∧
      (∀ e1, HashTable.entryAt HashTable.sampleTable (0, 1 + 1) = some e1 →
        HashTable.sampleTable.WalkNext (0, 1) = .value (some (0, 1 + 1))) ∧
      (HashTable.entryAt HashTable.sampleTable (0, 1 + 1) = none →
        ((∀ j : Int, 0 < j → j < HashTable.sampleTable.TableSize → load tbl j = some []) ∧
          HashTable.sampleTable.WalkNext (0, 1) = .value none) ∨
        (∃ (b1 : Int) (e : HashEntry Char) (c : List (HashEntry Char)), 0 < b1 ∧
          b1 < HashTable.sampleTable.TableSize ∧
          (∀ j : Int, 0 < j → j < b1 → load tbl j = some []) ∧
          load tbl b1 = some (e :: c) ∧ HashTable.entryAt HashTable.sampleTable (b1, 0) = some e ∧
          HashTable.sampleTable.WalkNext (0, 1) = .value (some (b1, 0)))) :=
  HashTable.WalkNext_spec HashTable.sampleTable HashTable.sampleTable_wellFormed
    HashTable.sampleTable_placed 0 1 { Obj := 'b', Key := 3 } (by decide)

/-- C25, the code at the failing input: the table of 3 buckets that has no backing
storage (`Table == NULL`, `TableSize == 3`) is a hash table in which each entry lies in
its bucket (it has none), so the walk should be the empty sequence; yet it gives no
sequence, however many calls are allowed: `WalkFirst()`, which lacks the
`Table == NULL` test of `FindFirst`, reads `Table[0]` through the null pointer. -/
theorem HashTable.walk_no_storage :
    HashTable.WellFormed HashTable.sampleNoStorage ∧
      HashTable.Placed HashTable.sampleNoStorage ∧
      HashTable.sampleNoStorage.GetTotalEntries = 0 ∧
      (∀ key : Int, HashTable.sampleNoStorage.FindFirst key = .value none) ∧
      (∀ n : Nat, HashTable.sampleNoStorage.walk n = none) ∧
      ∀ n : Nat, HashTable.sampleNoStorage.walk n ≠ some [] := by
  refine ⟨HashTable.sampleNoStorage_wellFormed, HashTable.sampleNoStorage_placed, rfl,
    fun key => rfl, fun n => ?_, fun n => ?_⟩
  · cases n <;> rfl
  · cases n <;> exact fun h => Option.noConfusion h

/-- With backing storage the walk is what is asked of it: for every hash table that
has backing storage (an array of `TableSize` chains) and in which each entry lies in
bucket `HashValue(key) mod TableSize`, the sequence `WalkFirst()`, `WalkNext(.)`, ... up to
the first absent result is, whenever at least as many calls of `WalkNext` are allowed
as there are entries, exactly the pointers to the entries of the bucket chains in
ascending bucket index, each chain in chain order; the entries they point to are the
concatenation of the chains, and there are as many as there are entries. -/
theorem HashTable.walk_spec {T : Type} (t : HashTable T) (tbl : List (List (HashEntry T)))
    (hwf : HashTable.WellFormed t) (ht : t.Table = some tbl) (hp : HashTable.Placed t)
    (n : Nat) (hn : tbl.flatten.length ≤ n) :
    t.walk n = some (HashTable.tablePtrs tbl 0) ∧
      (HashTable.tablePtrs tbl 0).map (HashTable.entryAt t) = tbl.flatten.map some ∧
      (HashTable.tablePtrs tbl 0).length = tbl.flatten.length := by
  obtain ⟨_, hmax, hlen⟩ := hwf
  unfold INT_MAX at hmax
  have hl := hlen tbl ht
  have hmap := HashTable.tablePtrs_map t tbl ht tbl [] rfl
  have hlength : (HashTable.tablePtrs tbl 0).length = tbl.flatten.length := by
    have := congrArg List.length hmap
    rw [List.length_map, List.length_map] at this
    exact this
  refine ⟨?_, hmap, hlength⟩
  have hs := HashTable.scan_eq t tbl ht (by omega) tbl [] rfl
  have hw := HashTable.walkFrom_table t tbl ht hl hmax hp tbl [] rfl n (by
    rw [← hlength] at hn
    exact hn)
  have hnat : t.TableSize.toNat = tbl.length := by omega
  unfold HashTable.walk HashTable.WalkFirst
  rw [hnat]
  exact (congrArg (HashTable.walkFrom t n) hs).trans hw

/-- The walk of the buckets `{0: [a, b], 2: [c]}` yields `a`, `b`, `c`, then absent. -/
theorem HashTable.walk_spec_witness :
    HashTable.sampleTable.walk 3 = some [(0, 0), (0, 1), (2, 0)] ∧
      [((0 : Int), 0), (0, 1), (2, 0)].map (HashTable.entryAt HashTable.sampleTable) =
        [some { Obj := 'a', Key := 0 }, some { Obj := 'b', Key := 3 },
          some { Obj := 'c', Key := 2 }] ∧
      [((0 : Int), 0), (0, 1), (2, 0)].length = 3 :=
  HashTable.walk_spec HashTable.sampleTable _ HashTable.sampleTable_wellFormed rfl
    HashTable.sampleTable_placed 3 (by decide)

/-- C31: the constructor of the binned array sets `m_maxPerBin` to 32, `m_binShift` to
5 and `m_slotMask` to 31, so that `m_maxPerBin` is `2 ^ m_binShift`, the least power of
two that is at least 32, and `m_slotMask` is `m_maxPerBin - 1`; the length and the bin
count are 0, there is no directory and `m_valid` is true.  No call of `Add`,
`SetElementIdx`, `InsertElement`, `DeleteElement`, `Reset` or copy-assignment, on
whatever array and whatever the allocator answers, whether it returns or throws,
changes `m_maxPerBin`, `m_binShift` or `m_slotMask`; every reachable array has the
constructor's values. -/
theorem ArrayClass2.geometry_fixed {T : Type} [Inhabited T] :
    ((ArrayClass2.ctor : ArrayClass2 T).m_maxPerBin = 32 ∧
      (ArrayClass2.ctor : ArrayClass2 T).m_binShift = 5 ∧
      (ArrayClass2.ctor : ArrayClass2 T).m_slotMask = 31 ∧
      (ArrayClass2.ctor : ArrayClass2 T).m_maxPerBin =
        2 ^ (ArrayClass2.ctor : ArrayClass2 T).m_binShift.toNat ∧
      (∀ k : Nat, (32 : Int) ≤ 2 ^ k → (ArrayClass2.ctor : ArrayClass2 T).m_maxPerBin ≤ 2 ^ k) ∧
      (ArrayClass2.ctor : ArrayClass2 T).m_slotMask =
        (ArrayClass2.ctor : ArrayClass2 T).m_maxPerBin - 1 ∧
      (ArrayClass2.ctor : ArrayClass2 T).m_length = 0 ∧
      (ArrayClass2.ctor : ArrayClass2 T).m_binCount = 0 ∧
      (ArrayClass2.ctor : ArrayClass2 T).m_array = none ∧
      (ArrayClass2.ctor : ArrayClass2 T).m_valid = true) ∧
    (∀ (grants : Nat → Bool) (c : Call T) (s s1 : ArrayClass2 T),
      (c.onArrayClass2 grants s = .ok s1 ∨ ∃ e, c.onArrayClass2 grants s = .throw e s1) →
        s1.m_maxPerBin = s.m_maxPerBin ∧ s1.m_binShift = s.m_binShift ∧
          s1.m_slotMask = s.m_slotMask) ∧
    (∀ (grants : Nat → Bool) (s rhs s1 : ArrayClass2 T),
      (ArrayClass2.assign grants s rhs = .ok s1 ∨
        ∃ e, ArrayClass2.assign grants s rhs = .throw e s1) →
        s1.m_maxPerBin = s.m_maxPerBin ∧ s1.m_binShift = s.m_binShift ∧
          s1.m_slotMask = s.m_slotMask) ∧
    (∀ s : ArrayClass2 T, ArrayClass2.Reachable s →
      s.m_maxPerBin = 32 ∧ s.m_binShift = 5 ∧ s.m_slotMask = 31) := by
  refine ⟨?_, ?_, ?_, ?_⟩
  · rw [ArrayClass2.ctor_eq]
    exact ⟨rfl, rfl, rfl, rfl, fun k hk => hk, rfl, rfl, rfl, rfl, rfl⟩
  · intro grants c s s1 h
    rcases h with h | ⟨e, h⟩
    · exact ((Call.onArrayClass2_geometry grants c s s1).1 h).1
    · exact (Call.onArrayClass2_geometry grants c s s1).2 e h
  · intro grants s rhs s1 h
    rcases h with h | ⟨e, h⟩
    · exact ((ArrayClass2.assign_geometry grants s rhs s1).1 h).1
    · exact ((ArrayClass2.assign_geometry grants s rhs s1).2 e h).1
  · intro s hr
    obtain ⟨h1, h2, h3, _⟩ := hr.valid
    exact ⟨h1, h3, h2⟩

/-- C31, witness: `Add(32)` on the array holding `0..31` returns the array holding
`0..32`, with the same geometry. -/
theorem ArrayClass2.geometry_fixed_witness :
    Call.onArrayClass2 ArrayClass2.granted (.Add 32) ArrayClass2.sample32 =
        .ok ArrayClass2.sample33 ∧
      ArrayClass2.sample33.m_maxPerBin = ArrayClass2.sample32.m_maxPerBin ∧
      ArrayClass2.sample33.m_binShift = ArrayClass2.sample32.m_binShift ∧
      ArrayClass2.sample33.m_slotMask = ArrayClass2.sample32.m_slotMask :=
  ⟨by decide,
    ArrayClass2.geometry_fixed.2.1 ArrayClass2.granted (.Add 32) ArrayClass2.sample32
      ArrayClass2.sample33 (Or.inl (by decide))⟩

/-- C32: in every binned array that has the constructor's geometry, for every index
from 0 to `INT_MAX`, `bin = index >> m_binShift` and `slot = index & m_slotMask`
satisfy `0 <= slot < m_maxPerBin` and `bin * m_maxPerBin + slot == index`; two such
indices with the same bin and the same slot are equal, and every bin and slot with
`0 <= slot < m_maxPerBin` whose cell number is an `int` are those of an index. -/
theorem ArrayClass2_RO.index_resolution {T : Type} (s : ArrayClass2 T)
    (hgeo : ArrayClass2.SameGeometry (ArrayClass2.ctor : ArrayClass2 T) s) :
    (∀ index : Int, 0 ≤ index → index ≤ INT_MAX →
      ∃ bin, s.GET_BIN_INDEX index = some bin ∧ 0 ≤ bin ∧ 0 ≤ s.GET_SLOT_INDEX index ∧
        s.GET_SLOT_INDEX index < s.m_maxPerBin ∧
        bin * s.m_maxPerBin + s.GET_SLOT_INDEX index = index) ∧
    (∀ i j : Int, 0 ≤ i → i ≤ INT_MAX → 0 ≤ j → j ≤ INT_MAX →
      s.GET_BIN_INDEX i = s.GET_BIN_INDEX j → s.GET_SLOT_INDEX i = s.GET_SLOT_INDEX j →
        i = j) ∧
    (∀ bin slot : Int, 0 ≤ bin → 0 ≤ slot → slot < s.m_maxPerBin →
      bin * s.m_maxPerBin + slot ≤ INT_MAX →
        s.GET_BIN_INDEX (bin * s.m_maxPerBin + slot) = some bin ∧
          s.GET_SLOT_INDEX (bin * s.m_maxPerBin + slot) = slot) := by
  obtain ⟨hmpb, hshift, hmask⟩ := hgeo
  rw [ArrayClass2.ctor_eq] at hmpb hshift hmask
  have hmpb2 : s.m_maxPerBin = 32 := hmpb
  have hshift2 : s.m_binShift = 5 := hshift
  have hmask2 : s.m_slotMask = 31 := hmask
  have hbin : ∀ x : Int, s.GET_BIN_INDEX x = some (x / 32) := by
    intro x
    unfold ArrayClass2_RO.GET_BIN_INDEX
    rw [hshift2]
    exact ArrayClass2.shiftRightInt_five x
  have hslot : ∀ x : Int, 0 ≤ x → x ≤ 2147483647 → s.GET_SLOT_INDEX x = x % 32 := by
    intro x h0 h1
    unfold ArrayClass2_RO.GET_SLOT_INDEX
    rw [hmask2]
    exact ArrayClass2.andInt_mask x h0 h1
  unfold INT_MAX
  rw [hmpb2]
  refine ⟨?_, ?_, ?_⟩
  · intro index h0 h1
    rw [hslot index h0 h1]
    exact ⟨index / 32, hbin index, by omega, by omega, by omega, by omega⟩
  · intro i j hi0 hi1 hj0 hj1 hb hsl
    rw [hbin i, hbin j] at hb
    rw [hslot i hi0 hi1, hslot j hj0 hj1] at hsl
    have hb2 := Option.some.inj hb
    omega
  · intro bin slot hb0 hs0 hs1 hfit
    rw [hbin, hslot _ (by omega) hfit]
    constructor
    · congr 1
      omega
    · omega

/-- C32, witness: index 33 of the array holding `0..32` resolves to bin 1, slot 1. -/
theorem ArrayClass2_RO.index_resolution_witness :
    ∃ bin, ArrayClass2.sample33.GET_BIN_INDEX 33 = some bin ∧ 0 ≤ bin ∧
      0 ≤ ArrayClass2.sample33.GET_SLOT_INDEX 33 ∧
      ArrayClass2.sample33.GET_SLOT_INDEX 33 < ArrayClass2.sample33.m_maxPerBin ∧
      bin * ArrayClass2.sample33.m_maxPerBin + ArrayClass2.sample33.GET_SLOT_INDEX 33 = 33 :=
  (ArrayClass2_RO.index_resolution ArrayClass2.sample33
    ⟨by decide, by decide, by decide⟩).1 33 (by decide) (by decide)

/-- C33, counterexample: on the freshly constructed contiguous array, with the
allocation granted, `Assure(2147483647)` returns with a capacity of 6, which is not
`(2147483647 + 4) * 2` and is less than the size requested: the size to allocate is
computed in `int`.  On the reachable array holding `1..7` the same call copies the 7
live elements into the new block of 6: undefined behaviour. -/
theorem ArrayClass.Assure_INT_MAX_capacity :
    ArrayClass.Assure true (ArrayClass.ctor : ArrayClass Int) 2147483647 =
        .ok { m_length := 0, m_array := some (List.replicate 6 0), m_alloc := 6,
              m_isValid := true } ∧
      (6 : Int) ≠ (2147483647 + 4) * 2 ∧ (6 : Int) < 2147483647 ∧
      ∃ s : ArrayClass Int, ArrayClass.Reachable s ∧
        ArrayClass.addAll true [1, 2, 3, 4, 5, 6, 7] ArrayClass.ctor = .ok s ∧
        s.m_length = 7 ∧ ArrayClass.Assure true s 2147483647 = .undefined := by
  refine ⟨by decide, by decide, by decide, ?_⟩
  refine ⟨{ m_length := 7, m_array := some [1, 2, 3, 4, 5, 6, 7, 0, 0, 0], m_alloc := 10,
            m_isValid := true }, ?_, by decide, rfl, by decide⟩
  exact ArrayClass.Reachable.of_addAll [1, 2, 3, 4, 5, 6, 7] ArrayClass.ctor _
    ArrayClass.Reachable.ctor (by decide)

/-- C33, amended: for every contiguous array satisfying the representation invariant
of the reachable arrays and every `requestedSize > 0` with
`(requestedSize + 4) * 2 <= INT_MAX`, the allocation granted, `Assure(requestedSize)`
reallocates exactly when `requestedSize > m_alloc` or the storage is null; then the new
capacity is `(requestedSize + 4) * 2`, the length is unchanged, the first `m_length`
elements are those of the old block and the other cells hold default elements (as
`new T[n]` leaves them for an element type with a default constructor); otherwise
the array is unchanged.  `AssureExact` does the same with the capacity
`requestedSize`, for every `requestedSize` from 1 to `INT_MAX`; so the copy
constructed from, or assigned, an array of length `L > 0` has capacity `L` and length
`L`. -/
theorem ArrayClass.Assure_growth {T : Type} [Inhabited T] (s : ArrayClass T)
    (requestedSize : Int) (hwf : ArrayClass.WellFormed s) (h0 : 0 < requestedSize)
    (hmax : requestedSize ≤ INT_MAX) :
    ((requestedSize + 4) * 2 ≤ INT_MAX →
      (requestedSize > s.m_alloc ∨ s.m_array = none) →
      ∃ r : List T, ArrayClass.Assure true s requestedSize =
          .ok { s with m_array := some r, m_alloc := (requestedSize + 4) * 2 } ∧
        (r.length : Int) = (requestedSize + 4) * 2 ∧
        (∀ j : Int, 0 ≤ j → j < s.m_length → load r j = load (ArrayClass.block s) j) ∧
        (∀ j : Int, s.m_length ≤ j → j < (requestedSize + 4) * 2 →
          load r j = some default)) ∧
    (¬ (requestedSize > s.m_alloc ∨ s.m_array = none) →
      ArrayClass.Assure true s requestedSize = .ok s ∧
        ArrayClass.AssureExact true s requestedSize = .ok s) ∧
    ((requestedSize > s.m_alloc ∨ s.m_array = none) →
      ∃ r : List T, ArrayClass.AssureExact true s requestedSize =
          .ok { s with m_array := some r, m_alloc := requestedSize } ∧
        (r.length : Int) = requestedSize ∧
        (∀ j : Int, 0 ≤ j → j < s.m_length → load r j = load (ArrayClass.block s) j) ∧
        (∀ j : Int, s.m_length ≤ j → j < requestedSize → load r j = some default)) ∧
    (∀ t rhs : ArrayClass T, ArrayClass.WellFormed rhs → 0 < rhs.m_length →
      (∃ s1, ArrayClass.copyCtor true rhs = .ok s1 ∧ s1.m_alloc = rhs.m_length ∧
        s1.m_length = rhs.m_length) ∧
      (∃ s1, ArrayClass.assign true t rhs = .ok s1 ∧ s1.m_alloc = rhs.m_length ∧
        s1.m_length = rhs.m_length)) := by
  unfold INT_MAX at hmax
  unfold INT_MAX
  have hlen : (requestedSize > s.m_alloc ∨ s.m_array = none) → s.m_length ≤ requestedSize := by
    intro h
    rcases h with h | h
    · have := hwf.2.2.1
      omega
    · have := (ArrayClass.length_of_none hwf h).1
      omega
  refine ⟨?_, ?_, ?_, ?_⟩
  · intro hfit h
    have hw : wrapInt (wrapInt (requestedSize + 4) * 2) = (requestedSize + 4) * 2 := by
      rw [wrapInt_eq (requestedSize + 4) (by omega) (by omega)]
      exact wrapInt_eq _ (by omega) (by omega)
    obtain ⟨r, hr, hg, hcopy, hdef⟩ := ArrayClass.grow_fits s ((requestedSize + 4) * 2) hwf
      (by have := hlen h; omega) hfit
    refine ⟨r, ?_, hr, hcopy, hdef⟩
    rw [(ArrayClass.AssureExact_grow true s requestedSize ⟨by omega, h⟩).2, hw]
    exact hg
  · intro h
    have := ArrayClass.AssureExact_skip true s requestedSize (fun hh => h hh.2)
    exact ⟨this.2, this.1⟩
  · intro h
    obtain ⟨r, hr, hg, hcopy, hdef⟩ := ArrayClass.grow_fits s requestedSize hwf (hlen h) hmax
    refine ⟨r, ?_, hr, hcopy, hdef⟩
    rw [(ArrayClass.AssureExact_grow true s requestedSize ⟨by omega, h⟩).1]
    exact hg
  · intro t rhs hrwf hpos
    constructor
    · obtain ⟨r, h, _⟩ := ArrayClass.copyFrom_spec (ArrayClass.ctor : ArrayClass T) rhs rfl rfl
        rfl hrwf (by omega)
      exact ⟨_, h, rfl, rfl⟩
    · obtain ⟨r, h, _⟩ := ArrayClass.copyFrom_spec (ArrayClass.Reset t) rhs rfl rfl rfl hrwf
        (by omega)
      exact ⟨_, h, rfl, rfl⟩

/-- C33, witness: `Assure(11)` on the array holding 5, 6, 7 in a block of 10. -/
theorem ArrayClass.Assure_growth_witness :
    ∃ r : List Int, ArrayClass.Assure true ArrayClass.sampleThree 11 =
        .ok { ArrayClass.sampleThree with m_array := some r, m_alloc := (11 + 4) * 2 } ∧
      (r.length : Int) = (11 + 4) * 2 ∧
      (∀ j : Int, 0 ≤ j → j < ArrayClass.sampleThree.m_length →
        load r j = load (ArrayClass.block ArrayClass.sampleThree) j) ∧
      (∀ j : Int, ArrayClass.sampleThree.m_length ≤ j → j < (11 + 4) * 2 →
        load r j = some default) :=
  (ArrayClass.Assure_growth ArrayClass.sampleThree 11
    (ArrayClass.Reachable.wellFormed (ArrayClass.Reachable.of_addAll [5, 6, 7] ArrayClass.ctor _
      ArrayClass.Reachable.ctor (by decide)))
    (by decide) (by decide)).1 (by decide) (Or.inl (by decide))

/-- C34: for every valid binned array (the representation invariant of the reachable
arrays) and every `requestedSize` from 1 to `INT_MAX`, every allocation granted,
`Assure(requestedSize)` returns with the bin count
`max(m_binCount, ceil(requestedSize / m_maxPerBin))`, which covers `requestedSize`
elements and is the least count from `m_binCount` on that does; the length is
unchanged, the old bins are kept and each new bin holds `m_maxPerBin` default
elements (as `new T[m_maxPerBin]` leaves them for an element type with a default
constructor).  No call of `Add`, `SetElementIdx`, `InsertElement`, `DeleteElement` or
copy-assignment that returns lowers the bin count, on whatever array; `Reset` sets it
to 0. -/
theorem ArrayClass2.Assure_bin_count {T : Type} [Inhabited T] (s : ArrayClass2 T)
    (requestedSize : Int) (hwf : ArrayClass2.WellFormed s) (h0 : 0 < requestedSize)
    (hmax : requestedSize ≤ INT_MAX) :
    (∃ s1, ArrayClass2.Assure ArrayClass2.granted s requestedSize = .ok s1 ∧
      s1.m_binCount =
        max s.m_binCount ((requestedSize + s.m_maxPerBin - 1) / s.m_maxPerBin) ∧
      requestedSize ≤ s1.m_binCount * s1.m_maxPerBin ∧
      (∀ n : Int, s.m_binCount ≤ n → requestedSize ≤ n * s.m_maxPerBin → s1.m_binCount ≤ n) ∧
      s1.m_length = s.m_length ∧ s1.m_valid = true ∧
      ArrayClass2.bins s1 = ArrayClass2.bins s ++
        List.replicate (s1.m_binCount - s.m_binCount).toNat
          (List.replicate s.m_maxPerBin.toNat default)) ∧
    (∀ (grants : Nat → Bool) (c : Call T) (t t1 : ArrayClass2 T), c ≠ .Reset →
      c.onArrayClass2 grants t = .ok t1 → t.m_binCount ≤ t1.m_binCount) ∧
    (∀ (grants : Nat → Bool) (t rhs t1 : ArrayClass2 T),
      ArrayClass2.assign grants t rhs = .ok t1 → t.m_binCount ≤ t1.m_binCount) ∧
    (∀ t : ArrayClass2 T, (ArrayClass2.Reset t).m_binCount = 0) := by
  unfold INT_MAX at hmax
  refine ⟨?_, ?_, ?_, fun _ => rfl⟩
  · obtain ⟨s1, h1, hwf1, hlen, hcount, hbins⟩ :=
      ArrayClass2.Assure_granted_exact s requestedSize hwf h0 hmax
    have hmpb := hwf.1
    have hmpb1 := hwf1.1
    have hv1 := hwf1.2.2.2.1
    refine ⟨s1, h1, ?_, ?_, ?_, hlen, hv1, ?_⟩
    · rw [hcount, hmpb]
      congr 2
      omega
    · rw [hcount, hmpb1]
      omega
    · intro n hn hcov
      rw [hcount]
      rw [hmpb] at hcov
      omega
    · rw [hbins, hmpb]
      rfl
  · intro grants c t t1 hne h
    exact ((Call.onArrayClass2_geometry grants c t t1).1 h).2 hne
  · intro grants t rhs t1 h
    exact ((ArrayClass2.assign_geometry grants t rhs t1).1 h).2

/-- C34, witness: `Assure(33)` on the array holding `0..31` in one bin. -/
theorem ArrayClass2.Assure_bin_count_witness :
    ∃ s1, ArrayClass2.Assure ArrayClass2.granted ArrayClass2.sample32 33 = .ok s1 ∧
      s1.m_binCount = max ArrayClass2.sample32.m_binCount
        ((33 + ArrayClass2.sample32.m_maxPerBin - 1) / ArrayClass2.sample32.m_maxPerBin) ∧
      33 ≤ s1.m_binCount * s1.m_maxPerBin ∧
      (∀ n : Int, ArrayClass2.sample32.m_binCount ≤ n →
        33 ≤ n * ArrayClass2.sample32.m_maxPerBin → s1.m_binCount ≤ n) ∧
      s1.m_length = ArrayClass2.sample32.m_length ∧ s1.m_valid = true ∧
      ArrayClass2.bins s1 = ArrayClass2.bins ArrayClass2.sample32 ++
        List.replicate (s1.m_binCount - ArrayClass2.sample32.m_binCount).toNat
          (List.replicate ArrayClass2.sample32.m_maxPerBin.toNat default) :=
  (ArrayClass2.Assure_bin_count ArrayClass2.sample32 33
    (ArrayClass2.Reachable.valid (ArrayClass2.Reachable.of_addAll_bins ArrayClass2.values32
      ArrayClass2.ctor _ ArrayClass2.Reachable.ctor (by decide)))
    (by decide) (by decide)).1

/-- C36: for every hash table with backing storage (an array of `TableSize` chains),
`TableSize > 0`, in which each entry lies in bucket `HashValue(key) mod TableSize`, and
every key `k`: `FindFirst(k)` returns, and it returns an entry if and only if some
entry of the table has key `k`; so for every stored entry `FindFirst` of its key
returns an entry with that key; and `FindFirst(k)` returns an entry if and only if the
walk `WalkFirst()`, `WalkNext(.)`, ... (as many calls allowed as there are entries)
visits an entry with key `k`. -/
theorem HashTable.FindFirst_consistent {T : Type} (t : HashTable T)
    (tbl : List (List (HashEntry T))) (hwf : HashTable.WellFormed t)
    (ht : t.Table = some tbl) (hsize : 0 < t.TableSize) (hp : HashTable.Placed t)
    (k : Int) (n : Nat) (hn : tbl.flatten.length ≤ n) :
    ((∃ p, t.FindFirst k = .value (some p)) ∨ t.FindFirst k = .value none) ∧
    ((∃ p, t.FindFirst k = .value (some p)) ↔
      ∃ p entry, HashTable.entryAt t p = some entry ∧ entry.Key = k) ∧
    (∀ p entry, HashTable.entryAt t p = some entry →
      ∃ q found, t.FindFirst entry.Key = .value (some q) ∧
        HashTable.entryAt t q = some found ∧ found.Key = entry.Key) ∧
    (∃ ps, t.walk n = some ps ∧
      ((∃ p, t.FindFirst k = .value (some p)) ↔
        ∃ p ∈ ps, ∃ entry, HashTable.entryAt t p = some entry ∧ entry.Key = k)) := by
  have hstored : ∀ key : Int, (∃ e ∈ tbl.flatten, e.Key = key) ↔
      ∃ p entry, HashTable.entryAt t p = some entry ∧ entry.Key = key := by
    intro key
    constructor
    · rintro ⟨e, he, hkey⟩
      obtain ⟨p, hat⟩ := (HashTable.entryAt_iff_mem t tbl ht e).mpr he
      exact ⟨p, e, hat, hkey⟩
    · rintro ⟨p, e, hat, hkey⟩
      exact ⟨e, (HashTable.entryAt_iff_mem t tbl ht e).mp ⟨p, hat⟩, hkey⟩
  have hiff : ∀ key : Int, (∃ p, t.FindFirst key = .value (some p)) ↔
      ∃ p entry, HashTable.entryAt t p = some entry ∧ entry.Key = key :=
    fun key => (HashTable.FindFirst_iff t tbl key hwf ht hsize hp).trans (hstored key)
  refine ⟨?_, hiff k, ?_, ?_⟩
  · obtain ⟨chain, _, hcase⟩ := HashTable.FindFirst_returns t tbl k hwf ht hsize
    rcases hcase with ⟨j, e, _, _, hf⟩ | ⟨_, hf⟩
    · exact Or.inl ⟨_, hf⟩
    · exact Or.inr hf
  · intro p entry hat
    obtain ⟨q, hq⟩ := (hiff entry.Key).mpr ⟨p, entry, hat, rfl⟩
    obtain ⟨chain, hc, hcase⟩ := HashTable.FindFirst_returns t tbl entry.Key hwf ht hsize
    rcases hcase with ⟨j, e, hget, hkey, hf⟩ | ⟨_, hf⟩
    · refine ⟨_, e, hf, ?_, hkey⟩
      rw [HashTable.entryAt_of_load t tbl chain _ j ht hc]
      exact hget
    · rw [hf] at hq
      cases Access.value.inj hq
  · obtain ⟨hwalk, hmap⟩ := HashTable.walk_table t tbl hwf ht hp n hn
    refine ⟨_, hwalk, (hiff k).trans ?_⟩
    constructor
    · rintro ⟨p, e, hat, hkey⟩
      have hmem : some e ∈ (HashTable.tablePtrs tbl 0).map (HashTable.entryAt t) := by
        rw [hmap]
        exact List.mem_map.mpr ⟨e, (HashTable.entryAt_iff_mem t tbl ht e).mp ⟨p, hat⟩, rfl⟩
      obtain ⟨q, hq, hqe⟩ := List.mem_map.mp hmem
      exact ⟨q, hq, e, hqe, hkey⟩
    · rintro ⟨p, _, e, hat, hkey⟩
      exact ⟨p, e, hat, hkey⟩

/-- C36, witness: key 3 in the table with `a` (key 0) and `b` (key 3) in bucket 0 and
`c` (key 2) in bucket 2; three calls of `WalkNext` allowed. -/
theorem HashTable.FindFirst_consistent_witness :
    ((∃ p, HashTable.sampleTable.FindFirst 3 = .value (some p)) ∨
      HashTable.sampleTable.FindFirst 3 = .value none) ∧
    ((∃ p, HashTable.sampleTable.FindFirst 3 = .value (some p)) ↔
      ∃ p entry, HashTable.entryAt HashTable.sampleTable p = some entry ∧ entry.Key = 3) ∧
    (∀ p entry, HashTable.entryAt HashTable.sampleTable p = some entry →
      ∃ q found, HashTable.sampleTable.FindFirst entry.Key = .value (some q) ∧
        HashTable.entryAt HashTable.sampleTable q = some found ∧ found.Key = entry.Key) ∧
    (∃ ps, HashTable.sampleTable.walk 3 = some ps ∧
      ((∃ p, HashTable.sampleTable.FindFirst 3 = .value (some p)) ↔
        ∃ p ∈ ps, ∃ entry, HashTable.entryAt HashTable.sampleTable p = some entry ∧
          entry.Key = 3)) :=
  HashTable.FindFirst_consistent HashTable.sampleTable _ HashTable.sampleTable_wellFormed rfl
    (by decide) HashTable.sampleTable_placed 3 3 (by decide)

/-- C37, counterexample: `SetElementIdx(2147483646, 0)` on the empty binned array,
every allocation granted, gives a reachable array of length `L = 2147483647`; on it
`InsertElement(0, 7)` returns with length -2147483648, and `DeleteElement(0)` then
returns without removing anything: the length is -2147483648, not `L`. -/
theorem ArrayClass2.insert_delete_wraps :
    ∃ s s1 s2 : ArrayClass2 Int,
      ArrayClass2.SetElementIdx ArrayClass2.granted ArrayClass2.ctor 2147483646 0 = .ok s ∧
      ArrayClass2.Reachable s ∧ s.GetLength = 2147483647 ∧
      ArrayClass2.InsertElement ArrayClass2.granted s 0 7 = .ok s1 ∧
      ArrayClass2.DeleteElement s1 0 = .ok s2 ∧ s2.GetLength = -2147483648 ∧
      s2.GetLength ≠ s.GetLength := by
  obtain ⟨s, hs, hwf, hlen, _⟩ := ArrayClass2.SetElementIdx_bins
    (ArrayClass2.ctor : ArrayClass2 Int) 2147483646 0 ArrayClass2.ctor_wellFormed (by decide)
    (by decide)
  have hlen2 : s.m_length = 2147483647 := by
    rw [hlen, ArrayClass2.ctor_eq]
    decide
  have hr : ArrayClass2.Reachable s :=
    ArrayClass2.Reachable.SetElementIdx _ s 2147483646 0 ArrayClass2.Reachable.ctor (by decide)
      (by decide) hs
  obtain ⟨s1, h1, _, hl1, _⟩ := ArrayClass2.InsertElement_bins s 0 7 hwf (by decide)
    (by rw [hlen2]; decide)
  have hl2 : s1.m_length = -2147483648 := by
    rw [hl1, hlen2]
    decide
  refine ⟨s, s1, s1, hs, hr, hlen2, h1, ?_, hl2, ?_⟩
  · exact ArrayClass2.DeleteElement_bins_outside s1 0 (Or.inr (by rw [hl2]; decide))
  · show s1.m_length ≠ s.m_length
    rw [hl2, hlen2]
    decide

/-- C37, amended: for every reachable contiguous array of length `L`, every `k` with
`0 <= k <= L` and every `v`, the allocation granted: whenever `InsertElement(k, v)`
returns, `DeleteElement(k)` then returns with length `L` and the same element at every
position in `[0, L)` as before, the capacity not smaller; and `InsertElement(k, v)`
does return when `L < m_alloc` or `(L + 5) * 2 <= INT_MAX`.  For every reachable
binned array of length `L < INT_MAX`, every `k` with `0 <= k <= L` and every `v`, every
allocation granted, `InsertElement(k, v)` followed by `DeleteElement(k)` returns with
length `L` and the same element at every position in `[0, L)` as before, the bin count
not smaller. -/
theorem ArrayClass.insert_then_delete {T : Type} [Inhabited T] (k : Int) (v : T)
    (h0 : 0 ≤ k) :
    (∀ s s1 : ArrayClass T, ArrayClass.Reachable s → k ≤ s.GetLength →
      ArrayClass.InsertElement true s k v = .ok s1 →
      ∃ s2, ArrayClass.DeleteElement s1 k = .ok s2 ∧ s2.GetLength = s.GetLength ∧
        s.m_alloc ≤ s2.m_alloc ∧
        ∀ j : Int, 0 ≤ j → j < s.GetLength → s2.Get j = s.Get j) ∧
    (∀ s : ArrayClass T, ArrayClass.Reachable s → k ≤ s.GetLength →
      (s.GetLength < s.m_alloc ∨ (s.GetLength + 5) * 2 ≤ INT_MAX) →
      ∃ s1, ArrayClass.InsertElement true s k v = .ok s1) ∧
    (∀ s : ArrayClass2 T, ArrayClass2.Reachable s → k ≤ s.GetLength →
      s.GetLength < INT_MAX →
      ∃ s1 s2, ArrayClass2.InsertElement ArrayClass2.granted s k v = .ok s1 ∧
        ArrayClass2.DeleteElement s1 k = .ok s2 ∧ s2.GetLength = s.GetLength ∧
        s.m_binCount ≤ s2.m_binCount ∧
        ∀ j : Int, 0 ≤ j → j < s.GetLength → s2.Get j = s.Get j) := by
  refine ⟨?_, ?_, ?_⟩
  · intro s s1 hr h1 h
    exact ArrayClass.InsertElement_then_DeleteElement s s1 k v hr.wellFormed h0 h1 h
  · intro s hr h1 hfit
    unfold INT_MAX at hfit
    exact ArrayClass.InsertElement_returns s k v hr.wellFormed h0 h1 hfit
  · intro s hr h1 hmax
    unfold INT_MAX at hmax
    exact ArrayClass2.InsertElement_then_DeleteElement_bins s k v hr.valid h0 h1 hmax

/-- C37, witness: `InsertElement(1, 9)` then `DeleteElement(1)` on the binned array
holding `0..32`. -/
theorem ArrayClass.insert_then_delete_witness :
    ∃ s1 s2, ArrayClass2.InsertElement ArrayClass2.granted ArrayClass2.sample33 1 9 = .ok s1 ∧
      ArrayClass2.DeleteElement s1 1 = .ok s2 ∧
      s2.GetLength = ArrayClass2.sample33.GetLength ∧
      ArrayClass2.sample33.m_binCount ≤ s2.m_binCount ∧
      ∀ j : Int, 0 ≤ j → j < ArrayClass2.sample33.GetLength →
        s2.Get j = ArrayClass2.sample33.Get j :=
  (ArrayClass.insert_then_delete 1 9 (by decide)).2.2 ArrayClass2.sample33
    (ArrayClass2.Reachable.of_addAll_bins ArrayClass2.values33 ArrayClass2.ctor _
      ArrayClass2.Reachable.ctor (by decide)) (by decide) (by decide)

/-- C38: in every contiguous array satisfying the representation invariant of the
reachable arrays, `SetElementIdx(index, v)` with `m_length < index < m_alloc`, which
allocates nothing, returns with length `index + 1` and the capacity unchanged,
`Get(index)` gives `v`, and at each gap position `j` in `[old length, index)` `Get(j)`
gives what the cell `j` of the storage held before the call.  On the empty array,
after `Add(a)`, `Add(b)`, `DeleteElement(1)`, `SetElementIdx(2, c)` the length is 3
and `Get(1)` gives `b`. -/
theorem ArrayClass.SetElementIdx_exposes_stale {T : Type} [Inhabited T] :
    (∀ (g : Bool) (s : ArrayClass T) (index : Int) (v : T), ArrayClass.WellFormed s →
      s.m_length < index → index < s.m_alloc →
      ∃ s1, ArrayClass.SetElementIdx g s index v = .ok s1 ∧ s1.GetLength = index + 1 ∧
        s1.m_alloc = s.m_alloc ∧ s1.Get index = .value v ∧
        ∀ j : Int, s.m_length ≤ j → j < index →
          ∃ x, load (ArrayClass.block s) j = some x ∧ s1.Get j = .value x) ∧
    (∀ a b c : T, ∃ s1,
      Call.runArrayClass true [.Add a, .Add b, .DeleteElement 1, .SetElementIdx 2 c]
          ArrayClass.ctor = .ok s1 ∧
        s1.GetLength = 3 ∧ s1.Get 0 = .value a ∧ s1.Get 1 = .value b ∧
        s1.Get 2 = .value c) := by
  constructor
  · intro g s index v hwf hgap hcap
    have hl0 := hwf.2.1
    have hlen := hwf.1
    obtain ⟨s1, h1, hwf1, hl1, hat, _, _, hsome, hbelow, _⟩ :=
      ArrayClass.SetElementIdx_below s index v hwf (by omega) hcap
    obtain ⟨halloc, hsame⟩ := hbelow hcap
    have hlen1 : s1.m_length = index + 1 := by
      rw [hl1]
      omega
    refine ⟨s1, ?_, hlen1, halloc, ?_, ?_⟩
    · rw [ArrayClass.SetElementIdx_no_alloc g s index v hwf (by omega) hcap]
      exact h1
    · exact ArrayClass.Get_value s1 index v (by omega) (by omega) hsome hat
    · intro j hj0 hj1
      obtain ⟨x, hx⟩ := load_isSome (ArrayClass.block s) j (by omega) (by omega)
      refine ⟨x, hx, ?_⟩
      refine ArrayClass.Get_value s1 j x (by omega) (by omega) hsome ?_
      rw [hsame j (by omega)]
      exact hx
  · intro a b c
    exact ⟨_, rfl, rfl, rfl, rfl, rfl⟩

/-- C38, witness: `SetElementIdx(2, 7)` on the array left by `Add(5)`, `Add(6)`,
`DeleteElement(1)`: position 1 holds 6 again. -/
theorem ArrayClass.SetElementIdx_exposes_stale_witness :
    ∃ s1, ArrayClass.SetElementIdx true ArrayClass.sampleStale 2 7 = .ok s1 ∧
      s1.GetLength = 2 + 1 ∧ s1.m_alloc = ArrayClass.sampleStale.m_alloc ∧
      s1.Get 2 = .value 7 ∧
      ∀ j : Int, ArrayClass.sampleStale.m_length ≤ j → j < 2 →
        ∃ x, load (ArrayClass.block ArrayClass.sampleStale) j = some x ∧ s1.Get j = .value x :=
  ArrayClass.SetElementIdx_exposes_stale.1 true ArrayClass.sampleStale 2 7
    (ArrayClass.Reachable.wellFormed ArrayClass.sampleStale_reachable) (by decide) (by decide)

/-- C39: there is a table with `TableSize > 0` (2 buckets) and an entry `x` stored in
bucket 1 while `HashValue(key) mod TableSize` is 0 for its key, for which
`WalkFirst()` returns `x` and `WalkNext(x)` returns `x` itself; every call of the walk
returns `x`, so no number of calls reaches absent. -/
theorem HashTable.walk_stuck :
    HashTable.WellFormed HashTable.sampleMisplaced ∧
      0 < HashTable.sampleMisplaced.TableSize ∧
      HashTable.entryAt HashTable.sampleMisplaced (1, 0) = some { Obj := 'x', Key := 0 } ∧
      HashTable.bucketOf HashTable.sampleMisplaced 0 = some 0 ∧
      ¬ HashTable.Placed HashTable.sampleMisplaced ∧
      HashTable.sampleMisplaced.WalkFirst = .value (some (1, 0)) ∧
      HashTable.sampleMisplaced.WalkNext (1, 0) = .value (some (1, 0)) ∧
      (∀ n : Nat, HashTable.sampleMisplaced.walkResult n = .value (some (1, 0))) ∧
      (∀ n : Nat, HashTable.sampleMisplaced.walk n = none) := by
  have hfirst : HashTable.sampleMisplaced.WalkFirst = .value (some (1, 0)) := by decide
  have hnext : HashTable.sampleMisplaced.WalkNext (1, 0) = .value (some (1, 0)) := by decide
  have hentry : HashTable.entryAt HashTable.sampleMisplaced (1, 0) =
      some { Obj := 'x', Key := 0 } := by decide
  refine ⟨?_, by decide, hentry, by decide, ?_, hfirst, hnext, ?_, ?_⟩
  · refine ⟨by decide, by decide, fun tbl ht => ?_⟩
    cases ht
    rfl
  · intro hp
    have h := hp (1, 0) _ hentry
    revert h
    decide
  · intro n
    induction n with
    | zero => exact hfirst
    | succ n ih =>
      unfold HashTable.walkResult
      rw [ih]
      exact hnext
  · intro n
    unfold HashTable.walk
    rw [hfirst]
    induction n with
    | zero => rfl
    | succ n ih =>
      unfold HashTable.walkFrom
      simp only
      rw [hnext, ih]

/-- C40: for every node address `n` and every offset of the member `Value` inside
`Node` (addresses and offsets below `2^32`), `NodeGet` of the address of `n.Value` is
`n`, and the address of the `Value` of the node `NodeGet` gives for `cur` is `cur`:
the two are inverse to each other.  The offset subtracted is the offset of `Value`,
which is 0 since `Value` is the first member, so with it the address of `n.Value` is
`n` and `NodeGet` returns the address it is given. -/
theorem HashListMap.NodeGet_inverse (off n cur : Nat) (hoff : off < 4294967296)
    (hn : n < 4294967296) (hcur : cur < 4294967296) :
    HashListMap.NodeGet off (HashListMap.addressOfValue off n) = n ∧
      HashListMap.addressOfValue off (HashListMap.NodeGet off cur) = cur ∧
      (HashListMap.addressOfValue off 1 + 4294967296 - 1) % 4294967296 = off ∧
      HashListMap.offsetOfValue = 0 ∧
      HashListMap.addressOfValue HashListMap.offsetOfValue n = n ∧
      HashListMap.NodeGet HashListMap.offsetOfValue cur = cur := by
  unfold HashListMap.NodeGet HashListMap.addressOfValue HashListMap.offsetOfValue
  refine ⟨?_, ?_, ?_, rfl, ?_, ?_⟩ <;> omega

/-- C40, witness: the node at address 4096, with `Value` at offset 0. -/
theorem HashListMap.NodeGet_inverse_witness :
    HashListMap.NodeGet 0 (HashListMap.addressOfValue 0 4096) = 4096 ∧
      HashListMap.addressOfValue 0 (HashListMap.NodeGet 0 4096) = 4096 ∧
      (HashListMap.addressOfValue 0 1 + 4294967296 - 1) % 4294967296 = 0 ∧
      HashListMap.offsetOfValue = 0 ∧
      HashListMap.addressOfValue HashListMap.offsetOfValue 4096 = 4096 ∧
      HashListMap.NodeGet HashListMap.offsetOfValue 4096 = 4096 :=
  HashListMap.NodeGet_inverse 0 4096 4096 (by decide) (by decide) (by decide)

end MQ2
